import Mathlib

/-!
# OpenEmote: a shallow embedding of the secure group whisper envelope and of
the IRC message builder

Strings (`QString`) are lists of Unicode scalar values, byte arrays
(`QByteArray`) are lists of natural numbers below 256.  The Qt library
functions the sources call (`trimmed`, `toLower`, `split`, `toUtf8`,
`fromUtf8`, `toBase64`, `fromBase64`, `QCryptographicHash::hash`) are written
out so that every definition can be evaluated.
-/

set_option maxRecDepth 100000

namespace OpenEmote

abbrev QByteArray := List Nat

abbrev QString := List Char

/-! ## SHA-256 (`QCryptographicHash::hash(_, QCryptographicHash::Sha256)`) -/

def rotr32 (x n : Nat) : Nat := ((x >>> n) ||| (x <<< (32 - n))) % 4294967296

def add32 (a b : Nat) : Nat := (a + b) % 4294967296

/-- The sixty-four round constants of SHA-256 (FIPS 180-4, section 4.2.2). -/
def sha256K : List Nat := [
  1116352408, 1899447441, 3049323471, 3921009573, 961987163, 1508970993,
  2453635748, 2870763221, 3624381080, 310598401, 607225278, 1426881987,
  1925078388, 2162078206, 2614888103, 3248222580, 3835390401, 4022224774,
  264347078, 604807628, 770255983, 1249150122, 1555081692, 1996064986,
  2554220882, 2821834349, 2952996808, 3210313671, 3336571891, 3584528711,
  113926993, 338241895, 666307205, 773529912, 1294757372, 1396182291,
  1695183700, 1986661051, 2177026350, 2456956037, 2730485921, 2820302411,
  3259730800, 3345764771, 3516065817, 3600352804, 4094571909, 275423344,
  430227734, 506948616, 659060556, 883997877, 958139571, 1322822218,
  1537002063, 1747873779, 1955562222, 2024104815, 2227730452, 2361852424,
  2428436474, 2756734187, 3204031479, 3329325298]

structure Sha256State where
  a : Nat
  b : Nat
  c : Nat
  d : Nat
  e : Nat
  f : Nat
  g : Nat
  h : Nat
deriving DecidableEq, Repr

/-- The initial hash value of SHA-256 (FIPS 180-4, section 5.3.3). -/
def sha256Init : Sha256State :=
  ⟨1779033703, 3144134277, 1013904242, 2773480762, 1359893119, 2600822924, 528734635, 1541459225⟩

def sha256Round (s : Sha256State) (k w : Nat) : Sha256State :=
  let s1 := rotr32 s.e 6 ^^^ rotr32 s.e 11 ^^^ rotr32 s.e 25
  let ch := (s.e &&& s.f) ^^^ ((s.e ^^^ 4294967295) &&& s.g)
  let t1 := add32 (add32 (add32 (add32 s.h s1) ch) k) w
  let s0 := rotr32 s.a 2 ^^^ rotr32 s.a 13 ^^^ rotr32 s.a 22
  let maj := (s.a &&& s.b) ^^^ (s.a &&& s.c) ^^^ (s.b &&& s.c)
  let t2 := add32 s0 maj
  ⟨add32 t1 t2, s.a, s.b, s.c, add32 s.d t1, s.e, s.f, s.g⟩

def sha256NextWord (win : List Nat) : Nat :=
  let w0 := win.getD 0 0
  let w1 := win.getD 1 0
  let w9 := win.getD 9 0
  let w14 := win.getD 14 0
  let sg0 := rotr32 w1 7 ^^^ rotr32 w1 18 ^^^ (w1 >>> 3)
  let sg1 := rotr32 w14 17 ^^^ rotr32 w14 19 ^^^ (w14 >>> 10)
  add32 (add32 (add32 sg1 w9) sg0) w0

def sha256Rounds : List Nat → List Nat → Sha256State → Sha256State
  | [], _, s => s
  | k :: ks, win, s =>
    sha256Rounds ks (win.tail ++ [sha256NextWord win]) (sha256Round s k (win.getD 0 0))

def bytesToWords : Nat → List Nat → List Nat
  | 0, _ => []
  | n + 1, bs =>
    (((bs.getD 0 0 * 256 + bs.getD 1 0) * 256 + bs.getD 2 0) * 256 + bs.getD 3 0)
      :: bytesToWords n (bs.drop 4)

def sha256Compress (s : Sha256State) (block : List Nat) : Sha256State :=
  let r := sha256Rounds sha256K (bytesToWords 16 block) s
  ⟨add32 s.a r.a, add32 s.b r.b, add32 s.c r.c, add32 s.d r.d,
   add32 s.e r.e, add32 s.f r.f, add32 s.g r.g, add32 s.h r.h⟩

def sha256Blocks : Nat → List Nat → Sha256State → Sha256State
  | 0, _, s => s
  | n + 1, bs, s => sha256Blocks n (bs.drop 64) (sha256Compress s (bs.take 64))

def beBytes : Nat → Nat → List Nat
  | 0, _ => []
  | n + 1, x => beBytes n (x / 256) ++ [x % 256]

def sha256Pad (msg : List Nat) : List Nat :=
  msg ++ [0x80] ++ List.replicate ((119 - msg.length % 64) % 64) 0 ++ beBytes 8 (msg.length * 8)

def sha256 (msg : QByteArray) : QByteArray :=
  let p := sha256Pad msg
  let s := sha256Blocks (p.length / 64) p sha256Init
  beBytes 4 s.a ++ beBytes 4 s.b ++ beBytes 4 s.c ++ beBytes 4 s.d ++
  beBytes 4 s.e ++ beBytes 4 s.f ++ beBytes 4 s.g ++ beBytes 4 s.h


/-! ## Qt string helpers -/

/-- The predicate `QChar::isSpace`: the ASCII white space characters, NEL, the
no-break space and the Unicode separator categories Zs, Zl and Zp. -/
def qIsSpace (c : Char) : Bool :=
  c.toNat == 0x20 || (0x09 ≤ c.toNat && c.toNat ≤ 0x0D) || c.toNat == 0x85 ||
  c.toNat == 0xA0 || c.toNat == 0x1680 || (0x2000 ≤ c.toNat && c.toNat ≤ 0x200A) ||
  c.toNat == 0x2028 || c.toNat == 0x2029 || c.toNat == 0x202F ||
  c.toNat == 0x205F || c.toNat == 0x3000

/-- The function `QString::trimmed`: white space removed from both ends. -/
def trimmed (s : QString) : QString :=
  ((s.dropWhile qIsSpace).reverse.dropWhile qIsSpace).reverse

/-- Lower-casing of one character as `QString::toLower` does it, written out
for the characters whose lower-case form is ASCII: the letters `A`-`Z` and the
Kelvin sign U+212A.  Every other character is left as it is here; its real
lower-case form is again outside ASCII, which is all the callers look at. -/
def qToLowerChar (c : Char) : Char :=
  if 0x41 ≤ c.toNat ∧ c.toNat ≤ 0x5A then Char.ofNat (c.toNat + 32)
  else if c.toNat = 0x212A then 'k'
  else c

def toLower (s : QString) : QString := s.map qToLowerChar

/-- The function `QString::split(sep, Qt::KeepEmptyParts)`. -/
def qSplit (sep : Char) : QString → List QString
  | [] => [[]]
  | c :: cs =>
    if c = sep then [] :: qSplit sep cs
    else
      match qSplit sep cs with
      | [] => [[c]]
      | p :: ps => (c :: p) :: ps

/-- Decimal digits of a number, least significant first. -/
def decimalDigitsRev : Nat → Nat → List Nat
  | 0, _ => []
  | fuel + 1, n => if n < 10 then [48 + n] else (48 + n % 10) :: decimalDigitsRev fuel (n / 10)

/-- The function `QByteArray::number(n)` for an unsigned number: its decimal
digits in ASCII. -/
def qNumber (n : Nat) : QByteArray := (decimalDigitsRev (n + 1) n).reverse

/-! ## UTF-8 (`QString::toUtf8`, `QString::fromUtf8`) -/

def utf8EncodeChar (c : Char) : QByteArray :=
  if c.toNat < 0x80 then [c.toNat]
  else if c.toNat < 0x800 then [0xC0 + c.toNat / 64, 0x80 + c.toNat % 64]
  else if c.toNat < 0x10000 then
    [0xE0 + c.toNat / 4096, 0x80 + c.toNat / 64 % 64, 0x80 + c.toNat % 64]
  else
    [0xF0 + c.toNat / 262144, 0x80 + c.toNat / 4096 % 64, 0x80 + c.toNat / 64 % 64,
      0x80 + c.toNat % 64]

def toUtf8 : QString → QByteArray
  | [] => []
  | c :: cs => utf8EncodeChar c ++ toUtf8 cs

/-- Is `b` a UTF-8 continuation byte (`10xxxxxx`)? -/
def isUtf8Cont (b : Nat) : Bool := b / 64 == 2

/-- One step of Qt's UTF-8 decoder on a non-empty input that starts with `b0`:
the decoded character and the number of bytes consumed.  A byte that does not
start a well-formed sequence (stray continuation byte, truncated or overlong
sequence, surrogate, value above U+10FFFF) is consumed alone and decodes to
U+FFFD. -/
def utf8DecodeStep (b0 : Nat) (rest : QByteArray) : Char × Nat :=
  if b0 < 0x80 then (Char.ofNat b0, 1)
  else if b0 < 0xC2 then (Char.ofNat 0xFFFD, 1)
  else if b0 < 0xE0 then
    match rest with
    | b1 :: _ =>
      if isUtf8Cont b1 then (Char.ofNat ((b0 % 32) * 64 + b1 % 64), 2)
      else (Char.ofNat 0xFFFD, 1)
    | _ => (Char.ofNat 0xFFFD, 1)
  else if b0 < 0xF0 then
    match rest with
    | b1 :: b2 :: _ =>
      let uc := ((b0 % 16) * 64 + b1 % 64) * 64 + b2 % 64
      if isUtf8Cont b1 && isUtf8Cont b2 && 0x800 ≤ uc && !(0xD800 ≤ uc && uc ≤ 0xDFFF) then
        (Char.ofNat uc, 3)
      else (Char.ofNat 0xFFFD, 1)
    | _ => (Char.ofNat 0xFFFD, 1)
  else if b0 < 0xF5 then
    match rest with
    | b1 :: b2 :: b3 :: _ =>
      let uc := (((b0 % 8) * 64 + b1 % 64) * 64 + b2 % 64) * 64 + b3 % 64
      if isUtf8Cont b1 && isUtf8Cont b2 && isUtf8Cont b3 && 0x10000 ≤ uc && uc ≤ 0x10FFFF then
        (Char.ofNat uc, 4)
      else (Char.ofNat 0xFFFD, 1)
    | _ => (Char.ofNat 0xFFFD, 1)
  else (Char.ofNat 0xFFFD, 1)

def fromUtf8Loop : Nat → QByteArray → QString
  | 0, _ => []
  | _ + 1, [] => []
  | fuel + 1, b0 :: rest =>
    (utf8DecodeStep b0 rest).1 :: fromUtf8Loop fuel (rest.drop ((utf8DecodeStep b0 rest).2 - 1))

/-- The UTF-8 byte order mark, which `QString::fromUtf8` skips at the start of
its input. -/
def utf8Bom : QByteArray := [0xEF, 0xBB, 0xBF]

def fromUtf8 (bs : QByteArray) : QString :=
  if bs.take 3 = utf8Bom then fromUtf8Loop (bs.length - 3) (bs.drop 3)
  else fromUtf8Loop bs.length bs

/-! ## Base64 (`QByteArray::toBase64`, `QByteArray::fromBase64`) -/

/-- The ASCII code of the `n`-th character of the URL-safe base64 alphabet
`A-Z a-z 0-9 - _`. -/
def base64UrlChar (n : Nat) : Nat :=
  if n < 26 then 65 + n
  else if n < 52 then 97 + (n - 26)
  else if n < 62 then 48 + (n - 52)
  else if n = 62 then 45
  else 95

/-- The value of a character of the URL-safe base64 alphabet; `none` for every
other byte (which the decoder skips). -/
def base64UrlValue (ch : Nat) : Option Nat :=
  if 65 ≤ ch ∧ ch ≤ 90 then some (ch - 65)
  else if 97 ≤ ch ∧ ch ≤ 122 then some (ch - 97 + 26)
  else if 48 ≤ ch ∧ ch ≤ 57 then some (ch - 48 + 52)
  else if ch = 45 then some 62
  else if ch = 95 then some 63
  else none

/-- Encoding with `Base64UrlEncoding | OmitTrailingEquals`: three bytes give
four characters, a final group of one or two bytes gives two or three. -/
def toBase64UrlNoPad : QByteArray → QByteArray
  | [] => []
  | [a] => [base64UrlChar (a / 4), base64UrlChar (a % 4 * 16)]
  | [a, b] =>
    [base64UrlChar (a / 4), base64UrlChar (a % 4 * 16 + b / 16), base64UrlChar (b % 16 * 4)]
  | a :: b :: c :: rest =>
    base64UrlChar (a / 4) :: base64UrlChar (a % 4 * 16 + b / 16) ::
      base64UrlChar (b % 16 * 4 + c / 64) :: base64UrlChar (c % 64) :: toBase64UrlNoPad rest

/-- The decoding loop of `QByteArray::fromBase64` with `Base64UrlEncoding` and
without `AbortOnBase64DecodingErrors`: a byte outside the alphabet is skipped,
every character adds six bits to `buf`, a byte is emitted as soon as eight bits
are there, and the bits left over at the end are dropped. -/
def fromBase64Loop : QByteArray → Nat → Nat → QByteArray
  | [], _, _ => []
  | ch :: rest, buf, nbits =>
    match base64UrlValue ch with
    | none => fromBase64Loop rest buf nbits
    | some d =>
      if 8 ≤ nbits + 6 then
        ((buf * 64 + d) >>> (nbits + 6 - 8)) % 256 ::
          fromBase64Loop rest ((buf * 64 + d) % 2 ^ (nbits + 6 - 8)) (nbits + 6 - 8)
      else fromBase64Loop rest (buf * 64 + d) (nbits + 6)

def fromBase64Url (bs : QByteArray) : QByteArray := fromBase64Loop bs 0 0

/-! ## `util/OpenEmoteSecureGroupWhisper.hpp` -/

structure EnvelopeParts where
  group : QString
  channel : QString
  nonce : QByteArray
  cipher : QByteArray
  mac : QByteArray
deriving DecidableEq, Repr

def isGroupHeadChar (c : Char) : Bool :=
  (0x61 ≤ c.toNat && c.toNat ≤ 0x7A) || (0x30 ≤ c.toNat && c.toNat ≤ 0x39)

def isGroupTailChar (c : Char) : Bool :=
  isGroupHeadChar c || c == '_' || c == '-'

/-- Does the whole string match `[a-z0-9][a-z0-9_-]{0,63}`? -/
def isGroupBody (s : QString) : Bool :=
  match s with
  | [] => false
  | c :: cs => isGroupHeadChar c && cs.all isGroupTailChar && decide (cs.length ≤ 63)

/-- The regular expression `^[a-z0-9][a-z0-9_-]{0,63}$` of `normalizeGroupName`,
as `QRegularExpression::match(..).hasMatch()` decides it: `$` matches at the
very end and also before a line feed that is the last character. -/
def groupNameAllowed (s : QString) : Bool :=
  isGroupBody s || (s.getLast? == some '\n' && isGroupBody s.dropLast)

def normalizeGroupName (input : QString) : QString :=
  if (toLower (trimmed input)).isEmpty then []
  else if !groupNameAllowed (toLower (trimmed input)) then []
  else toLower (trimmed input)

def fromBase64UrlNoPad (text : QString) : QByteArray := fromBase64Url (toUtf8 text)

def deriveKey (secret : QString) : QByteArray := sha256 (toUtf8 secret)

/-- The nonce of `makeNonce`: sixteen draws `rng->bounded(256)`; `rng i` is the
raw `i`-th draw of the generator. -/
def makeNonce (rng : Nat → Nat) : QByteArray := (List.range 16).map (fun i => rng i % 256)

/-- The loop of `keystream`: while `out` is shorter than `length`, append the
hash of key, nonce and the decimal counter (a `quint32`). -/
def keystreamLoop : Nat → QByteArray → QByteArray → Nat → Nat → QByteArray → QByteArray
  | 0, _, _, _, _, out => out
  | fuel + 1, key, nonce, length, counter, out =>
    if out.length < length then
      keystreamLoop fuel key nonce length ((counter + 1) % 4294967296)
        (out ++ sha256 (key ++ nonce ++ qNumber counter))
    else out

/-- The function `QByteArray::resize`; bytes added at the end are written as 0. -/
def qResize (bs : QByteArray) (n : Nat) : QByteArray :=
  bs.take n ++ List.replicate (n - bs.length) 0

def keystream (key nonce : QByteArray) (length : Nat) : QByteArray :=
  qResize (keystreamLoop length key nonce length 0 []) length

/-- The function `xorBytes`: `out[i] = lhs[i] ^ rhs[i]` for every index of
`lhs`; a missing byte of `rhs` is read as 0. -/
def xorBytes : QByteArray → QByteArray → QByteArray
  | [], _ => []
  | a :: as, [] => a :: xorBytes as []
  | a :: as, b :: bs => (a ^^^ b) :: xorBytes as bs

def computeMac (key : QByteArray) (group channel : QString) (nonce cipher : QByteArray) :
    QByteArray :=
  sha256 (key ++ toUtf8 group ++ [10] ++ toUtf8 channel ++ [10] ++ nonce ++ cipher)

/-- The accumulator loop of `constantTimeEqual`: `diff |= lhs[i] ^ rhs[i]`. -/
def constantTimeDiff : QByteArray → QByteArray → Nat → Nat
  | a :: as, b :: bs, diff => constantTimeDiff as bs ((diff ||| (a ^^^ b)) % 256)
  | _, _, diff => diff

def constantTimeEqual (lhs rhs : QByteArray) : Bool :=
  if lhs.length ≠ rhs.length then false
  else constantTimeDiff lhs rhs 0 == 0

/-- The function `encodeEnvelope`; the empty string is the failure result.  The
five `%n` place-holders of `oegw1:%1:%2:%3:%4:%5` are filled with base64 text,
which holds no `%`. -/
def encodeEnvelope (group channel plaintext secret : QString) (rng : Nat → Nat) : QString :=
  if (normalizeGroupName group).isEmpty || channel.isEmpty || plaintext.isEmpty ||
      secret.isEmpty then []
  else
    let normalized := normalizeGroupName group
    let key := deriveKey secret
    let nonce := makeNonce rng
    let plain := toUtf8 plaintext
    let stream := keystream key nonce plain.length
    let cipher := xorBytes plain stream
    let mac := computeMac key normalized channel nonce cipher
    "oegw1:".toList ++ fromUtf8 (toBase64UrlNoPad (toUtf8 normalized)) ++ [':'] ++
      fromUtf8 (toBase64UrlNoPad (toUtf8 channel)) ++ [':'] ++
      fromUtf8 (toBase64UrlNoPad nonce) ++ [':'] ++
      fromUtf8 (toBase64UrlNoPad cipher) ++ [':'] ++
      fromUtf8 (toBase64UrlNoPad (mac.take 16))

/-- The function `parseEnvelope`: the result flag and the value of `*out`
afterwards (untouched on failure). -/
def parseEnvelope (payload : QString) (out : EnvelopeParts) : Bool × EnvelopeParts :=
  match qSplit ':' payload with
  | [p0, p1, p2, p3, p4, p5] =>
    if p0 ≠ "oegw1".toList then (false, out)
    else
      let group := normalizeGroupName (fromUtf8 (fromBase64UrlNoPad p1))
      let channel := fromUtf8 (fromBase64UrlNoPad p2)
      let nonce := fromBase64UrlNoPad p3
      let cipher := fromBase64UrlNoPad p4
      let mac := fromBase64UrlNoPad p5
      if group.isEmpty || (trimmed channel).isEmpty || nonce.length ≠ 16 ||
          cipher.isEmpty || mac.length ≠ 16 then (false, out)
      else (true, ⟨group, trimmed channel, nonce, cipher, mac⟩)
  | _ => (false, out)

/-- The function `decodeEnvelope`: the result flag and the value of
`*outPlaintext` afterwards. -/
def decodeEnvelope (envelope : EnvelopeParts) (secret : QString) (outPlaintext : QString) :
    Bool × QString :=
  if secret.isEmpty then (false, outPlaintext)
  else
    let key := deriveKey secret
    let expectedMac :=
      (computeMac key envelope.group envelope.channel envelope.nonce envelope.cipher).take 16
    if !constantTimeEqual expectedMac envelope.mac then (false, outPlaintext)
    else
      let stream := keystream key envelope.nonce envelope.cipher.length
      let plain := xorBytes envelope.cipher stream
      (!(fromUtf8 plain).isEmpty, fromUtf8 plain)

/-- The tampering step of the test `RejectsTamperedPayload`:
`payload[payload.size() - 1] = payload.back() == 'A' ? 'B' : 'A'`. -/
def tamperLastChar (payload : QString) : QString :=
  match payload.getLast? with
  | none => payload
  | some c => payload.dropLast ++ [if c = 'A' then 'B' else 'A']

/-- Every element of the list is a byte. -/
def AllBytes (bs : QByteArray) : Prop := ∀ b ∈ bs, b < 256

def emptyEnvelope : EnvelopeParts := ⟨[], [], [], [], []⟩

/-- The payload built from the inputs of the test `RejectsTamperedPayload` when
the sixteen draws of the nonce are all 1. -/
def tamperPayload : QString :=
  encodeEnvelope "vip_mods".toList "orbinyan".toList "hello".toList "secret".toList (fun _ => 1)

/-! ## `messages/MessageBuilder.cpp`: data model

The headers that declare the message model (`Message.hpp`, `MessageElement.hpp`,
`MessageColor.hpp`, `Emote.hpp`, `MessageThread.hpp`) and the collaborators the
builder reads (`Settings.hpp`, `Application.hpp`, `TwitchChannel.hpp`, ...) are
used by `MessageBuilder.cpp`; the structures below hold the members that file
reads and writes. -/

/-- A `QColor`: its validity and its value; `QColor()` is the invalid colour. -/
structure QColor where
  valid : Bool
  rgb : Nat
deriving DecidableEq, Repr

def QColor.invalid : QColor := ⟨false, 0⟩

inductive MessageColor
  | Custom (color : QColor)
  | Text
  | Link
  | System
deriving DecidableEq, Repr

inductive FontStyle
  | ChatMedium
  | ChatMediumBold
  | ChatMediumSmall
deriving DecidableEq, Repr

inductive LinkType
  | Url
  | UserInfo
  | UserWhisper
  | JumpToChannel
  | ViewThread
  | ReplyToMessage
deriving DecidableEq, Repr

structure Link where
  type : LinkType
  value : QString
deriving DecidableEq, Repr

/-- The flags of `MessageElementFlag` that the builder uses. -/
inductive MessageElementFlag
  | Text
  | Mention
  | Username
  | Timestamp
  | ChannelName
  | Emote
  | EmojiAll
  | BitsStatic
  | BitsAnimated
  | BitsAmount
  | ReplyButton
  | RepliedMessage
  | ChannelPointReward
  | ChannelPointRewardImage
  | ModeratorTools
  | BadgeSharedChannel
  | BadgeChannelAuthority
  | BadgeSubscription
  | BadgePredictions
  | BadgeVanity
  | BadgeChatterino
  | BadgeFfz
  | BadgeBttv
  | BadgeSevenTV
deriving DecidableEq, Repr

/-- A set of flags (`FlagsEnum`), kept as a bit mask. -/
abbrev MessageElementFlags := Nat

/-- The mask of one flag: every flag has a bit of its own. -/
def MessageElementFlag.mask (f : MessageElementFlag) : MessageElementFlags := 2 ^ f.toCtorIdx

/-- The flags of `MessageFlag` that the builder uses. -/
inductive MessageFlag
  | System
  | Timeout
  | Highlighted
  | DoNotTriggerNotification
  | Collapsed
  | Disabled
  | Subscription
  | Action
  | PubSub
  | RedeemedHighlight
  | RedeemedChannelPointReward
  | ShowInMentions
  | FirstMessage
  | ReplyMessage
  | ElevatedMessage
  | SubscribedThread
  | CheerMessage
  | HighlightedWhisper
  | ModerationAction
  | SharedMessage
deriving DecidableEq, Repr

abbrev MessageFlags := Nat

def MessageFlag.mask (f : MessageFlag) : MessageFlags := 2 ^ f.toCtorIdx

/-- The operation `FlagsEnum::set`. -/
def MessageFlags.set (flags : MessageFlags) (f : MessageFlag) : MessageFlags := flags ||| f.mask

/-- The operation `FlagsEnum::has`. -/
def MessageFlags.has (flags : MessageFlags) (f : MessageFlag) : Bool := flags.testBit f.toCtorIdx

/-- An emote as the builder sees it. -/
structure Emote where
  name : QString
  tooltip : QString
  zeroWidth : Bool
deriving DecidableEq, Repr

/-- An `EmotePtr`; `none` is the null pointer. -/
abbrev EmotePtr := Option Emote

/-- A `QDateTime`: `none` is the invalid date, otherwise milliseconds since the
epoch. -/
abbrev QDateTime := Option Int

/-- The images the builder takes from `getResources().buttons`. -/
inductive ButtonImage
  | replyDark
  | replyThreadDark
deriving DecidableEq, Repr

/-- What an element is, by its C++ class, with the members of that class.  A
`TimestampElement` holds the time it was given, `none` when it was built
without one (the current time). -/
inductive ElementKind
  | TextElement (words : List QString) (color : MessageColor) (style : FontStyle)
  | SingleLineTextElement (words : List QString) (color : MessageColor) (style : FontStyle)
  | MentionElement (displayName loginName : QString) (fallbackColor userColor : MessageColor)
  | LinkElement (lowercase original fullUrl : QString) (color : MessageColor)
  | EmoteElement (emote : EmotePtr) (textColor : MessageColor) (scale : Nat)
  | LayeredEmoteElement (layers : List (EmotePtr × MessageElementFlags))
      (textColor : MessageColor) (scale : Nat)
  | BadgeElement (emote : EmotePtr)
  | ModBadgeElement (emote : EmotePtr)
  | VipBadgeElement (emote : EmotePtr)
  | FfzBadgeElement (emote : EmotePtr) (color : QColor)
  | TimestampElement (time : Option QDateTime)
  | TwitchModerationElement
  | ReplyCurveElement
  | CircularImageElement (image : ButtonImage) (padding : Nat)
  | ScalingImageElement (image : QString)
  | LinebreakElement
deriving DecidableEq, Repr

/-- A `MessageElement`: the class-specific part and the members every element
has. A new element has a trailing space, no link and no tooltip. -/
structure MessageElement where
  kind : ElementKind
  flags : MessageElementFlags
  link : Option Link := none
  tooltip : QString := []
  trailingSpace : Bool := true
deriving DecidableEq, Repr

/-- The constructor `TextElement(text, flags, color, style)`: the text is kept
word by word. -/
def mkText (text : QString) (flags : MessageElementFlags) (color : MessageColor := .Text)
    (style : FontStyle := .ChatMedium) : MessageElement :=
  { kind := .TextElement (qSplit ' ' text) color style, flags := flags }

def mkSingleLineText (text : QString) (flags : MessageElementFlags) (color : MessageColor)
    (style : FontStyle) : MessageElement :=
  { kind := .SingleLineTextElement (qSplit ' ' text) color style, flags := flags }

/-- The constructor `MentionElement(displayName, loginName, fallbackColor,
userColor)`; a mention is a text element with the flags `Text` and `Mention`. -/
def mkMention (displayName loginName : QString) (fallbackColor userColor : MessageColor) :
    MessageElement :=
  { kind := .MentionElement displayName loginName fallbackColor userColor,
    flags := MessageElementFlag.Text.mask ||| MessageElementFlag.Mention.mask }

/-- The constructor `EmoteElement(emote, flags, textColor, scale)`; 1000 stands
for the scale `1.F`. -/
def mkEmote (emote : EmotePtr) (flags : MessageElementFlags) (textColor : MessageColor := .Text)
    (scale : Nat := 1000) : MessageElement :=
  { kind := .EmoteElement emote textColor scale, flags := flags }

def MessageElement.setLink (e : MessageElement) (l : Link) : MessageElement :=
  { e with link := some l }

def MessageElement.setTooltip (e : MessageElement) (t : QString) : MessageElement :=
  { e with tooltip := t }

def MessageElement.setTrailingSpace (e : MessageElement) (b : Bool) : MessageElement :=
  { e with trailingSpace := b }

/-- Does `dynamic_cast<TextElement *>` succeed?  `MentionElement` and
`LinkElement` derive from `TextElement`. -/
def MessageElement.isTextElement (e : MessageElement) : Bool :=
  match e.kind with
  | .TextElement _ _ _ => true
  | .MentionElement _ _ _ _ => true
  | .LinkElement _ _ _ _ => true
  | _ => false

def MessageElement.isMentionElement (e : MessageElement) : Bool :=
  match e.kind with
  | .MentionElement _ _ _ _ => true
  | _ => false

def MessageElement.isLinkElement (e : MessageElement) : Bool :=
  match e.kind with
  | .LinkElement _ _ _ _ => true
  | _ => false

/-- The member `TextElement::color()`. -/
def MessageElement.color (e : MessageElement) : MessageColor :=
  match e.kind with
  | .TextElement _ c _ => c
  | .MentionElement _ _ c _ => c
  | .LinkElement _ _ _ c => c
  | _ => .Text

/-- The member `TextElement::appendText`: the words of `text` are added to the
words of the element. -/
def MessageElement.appendText (e : MessageElement) (text : QString) : MessageElement :=
  match e.kind with
  | .TextElement ws c s => { e with kind := .TextElement (ws ++ qSplit ' ' text) c s }
  | _ => e

structure TwitchBadge where
  key_ : QString
  value_ : QString
  flag_ : MessageElementFlags
deriving DecidableEq, Repr

structure ChannelPointRewardUser where
  id : QString
  login : QString
deriving DecidableEq, Repr

structure ChannelPointReward where
  id : QString
  title : QString
  cost : Nat
  image : QString
  isUserInputRequired : Bool
  isBits : Bool
  emoteId : QString
  emoteName : QString
  user : ChannelPointRewardUser
deriving DecidableEq, Repr

/-- The members of `Message` the builder writes. -/
structure Message where
  elements : List MessageElement := []
  flags : MessageFlags := 0
  id : QString := []
  channelName : QString := []
  loginName : QString := []
  displayName : QString := []
  localizedName : QString := []
  userID : QString := []
  usernameColor : QColor := QColor.invalid
  serverReceivedTime : QDateTime := none
  messageText : QString := []
  searchText : QString := []
  highlightColor : Option QColor := none
  externalBadges : List QString := []
  twitchBadges : List TwitchBadge := []
  twitchBadgeInfos : List (QString × QString) := []
  replyThread : Option QString := none
  replyParent : Option QString := none
  reward : Option ChannelPointReward := none
  openEmoteAvatarModelId : QString := []
  openEmoteAvatarSkinId : QString := []
  openEmoteAvatarIdleAsset : QString := []
  openEmotePreferredNickname : QString := []
  openEmoteAvatarAction : QString := []
  openEmoteAvatarActionTarget : QString := []
deriving DecidableEq, Repr

/-- The result `HighlightAlert`; `{}` plays no sound and raises no window alert. -/
structure HighlightAlert where
  customSound : QString := []
  playSound : Bool := false
  windowAlert : Bool := false
deriving DecidableEq, Repr

/-- A `MessageThread`: the id of its root, the root if it is still alive,
whether the user subscribed to it, and the number of live replies. -/
structure MessageThread where
  rootId : QString
  root : Option Message
  subscribed : Bool
  liveCount : Nat

/-- A parsed emote occurrence of the `emotes` tag. -/
structure TwitchEmoteOccurrence where
  start : Int
  end_ : Int
  ptr : EmotePtr
  name : QString
deriving DecidableEq, Repr

/-- A cheer emote of a channel: `regexMatch s` is `captured(1)` of
`regex.match(s)` when the expression matches. -/
structure CheerEmote where
  regexMatch : QString → Option QString
  staticEmote : EmotePtr
  animatedEmote : EmotePtr
  color : QColor

structure FfzBadge where
  emote : Emote
  color : QColor
deriving DecidableEq, Repr

/-- The members of `TwitchChannel` the builder reads. -/
structure TwitchChannel where
  name : QString
  roomId : QString
  ffzEmote : QString → Option Emote
  bttvEmote : QString → Option Emote
  seventvEmote : QString → Option Emote
  cheerEmote : QString → Option CheerEmote
  getUserColor : QString → QColor
  chatters : List QString
  twitchBadge : QString → QString → Option Emote
  ffzCustomModBadge : Option Emote
  ffzCustomVipBadge : Option Emote
  ffzChannelBadges : QString → List FfzBadge
  channelPointReward : QString → Option ChannelPointReward

/-- The members of `Channel` the builder reads; `twitch` is the result of
`dynamic_cast<TwitchChannel *>(channel)`. -/
structure Channel where
  name : QString
  isMod : Bool
  isBroadcaster : Bool
  isEmpty : Bool
  messageSnapshot : List (Option Message)
  twitch : Option TwitchChannel

inductive UsernameDisplayMode
  | Username
  | LocalizedName
  | UsernameAndLocalizedName
deriving DecidableEq, Repr

/-- The settings (`getSettings()`) the builder reads. -/
structure Settings where
  colorizeNicknames : Bool
  findAllUsernames : Bool
  enableZeroWidthEmotes : Bool
  stackBits : Bool
  showTimestamps : Bool
  highlightInlineWhispers : Bool
  useCustomFfzModeratorBadges : Bool
  useCustomFfzVipBadges : Bool
  usernameDisplayMode : UsernameDisplayMode
  openEmoteBotCompatibilityMode : Bool
  openEmoteCompactAuthorAvatar : Bool
  openEmoteCompactHeaderLayout : Bool
  openEmoteShowThreadActivityIndicator : Bool
  openEmoteEnableCrossChannelEmotes : Bool
  openEmoteTimestampAlwaysSystem : Bool
  openEmoteTimestampAlwaysUsers : QString
  openEmoteTimestampGapsOnly : Bool
  openEmoteTimestampGapMinutes : Int
  matchNickname : QString → Option QString
  isBlacklistedUser : QString → Bool

structure TwitchUser where
  name : QString
  displayName : QString
  profilePictureUrl : QString

structure IgnoredMessageParameters where
  message : QString
  twitchUserID : QString
  isMod : Bool
  isBroadcaster : Bool

structure UserData where
  color : Option QColor

structure HighlightResult where
  alert : Bool
  playSound : Bool
  customSoundUrl : Option QString
  color : Option QColor
  showInMentions : Bool

/-- The arguments `MessageParseArgs`. -/
structure MessageParseArgs where
  allowIgnore : Bool := true
  isReceivedWhisper : Bool := false
  isSentWhisper : Bool := false
  trimSubscriberUsername : Bool := false
  isStaffOrBroadcaster : Bool := false
  isAction : Bool := false
  channelPointRewardId : QString := []

/-- The tags of an IRC message (`QVariantMap`), every value read with
`toString()`. -/
abbrev QVariantMap := List (QString × QString)

def QVariantMap.find (tags : QVariantMap) (key : String) : Option QString :=
  (List.find? (fun kv => kv.1 == key.toList) tags).map (fun kv => kv.2)

def QVariantMap.contains (tags : QVariantMap) (key : String) : Bool :=
  (tags.find key).isSome

/-- The call `tags.value(key).toString()`: empty when the key is missing. -/
def QVariantMap.value (tags : QVariantMap) (key : String) : QString :=
  (tags.find key).getD []

structure IrcMessage where
  nick : QString
  tags : QVariantMap

/-- A link found by `linkparser::parse`, with the text before and after it in
the word. -/
structure ParsedLink where
  protocol : Option QString
  host : QString
  rest : QString
  link : QString
  textBefore : QString
  textAfter : QString

/-- The cache `CrossChannelEmoteCache`. -/
structure CrossChannelEmoteCache where
  bttv : List (QString × Emote)
  ffz : List (QString × Emote)
  seventv : List (QString × Emote)
  signature : QString
  builtAtMs : Int

/-- The call `QHash::constFind` followed by `value()`. -/
def constFind (hash : List (QString × Emote)) (key : QString) : Option Emote :=
  (List.find? (fun kv => kv.1 == key) hash).map (fun kv => kv.2)

/-- The collaborators reached through `getApp()`, `getSettings()` and free
functions of other files, the two library calls whose result the language
leaves open, and the case folding of the Qt library. -/
structure App where
  settings : Settings
  globalFfzEmote : QString → Option Emote
  globalBttvEmote : QString → Option Emote
  globalSeventvEmote : QString → Option Emote
  /-- The value `getCrossChannelEmoteCache()` returns. -/
  crossCache : CrossChannelEmoteCache
  getUser : QString → Option UserData
  getRandomColor : QString → QColor
  /-- The constructor `QColor(const QString &)`. -/
  colorFromString : QString → QColor
  isIgnoredMessage : IgnoredMessageParameters → Bool
  getChannelOrEmptyByID : QString → Option Channel
  setUserColor : TwitchChannel → QString → QColor → TwitchChannel
  currentUserName : QString
  currentUserColor : QColor
  calculateMessageTime : IrcMessage → QDateTime
  parseTagString : QString → QString
  parseBadgeTag : QVariantMap → List TwitchBadge
  parseSourceBadgeTag : QVariantMap → List TwitchBadge
  parseBadgeInfoTag : QVariantMap → List (QString × QString)
  globalTwitchBadge : QString → QString → Option Emote
  resolveID : QString → TwitchUser
  chatterinoBadge : QString → Option Emote
  ffzUserBadges : QString → List FfzBadge
  bttvBadge : QString → Option Emote
  seventvBadge : QString → Option Emote
  getOrCreateEmote : QString → QString → Emote
  emojiParse : QString → List (EmotePtr ⊕ QString)
  linkParse : QString → Option ParsedLink
  parseTwitchEmotes : QVariantMap → QString → Int → List TwitchEmoteOccurrence
  processIgnorePhrases : QString → List TwitchEmoteOccurrence →
    QString × List TwitchEmoteOccurrence
  /-- The call `std::ranges::sort(twitchEmotes, a.start < b.start)`. -/
  rangesSort : List TwitchEmoteOccurrence → List TwitchEmoteOccurrence
  highlightCheck : MessageParseArgs → List TwitchBadge → QString → QString → MessageFlags →
    Option HighlightResult
  whisperColor : QColor
  /-- The function `openEmoteChannelScaleForName`; its `float` result is kept as
  an opaque number. -/
  openEmoteChannelScaleForName : QString → Nat
  /-- The case folding of one character that the comparisons with
  `Qt::CaseInsensitive` apply to both strings (`QChar::toCaseFolded`). -/
  caseFolded : Char → Char

/-! ## `messages/MessageBuilder.cpp`: emote lookup -/

/-- The function `parseEmote`. -/
def parseEmote (app : App) (twitchChannel : Option TwitchChannel) (name : QString) : EmotePtr :=
  let channelEmote : Option Emote :=
    match twitchChannel with
    | none => none
    | some tc =>
      match tc.ffzEmote name with
      | some e => some e
      | none =>
        match tc.bttvEmote name with
        | some e => some e
        | none => tc.seventvEmote name
  match channelEmote with
  | some e => some e
  | none =>
    match app.globalFfzEmote name with
    | some e => some e
    | none =>
      match app.globalBttvEmote name with
      | some e => some e
      | none =>
        match app.globalSeventvEmote name with
        | some e => some e
        | none =>
          if app.settings.openEmoteEnableCrossChannelEmotes then
            match constFind app.crossCache.ffz name with
            | some e => some e
            | none =>
              match constFind app.crossCache.bttv name with
              | some e => some e
              | none => constFind app.crossCache.seventv name
          else none

/-- The providers the specification lists for `parseEmote`, in its order: the
three channel providers when there is a Twitch channel, then the three global
ones. -/
def listedProviders (app : App) (twitchChannel : Option TwitchChannel) :
    List (QString → Option Emote) :=
  (match twitchChannel with
    | none => []
    | some tc => [tc.ffzEmote, tc.bttvEmote, tc.seventvEmote]) ++
  [app.globalFfzEmote, app.globalBttvEmote, app.globalSeventvEmote]

/-- The providers `parseEmote` consults: the listed ones and, when the setting
`openEmoteEnableCrossChannelEmotes` is on, the three maps of the cross-channel
cache. -/
def consultedProviders (app : App) (twitchChannel : Option TwitchChannel) :
    List (QString → Option Emote) :=
  listedProviders app twitchChannel ++
  (if app.settings.openEmoteEnableCrossChannelEmotes then
    [constFind app.crossCache.ffz, constFind app.crossCache.bttv,
      constFind app.crossCache.seventv]
  else [])

/-! ## `messages/MessageBuilder.cpp`: sorting and de-duplicating the emote occurrences -/

/-- What the C++ standard promises of `std::ranges::sort(v, a.start < b.start)`:
the result is a permutation of the input in non-decreasing order of `start`.
The order of occurrences with the same `start` is not specified. -/
def IsRangesSort (sort : List TwitchEmoteOccurrence → List TwitchEmoteOccurrence) : Prop :=
  ∀ xs, (sort xs).Perm xs ∧ (sort xs).Pairwise (fun a b => a.start ≤ b.start)

/-- A sort that keeps occurrences with the same `start` in their input order. -/
def IsStableSort (sort : List TwitchEmoteOccurrence → List TwitchEmoteOccurrence) : Prop :=
  ∀ xs s, (sort xs).filter (fun o => o.start = s) = xs.filter (fun o => o.start = s)

/-- The loop of `std::ranges::unique`: an element is kept when its `start`
differs from the `start` of the element kept last. -/
def uniqueLoop (kept : TwitchEmoteOccurrence) : List TwitchEmoteOccurrence →
    List TwitchEmoteOccurrence
  | [] => []
  | o :: rest =>
    if kept.start = o.start then uniqueLoop kept rest else o :: uniqueLoop o rest

/-- The calls `std::ranges::unique(twitchEmotes, first.start == second.start)`
and `twitchEmotes.erase(..)`. -/
def uniqueByStart : List TwitchEmoteOccurrence → List TwitchEmoteOccurrence
  | [] => []
  | o :: rest => o :: uniqueLoop o rest

/-- The sort-and-deduplicate step of `makeIrcMessage`. -/
def sortAndUnique (sort : List TwitchEmoteOccurrence → List TwitchEmoteOccurrence)
    (twitchEmotes : List TwitchEmoteOccurrence) : List TwitchEmoteOccurrence :=
  uniqueByStart (sort twitchEmotes)

/-- Insertion of one occurrence before the first one whose `start` is not
smaller. -/
def insertByStart (o : TwitchEmoteOccurrence) : List TwitchEmoteOccurrence →
    List TwitchEmoteOccurrence
  | [] => [o]
  | x :: xs => if o.start ≤ x.start then o :: x :: xs else x :: insertByStart o xs

/-- An order-preserving sort by `start`: one behaviour `std::ranges::sort` may
have. -/
def stableSortByStart : List TwitchEmoteOccurrence → List TwitchEmoteOccurrence
  | [] => []
  | o :: rest => insertByStart o (stableSortByStart rest)

/-! ## `messages/MessageBuilder.cpp`: the builder -/

/-- The state of a `MessageBuilder`: the message under construction and the two
colours. A call that has no result in C++ (it dereferences a null channel, or
its loop does not end within the given fuel) is `none` below. -/
structure MessageBuilder where
  message : Message := {}
  textColor_ : MessageColor := .Text
  usernameColor_ : QColor := ⟨true, 0x999999⟩

structure TextState where
  twitchChannel : Option TwitchChannel
  hasBits : Bool := false
  bitsStacked : Bool := false
  bitsLeft : Int := 0

inductive Outcome
  | Success
  | Failure
deriving DecidableEq, Repr

/-- The call `emplace<T>(..)`: the new element goes to the end. -/
def MessageBuilder.emplace (b : MessageBuilder) (e : MessageElement) : MessageBuilder :=
  { b with message := { b.message with elements := b.message.elements ++ [e] } }

def MessageBuilder.isEmpty (b : MessageBuilder) : Bool := b.message.elements.isEmpty

/-- Replace the last element (`releaseBack` followed by `emplace`, or a change
made through the pointer `back()` returns). -/
def MessageBuilder.replaceBack (b : MessageBuilder) (e : MessageElement) : MessageBuilder :=
  { b with message := { b.message with elements := b.message.elements.dropLast ++ [e] } }

def MessageBuilder.setFlag (b : MessageBuilder) (f : MessageFlag) : MessageBuilder :=
  { b with message := { b.message with flags := b.message.flags.set f } }

/-- The function `MessageBuilder::isIgnored`. -/
def isIgnored (app : App) (originalMessage userID : QString) (channel : Channel) : Bool :=
  app.isIgnoredMessage
    { message := originalMessage, twitchUserID := userID, isMod := channel.isMod,
      isBroadcaster := channel.isBroadcaster }

/-- The function `MessageBuilder::appendOrEmplaceText`. -/
def MessageBuilder.appendOrEmplaceText (b : MessageBuilder) (text : QString)
    (color : MessageColor) : MessageBuilder :=
  match b.message.elements.getLast? with
  | none => b.emplace (mkText text MessageElementFlag.Text.mask color)
  | some back =>
    if !back.isTextElement || back.isMentionElement || back.isLinkElement ||
        !back.trailingSpace || back.flags != MessageElementFlag.Text.mask ||
        back.color != color then
      b.emplace (mkText text MessageElementFlag.Text.mask color)
    else b.replaceBack (back.appendText text)

/-- The function `openEmoteChannelScaleForChannel`; 1000 stands for `1.F`. -/
def openEmoteChannelScaleForChannel (app : App) (twitchChannel : Option TwitchChannel) : Nat :=
  match twitchChannel with
  | none => 1000
  | some tc => app.openEmoteChannelScaleForName tc.name

/-- The function `MessageBuilder::tryAppendEmote`. -/
def MessageBuilder.tryAppendEmote (app : App) (b : MessageBuilder)
    (twitchChannel : Option TwitchChannel) (name : QString) : Outcome × MessageBuilder :=
  match parseEmote app twitchChannel name with
  | none => (.Failure, b)
  | some emote =>
    let plain := b.emplace (mkEmote (some emote) MessageElementFlag.Emote.mask b.textColor_
      (openEmoteChannelScaleForChannel app twitchChannel))
    if emote.zeroWidth && app.settings.enableZeroWidthEmotes && !b.isEmpty then
      match b.message.elements.getLast? with
      | none => (.Success, plain)
      | some back =>
        match back.kind with
        | .EmoteElement baseEmote _ _ =>
          (.Success, b.replaceBack
            { kind := .LayeredEmoteElement
                [(baseEmote, back.flags), (some emote, MessageElementFlag.Emote.mask)]
                b.textColor_ (openEmoteChannelScaleForChannel app twitchChannel),
              flags := back.flags ||| MessageElementFlag.Emote.mask })
        | .LayeredEmoteElement layers textColor scale =>
          (.Success, b.replaceBack
            { back with
              kind := .LayeredEmoteElement
                (layers ++ [(some emote, MessageElementFlag.Emote.mask)]) textColor scale,
              flags := back.flags ||| MessageElementFlag.Emote.mask })
        | _ => (.Success, plain)
    else (.Success, plain)

/-- The function `QString::number(int)`. -/
def qNumberInt (n : Int) : QString :=
  if n < 0 then '-' :: (qNumber n.natAbs).map Char.ofNat else (qNumber n.natAbs).map Char.ofNat

/-- The digits of a decimal number, read from the left. -/
def parseDigits : QString → Nat → Option Nat
  | [], acc => some acc
  | c :: cs, acc =>
    if 48 ≤ c.toNat ∧ c.toNat ≤ 57 then parseDigits cs (acc * 10 + (c.toNat - 48)) else none

/-- The function `QString::toInt()`: surrounding white space and a sign are
allowed; the result is 0 when the text is not a number or does not fit an
`int`. -/
def qToInt (s : QString) : Int :=
  let parsed : Option Int :=
    match trimmed s with
    | [] => none
    | '-' :: ds => if ds.isEmpty then none else (parseDigits ds 0).map (fun n => - (n : Int))
    | '+' :: ds => if ds.isEmpty then none else (parseDigits ds 0).map (fun n => (n : Int))
    | ds => (parseDigits ds 0).map (fun n => (n : Int))
  match parsed with
  | none => 0
  | some n => if -2147483648 ≤ n ∧ n ≤ 2147483647 then n else 0

/-- The function `QString::chop(n)`. -/
def qChop (s : QString) (n : Nat) : QString := s.take (s.length - n)

/-- The elements one rendered cheermote adds: the static emote, the animated
emote and the amount, each only when the cheer emote has it. -/
def cheerElements (app : App) (b : MessageBuilder) (state : TextState) (cheerEmote : CheerEmote)
    (amount : QString) : MessageBuilder :=
  let scale := openEmoteChannelScaleForChannel app state.twitchChannel
  let b1 := if cheerEmote.staticEmote.isSome then
      b.emplace (mkEmote cheerEmote.staticEmote MessageElementFlag.BitsStatic.mask b.textColor_
        scale)
    else b
  let b2 := if cheerEmote.animatedEmote.isSome then
      b1.emplace (mkEmote cheerEmote.animatedEmote MessageElementFlag.BitsAnimated.mask
        b.textColor_ scale)
    else b1
  if cheerEmote.color ≠ QColor.invalid then
    b2.emplace (mkText amount MessageElementFlag.BitsAmount.mask (.Custom cheerEmote.color))
  else b2

/-- The function `MessageBuilder::tryAppendCheermote`; `fuel` bounds the depth
of its recursion. -/
def MessageBuilder.tryAppendCheermote (app : App) :
    Nat → MessageBuilder → TextState → QString → Option (Outcome × MessageBuilder × TextState)
  | 0, _, _, _ => none
  | fuel + 1, b, state, string =>
    if state.bitsLeft = 0 then some (.Failure, b, state)
    else
      match state.twitchChannel with
      | none => none
      | some tc =>
        match tc.cheerEmote string with
        | none => some (.Failure, b, state)
        | some cheerEmote =>
          match cheerEmote.regexMatch string with
          | none => some (.Failure, b, state)
          | some captured =>
            if app.settings.stackBits then
              if state.bitsStacked then some (.Success, b, state)
              else
                some (.Success, cheerElements app b state cheerEmote (qNumberInt state.bitsLeft),
                  { state with bitsStacked := true })
            else if state.bitsLeft ≥ qToInt captured then
              some (.Success,
                cheerElements app b { state with bitsLeft := state.bitsLeft - qToInt captured }
                  cheerEmote captured,
                { state with bitsLeft := state.bitsLeft - qToInt captured })
            else
              MessageBuilder.tryAppendCheermote app fuel b state
                (qChop string (qNumberInt (qToInt captured)).length ++
                  qNumberInt (qToInt captured - state.bitsLeft))

/-- The function `MessageBuilder::addLink`. -/
def MessageBuilder.addLink (b : MessageBuilder) (parsedLink : ParsedLink) : MessageBuilder :=
  let lowercaseLinkString := (parsedLink.protocol.getD []) ++ toLower parsedLink.host ++
    parsedLink.rest
  let fullUrl := match parsedLink.protocol with
    | none => "http://".toList ++ parsedLink.link
    | some _ => parsedLink.link
  let b1 := if !parsedLink.textBefore.isEmpty then
      b.emplace ((mkText parsedLink.textBefore MessageElementFlag.Text.mask
        b.textColor_).setTrailingSpace false)
    else b
  let el : MessageElement :=
    { kind := .LinkElement lowercaseLinkString parsedLink.link fullUrl .Link,
      flags := MessageElementFlag.Text.mask, link := some ⟨.Url, fullUrl⟩ }
  if !parsedLink.textAfter.isEmpty then
    (b1.emplace (el.setTrailingSpace false)).emplace
      (mkText parsedLink.textAfter MessageElementFlag.Text.mask b.textColor_)
  else b1.emplace el

/-- The character class `\w` (ASCII letters, digits and the underscore). -/
def isWordChar (c : Char) : Bool :=
  (0x30 ≤ c.toNat && c.toNat ≤ 0x39) || (0x41 ≤ c.toNat && c.toNat ≤ 0x5A) ||
  (0x61 ≤ c.toNat && c.toNat ≤ 0x7A) || c.toNat == 0x5F

def isMentionPunctuation (c : Char) : Bool :=
  c == '.' || c == ',' || c == '!' || c == '?' || c == ';' || c == ':'

/-- A match of `(\w+)[.,!?;:]*?$` (`regexHelpString`) from the start of `s`:
the captured word. -/
def regexHelpMatch (s : QString) : Option QString :=
  if (s.takeWhile isWordChar).isEmpty then none
  else if (s.dropWhile isWordChar).dropWhile isMentionPunctuation = [] ∨
      (s.dropWhile isWordChar).dropWhile isMentionPunctuation = ['\n'] then
    some (s.takeWhile isWordChar)
  else none

/-- The expression `mentionRegex` (`^@(\w+)[.,!?;:]*?$`). -/
def mentionRegex (s : QString) : Option QString :=
  match s with
  | '@' :: rest => regexHelpMatch rest
  | _ => none

/-- The expression `allUsernamesMentionRegex` (`^(\w+)[.,!?;:]*?$`). -/
def allUsernamesMentionRegex (s : QString) : Option QString := regexHelpMatch s

/-- The function `QString::remove(const QString &)`: every occurrence of `pat`
is taken out, from left to right. -/
def qRemove (pat : QString) : Nat → QString → QString
  | 0, s => s
  | _ + 1, [] => []
  | fuel + 1, c :: cs =>
    if !pat.isEmpty && pat.isPrefixOf (c :: cs) then qRemove pat fuel ((c :: cs).drop pat.length)
    else c :: qRemove pat fuel cs

/-- The mention elements `addTextOrEmote` adds for the user `username` written
as `shown` inside `string`. -/
def MessageBuilder.addMention (b : MessageBuilder) (state : TextState) (string shown : QString)
    (username : QString) : MessageBuilder :=
  let userColor : MessageColor :=
    match state.twitchChannel with
    | none => b.textColor_
    | some tc =>
      if (tc.getUserColor username).valid then .Custom (tc.getUserColor username)
      else b.textColor_
  let remainder := qRemove shown string.length string
  let b1 := b.emplace
    ((mkMention shown username b.textColor_ userColor).setTrailingSpace remainder.isEmpty)
  if !remainder.isEmpty then b1.emplace (mkText remainder MessageElementFlag.Text.mask b.textColor_)
  else b1

/-- The function `MessageBuilder::addTextOrEmote`. -/
def MessageBuilder.addTextOrEmote (app : App) (fuel : Nat) (b : MessageBuilder)
    (state : TextState) (string : QString) : Option (MessageBuilder × TextState) :=
  let afterCheer : Option (Bool × MessageBuilder × TextState) :=
    if state.hasBits then
      match MessageBuilder.tryAppendCheermote app fuel b state string with
      | none => none
      | some (.Success, b1, state1) => some (true, b1, state1)
      | some (.Failure, b1, state1) => some (false, b1, state1)
    else some (false, b, state)
  match afterCheer with
  | none => none
  | some (true, b1, state1) => some (b1, state1)
  | some (false, b1, state1) =>
    match b1.tryAppendEmote app state1.twitchChannel string with
    | (.Success, b2) => some (b2, state1)
    | (.Failure, _) =>
      match app.linkParse string with
      | some link => some (b1.addLink link, state1)
      | none =>
        match (if string.head? = some '@' then mentionRegex string else none) with
        | some username => some (b1.addMention state1 string ('@' :: username) username, state1)
        | none =>
          match (if state1.twitchChannel.isSome && app.settings.findAllUsernames then
              (allUsernamesMentionRegex string).filter
                (fun username => (state1.twitchChannel.map
                  (fun tc => tc.chatters.contains username)).getD false)
            else none) with
          | some username => some (b1.addMention state1 string username username, state1)
          | none => some (b1.appendOrEmplaceText string b1.textColor_, state1)

/-- The function `MessageBuilder::addEmoji`. -/
def MessageBuilder.addEmoji (b : MessageBuilder) (emote : EmotePtr) : MessageBuilder :=
  b.emplace (mkEmote emote MessageElementFlag.EmojiAll.mask)

/-- The loop over the pieces `getEmojis()->parse(..)` returns. -/
def MessageBuilder.addParsed (app : App) (fuel : Nat) :
    List (EmotePtr ⊕ QString) → MessageBuilder → TextState → Option (MessageBuilder × TextState)
  | [], b, state => some (b, state)
  | .inl emote :: rest, b, state => MessageBuilder.addParsed app fuel rest (b.addEmoji emote) state
  | .inr text :: rest, b, state =>
    match b.addTextOrEmote app fuel state text with
    | none => none
    | some (b1, state1) => MessageBuilder.addParsed app fuel rest b1 state1

/-- The function `QString::left(n)`. -/
def qLeft (s : QString) (n : Int) : QString := if n < 0 then s else s.take n.toNat

/-- The `while (doesWordContainATwitchEmote(..))` loop of `addWords` for one
word: the builder, the state, the cursor, what is left of the word, the emotes
not yet placed, and whether the loop was left by `break`. -/
def MessageBuilder.addWordEmotes (app : App) (scale : Nat) (fuel : Nat) :
    Nat → MessageBuilder → TextState → Int → QString → List TwitchEmoteOccurrence →
    Option (MessageBuilder × TextState × Int × QString × List TwitchEmoteOccurrence × Bool)
  | 0, _, _, _, _, _ => none
  | steps + 1, b, state, cursor, word, emotes =>
    match emotes with
    | [] => some (b, state, cursor, word, emotes, false)
    | current :: later =>
      if current.start < cursor ∨ current.end_ > cursor + word.length then
        some (b, state, cursor, word, emotes, false)
      else if current.start = cursor then
        if (word.drop current.name.length).isEmpty then
          some (b.emplace (mkEmote current.ptr MessageElementFlag.Emote.mask b.textColor_ scale),
            state, cursor + current.name.length + 1, word.drop current.name.length, later, true)
        else
          MessageBuilder.addWordEmotes app scale fuel steps
            (b.emplace ((mkEmote current.ptr MessageElementFlag.Emote.mask b.textColor_
              scale).setTrailingSpace false))
            state (cursor + current.name.length) (word.drop current.name.length) later
      else
        match MessageBuilder.addParsed app fuel
            (app.emojiParse (qLeft word (current.start - cursor))) b state with
        | none => none
        | some (b1, state1) =>
          MessageBuilder.addWordEmotes app scale fuel steps b1 state1
            (cursor + (qLeft word (current.start - cursor)).length)
            (word.drop (qLeft word (current.start - cursor)).length) emotes

/-- The function `MessageBuilder::addWords`, from the word `words` starts with
on: `cursor` is the character index reached, `emotes` the occurrences not yet
placed. -/
def MessageBuilder.addWordsFrom (app : App) (scale : Nat) (fuel : Nat) :
    List QString → MessageBuilder → TextState → Int → List TwitchEmoteOccurrence →
    Option (MessageBuilder × TextState)
  | [], b, state, _, _ => some (b, state)
  | word :: words, b, state, cursor, emotes =>
    if word.isEmpty then MessageBuilder.addWordsFrom app scale fuel words b state (cursor + 1) emotes
    else
      match MessageBuilder.addWordEmotes app scale fuel fuel b state cursor word emotes with
      | none => none
      | some (b1, state1, cursor1, word1, emotes1, _) =>
        if word1.isEmpty then
          MessageBuilder.addWordsFrom app scale fuel words b1 state1 cursor1 emotes1
        else
          match MessageBuilder.addParsed app fuel (app.emojiParse word1) b1 state1 with
          | none => none
          | some (b2, state2) =>
            MessageBuilder.addWordsFrom app scale fuel words b2 state2
              (cursor1 + word1.length + 1) emotes1

def MessageBuilder.addWords (app : App) (fuel : Nat) (b : MessageBuilder) (words : List QString)
    (twitchEmotes : List TwitchEmoteOccurrence) (state : TextState) :
    Option (MessageBuilder × TextState) :=
  MessageBuilder.addWordsFrom app (openEmoteChannelScaleForChannel app state.twitchChannel) fuel
    words b state 0 twitchEmotes

/-! ## `messages/MessageBuilder.cpp`: the header of a message -/

/-- Case folding of one character as the comparisons with `Qt::CaseInsensitive`
do it, written out for the characters whose folded form is ASCII: the letters
`A`-`Z`, the long s U+017F and the Kelvin sign U+212A.  Every other character
is left as it is here; its folded form is outside ASCII, which is all the
comparisons with ASCII names look at. -/
def qFoldCase (c : Char) : Char :=
  if 0x41 ≤ c.toNat ∧ c.toNat ≤ 0x5A then Char.ofNat (c.toNat + 32)
  else if c.toNat = 0x17F then 's'
  else if c.toNat = 0x212A then 'k'
  else c

/-- The test `a.compare(b, Qt::CaseInsensitive) == 0`: both strings have the
same case-folded characters; `caseFolded` is the case folding of one
character. -/
def qCompareCaseInsensitive (caseFolded : Char → Char) (a b : QString) : Bool :=
  a.map caseFolded == b.map caseFolded

/-- The lambda `addCandidate` of `stylizeUsername`; `caseFolded` is the case
folding of its comparison. -/
def addCandidate (caseFolded : Char → Char) (nicknameCandidates : List QString)
    (candidate : QString) : List QString :=
  if (trimmed candidate).isEmpty then nicknameCandidates
  else if nicknameCandidates.any (fun existing => qCompareCaseInsensitive caseFolded existing
      (trimmed candidate)) then nicknameCandidates
  else nicknameCandidates ++ [trimmed candidate]

/-- The function `stylizeUsername`. -/
def stylizeUsername (app : App) (username : QString) (message : Message) : QString :=
  let usernameText :=
    match app.settings.usernameDisplayMode with
    | .Username => username
    | .LocalizedName => if !message.localizedName.isEmpty then message.localizedName else username
    | .UsernameAndLocalizedName =>
      if !message.localizedName.isEmpty then username ++ "(".toList ++ message.localizedName ++
        ")".toList
      else username
  let c0 := if !(trimmed message.userID).isEmpty then
      addCandidate app.caseFolded [] ("id:".toList ++ trimmed message.userID)
    else []
  let candidates := addCandidate app.caseFolded (addCandidate app.caseFolded
    (addCandidate app.caseFolded (addCandidate app.caseFolded c0 message.loginName)
      message.displayName) message.localizedName) usernameText
  match candidates.findSome? app.settings.matchNickname with
  | some nicknameText => nicknameText
  | none =>
    if !(trimmed message.openEmotePreferredNickname).isEmpty then
      trimmed message.openEmotePreferredNickname
    else usernameText

/-- The function `QDateTime::secsTo`: 0 when one of the two dates is invalid. -/
def secsTo (a b : QDateTime) : Int :=
  match a, b with
  | some x, some y => (y - x).tdiv 1000
  | _, _ => 0

/-- The search of `shouldRenderOpenEmoteTimestamp` through the snapshot, newest
message first: the first message with a valid server time decides. -/
def timestampGapReached (thresholdSeconds : Int) (currentTimestamp : QDateTime) :
    List (Option Message) → Bool
  | [] => true
  | none :: older => timestampGapReached thresholdSeconds currentTimestamp older
  | some previous :: older =>
    if previous.serverReceivedTime.isNone then
      timestampGapReached thresholdSeconds currentTimestamp older
    else decide (secsTo previous.serverReceivedTime currentTimestamp ≥ thresholdSeconds)

/-- The function `shouldRenderOpenEmoteTimestamp`. -/
def shouldRenderOpenEmoteTimestamp (app : App) (channel : Option Channel)
    (currentMessage : Message) (currentTimestamp : QDateTime) : Bool :=
  if !app.settings.showTimestamps then false
  else if app.settings.openEmoteTimestampAlwaysSystem &&
      (currentMessage.flags.has .System || currentMessage.flags.has .ModerationAction ||
        currentMessage.flags.has .Subscription || currentMessage.flags.has .Timeout) then true
  else if !(trimmed app.settings.openEmoteTimestampAlwaysUsers).isEmpty &&
      !(trimmed currentMessage.loginName).isEmpty &&
      ((qSplit ',' app.settings.openEmoteTimestampAlwaysUsers).filter (fun t => !t.isEmpty)).any
        (fun token => !(trimmed token).isEmpty &&
          qCompareCaseInsensitive app.caseFolded currentMessage.loginName (trimmed token))
      then true
  else if !app.settings.openEmoteTimestampGapsOnly then true
  else
    match channel with
    | none => true
    | some ch =>
      timestampGapReached (max 1 (min app.settings.openEmoteTimestampGapMinutes 400) * 60)
        currentTimestamp ch.messageSnapshot.reverse

/-- The function `MessageBuilder::parseUsernameColor`. -/
def MessageBuilder.parseUsernameColor (app : App) (b : MessageBuilder) (tags : QVariantMap)
    (userID : QString) : MessageBuilder :=
  let setColor (c : QColor) : MessageBuilder :=
    { b with usernameColor_ := c, message := { b.message with usernameColor := c } }
  match (app.getUser userID).bind (fun user => user.color) with
  | some color => setColor color
  | none =>
    match (tags.find "color").filter (fun color => !color.isEmpty) with
    | some color => setColor (app.colorFromString color)
    | none =>
      if app.settings.colorizeNicknames && tags.contains "user-id" then
        setColor (app.getRandomColor (tags.value "user-id"))
      else b

/-- The function `MessageBuilder::parseUsername`: the builder and the channel
after `setUserColor`.  (The colour it stores on the current account is not part
of the state kept here.) -/
def MessageBuilder.parseUsername (app : App) (b : MessageBuilder) (ircMessage : IrcMessage)
    (twitchChannel : Option TwitchChannel) (trimSubscriberUsername : Bool) :
    MessageBuilder × Option TwitchChannel :=
  let userName :=
    if ircMessage.nick.isEmpty || trimSubscriberUsername then ircMessage.tags.value "login"
    else ircMessage.nick
  ({ b with message := { b.message with loginName := userName } },
    twitchChannel.map (fun tc => app.setUserColor tc userName b.message.usernameColor))

/-- The function `MessageBuilder::parseMessageID`. -/
def MessageBuilder.parseMessageID (b : MessageBuilder) (tags : QVariantMap) : MessageBuilder :=
  match tags.find "id" with
  | some id => { b with message := { b.message with id := id } }
  | none => b

/-- The function `MessageBuilder::parseRoomID`, as `makeIrcMessage` uses it: the
channel afterwards (its room id is set when it was empty). -/
def parseRoomID (tags : QVariantMap) (twitchChannel : Option TwitchChannel) :
    Option TwitchChannel :=
  match twitchChannel with
  | none => none
  | some tc =>
    match tags.find "room-id" with
    | some roomID =>
      if tc.roomId ≠ roomID ∧ tc.roomId.isEmpty then some { tc with roomId := roomID }
      else some tc
    | none => some tc

/-- The function `MessageBuilder::parseSharedChatInfo`: the builder afterwards
and the channel it returns. -/
def MessageBuilder.parseSharedChatInfo (app : App) (b : MessageBuilder) (tags : QVariantMap)
    (twitchChannel : Option TwitchChannel) : MessageBuilder × Option TwitchChannel :=
  match twitchChannel with
  | none => (b, none)
  | some tc =>
    match tags.find "source-room-id" with
    | none => (b, some tc)
    | some sourceRoom =>
      if tc.roomId ≠ sourceRoom then
        match app.getChannelOrEmptyByID sourceRoom with
        | none => (b.setFlag .SharedMessage, some tc)
        | some sourceChan =>
          if !sourceChan.isEmpty then
            match sourceChan.twitch with
            | some chan =>
              ((b.setFlag .SharedMessage).setFlag .DoNotTriggerNotification, some chan)
            | none => ((b.setFlag .SharedMessage).setFlag .DoNotTriggerNotification, some tc)
          else (b.setFlag .SharedMessage, some tc)
      else (b, some tc)

/-- The function `QStringList::join(" ")`. -/
def qJoin : List QString → QString
  | [] => []
  | [s] => s
  | s :: rest => s ++ ' ' :: qJoin rest

/-- The function `MessageBuilder::appendChannelPointRewardMessage`. -/
def MessageBuilder.appendChannelPointRewardMessage (app : App) (b : MessageBuilder)
    (reward : ChannelPointReward) (isMod isBroadcaster : Bool) : MessageBuilder :=
  if app.isIgnoredMessage
      { message := [], twitchUserID := reward.user.id, isMod := isMod,
        isBroadcaster := isBroadcaster } then b
  else
    let flag := MessageElementFlag.ChannelPointReward.mask
    let b0 := b.emplace
      { kind := .TimestampElement none, flags := MessageElementFlag.Timestamp.mask }
    let b1 := if !reward.isUserInputRequired then
        b0.emplace ((mkText reward.user.login flag .Text .ChatMediumBold).setLink
          ⟨.UserInfo, reward.user.login⟩)
      else b0
    let redeemed := if !reward.isUserInputRequired then "redeemed".toList else "Redeemed".toList
    let b2 := b1.emplace (mkText redeemed flag)
    let b3 := if reward.id = "CELEBRATION".toList then
        b2.emplace (mkEmote (some (app.getOrCreateEmote reward.emoteId reward.emoteName)) flag .Text)
      else b2
    let b4 := b3.emplace (mkText reward.title flag .Text .ChatMediumBold)
    let b5 := b4.emplace
      { kind := .ScalingImageElement reward.image,
        flags := MessageElementFlag.ChannelPointRewardImage.mask }
    let b6 := b5.emplace
      (mkText ((qNumber reward.cost).map Char.ofNat) flag .Text .ChatMediumBold)
    let b7 := if reward.isBits then b6.emplace (mkText "bits".toList flag .Text .ChatMediumBold)
      else b6
    let b8 := if reward.isUserInputRequired then
        b7.emplace { kind := .LinebreakElement, flags := flag }
      else b7
    let textList := (if !reward.isUserInputRequired then [reward.user.login] else []) ++
      [redeemed, reward.title, (qNumber reward.cost).map Char.ofNat]
    { b8 with
      message :=
        { (b8.setFlag .RedeemedChannelPointReward).message with
          messageText := qJoin textList
          searchText := qJoin textList
          loginName := if !reward.user.login.isEmpty then reward.user.login
            else b8.message.loginName
          reward := some reward } }

/-- The function `MessageBuilder::appendChannelName`. -/
def MessageBuilder.appendChannelName (b : MessageBuilder) (channel : Channel) : MessageBuilder :=
  b.emplace ((mkText ('#' :: channel.name) MessageElementFlag.ChannelName.mask .System).setLink
    ⟨.JumpToChannel, channel.name⟩)

/-- The flags `MessageElementFlags({RepliedMessage, Text})`. -/
def repliedTextFlags : MessageElementFlags :=
  MessageElementFlag.RepliedMessage.mask ||| MessageElementFlag.Text.mask

/-- The function `MessageBuilder::parseThread`.  (Its test for the compact
author avatar holds a literal `false`; that branch is left out.)  The thread is
returned with the new reply counted. -/
def MessageBuilder.parseThread (app : App) (b : MessageBuilder) (messageContent : QString)
    (tags : QVariantMap) (channel : Channel) (thread : Option MessageThread)
    (parent : Option Message) : Option (MessageBuilder × Option MessageThread) :=
  match thread with
  | some th =>
    let th1 := { th with liveCount := th.liveCount + 1 }
    let b0 : MessageBuilder :=
      { b with message := { b.message with replyThread := some th.rootId,
                                           replyParent := parent.map (fun p => p.id) } }
    let b1 := if th.subscribed then b0.setFlag .SubscribedThread else b0
    let b2 := b1.setFlag .ReplyMessage
    if app.settings.openEmoteCompactHeaderLayout then some (b2, some th1)
    else
      match (match parent with
        | none => th.root
        | some p => some p) with
      | none => none
      | some threadRoot =>
        let isAction := threadRoot.flags.has .Action
        let b3 := b2.emplace
          { kind := .ReplyCurveElement, flags := MessageElementFlag.RepliedMessage.mask }
        let b4 := b3.emplace ((mkText "Replying to".toList MessageElementFlag.RepliedMessage.mask
          .System .ChatMediumSmall).setLink ⟨.ViewThread, th.rootId⟩)
        let b5 := b4.emplace ((mkText
          ('@' :: stylizeUsername app threadRoot.loginName threadRoot ++
            (if isAction then [] else [':']))
          MessageElementFlag.RepliedMessage.mask (.Custom threadRoot.usernameColor)
          .ChatMediumSmall).setLink ⟨.UserInfo, threadRoot.displayName⟩)
        some (b5.emplace ((mkSingleLineText threadRoot.messageText repliedTextFlags
          (if isAction then .Custom threadRoot.usernameColor else .Text) .ChatMediumSmall).setLink
          ⟨.ViewThread, th.rootId⟩), some th1)
  | none =>
    if tags.contains "reply-parent-msg-id" then
      if app.settings.openEmoteCompactHeaderLayout then some (b, none)
      else
        match tags.find "reply-parent-display-name", tags.find "reply-parent-msg-body" with
        | some name, some replyBody =>
          let b1 := b.emplace
            { kind := .ReplyCurveElement, flags := MessageElementFlag.RepliedMessage.mask }
          let b2 := b1.emplace (mkText "Replying to".toList MessageElementFlag.RepliedMessage.mask
            .System .ChatMediumSmall)
          if isIgnored app messageContent (tags.value "reply-parent-user-id") channel then
            some (b2.emplace (mkSingleLineText "[Blocked user]".toList repliedTextFlags
              b.textColor_ .ChatMediumSmall), none)
          else
            let b3 := b2.emplace ((mkText ('@' :: name ++ [':'])
              MessageElementFlag.RepliedMessage.mask b.textColor_ .ChatMediumSmall).setLink
              ⟨.UserInfo, name⟩)
            some (b3.emplace (mkSingleLineText (app.parseTagString replyBody) repliedTextFlags
              b.textColor_ .ChatMediumSmall), none)
        | _, _ => some (b, none)
    else some (b, none)

/-! ## `messages/MessageBuilder.cpp`: badges and the user name -/

/-- The function `getTwitchBadge`. -/
def getTwitchBadge (app : App) (badge : TwitchBadge) (twitchChannel : TwitchChannel) :
    Option Emote :=
  match twitchChannel.twitchBadge badge.key_ badge.value_ with
  | some channelBadge => some channelBadge
  | none => app.globalTwitchBadge badge.key_ badge.value_

/-- The function `QString::replace(before, after)`: every occurrence, from left
to right. -/
def qReplace (before after : QString) : Nat → QString → QString
  | 0, s => s
  | _ + 1, [] => []
  | fuel + 1, c :: cs =>
    if !before.isEmpty && before.isPrefixOf (c :: cs) then
      after ++ qReplace before after fuel ((c :: cs).drop before.length)
    else c :: qReplace before after fuel cs

def qReplaceAll (s before after : QString) : QString := qReplace before after s.length s

/-- The tooltip `appendBadges` gives to a subscription badge. -/
def subscriptionTooltip (tooltip : QString) (badge : TwitchBadge) (subMonths : QString) :
    QString :=
  let subTier : Char := if badge.value_.length > 3 then badge.value_.headD '1' else '1'
  tooltip ++ " (".toList ++
    (if subTier ≠ '1' then "Tier ".toList ++ [subTier] ++ ", ".toList else []) ++
    subMonths ++ " months)".toList

/-- The tooltip `appendBadges` gives to a prediction badge. -/
def predictionTooltip (infoValue : QString) : QString :=
  "Predicted ".toList ++
    qReplaceAll (qReplaceAll (qReplaceAll (qReplaceAll infoValue "\\s".toList " ".toList)
      "\\:".toList ";".toList) "\\\\".toList "\\".toList) [Char.ofNat 0x2E1D] ",".toList

/-- The element `appendBadges` adds for one badge, if any. -/
def badgeElement (app : App) (badge : TwitchBadge) (badgeInfos : List (QString × QString))
    (twitchChannel : TwitchChannel) : Option MessageElement :=
  match getTwitchBadge app badge twitchChannel with
  | none => none
  | some badgeEmote =>
    let plain (tooltip : QString) : Option MessageElement :=
      some { kind := .BadgeElement (some badgeEmote), flags := badge.flag_, tooltip := tooltip }
    let info := (List.find? (fun kv => kv.1 == badge.key_) badgeInfos).map (fun kv => kv.2)
    if badge.key_ = "bits".toList then plain ("Twitch cheer ".toList ++ badge.value_)
    else if badge.key_ = "moderator".toList ∧ app.settings.useCustomFfzModeratorBadges then
      match twitchChannel.ffzCustomModBadge with
      | some custom =>
        some { kind := .ModBadgeElement (some custom),
               flags := MessageElementFlag.BadgeChannelAuthority.mask,
               tooltip := custom.tooltip }
      | none => plain badgeEmote.tooltip
    else if badge.key_ = "vip".toList ∧ app.settings.useCustomFfzVipBadges then
      match twitchChannel.ffzCustomVipBadge with
      | some custom =>
        some { kind := .VipBadgeElement (some custom),
               flags := MessageElementFlag.BadgeChannelAuthority.mask,
               tooltip := custom.tooltip }
      | none => plain badgeEmote.tooltip
    else if badge.flag_ = MessageElementFlag.BadgeSubscription.mask then
      match info with
      | some subMonths => plain (subscriptionTooltip badgeEmote.tooltip badge subMonths)
      | none => plain badgeEmote.tooltip
    else if badge.flag_ = MessageElementFlag.BadgePredictions.mask then
      match info with
      | some infoValue => plain (predictionTooltip infoValue)
      | none => plain badgeEmote.tooltip
    else plain badgeEmote.tooltip

/-- The function `appendBadges`. -/
def appendBadges (app : App) (b : MessageBuilder) (badges : List TwitchBadge)
    (badgeInfos : List (QString × QString)) (twitchChannel : Option TwitchChannel) :
    MessageBuilder :=
  match twitchChannel with
  | none => b
  | some tc =>
    let b1 := badges.foldl
      (fun acc badge =>
        match badgeElement app badge badgeInfos tc with
        | some e => acc.emplace e
        | none => acc) b
    { b1 with message := { b1.message with twitchBadges := badges, twitchBadgeInfos := badgeInfos } }

/-- The function `appendSharedChatBadges`: the builder afterwards and the
badges it appended. -/
def appendSharedChatBadges (app : App) (b : MessageBuilder) (sharedBadges : List TwitchBadge)
    (sharedChannelName : QString) (twitchChannel : TwitchChannel) :
    MessageBuilder × List TwitchBadge :=
  sharedBadges.foldl
    (fun acc badge =>
      if badge.key_ ≠ "moderator".toList ∧ badge.key_ ≠ "vip".toList then acc
      else
        match getTwitchBadge app badge twitchChannel with
        | none => acc
        | some badgeEmote =>
          (acc.1.emplace
            { kind := .BadgeElement (some badgeEmote), flags := badge.flag_,
              tooltip := if sharedChannelName ≠ [] then
                  badgeEmote.tooltip ++ " (".toList ++ sharedChannelName ++ ")".toList
                else badgeEmote.tooltip },
            acc.2 ++ [badge])) (b, [])

/-- The function `makeSharedChatBadge`, as far as the emote model goes: the
name is empty and the tooltip names the source channel. -/
def makeSharedChatBadge (sourceName : QString) : Emote :=
  { name := [],
    tooltip := "Shared Message".toList ++
      (if sourceName.isEmpty then [] else " from ".toList ++ sourceName),
    zeroWidth := false }

/-- The function `MessageBuilder::appendTwitchBadges`. -/
def MessageBuilder.appendTwitchBadges (app : App) (b : MessageBuilder) (tags : QVariantMap)
    (twitchChannel : Option TwitchChannel) : MessageBuilder :=
  match twitchChannel with
  | none => b
  | some tc =>
    if b.message.flags.has .SharedMessage then
      let sourceId := tags.value "source-room-id"
      let sourceName :=
        if sourceId.isEmpty then []
        else if tc.roomId = sourceId then tc.name
        else (app.resolveID sourceId).displayName
      let b1 := b.emplace
        { kind := .BadgeElement (some (makeSharedChatBadge sourceName)),
          flags := MessageElementFlag.BadgeSharedChannel.mask }
      let shared := appendSharedChatBadges app b1 (app.parseSourceBadgeTag tags) sourceName tc
      appendBadges app shared.1
        (shared.2.foldl (fun badges appended => badges.erase appended) (app.parseBadgeTag tags))
        (app.parseBadgeInfoTag tags) twitchChannel
    else appendBadges app b (app.parseBadgeTag tags) (app.parseBadgeInfoTag tags) twitchChannel

/-- An external badge: the element and the entry of `externalBadges`. -/
def MessageBuilder.emplaceExternalBadge (b : MessageBuilder) (e : MessageElement)
    (name : QString) : MessageBuilder :=
  let b1 := b.emplace e
  { b1 with message := { b1.message with externalBadges := b1.message.externalBadges ++ [name] } }

/-- The function `MessageBuilder::appendChatterinoBadges`. -/
def MessageBuilder.appendChatterinoBadges (app : App) (b : MessageBuilder) (userID : QString) :
    MessageBuilder :=
  match app.chatterinoBadge userID with
  | some badge =>
    b.emplaceExternalBadge
      { kind := .BadgeElement (some badge), flags := MessageElementFlag.BadgeChatterino.mask }
      badge.name
  | none => b

/-- The function `MessageBuilder::appendFfzBadges`. -/
def MessageBuilder.appendFfzBadges (app : App) (b : MessageBuilder)
    (twitchChannel : Option TwitchChannel) (userID : QString) : MessageBuilder :=
  let add (acc : MessageBuilder) (badge : FfzBadge) : MessageBuilder :=
    acc.emplaceExternalBadge
      { kind := .FfzBadgeElement (some badge.emote) badge.color,
        flags := MessageElementFlag.BadgeFfz.mask }
      badge.emote.name
  let b1 := (app.ffzUserBadges userID).foldl add b
  match twitchChannel with
  | none => b1
  | some tc => (tc.ffzChannelBadges userID).foldl add b1

/-- The function `MessageBuilder::appendBttvBadges`. -/
def MessageBuilder.appendBttvBadges (app : App) (b : MessageBuilder) (userID : QString) :
    MessageBuilder :=
  match app.bttvBadge userID with
  | some badge =>
    b.emplaceExternalBadge
      { kind := .BadgeElement (some badge), flags := MessageElementFlag.BadgeBttv.mask }
      badge.name
  | none => b

/-- The function `MessageBuilder::appendSeventvBadges`. -/
def MessageBuilder.appendSeventvBadges (app : App) (b : MessageBuilder) (userID : QString) :
    MessageBuilder :=
  match app.seventvBadge userID with
  | some badge =>
    b.emplaceExternalBadge
      { kind := .BadgeElement (some badge), flags := MessageElementFlag.BadgeSevenTV.mask }
      badge.name
  | none => b

/-- The function `MessageBuilder::appendUsername`.  (Its compact avatar mode
holds a literal `false` in its condition; that branch is left out.) -/
def MessageBuilder.appendUsername (app : App) (b : MessageBuilder) (tags : QVariantMap)
    (args : MessageParseArgs) : MessageBuilder :=
  let named : QString × MessageBuilder :=
    match tags.find "display-name" with
    | none => (b.message.loginName, b)
    | some raw =>
      let displayName := trimmed (app.parseTagString raw)
      if qCompareCaseInsensitive app.caseFolded displayName b.message.loginName then
        (displayName, { b with message := { b.message with displayName := displayName } })
      else
        (b.message.loginName,
          { b with message := { b.message with displayName := b.message.loginName,
                                               localizedName := displayName } })
  let usernameText := stylizeUsername app named.1 named.2.message
  let b1 := named.2
  if args.isSentWhisper then b1
  else if args.isReceivedWhisper then
    ((b1.emplace ((mkText usernameText MessageElementFlag.Username.mask
        (.Custom b1.usernameColor_) .ChatMediumBold).setLink
        ⟨.UserWhisper, b1.message.displayName⟩)).emplace
      (mkText "->".toList MessageElementFlag.Username.mask .System .ChatMedium)).emplace
      (mkText (app.currentUserName ++ [':']) MessageElementFlag.Username.mask
        (if app.currentUserColor.valid then .Custom app.currentUserColor else .System)
        .ChatMediumBold)
  else
    b1.emplace ((mkText (if !args.isAction then usernameText ++ [':'] else usernameText)
      MessageElementFlag.Username.mask (.Custom b1.usernameColor_) .ChatMediumBold).setLink
      ⟨.UserInfo, b1.message.displayName⟩)

/-! ## `messages/MessageBuilder.cpp`: `makeIrcMessage` -/

/-- The character class `\s` of the regular expressions. -/
def isRegexSpace (c : Char) : Bool := c.toNat == 0x20 || (0x09 ≤ c.toNat && c.toNat ≤ 0x0D)

/-- The function `parseOpenEmoteAvatarActionCommand`: a match of
`^\s*!(shake|hug|wave)\s+@?([A-Za-z0-9_]{2,32})\b`, letter case ignored. -/
def parseOpenEmoteAvatarActionCommand (messageText : QString) : QString × QString :=
  match messageText.dropWhile isRegexSpace with
  | '!' :: rest =>
    match ["shake".toList, "hug".toList, "wave".toList].find?
        (fun v => toLower (rest.take v.length) == v) with
    | none => ([], [])
    | some v =>
      let afterVerb := rest.drop v.length
      let afterSpace := afterVerb.dropWhile isRegexSpace
      let target := (match afterSpace with
        | '@' :: u => u
        | u => u).takeWhile isWordChar
      if afterSpace.length < afterVerb.length ∧ 2 ≤ target.length ∧ target.length ≤ 32 then
        (v, target)
      else ([], [])
  | _ => ([], [])

/-- The lambda `parseBoundedTag` of `parseOpenEmoteAvatarModelMetadata`. -/
def parseBoundedTag (app : App) (tags : QVariantMap) (name : String) (maxLength : Nat) :
    QString :=
  if (trimmed (app.parseTagString (tags.value name))).isEmpty then []
  else (trimmed (app.parseTagString (tags.value name))).take maxLength

/-- The function `parseOpenEmoteAvatarModelMetadata`. -/
def parseOpenEmoteAvatarModelMetadata (app : App) (b : MessageBuilder) (tags : QVariantMap)
    (content : QString) : MessageBuilder :=
  if app.settings.openEmoteBotCompatibilityMode then b
  else
    let nickname := parseBoundedTag app tags "openemote-preferred-nickname" 64
    let tagAction := toLower (parseBoundedTag app tags "openemote-avatar-action" 24)
    let action := if tagAction.isEmpty then (parseOpenEmoteAvatarActionCommand content).1
      else tagAction
    let target := if tagAction.isEmpty then (parseOpenEmoteAvatarActionCommand content).2
      else parseBoundedTag app tags "openemote-avatar-target" 32
    let known := action = "shake".toList ∨ action = "hug".toList ∨ action = "wave".toList
    { b with
      message :=
        { b.message with
          openEmoteAvatarModelId := parseBoundedTag app tags "openemote-avatar-model" 96
          openEmoteAvatarSkinId := parseBoundedTag app tags "openemote-avatar-skin" 96
          openEmoteAvatarIdleAsset := parseBoundedTag app tags "openemote-avatar-idle" 512
          openEmotePreferredNickname :=
            if nickname.isEmpty then parseBoundedTag app tags "openemote-preferred-name" 64
            else nickname
          openEmoteAvatarAction := if known then action else b.message.openEmoteAvatarAction
          openEmoteAvatarActionTarget :=
            if known then target else b.message.openEmoteAvatarActionTarget } }

/-- The function `MessageBuilder::parseHighlights`. -/
def MessageBuilder.parseHighlights (app : App) (b : MessageBuilder) (tags : QVariantMap)
    (originalMessage : QString) (args : MessageParseArgs) : HighlightAlert × MessageBuilder :=
  if app.settings.isBlacklistedUser b.message.loginName then ({}, b)
  else
    match app.highlightCheck args (app.parseBadgeTag tags) b.message.loginName originalMessage
        b.message.flags with
    | none => ({}, b)
    | some highlightResult =>
      let b1 := b.setFlag .Highlighted
      let b2 : MessageBuilder :=
        { b1 with message := { b1.message with highlightColor := highlightResult.color } }
      ({ customSound := highlightResult.customSoundUrl.getD [],
         playSound := highlightResult.playSound,
         windowAlert := highlightResult.alert },
        if highlightResult.showInMentions then b2.setFlag .ShowInMentions else b2)

/-- The flags `makeIrcMessage` sets from the tags of the message. -/
def MessageBuilder.parseTagFlags (b : MessageBuilder) (tags : QVariantMap) : MessageBuilder :=
  let b1 := if tags.contains "rm-deleted" then b.setFlag .Disabled else b
  let b2 := if tags.contains "msg-id" ∧
      (qSplit ';' (tags.value "msg-id")).contains "highlighted-message".toList then
      b1.setFlag .RedeemedHighlight
    else b1
  let b3 := if tags.contains "first-msg" ∧ tags.value "first-msg" = "1".toList then
      b2.setFlag .FirstMessage
    else b2
  let b4 := if tags.contains "pinned-chat-paid-amount" then b3.setFlag .ElevatedMessage else b3
  if tags.contains "bits" then b4.setFlag .CheerMessage else b4

/-- The compact header `makeIrcMessage` writes instead of the user name when
`compactHeaderLayout` holds. -/
def MessageBuilder.appendCompactHeader (app : App) (b : MessageBuilder) (tags : QVariantMap)
    (thread : Option MessageThread) (parent : Option Message) : MessageBuilder :=
  let flag := MessageElementFlag.RepliedMessage.mask
  let b1 := b.emplace ((mkText (stylizeUsername app b.message.loginName b.message) flag
    (.Custom b.usernameColor_) .ChatMediumSmall).setLink ⟨.UserInfo, b.message.displayName⟩)
  match thread with
  | some th =>
    match (match parent with
      | some p => some p
      | none => th.root) with
    | none => b1
    | some threadRoot =>
      (((b1.emplace (mkText " -> ".toList flag .System .ChatMediumSmall)).emplace
        ((mkText (stylizeUsername app threadRoot.loginName threadRoot) flag
          (.Custom threadRoot.usernameColor) .ChatMediumSmall).setLink
          ⟨.UserInfo, threadRoot.displayName⟩)).emplace
        (mkText ": ".toList flag .System .ChatMediumSmall)).emplace
        ((mkSingleLineText threadRoot.messageText repliedTextFlags .Text
          .ChatMediumSmall).setLink ⟨.ViewThread, th.rootId⟩)
  | none =>
    match tags.find "reply-parent-display-name" with
    | none => b1
    | some rawName =>
      let targetText := app.parseTagString rawName
      let body := app.parseTagString (tags.value "reply-parent-msg-body")
      if targetText.isEmpty then b1
      else
        let b2 := (b1.emplace (mkText " -> ".toList flag .System .ChatMediumSmall)).emplace
          (mkText targetText flag .Text .ChatMediumSmall)
        if body.isEmpty then b2
        else
          (b2.emplace (mkText ": ".toList flag .System .ChatMediumSmall)).emplace
            (mkSingleLineText body repliedTextFlags .Text .ChatMediumSmall)

/-- The reply button `makeIrcMessage` adds after the body. -/
def MessageBuilder.appendReplyButton (app : App) (b : MessageBuilder) (tags : QVariantMap)
    (args : MessageParseArgs) (compactHeaderLayout : Bool) (thread : Option MessageThread) :
    MessageBuilder :=
  if !args.isReceivedWhisper ∧ tags.value "msg-id" ≠ "announcement".toList ∧
      !compactHeaderLayout then
    match thread with
    | some th =>
      let b1 :=
        if !app.settings.openEmoteBotCompatibilityMode ∧
            app.settings.openEmoteShowThreadActivityIndicator ∧ th.liveCount > 0 then
          b.emplace (((mkText [Char.ofNat 0x2022] MessageElementFlag.ReplyButton.mask .System
            .ChatMediumBold).setLink ⟨.ViewThread, th.rootId⟩).setTooltip
            ((qNumber th.liveCount).map Char.ofNat))
        else b
      b1.emplace
        { kind := .CircularImageElement .replyThreadDark 2,
          flags := MessageElementFlag.ReplyButton.mask,
          link := some ⟨.ViewThread, th.rootId⟩ }
    | none =>
      b.emplace
        { kind := .CircularImageElement .replyDark 2,
          flags := MessageElementFlag.ReplyButton.mask,
          link := some ⟨.ReplyToMessage, b.message.id⟩ }
  else b

/-- The value of `compactHeaderLayout` in `makeIrcMessage`. -/
def compactHeaderLayout (app : App) (args : MessageParseArgs) : Bool :=
  !app.settings.openEmoteBotCompatibilityMode && app.settings.openEmoteCompactHeaderLayout &&
    !args.isSentWhisper && !args.isReceivedWhisper && !args.isAction

/-- The first steps of `makeIrcMessage` after its ignore check, up to
`parseSharedChatInfo`: the builder and the Twitch channel used from there on. -/
def ircIdentity (app : App) (channel : Channel) (ircMessage : IrcMessage)
    (args : MessageParseArgs) : MessageBuilder × Option TwitchChannel :=
  let tags := ircMessage.tags
  let userID := tags.value "user-id"
  let b1 := ({} : MessageBuilder).parseUsernameColor app tags userID
  let b2 : MessageBuilder := { b1 with message := { b1.message with userID := userID } }
  let b3 : MessageBuilder :=
    if args.isAction then
      { b2 with textColor_ := .Custom b2.message.usernameColor }.setFlag .Action
    else b2
  let named := b3.parseUsername app ircMessage channel.twitch args.trimSubscriberUsername
  let b5 := named.1.setFlag .Collapsed
  let b6 : MessageBuilder := { b5 with message := { b5.message with channelName := channel.name } }
  (b6.parseMessageID tags).parseSharedChatInfo app tags (parseRoomID tags named.2)

/-- The steps of `makeIrcMessage` from the channel point reward to the user
name: the builder and the thread with the new reply counted.  (The compact
author mode holds a literal `false` in its condition; its branches are left
out.) -/
def ircHeader (app : App) (channel : Channel) (ircMessage : IrcMessage)
    (args : MessageParseArgs) (content : QString) (thread : Option MessageThread)
    (parent : Option Message) (b : MessageBuilder) (twitchChannel : Option TwitchChannel) :
    Option (MessageBuilder × Option MessageThread) :=
  let tags := ircMessage.tags
  let rewarded : Option MessageBuilder :=
    if !args.channelPointRewardId.isEmpty then
      match twitchChannel with
      | none => none
      | some tc =>
        match tc.channelPointReward args.channelPointRewardId with
        | some reward =>
          some ((b.appendChannelPointRewardMessage app reward channel.isMod
            channel.isBroadcaster).setFlag .RedeemedChannelPointReward)
        | none => some (b.setFlag .RedeemedChannelPointReward)
    else some b
  match rewarded with
  | none => none
  | some b9 =>
    match ((b9.appendChannelName channel).parseTagFlags tags).parseThread app content tags channel
        thread parent with
    | none => none
    | some (b10, thread1) =>
      let b11 : MessageBuilder :=
        { b10 with
          message := { b10.message with serverReceivedTime := app.calculateMessageTime ircMessage } }
      let b12 := parseOpenEmoteAvatarModelMetadata app b11 tags content
      let senderIsBroadcaster : Bool := b.message.loginName == channel.name
      let shouldAddModerationElements : Bool :=
        !senderIsBroadcaster &&
          !(tags.value "user-type" == "mod".toList && !args.isStaffOrBroadcaster)
      let b13 := if shouldAddModerationElements then
          b12.emplace
            { kind := .TwitchModerationElement, flags := MessageElementFlag.ModeratorTools.mask }
        else b12
      let b14 := ((((b13.appendTwitchBadges app tags twitchChannel).appendChatterinoBadges app
        (tags.value "user-id")).appendFfzBadges app twitchChannel
        (tags.value "user-id")).appendBttvBadges app
        (tags.value "user-id")).appendSeventvBadges app (tags.value "user-id")
      some (if compactHeaderLayout app args then b14.appendCompactHeader app tags thread parent
        else b14.appendUsername app tags args, thread1)

/-- The steps of `makeIrcMessage` that render the body: the emote occurrences
are parsed, the ignore phrases applied, the occurrences sorted and
de-duplicated, the words added, and the message and search text stored.  The
result is the builder and the content after the ignore phrases. -/
def ircBody (app : App) (fuel : Nat) (ircMessage : IrcMessage) (content : QString)
    (messageOffset : Int) (b : MessageBuilder) (twitchChannel : Option TwitchChannel) :
    Option (MessageBuilder × QString) :=
  let tags := ircMessage.tags
  let textState : TextState :=
    match tags.find "bits" with
    | some bits => { twitchChannel := twitchChannel, hasBits := true, bitsLeft := qToInt bits }
    | none => { twitchChannel := twitchChannel }
  let processed := app.processIgnorePhrases content
    (app.parseTwitchEmotes tags content messageOffset)
  match b.addWords app fuel (qSplit ' ' processed.1) (sortAndUnique app.rangesSort processed.2)
      textState with
  | none => none
  | some (b16, _) =>
    some ({ b16 with
      message :=
        { b16.message with
          messageText := processed.1
          searchText := stylizeUsername app b16.message.loginName b16.message ++
            " ".toList ++ b16.message.localizedName ++ " ".toList ++
            b16.message.loginName ++ ": ".toList ++ processed.1 ++ " ".toList ++
            b16.message.searchText } }, processed.1)

/-- The last steps of `makeIrcMessage`: highlights, the reply button and the
timestamp. -/
def ircTrailer (app : App) (channel : Channel) (ircMessage : IrcMessage)
    (args : MessageParseArgs) (b : MessageBuilder) (content : QString)
    (thread : Option MessageThread) : Message × HighlightAlert :=
  let tags := ircMessage.tags
  let highlighted := b.parseHighlights app tags content args
  let highlight : HighlightAlert :=
    if tags.contains "historical" then
      { highlighted.1 with playSound := false, windowAlert := false }
    else highlighted.1
  let b18 : MessageBuilder :=
    if args.isReceivedWhisper && app.settings.highlightInlineWhispers then
      { highlighted.2.setFlag .HighlightedWhisper with
        message :=
          { (highlighted.2.setFlag .HighlightedWhisper).message with
            highlightColor := some app.whisperColor } }
    else highlighted.2
  let b19 := b18.appendReplyButton app tags args (compactHeaderLayout app args) thread
  let b20 :=
    if shouldRenderOpenEmoteTimestamp app (some channel) b19.message
        b19.message.serverReceivedTime then
      b19.emplace
        { kind := .TimestampElement (some b19.message.serverReceivedTime),
          flags := MessageElementFlag.Timestamp.mask }
    else b19
  (b20.message, highlight)

/-- The function `MessageBuilder::makeIrcMessage` after its ignore check: the
message and the highlight alert. -/
def buildIrcMessage (app : App) (fuel : Nat) (channel : Channel) (ircMessage : IrcMessage)
    (args : MessageParseArgs) (content : QString) (messageOffset : Int)
    (thread : Option MessageThread) (parent : Option Message) :
    Option (Message × HighlightAlert) :=
  match ircHeader app channel ircMessage args content thread parent
      (ircIdentity app channel ircMessage args).1 (ircIdentity app channel ircMessage args).2 with
  | none => none
  | some (b15, thread1) =>
    match ircBody app fuel ircMessage content messageOffset b15
        (ircIdentity app channel ircMessage args).2 with
    | none => none
    | some (b17, processed) =>
      some (ircTrailer app channel ircMessage args b17 processed thread1)

/-- The function `MessageBuilder::makeIrcMessage`: `none` when the call has no
result, otherwise the message pointer (`none` for the null pointer of
`return {}`) and the highlight alert. -/
def makeIrcMessage (app : App) (fuel : Nat) (channel : Channel) (ircMessage : IrcMessage)
    (args : MessageParseArgs) (content : QString) (messageOffset : Int)
    (thread : Option MessageThread) (parent : Option Message) :
    Option (Option Message × HighlightAlert) :=
  if args.allowIgnore && isIgnored app content (ircMessage.tags.value "user-id") channel then
    some (none, {})
  else
    (buildIrcMessage app fuel channel ircMessage args content messageOffset thread parent).map
      (fun r => (some r.1, r.2))

/-! ## The sort of GNU libstdc++ 12

`std::ranges::sort` of libstdc++ forwards to `std::sort`, an introsort
(`bits/stl_algo.h`, `bits/stl_heap.h`).  The vector is a list, an iterator an
index into it; an access outside the vector has no result. -/

section LibstdcxxSort

variable {α : Type}

/-- The `std::iter_swap` of two positions. -/
def iterSwap (v : List α) (i j : Nat) : Option (List α) := do
  let a ← v[i]?
  let b ← v[j]?
  pure ((v.set i b).set j a)

/-- The `std::__move_median_to_first`. -/
def moveMedianToFirst (comp : α → α → Bool) (v : List α) (result a b c : Nat) :
    Option (List α) := do
  let va ← v[a]?
  let vb ← v[b]?
  let vc ← v[c]?
  if comp va vb then
    if comp vb vc then iterSwap v result b
    else if comp va vc then iterSwap v result c
    else iterSwap v result a
  else if comp va vc then iterSwap v result a
  else if comp vb vc then iterSwap v result c
  else iterSwap v result b

/-- The `std::__unguarded_linear_insert` of the value `val` taken from position
`last`: the loop moves `last` down while `val` sorts before the element below;
below the first element of the vector there is nothing to read. -/
def unguardedLinearInsert (comp : α → α → Bool) (val : α) : List α → Nat → Option (List α)
  | _, 0 => none
  | v, next + 1 => do
    let below ← v[next]?
    if comp val below then unguardedLinearInsert comp val (v.set (next + 1) below) next
    else pure (v.set (next + 1) val)

/-- The loop of `std::__insertion_sort` from position `i`, `count` rounds. -/
def insertionSortLoop (comp : α → α → Bool) (first : Nat) : Nat → List α → Nat → Option (List α)
  | 0, v, _ => some v
  | count + 1, v, i => do
    let vi ← v[i]?
    let vfirst ← v[first]?
    let v ←
      if comp vi vfirst then
        pure (v.take first ++ vi :: (v.drop first).take (i - first) ++ v.drop (i + 1))
      else unguardedLinearInsert comp vi v i
    insertionSortLoop comp first count v (i + 1)

/-- The `std::__insertion_sort` of `[first, last)`. -/
def insertionSort (comp : α → α → Bool) (v : List α) (first last : Nat) : Option (List α) :=
  if first == last then some v
  else insertionSortLoop comp first (last - (first + 1)) v (first + 1)

/-- The `std::__unguarded_insertion_sort` from position `i`, `count` rounds. -/
def unguardedInsertionSort (comp : α → α → Bool) : Nat → List α → Nat → Option (List α)
  | 0, v, _ => some v
  | count + 1, v, i => do
    let vi ← v[i]?
    let v ← unguardedLinearInsert comp vi v i
    unguardedInsertionSort comp count v (i + 1)

/-- The constant `_S_threshold`. -/
def sortThreshold : Nat := 16

/-- The `std::__final_insertion_sort` of `[first, last)`. -/
def finalInsertionSort (comp : α → α → Bool) (v : List α) (first last : Nat) :
    Option (List α) :=
  if last - first > sortThreshold then do
    let v ← insertionSort comp v first (first + sortThreshold)
    unguardedInsertionSort comp (last - (first + sortThreshold)) v (first + sortThreshold)
  else insertionSort comp v first last

/-- The loop `while (comp(first, pivot)) ++first` of `std::__unguarded_partition`;
`room` bounds the steps by what is left of the vector. -/
def partitionScanUp (comp : α → α → Bool) (v : List α) (pivot : α) : Nat → Nat → Option Nat
  | 0, _ => none
  | room + 1, first => do
    let x ← v[first]?
    if comp x pivot then partitionScanUp comp v pivot room (first + 1) else pure first

/-- The steps `--last; while (comp(pivot, last)) --last` of
`std::__unguarded_partition`. -/
def partitionScanDown (comp : α → α → Bool) (v : List α) (pivot : α) : Nat → Option Nat
  | 0 => none
  | last + 1 => do
    let x ← v[last]?
    if comp pivot x then partitionScanDown comp v pivot last else pure last

/-- The `std::__unguarded_partition`; every round moves `first` up, so `rounds`,
the length of the vector plus one, is never used up. -/
def unguardedPartition (comp : α → α → Bool) (pivot : Nat) :
    Nat → List α → Nat → Nat → Option (List α × Nat)
  | 0, _, _, _ => none
  | rounds + 1, v, first, last => do
    let p ← v[pivot]?
    let first ← partitionScanUp comp v p (v.length + 1 - first) first
    let last ← partitionScanDown comp v p last
    if !(first < last) then pure (v, first)
    else do
      let v ← iterSwap v first last
      unguardedPartition comp pivot rounds v (first + 1) last

/-- The `std::__unguarded_partition_pivot`. -/
def unguardedPartitionPivot (comp : α → α → Bool) (v : List α) (first last : Nat) :
    Option (List α × Nat) := do
  let mid := first + (last - first) / 2
  let v ← moveMedianToFirst comp v first (first + 1) mid (last - 1)
  unguardedPartition comp first (v.length + 1) v (first + 1) last

/-- The `std::__push_heap` on the heap that starts at `first`; every round moves
the hole up, so `rounds` starts as the hole index plus one. -/
def pushHeap (comp : α → α → Bool) (first topIndex : Nat) (value : α) :
    Nat → List α → Nat → Option (List α)
  | 0, _, _ => none
  | rounds + 1, v, holeIndex => do
    let parent := (holeIndex - 1) / 2
    let vparent ← v[first + parent]?
    if holeIndex > topIndex && comp vparent value then
      pushHeap comp first topIndex value rounds (v.set (first + holeIndex) vparent) parent
    else pure (v.set (first + holeIndex) value)

/-- The first loop of `std::__adjust_heap`: the hole moves down to the larger
child; the result is the vector, the hole and `secondChild`. -/
def adjustHeapLoop (comp : α → α → Bool) (first len : Nat) :
    Nat → List α → Nat → Nat → Option (List α × Nat × Nat)
  | 0, _, _, _ => none
  | rounds + 1, v, holeIndex, secondChild =>
    if secondChild < (len - 1) / 2 then do
      let secondChild := 2 * (secondChild + 1)
      let right ← v[first + secondChild]?
      let left ← v[first + (secondChild - 1)]?
      let secondChild := if comp right left then secondChild - 1 else secondChild
      let child ← v[first + secondChild]?
      adjustHeapLoop comp first len rounds (v.set (first + holeIndex) child) secondChild
        secondChild
    else pure (v, holeIndex, secondChild)

/-- The `std::__adjust_heap`.  The index type of the library is signed: for
`len = 0` its `(len - 2) / 2` is `-1`, which no index equals, hence `2 ≤ len`. -/
def adjustHeap (comp : α → α → Bool) (v : List α) (first holeIndex len : Nat) (value : α) :
    Option (List α) := do
  let topIndex := holeIndex
  let (v, holeIndex, secondChild) ← adjustHeapLoop comp first len (len + 1) v holeIndex holeIndex
  let (v, holeIndex) ←
    if len % 2 == 0 && decide (2 ≤ len) && secondChild == (len - 2) / 2 then do
      let secondChild := 2 * (secondChild + 1)
      let child ← v[first + (secondChild - 1)]?
      pure (v.set (first + holeIndex) child, secondChild - 1)
    else pure (v, holeIndex)
  pushHeap comp first topIndex value (holeIndex + 1) v holeIndex

/-- The loop of `std::__make_heap`, from `parent` down to 0. -/
def makeHeapLoop (comp : α → α → Bool) (first len : Nat) : List α → Nat → Option (List α)
  | v, 0 => do
    let value ← v[first]?
    adjustHeap comp v first 0 len value
  | v, parent + 1 => do
    let value ← v[first + (parent + 1)]?
    let v ← adjustHeap comp v first (parent + 1) len value
    makeHeapLoop comp first len v parent

/-- The `std::__make_heap` of `[first, last)`. -/
def makeHeap (comp : α → α → Bool) (v : List α) (first last : Nat) : Option (List α) :=
  if last - first < 2 then some v
  else makeHeapLoop comp first (last - first) v ((last - first - 2) / 2)

/-- The `std::__pop_heap`. -/
def popHeap (comp : α → α → Bool) (v : List α) (first last result : Nat) : Option (List α) := do
  let value ← v[result]?
  let vfirst ← v[first]?
  adjustHeap comp (v.set result vfirst) first 0 (last - first) value

/-- The `std::__sort_heap` of `[first, first + len)`. -/
def sortHeap (comp : α → α → Bool) (first : Nat) : Nat → List α → Option (List α)
  | 0, v => some v
  | len + 1, v =>
    if len + 1 > 1 then do
      let v ← popHeap comp v first (first + len) (first + len)
      sortHeap comp first len v
    else some v

/-- The `std::__partial_sort` as the introsort calls it, with `middle = last`:
the loop of `std::__heap_select` over `[middle, last)` is empty. -/
def partialSort (comp : α → α → Bool) (v : List α) (first last : Nat) : Option (List α) := do
  let v ← makeHeap comp v first last
  sortHeap comp first (last - first) v

/-- The `std::__introsort_loop`; every round of its loop takes one from
`depthLimit`. -/
def introsortLoop (comp : α → α → Bool) : Nat → List α → Nat → Nat → Option (List α)
  | 0, v, first, last =>
    if last - first > sortThreshold then partialSort comp v first last else some v
  | depthLimit + 1, v, first, last =>
    if last - first > sortThreshold then do
      let (v, cut) ← unguardedPartitionPivot comp v first last
      let v ← introsortLoop comp depthLimit v cut last
      introsortLoop comp depthLimit v first cut
    else some v

/-- The `std::__lg`, the position of the highest set bit. -/
def lgLoop : Nat → Nat → Nat
  | 0, _ => 0
  | rounds + 1, n => if n < 2 then 0 else lgLoop rounds (n / 2) + 1

/-- The `std::__sort` of the whole vector. -/
def stdSort (comp : α → α → Bool) (v : List α) : Option (List α) :=
  if v.length == 0 then some v
  else do
    let v ← introsortLoop comp (lgLoop v.length v.length * 2) v 0 v.length
    finalInsertionSort comp v 0 v.length

end LibstdcxxSort

/-- The `std::ranges::sort` call of `makeIrcMessage` as libstdc++ runs it, with
the comparison `a.start < b.start`. -/
def libstdcxxSortByStart (twitchEmotes : List TwitchEmoteOccurrence) :
    Option (List TwitchEmoteOccurrence) :=
  stdSort (fun a b => decide (a.start < b.start)) twitchEmotes

/-- The sort of libstdc++ as a total function; a vector the model has no result
for stays as it is. -/
def libstdcxxRangesSort (twitchEmotes : List TwitchEmoteOccurrence) :
    List TwitchEmoteOccurrence :=
  (libstdcxxSortByStart twitchEmotes).getD twitchEmotes

/-! ## Sample collaborators, used to run the definitions -/

def sampleSettings : Settings :=
  { colorizeNicknames := true
    findAllUsernames := false
    enableZeroWidthEmotes := true
    stackBits := false
    showTimestamps := true
    highlightInlineWhispers := false
    useCustomFfzModeratorBadges := false
    useCustomFfzVipBadges := false
    usernameDisplayMode := .UsernameAndLocalizedName
    openEmoteBotCompatibilityMode := false
    openEmoteCompactAuthorAvatar := true
    openEmoteCompactHeaderLayout := false
    openEmoteShowThreadActivityIndicator := true
    openEmoteEnableCrossChannelEmotes := false
    openEmoteTimestampAlwaysSystem := true
    openEmoteTimestampAlwaysUsers := []
    openEmoteTimestampGapsOnly := false
    openEmoteTimestampGapMinutes := 5
    matchNickname := fun _ => none
    isBlacklistedUser := fun _ => false }

/-- The channel `Channel::getEmpty()`: what `getChannelOrEmptyByID` returns for a
room that is not open. -/
def emptyChannel : Channel :=
  { name := [], isMod := false, isBroadcaster := false, isEmpty := true, messageSnapshot := [],
    twitch := none }

/-- An application without emotes, badges, overrides, ignore rules or
highlights. -/
def sampleApp : App :=
  { settings := sampleSettings
    globalFfzEmote := fun _ => none
    globalBttvEmote := fun _ => none
    globalSeventvEmote := fun _ => none
    crossCache := { bttv := [], ffz := [], seventv := [], signature := [], builtAtMs := 0 }
    getUser := fun _ => none
    getRandomColor := fun _ => ⟨true, 0xFF0000⟩
    colorFromString := fun _ => ⟨true, 0x00FF00⟩
    isIgnoredMessage := fun _ => false
    getChannelOrEmptyByID := fun _ => some emptyChannel
    setUserColor := fun tc _ _ => tc
    currentUserName := "me".toList
    currentUserColor := QColor.invalid
    calculateMessageTime := fun _ => some 1000
    parseTagString := fun s => s
    parseBadgeTag := fun _ => []
    parseSourceBadgeTag := fun _ => []
    parseBadgeInfoTag := fun _ => []
    globalTwitchBadge := fun _ _ => none
    resolveID := fun _ => ⟨[], [], []⟩
    chatterinoBadge := fun _ => none
    ffzUserBadges := fun _ => []
    bttvBadge := fun _ => none
    seventvBadge := fun _ => none
    getOrCreateEmote := fun _ name => ⟨name, [], false⟩
    emojiParse := fun s => [.inr s]
    linkParse := fun _ => none
    parseTwitchEmotes := fun _ _ _ => []
    processIgnorePhrases := fun content emotes => (content, emotes)
    rangesSort := stableSortByStart
    highlightCheck := fun _ _ _ _ _ => none
    whisperColor := ⟨true, 0x0000FF⟩
    openEmoteChannelScaleForName := fun _ => 1000
    caseFolded := qFoldCase }

/-- A channel that is not a Twitch channel. -/
def sampleChannel : Channel :=
  { name := "forsen".toList, isMod := false, isBroadcaster := false, isEmpty := false,
    messageSnapshot := [], twitch := none }

/-- A Twitch channel without emotes and badges. -/
def sampleTwitchChannel (name roomId : String) : TwitchChannel :=
  { name := name.toList
    roomId := roomId.toList
    ffzEmote := fun _ => none
    bttvEmote := fun _ => none
    seventvEmote := fun _ => none
    cheerEmote := fun _ => none
    getUserColor := fun _ => QColor.invalid
    chatters := []
    twitchBadge := fun _ _ => none
    ffzCustomModBadge := none
    ffzCustomVipBadge := none
    ffzChannelBadges := fun _ => []
    channelPointReward := fun _ => none }

/-- The plain message `hello chat` of the user `user`, without tags. -/
def samplePlainMessage : IrcMessage := { nick := "user".toList, tags := [] }

def sampleEmote (name : String) : Emote := { name := name.toList, tooltip := [], zeroWidth := false }

/-- An application whose only emote sits in the cross-channel cache, with the
cross-channel setting on. -/
def crossChannelApp : App :=
  { sampleApp with
    settings := { sampleSettings with openEmoteEnableCrossChannelEmotes := true }
    crossCache :=
      { bttv := [], ffz := [("Kappa".toList, sampleEmote "Kappa")], seventv := [], signature := [],
        builtAtMs := 0 } }

/-- An application with one ignore phrase that replaces `chat` by `***`. -/
def replacingApp : App :=
  { sampleApp with
    processIgnorePhrases := fun content emotes =>
      (qReplaceAll content "chat".toList "***".toList, emotes) }

/-- An application without coloured nicknames. -/
def plainNicknameApp : App :=
  { sampleApp with settings := { sampleSettings with colorizeNicknames := false } }

def sampleOccurrence (start : Int) (name : String) : TwitchEmoteOccurrence :=
  { start := start, end_ := start + name.length - 1, ptr := some (sampleEmote name),
    name := name.toList }

/-- Seventeen emoteoccurrences declared for the same offset 0. -/
def sameStartOccurrences : List TwitchEmoteOccurrence :=
  ["Kappa", "Keepo", "PogChamp", "LUL", "Kreygasm", "BibleThump", "DansGame", "SwiftRage",
    "ResidentSleeper", "NotLikeThis", "FailFish", "HeyGuys", "VoHiYo", "WutFace", "SeemsGood",
    "CoolCat", "TriHard"].map (sampleOccurrence 0)

/-- The priority the specification gives for the user name colour: the first of
the three candidates that is there, otherwise the colour stays. -/
def usernameColorPriority (override tagColor random : Option QColor) (initial : QColor) :
    QColor :=
  override.getD (tagColor.getD (random.getD initial))

/-- The element sequence the specification gives for the plain-text scenario:
a timestamp, the user name `user:`, the text `hello`, the text `chat`. -/
def isSpecifiedPlainTextSequence (elements : List MessageElement) : Bool :=
  match (elements.map (fun e => e.kind) : List ElementKind) with
  | [ElementKind.TimestampElement _, ElementKind.TextElement u _ _,
      ElementKind.TextElement h _ _, ElementKind.TextElement c _ _] =>
    u == ["user:".toList] && h == ["hello".toList] && c == ["chat".toList]
  | _ => false

/-- A source channel of a shared chat: the Twitch channel `xqc` with room id 2. -/
def sampleSourceChannel : Channel :=
  { name := "xqc".toList, isMod := false, isBroadcaster := false, isEmpty := false,
    messageSnapshot := [], twitch := some (sampleTwitchChannel "xqc" "2") }

/-- An application in which the channel with room id 2 is open. -/
def relayApp : App :=
  { sampleApp with
    getChannelOrEmptyByID := fun id =>
      if id = "2".toList then some sampleSourceChannel else some emptyChannel }

/-- The tags of a message relayed from the room with id 2. -/
def relayTags : QVariantMap := [("source-room-id".toList, "2".toList)]

/-- The tags of a message of the user with id 42. -/
def userIdTags : QVariantMap := [("user-id".toList, "42".toList)]

/-- The elements `makeIrcMessage` builds in the plain-text scenario (the user
`user` writes `hello chat`, no tags): the channel name, the moderation element
unless the sender is the broadcaster, the user name, one text element with the
two words, the reply button and, when timestamps are shown, the timestamp. -/
def plainTextElements (app : App) (channel : Channel) : List MessageElement :=
  [(mkText ('#' :: channel.name) MessageElementFlag.ChannelName.mask .System).setLink
    ⟨.JumpToChannel, channel.name⟩] ++
  (if "user".toList = channel.name then []
    else [{ kind := .TwitchModerationElement, flags := MessageElementFlag.ModeratorTools.mask }]) ++
  [(mkText "user:".toList MessageElementFlag.Username.mask
      (.Custom (({} : MessageBuilder).parseUsernameColor app [] []).usernameColor_)
      .ChatMediumBold).setLink ⟨.UserInfo, []⟩,
    { kind := .TextElement ["hello".toList, "chat".toList] .Text .ChatMedium,
      flags := MessageElementFlag.Text.mask },
    { kind := .CircularImageElement .replyDark 2, flags := MessageElementFlag.ReplyButton.mask,
      link := some ⟨.ReplyToMessage, []⟩ }] ++
  (if app.settings.showTimestamps then
    [{ kind := .TimestampElement (some (app.calculateMessageTime samplePlainMessage)),
       flags := MessageElementFlag.Timestamp.mask }]
  else [])

/-- The channel `makeIrcMessage` works with in the plain-text scenario: the
Twitch channel, if it is one, after `parseUsername` has stored the colour of
the sender. -/
def plainTextTwitchChannel (app : App) (channel : Channel) : Option TwitchChannel :=
  channel.twitch.map (fun tc => app.setUserColor tc "user".toList
    (({} : MessageBuilder).parseUsernameColor app [] []).message.usernameColor)

/-- The conditions of the plain-text scenario: nothing is configured that would
turn `hello chat` of the user `user` into anything but plain text. -/
structure PlainTextScenario (app : App) (channel : Channel) : Prop where
  notIgnored : isIgnored app "hello chat".toList [] channel = false
  fullHeader : app.settings.openEmoteCompactHeaderLayout = false
  noGapsOnly : app.settings.openEmoteTimestampGapsOnly = false
  noNickname : app.settings.matchNickname "user".toList = none
  noAllUsernames : app.settings.findAllUsernames = false
  emptyTag : app.parseTagString [] = []
  noTwitchBadges : app.parseBadgeTag [] = []
  noChatterinoBadge : app.chatterinoBadge [] = none
  noFfzBadges : app.ffzUserBadges [] = []
  noFfzChannelBadges : ∀ tc, plainTextTwitchChannel app channel = some tc →
    tc.ffzChannelBadges [] = []
  noBttvBadge : app.bttvBadge [] = none
  noSeventvBadge : app.seventvBadge [] = none
  noTwitchEmotes : app.parseTwitchEmotes [] "hello chat".toList 0 = []
  noIgnorePhrase : app.processIgnorePhrases "hello chat".toList [] = ("hello chat".toList, [])
  sortEmpty : app.rangesSort [] = []
  noEmoji : app.emojiParse "hello".toList = [.inr "hello".toList] ∧
    app.emojiParse "chat".toList = [.inr "chat".toList]
  noEmote : parseEmote app (plainTextTwitchChannel app channel) "hello".toList = none ∧
    parseEmote app (plainTextTwitchChannel app channel) "chat".toList = none
  noLink : app.linkParse "hello".toList = none ∧ app.linkParse "chat".toList = none

/-- The message `makeIrcMessage` builds from the sample collaborators in the
plain-text scenario. -/
def samplePlainResult : Message :=
  { elements := plainTextElements sampleApp sampleChannel
    flags := MessageFlag.Collapsed.mask
    channelName := "forsen".toList
    loginName := "user".toList
    serverReceivedTime := some 1000
    messageText := "hello chat".toList
    searchText := "user  user: hello chat ".toList }

/-- What is known of the builder while `makeIrcMessage` works on the plain-text
scenario: its elements, its colours, the names of the sender and the server
time. -/
structure PlainTextState (app : App) (b : MessageBuilder) (elements : List MessageElement)
    (time : QDateTime) : Prop where
  elements_eq : b.message.elements = elements
  textColor_eq : b.textColor_ = .Text
  usernameColor_eq :
    b.usernameColor_ = (({} : MessageBuilder).parseUsernameColor app [] []).usernameColor_
  loginName_eq : b.message.loginName = "user".toList
  displayName_eq : b.message.displayName = []
  localizedName_eq : b.message.localizedName = []
  userID_eq : b.message.userID = []
  nickname_eq : b.message.openEmotePreferredNickname = []
  id_eq : b.message.id = []
  time_eq : b.message.serverReceivedTime = time
  flags_eq : b.message.flags = MessageFlag.Collapsed.mask

/-! ## JSON values (`QJsonValue`, `QJsonObject`)

A number is the finite double `mantissa / 2 ^ shift`.  An object is the list of
its members in the order in which Qt iterates over them. -/

inductive QJsonValue where
  | null
  | bool (value : Bool)
  | double (mantissa : Int) (shift : Nat)
  | string (value : QString)
  | array (items : List QJsonValue)
  | object (members : List (QString × QJsonValue))
  | undefined

abbrev QJsonObject := List (QString × QJsonValue)

/-- The function `QJsonObject::value(key)`: `Undefined` when the key is not
there. -/
def QJsonObject.value (obj : QJsonObject) (key : String) : QJsonValue :=
  match obj.find? (fun member => member.1 = key.toList) with
  | some member => member.2
  | none => .undefined

def QJsonValue.isString : QJsonValue → Bool
  | .string _ => true
  | _ => false

def QJsonValue.isObject : QJsonValue → Bool
  | .object _ => true
  | _ => false

/-- The function `QJsonValue::toString()`: the null string for a value that is
not a string. -/
def QJsonValue.toString : QJsonValue → QString
  | .string value => value
  | _ => []

def QJsonValue.toObject : QJsonValue → QJsonObject
  | .object members => members
  | _ => []

/-- The function `QString::endsWith(suffix, Qt::CaseInsensitive)`. -/
def qEndsWithCaseInsensitive (s suffix : QString) : Bool :=
  decide (suffix.length ≤ s.length) &&
    (s.drop (s.length - suffix.length)).map qFoldCase == suffix.map qFoldCase

/-- The test `QString::compare(other, Qt::CaseInsensitive) == 0`. -/
def qEqualsCaseInsensitive (s other : QString) : Bool :=
  s.map qFoldCase == other.map qFoldCase

def MAX_LEGACY_SETTINGS_JSON_BYTES : Int := 4 * 1024 * 1024

def MAX_IMPORTED_JSON_FILE_BYTES : Int := 8 * 1024 * 1024

def MAX_IMPORTED_SETTINGS_FILES : Int := 256

/-- What `QFileInfo` and `QFile` tell about one entry of the source directory:
`content` is what `readAll()` gives, `none` when the file cannot be opened. -/
structure SourceFile where
  fileName : QString
  isFile : Bool
  isSymLink : Bool
  size : Int
  content : Option QByteArray
deriving DecidableEq, Repr

/-- The files of the target directory: their names and contents. -/
abbrev TargetFiles := List (QString × QByteArray)

/-- The file system and the library `importLegacySettingsFiles` works with.  The
paths are `QDir::cleanPath(dir.absolutePath())` of the two directories;
`sourceFiles` is `source.entryInfoList(QDir::Files | QDir::NoDotAndDotDot)`,
`none` when the source directory does not exist; `target` is `none` when the
target directory does not exist, and `mkpath` tells whether it can be made;
`jsonAccepted` tells whether `QJsonDocument::fromJson` reads the bytes without
error as an object or an array; `removeAllowed` and `copyAllowed` tell whether
the file system lets `QFile::remove` delete and `QFile::copy` create the file
of that name in the target directory. -/
structure ImportEnvironment where
  sourcePath : QString
  targetPath : QString
  sourceFiles : Option (List SourceFile)
  target : Option TargetFiles
  mkpath : Bool
  jsonAccepted : QByteArray → Bool
  removeAllowed : QString → Bool
  copyAllowed : QString → Bool

/-- The content of the file of that name in the target directory. -/
def targetLookup (target : TargetFiles) (name : QString) : Option QByteArray :=
  (target.find? (fun entry => entry.1 = name)).map (fun entry => entry.2)

/-- The function `QFile::remove(destination)`. -/
def removeFile (env : ImportEnvironment) (target : TargetFiles) (name : QString) : TargetFiles :=
  if env.removeAllowed name then target.filter (fun entry => entry.1 ≠ name) else target

/-- The function `QFile::copy(file, destination)`: it does not overwrite; the
new directory, or `none` when nothing was copied. -/
def copyFile (env : ImportEnvironment) (target : TargetFiles) (name : QString)
    (content : QByteArray) : Option TargetFiles :=
  if (targetLookup target name).isSome then none
  else if env.copyAllowed name then some (target ++ [(name, content)])
  else none

/-- The body of the loop of `importLegacySettingsFiles` for a file that counts
towards the cap, from `destination` on: whether the file was copied, and the
target directory afterwards. -/
def importFile (env : ImportEnvironment) (file : SourceFile) (target : TargetFiles) :
    Bool × TargetFiles :=
  let overwriteExisting := qEqualsCaseInsensitive file.fileName "window-layout.json".toList
  match file.content with
  | none => (false, target)
  | some bytes =>
    if !env.jsonAccepted bytes then (false, target)
    else if (targetLookup target file.fileName).isSome && !overwriteExisting then (false, target)
    else
      let cleared := if overwriteExisting then removeFile env target file.fileName else target
      match copyFile env cleared file.fileName bytes with
      | some written => (true, written)
      | none => (false, cleared)

/-- The loop of `importLegacySettingsFiles` over the entries of the source
directory: the counters `copied` and `considered` and the target directory. -/
def importLoop (env : ImportEnvironment) :
    List SourceFile → Int → Int → TargetFiles → Int × TargetFiles
  | [], copied, _, target => (copied, target)
  | file :: files, copied, considered, target =>
    if !qEndsWithCaseInsensitive file.fileName ".json".toList then
      importLoop env files copied considered target
    else if !file.isFile || file.isSymLink then importLoop env files copied considered target
    else if file.size < 0 || file.size > MAX_IMPORTED_JSON_FILE_BYTES then
      importLoop env files copied considered target
    else if considered ≥ MAX_IMPORTED_SETTINGS_FILES then (copied, target)
    else
      importLoop env files
        (if (importFile env file target).1 then copied + 1 else copied) (considered + 1)
        (importFile env file target).2

/-- The function `importLegacySettingsFiles`: the number it returns and the
target directory afterwards. -/
def importLegacySettingsFiles (env : ImportEnvironment) : Int × Option TargetFiles :=
  if env.sourcePath = env.targetPath then (0, env.target)
  else
    match env.sourceFiles with
    | none => (0, env.target)
    | some files =>
      match env.target with
      | none =>
        if !env.mkpath then (0, none)
        else
          let result := importLoop env files 0 0 []
          (result.1, some result.2)
      | some target =>
        let result := importLoop env files 0 0 target
        (result.1, some result.2)

/-- The file `settings.json` of the source directory as `QFile` reads it. -/
structure LegacySettingsFile where
  size : Int
  content : QByteArray
deriving DecidableEq, Repr

/-- The function `loadLegacySettingsObject`.  `file` is `none` when
`settings.json` cannot be opened; `fromJson` is `QJsonDocument::fromJson`, `none`
for a parse error, otherwise the root of the document. -/
def loadLegacySettingsObject (fromJson : QByteArray → Option QJsonValue)
    (file : Option LegacySettingsFile) : QJsonObject :=
  match file with
  | none => []
  | some settings =>
    if settings.size < 0 || settings.size > MAX_LEGACY_SETTINGS_JSON_BYTES then []
    else
      match fromJson settings.content with
      | none => []
      | some parsed => if !parsed.isObject then [] else parsed.toObject

structure LegacyTwitchAccount where
  username : QString
  userID : QString
  clientID : QString
  oauthToken : QString
deriving DecidableEq, Repr

structure LegacyTwitchAccountsPayload where
  currentUsername : QString := []
  accounts : List LegacyTwitchAccount := []
deriving DecidableEq, Repr

/-- The account `loadLegacyTwitchAccounts` reads from one member of `accounts`. -/
def parseLegacyAccount (account : QJsonObject) : LegacyTwitchAccount :=
  { username := trimmed (account.value "username").toString
    userID := trimmed (account.value "userID").toString
    clientID := trimmed (account.value "clientID").toString
    oauthToken := trimmed (account.value "oauthToken").toString }

/-- The loop of `loadLegacyTwitchAccounts` over the members of `accounts`:
`seenUserIDs` and the accounts collected so far. -/
def legacyAccountsLoop :
    List (QString × QJsonValue) → List QString → List LegacyTwitchAccount →
    List LegacyTwitchAccount
  | [], _, accounts => accounts
  | (key, value) :: members, seenUserIDs, accounts =>
    if key = "current".toList || !value.isObject then
      legacyAccountsLoop members seenUserIDs accounts
    else if (parseLegacyAccount value.toObject).username.isEmpty ||
        (parseLegacyAccount value.toObject).userID.isEmpty ||
        (parseLegacyAccount value.toObject).clientID.isEmpty ||
        (parseLegacyAccount value.toObject).oauthToken.isEmpty then
      legacyAccountsLoop members seenUserIDs accounts
    else if seenUserIDs.contains (parseLegacyAccount value.toObject).userID then
      legacyAccountsLoop members seenUserIDs accounts
    else
      legacyAccountsLoop members ((parseLegacyAccount value.toObject).userID :: seenUserIDs)
        (accounts ++ [parseLegacyAccount value.toObject])

/-- The function `loadLegacyTwitchAccounts`. -/
def loadLegacyTwitchAccounts (fromJson : QByteArray → Option QJsonValue)
    (file : Option LegacySettingsFile) : LegacyTwitchAccountsPayload :=
  let accountsValue := (loadLegacySettingsObject fromJson file).value "accounts"
  if !accountsValue.isObject then {}
  else
    { currentUsername := trimmed (accountsValue.toObject.value "current").toString
      accounts := legacyAccountsLoop accountsValue.toObject [] [] }

/-- The function `pickImportedCurrentUsername`; `equalsIgnoringCase` is the
comparison `QStringList::contains(.., Qt::CaseInsensitive)` makes. -/
def pickImportedCurrentUsername (equalsIgnoringCase : QString → QString → Bool)
    (legacyCurrentUsername : QString) (importedUsernames : List QString)
    (existingCurrentUsername : QString) : Option QString :=
  if !legacyCurrentUsername.isEmpty &&
      importedUsernames.any (fun name => equalsIgnoringCase name legacyCurrentUsername) then
    some legacyCurrentUsername
  else if !existingCurrentUsername.isEmpty then none
  else if importedUsernames.isEmpty then none
  else importedUsernames.head?

/-- The conversion `static_cast<int>(n)` of a size. -/
def castToInt (n : Nat) : Int := ((n : Int) + 2147483648) % 4294967296 - 2147483648

/-- The function `countLegacyTwitchAccounts`. -/
def countLegacyTwitchAccounts (fromJson : QByteArray → Option QJsonValue)
    (file : Option LegacySettingsFile) : Int :=
  castToInt (loadLegacyTwitchAccounts fromJson file).accounts.length

/-! ## `providers/openemote/OpenEmoteApiClient.cpp` -/

/-- The function `requireString`: the string, or the error message. -/
def requireString (obj : QJsonObject) (key : String) : Except QString QString :=
  if !(obj.value key).isString then .error ("Missing string field: ".toList ++ key.toList)
  else .ok (obj.value key).toString

def DEFAULT_CRASH_UPLOAD_URL : QString := "https://openemote.com/crash".toList

/-- The environment the crash handler reads, and the build: the values of
`OPENEMOTE_DEV_CRASH_REPORTS` and `OPENEMOTE_CRASH_UPLOAD_URL` (`none` when the
variable is not set), what `qEnvironmentVariableIntValue` reads from
`OPENEMOTE_DEV_CRASH_REPORTS`, and whether `NDEBUG` is defined. -/
structure CrashEnvironment where
  devCrashReports : Option QString
  crashUploadUrl : Option QString
  devCrashReportsIntValue : Int
  ndebug : Bool

/-- The function `qEnvironmentVariable`: the null string when the variable is
not set. -/
def qEnvironmentVariable (value : Option QString) : QString := value.getD []

/-- The function `CrashHandler::isCrashUploadForcedInDevMode`. -/
def isCrashUploadForcedInDevMode (env : CrashEnvironment) : Bool :=
  if !env.ndebug then
    (qEnvironmentVariable env.devCrashReports).isEmpty ||
      qEnvironmentVariable env.devCrashReports != "0".toList
  else env.devCrashReportsIntValue == 1

/-- The function `CrashHandler::hasCrashUploadUrlOverride`. -/
def hasCrashUploadUrlOverride (env : CrashEnvironment) : Bool :=
  env.crashUploadUrl.isSome && !(trimmed (qEnvironmentVariable env.crashUploadUrl)).isEmpty

/-- The function `CrashHandler::shouldUploadCrashReportsAtRuntime`. -/
def shouldUploadCrashReportsAtRuntime (env : CrashEnvironment) (persistedUserPreference : Bool) :
    Bool :=
  if isCrashUploadForcedInDevMode env then hasCrashUploadUrlOverride env
  else persistedUserPreference

/-- The function `CrashHandler::crashUploadUrl`. -/
def crashUploadUrl (env : CrashEnvironment) : QString :=
  if (qEnvironmentVariable env.crashUploadUrl).isEmpty then DEFAULT_CRASH_UPLOAD_URL
  else qEnvironmentVariable env.crashUploadUrl

/-- The function `CrashHandler::crashUploadUrlForRuntime`. -/
def crashUploadUrlForRuntime (env : CrashEnvironment) : QString :=
  if isCrashUploadForcedInDevMode env && !hasCrashUploadUrlOverride env then []
  else crashUploadUrl env

/-! ## Definitions the statements below use -/

/-- The cheer emote `tryAppendCheermote` works with for a token: the one
`cheerEmote(string)` returns, when its expression matches the token. -/
def matchingCheerEmote (twitchChannel : TwitchChannel) (string : QString) : Option CheerEmote :=
  (twitchChannel.cheerEmote string).bind
    (fun cheerEmote => (cheerEmote.regexMatch string).map (fun _ => cheerEmote))

/-- The calls `tryAppendCheermote(state, token)` for the tokens of one message,
in order, on the same builder and the same text state: the outcomes, the
builder and the state afterwards. -/
def tryAppendCheermoteEach (app : App) (fuel : Nat) :
    List QString → MessageBuilder → TextState → Option (List Outcome × MessageBuilder × TextState)
  | [], b, state => some ([], b, state)
  | token :: tokens, b, state =>
    match MessageBuilder.tryAppendCheermote app fuel b state token with
    | none => none
    | some (outcome, b1, state1) =>
      match tryAppendCheermoteEach app fuel tokens b1 state1 with
      | none => none
      | some (outcomes, b2, state2) => some (outcome :: outcomes, b2, state2)

/-- The elements `cheerElements` adds. -/
def cheerElementList (app : App) (b : MessageBuilder) (state : TextState)
    (cheerEmote : CheerEmote) (amount : QString) : List MessageElement :=
  (if cheerEmote.staticEmote.isSome then
    [mkEmote cheerEmote.staticEmote MessageElementFlag.BitsStatic.mask b.textColor_
      (openEmoteChannelScaleForChannel app state.twitchChannel)] else []) ++
  (if cheerEmote.animatedEmote.isSome then
    [mkEmote cheerEmote.animatedEmote MessageElementFlag.BitsAnimated.mask b.textColor_
      (openEmoteChannelScaleForChannel app state.twitchChannel)] else []) ++
  (if cheerEmote.color ≠ QColor.invalid then
    [mkText amount MessageElementFlag.BitsAmount.mask (.Custom cheerEmote.color)] else [])

/-- The complete accounts among the members of `accounts`, in the order of the
members: what passes the first two tests of the loop of
`loadLegacyTwitchAccounts`. -/
def completeLegacyAccounts : List (QString × QJsonValue) → List LegacyTwitchAccount
  | [] => []
  | (key, value) :: members =>
    if key = "current".toList || !value.isObject then completeLegacyAccounts members
    else if (parseLegacyAccount value.toObject).username.isEmpty ||
        (parseLegacyAccount value.toObject).userID.isEmpty ||
        (parseLegacyAccount value.toObject).clientID.isEmpty ||
        (parseLegacyAccount value.toObject).oauthToken.isEmpty then
      completeLegacyAccounts members
    else parseLegacyAccount value.toObject :: completeLegacyAccounts members

/-- The three tests of the loop of `importLegacySettingsFiles` that come before
the cap: the name ends in `.json` ignoring case, the entry is a regular file
and no symbolic link, and its size is at most 8 MiB. -/
def passesImportFilters (file : SourceFile) : Bool :=
  qEndsWithCaseInsensitive file.fileName ".json".toList && file.isFile && !file.isSymLink &&
    decide (0 ≤ file.size) && decide (file.size ≤ MAX_IMPORTED_JSON_FILE_BYTES)

/-- Whether the loop of `importLegacySettingsFiles` copies a file it considers,
told from the target directory as it is before the file's turn. -/
def isCopiedByImport (env : ImportEnvironment) (target : TargetFiles) (file : SourceFile) : Bool :=
  match file.content with
  | none => false
  | some bytes =>
    env.jsonAccepted bytes &&
      (if qEqualsCaseInsensitive file.fileName "window-layout.json".toList then
        ((targetLookup target file.fileName).isNone || env.removeAllowed file.fileName) &&
          env.copyAllowed file.fileName
      else (targetLookup target file.fileName).isNone && env.copyAllowed file.fileName)

/-- Whether the loop of `importLegacySettingsFiles` deletes the file of this
name from the target directory when it considers the file: the file is read
and accepted as JSON, its name is `window-layout.json` ignoring case, and the
file system lets `QFile::remove` delete it. -/
def isRemovedByImport (env : ImportEnvironment) (file : SourceFile) : Bool :=
  match file.content with
  | none => false
  | some bytes =>
    env.jsonAccepted bytes &&
      qEqualsCaseInsensitive file.fileName "window-layout.json".toList &&
      env.removeAllowed file.fileName

/-- The files of the old target directory that are still there after the loop
has considered the files `considered`: those the loop did not delete. -/
def keptEntries (env : ImportEnvironment) (target : TargetFiles)
    (considered : List SourceFile) : TargetFiles :=
  target.filter (fun entry =>
    considered.all (fun file => !(isRemovedByImport env file && decide (file.fileName = entry.1))))

/-- The files the loop writes into the target directory when it considers the
files `considered`: for every copied file, its name and the bytes of the source
file. -/
def copiedEntries (env : ImportEnvironment) (target : TargetFiles)
    (considered : List SourceFile) : TargetFiles :=
  (considered.filter (isCopiedByImport env target)).filterMap
    (fun file => file.content.map (fun bytes => (file.fileName, bytes)))

/-- A cheer emote for tokens `Cheer<digits>`, with both emotes and a colour. -/
def sampleCheerEmote : CheerEmote :=
  { regexMatch := fun string =>
      if string.take 5 = "Cheer".toList ∧ (parseDigits (string.drop 5) 0).isSome ∧
          string.drop 5 ≠ [] then some (string.drop 5)
      else none
    staticEmote := some (sampleEmote "Cheer")
    animatedEmote := some (sampleEmote "CheerAnimated")
    color := ⟨true, 0x9C3EE8⟩ }

/-- A Twitch channel whose only cheer emote has the prefix `Cheer`. -/
def cheerChannel : TwitchChannel :=
  { sampleTwitchChannel "forsen" "1" with
    cheerEmote := fun string =>
      if string.take 5 = "Cheer".toList then some sampleCheerEmote else none }

/-- The sample application with `stackBits` on. -/
def stackingApp : App :=
  { sampleApp with settings := { sampleSettings with stackBits := true } }

/-- The text state of a message with the tag `bits=600` in the cheer channel. -/
def cheerState : TextState :=
  { twitchChannel := some cheerChannel, hasBits := true, bitsLeft := 600 }

/-- A zero-width emote. -/
def sampleZeroWidthEmote (name : String) : Emote :=
  { name := name.toList, tooltip := [], zeroWidth := true }

/-- An application whose global 7TV emotes hold the zero-width emote
`RainTime`. -/
def zeroWidthApp : App :=
  { sampleApp with
    globalSeventvEmote := fun name =>
      if name = "RainTime".toList then some (sampleZeroWidthEmote "RainTime") else none }

/-- The environment of a developer build with both variables unset. -/
def sampleCrashEnvironment : CrashEnvironment :=
  { devCrashReports := none, crashUploadUrl := none, devCrashReportsIntValue := 0,
    ndebug := false }

/-- Equality ignoring case for names in ASCII. -/
def sampleEqualsIgnoringCase (a b : QString) : Bool := qEqualsCaseInsensitive a b

/-- A stand-in for `QJsonDocument::fromJson`: the bytes are accepted when they
start with an opening brace or bracket. -/
def sampleJsonAccepted (bytes : QByteArray) : Bool :=
  bytes.head? == some 123 || bytes.head? == some 91

/-- A regular source file with that name and content. -/
def sampleSourceFile (name : QString) (content : String) : SourceFile :=
  { fileName := name, isFile := true, isSymLink := false,
    size := (toUtf8 content.toList).length, content := some (toUtf8 content.toList) }

/-- The directories of the test `ImportsSettingsButOnlyOverwritesWindowLayout`. -/
def sampleImportEnvironment : ImportEnvironment :=
  { sourcePath := "/tmp/source".toList
    targetPath := "/tmp/target".toList
    sourceFiles := some
      [sampleSourceFile "commands.json".toList "\x7b\"commands\":\"source\"\x7d",
        sampleSourceFile "settings.json".toList "\x7b\"settings\":\"source\"\x7d",
        sampleSourceFile "window-layout.json".toList "\x7b\"layout\":\"source\"\x7d"]
    target := some
      [("settings.json".toList, toUtf8 "\x7b\"settings\":\"target\"\x7d".toList),
        ("window-layout.json".toList, toUtf8 "\x7b\"layout\":\"target\"\x7d".toList)]
    mkpath := true
    jsonAccepted := sampleJsonAccepted
    removeAllowed := fun _ => true
    copyAllowed := fun _ => true }

/-- The directories of the test `SkipsInvalidWindowLayoutImport`. -/
def invalidLayoutEnvironment : ImportEnvironment :=
  { sampleImportEnvironment with
    sourceFiles := some [sampleSourceFile "window-layout.json".toList "this-is-not-json"]
    target := some [("window-layout.json".toList, toUtf8 "target-layout".toList)] }

/-- A source and a target directory that both hold `WINDOW-LAYOUT.JSON`. -/
def upperCaseEnvironment : ImportEnvironment :=
  { sampleImportEnvironment with
    sourceFiles := some [sampleSourceFile "WINDOW-LAYOUT.JSON".toList "\x7b\"layout\":\"source\"\x7d"]
    target := some [("WINDOW-LAYOUT.JSON".toList, toUtf8 "\x7b\"layout\":\"target\"\x7d".toList)] }

/-- The name of the `i`-th generated file: two letters and the extension. -/
def sampleFileName (i : Nat) (extension : String) : QString :=
  Char.ofNat (97 + i / 26) :: Char.ofNat (97 + i % 26) :: extension.toList

/-- A source directory with `others` files `*.txt` and `count` importable files
`*.json`, and an empty target directory. -/
def manyFilesEnvironment (count others : Nat) : ImportEnvironment :=
  { sampleImportEnvironment with
    sourceFiles := some
      ((List.range others).map (fun i => sampleSourceFile (sampleFileName i ".txt") "\x7b\x7d") ++
        (List.range count).map (fun i => sampleSourceFile (sampleFileName i ".json") "\x7b\x7d"))
    target := some [] }

/-- An account object of `settings.json`. -/
def sampleAccountJson (username userID clientID oauthToken : String) : QJsonValue :=
  .object
    [("clientID".toList, .string clientID.toList),
      ("oauthToken".toList, .string oauthToken.toList),
      ("userID".toList, .string userID.toList),
      ("username".toList, .string username.toList)]

/-- The settings of the test `LoadsLegacyAccountsPayloadAndDeduplicatesUserIds`. -/
def sampleSettingsJson : QJsonValue :=
  .object
    [("accounts".toList, .object
      [("current".toList, .string " orbinyan ".toList),
        ("uid123".toList, sampleAccountJson "orbinyan" "123" "a" "oauth:a"),
        ("uid123dup".toList, sampleAccountJson "orbinyan2" "123" "b" "oauth:b"),
        ("uid124".toList, sampleAccountJson "mod_user" "124" "c" "oauth:c")])]

/-- A stand-in for `QJsonDocument::fromJson`: bytes that start with an opening
brace are read as the sample settings, everything else is a parse error. -/
def sampleFromJson (bytes : QByteArray) : Option QJsonValue :=
  if bytes.head? = some 123 then some sampleSettingsJson else none

/-- A `settings.json` with the given content. -/
def sampleSettingsFile (content : String) : LegacySettingsFile :=
  { size := (toUtf8 content.toList).length, content := toUtf8 content.toList }
/-! ## `providers/platform/PlatformRegistry.cpp` -/

inductive Kind
  | Twitch
  | Kick
  | OpenStreaming
deriving DecidableEq, Repr

/-- What the registry reads of an adapter (`IAdapter`). -/
structure IAdapter where
  id : QString
  displayName : QString
  kind : Kind
deriving DecidableEq, Repr

structure PlatformRegistry where
  adapters_ : List IAdapter := []
deriving DecidableEq, Repr

/-- The test `a.compare(b, Qt::CaseInsensitive) == 0`: both strings have the
same case-folded characters; `caseFolded` is the case folding of one
character. -/
def qCompareFolded (caseFolded : Char → Char) (a b : QString) : Bool :=
  a.map caseFolded == b.map caseFolded

/-- The function `PlatformRegistry::findById`. -/
def PlatformRegistry.findById (caseFolded : Char → Char) (registry : PlatformRegistry)
    (id : QString) : Option IAdapter :=
  registry.adapters_.find? (fun adapter => qCompareFolded caseFolded adapter.id id)

/-- The function `PlatformRegistry::registerAdapter`: the result and the
registry afterwards; `none` is the null pointer. -/
def PlatformRegistry.registerAdapter (caseFolded : Char → Char) (registry : PlatformRegistry)
    (adapter : Option IAdapter) : Bool × PlatformRegistry :=
  match adapter with
  | none => (false, registry)
  | some a =>
    if (registry.findById caseFolded a.id).isSome then (false, registry)
    else (true, { registry with adapters_ := registry.adapters_ ++ [a] })

/-- A sequence of calls of `registerAdapter`. -/
def registerAdapters (caseFolded : Char → Char) :
    List (Option IAdapter) → PlatformRegistry → PlatformRegistry
  | [], registry => registry
  | adapter :: rest, registry =>
    registerAdapters caseFolded rest (registry.registerAdapter caseFolded adapter).2

/-! ## `singletons/CrashHandler.cpp`: the arguments of a restart -/

/-- The call `arg.replace(u'+', u"++")`. -/
def escapePlus (arg : QString) : QString :=
  arg.flatMap (fun c => if c = '+' then ['+', '+'] else [c])

/-- The function `encodeArguments`: the bytes of the `std::string`. -/
def encodeArguments (currentArguments : List QString) : QByteArray :=
  currentArguments.foldl
    (fun args arg => (if !args.isEmpty then args ++ [43] else args) ++ toUtf8 (escapePlus arg)) []

/-! ## `messages/MessageBuilder.cpp`: the cross-channel emote cache -/

/-- What `getCrossChannelEmoteCache` reads of one channel that
`forEachChannel` visits: its name and the entries of its three emote maps
(`none` for a null map). -/
structure CrossChannelSource where
  name : QString
  bttvEmotes : Option (List (QString × Emote))
  ffzEmotes : Option (List (QString × Emote))
  seventvEmotes : Option (List (QString × Emote))
deriving DecidableEq, Repr

/-- What `getCrossChannelEmoteCache` reads besides the cache: the four
settings, `QDateTime::currentMSecsSinceEpoch()`, the channels in the order in
which `forEachChannel` visits them (`none` for a channel that is no
`TwitchChannel`) and the library call `QString::arg`. -/
structure CrossChannelEnvironment where
  openEmoteEnableCrossChannelEmotes : Bool
  openEmoteCrossChannelEmotesAllowlistMode : Bool
  openEmoteCrossChannelEmotesAllowChannels : QString
  openEmoteCrossChannelEmotesBlockChannels : QString
  currentMSecsSinceEpoch : Int
  channels : List (Option CrossChannelSource)
  arg : QString → QString → QString

/-- The function `normalizeCrossChannelName`. -/
def normalizeCrossChannelName (name : QString) : QString :=
  (toLower (trimmed name)).dropWhile (fun c => c == '#')

/-- The function `parseCrossChannelSet`; the set is kept as a list. -/
def parseCrossChannelSet (csv : QString) : List QString :=
  (((qSplit ',' csv).filter (fun entry => !entry.isEmpty)).map normalizeCrossChannelName).filter
    (fun normalized => !normalized.isEmpty)

/-- The function `isCrossChannelAllowed`. -/
def isCrossChannelAllowed (sourceChannelName : QString) (allowChannels blockChannels : List QString)
    (allowlistOnly : Bool) : Bool :=
  if sourceChannelName.isEmpty || blockChannels.contains sourceChannelName then false
  else if allowlistOnly then allowChannels.contains sourceChannelName
  else true

/-- The function `crossChannelEmoteCacheSignature`. -/
def crossChannelEmoteCacheSignature (env : CrossChannelEnvironment) : QString :=
  env.arg
    (env.arg
      (env.arg
        (env.arg "%1|%2|%3|%4".toList
          (if env.openEmoteEnableCrossChannelEmotes then "1".toList else "0".toList))
        (if env.openEmoteCrossChannelEmotesAllowlistMode then "1".toList else "0".toList))
      env.openEmoteCrossChannelEmotesAllowChannels)
    env.openEmoteCrossChannelEmotesBlockChannels

/-- The lambda `mergeInto`: an entry is inserted unless its name is there. -/
def mergeInto (map : List (QString × Emote)) (out : List (QString × Emote)) :
    List (QString × Emote) :=
  map.foldl (fun acc entry =>
    if (acc.find? (fun kv => kv.1 == entry.1)).isSome then acc else acc ++ [entry]) out

/-- The body of the lambda passed to `forEachChannel`. -/
def mergeChannel (allowChannels blockChannels : List QString) (allowlistOnly : Bool)
    (cache : CrossChannelEmoteCache) (channel : Option CrossChannelSource) :
    CrossChannelEmoteCache :=
  match channel with
  | none => cache
  | some twitchChannel =>
    if !isCrossChannelAllowed (normalizeCrossChannelName twitchChannel.name) allowChannels
        blockChannels allowlistOnly then cache
    else
      let c1 := match twitchChannel.bttvEmotes with
        | some bttv => { cache with bttv := mergeInto bttv cache.bttv }
        | none => cache
      let c2 := match twitchChannel.ffzEmotes with
        | some ffz => { c1 with ffz := mergeInto ffz c1.ffz }
        | none => c1
      match twitchChannel.seventvEmotes with
      | some seventv => { c2 with seventv := mergeInto seventv c2.seventv }
      | none => c2

def TTL_MS : Int := 5000

/-- The function `getCrossChannelEmoteCache`: the cache afterwards, which is
also what the call returns. -/
def getCrossChannelEmoteCache (env : CrossChannelEnvironment) (cache : CrossChannelEmoteCache) :
    CrossChannelEmoteCache :=
  let signature := crossChannelEmoteCacheSignature env
  let now := env.currentMSecsSinceEpoch
  if cache.signature = signature ∧ now - cache.builtAtMs < TTL_MS then cache
  else
    let cleared : CrossChannelEmoteCache :=
      { bttv := [], ffz := [], seventv := [], signature := signature, builtAtMs := now }
    if !env.openEmoteEnableCrossChannelEmotes then cleared
    else
      env.channels.foldl
        (mergeChannel (parseCrossChannelSet env.openEmoteCrossChannelEmotesAllowChannels)
          (parseCrossChannelSet env.openEmoteCrossChannelEmotesBlockChannels)
          env.openEmoteCrossChannelEmotesAllowlistMode) cleared

/-! ## The layout of one line (`MessageLayoutContainer`) -/

/-- The enumeration `TextDirection`, which the test reads from the container. -/
inductive TextDirection
  | Neutral
  | RTL
  | LTR
deriving DecidableEq, Repr

/-- Modelled from the spec: the layout element of one word or image
(`MessageLayoutElement`; the layout classes are not under `src/`).  It holds
what the layout of a line reads: the text, the flags of the message element it
comes from, the direction of the text as the per-run script classification
gives it (`RTL` for an Arabic-range word, `LTR` for another word with letters,
`Neutral` for numbers, punctuation and images), the rendered width and the
trailing-space hint. -/
structure LayoutElement where
  text : QString
  flags : MessageElementFlags
  direction : TextDirection
  width : Nat
  trailingSpace : Bool := true
deriving DecidableEq, Repr

/-- Does the set of flags hold the flag? -/
def hasElementFlag (flags : MessageElementFlags) (flag : MessageElementFlag) : Bool :=
  flags.testBit flag.toCtorIdx

/-- Modelled from the spec: the overall direction of a message
(`MessageLayoutContainer` is not under `src/`).  The first text element whose
text is not direction-neutral decides; the message is `Neutral` when there is
none.  The rows of the test `RtlReordering` fix this rule: a body that starts
with a Latin word is `LTR` whatever follows. -/
def resolveTextDirection (elements : List LayoutElement) : TextDirection :=
  match elements.find? (fun e => hasElementFlag e.flags .Text && e.direction != .Neutral) with
  | none => .Neutral
  | some e => e.direction

/-- Modelled from the spec: the leading anchor elements that are pinned and
excluded from reordering, "username/@mention/badges at the very start". -/
def isAnchorElement (e : LayoutElement) : Bool :=
  hasElementFlag e.flags .Username || hasElementFlag e.flags .Mention ||
    hasElementFlag e.flags .BadgeSharedChannel || hasElementFlag e.flags .BadgeChannelAuthority ||
    hasElementFlag e.flags .BadgeSubscription || hasElementFlag e.flags .BadgePredictions ||
    hasElementFlag e.flags .BadgeVanity || hasElementFlag e.flags .BadgeChatterino ||
    hasElementFlag e.flags .BadgeFfz || hasElementFlag e.flags .BadgeBttv ||
    hasElementFlag e.flags .BadgeSevenTV

/-- Modelled from the spec: an element that follows the direction of its
neighbours: one without letters (numbers, punctuation, emotes) or a mention. -/
def isNeutralElement (e : LayoutElement) : Bool :=
  e.direction == .Neutral || hasElementFlag e.flags .Mention

/-- Modelled from the spec: a word written against the direction of the
message: a left-to-right word in a right-to-left message, a right-to-left word
otherwise. -/
def isOppositeElement (rtl : Bool) (e : LayoutElement) : Bool :=
  !isNeutralElement e && ((e.direction == .RTL) != rtl)

/-- Modelled from the spec: the reordering of the elements of a line after the
anchor (`MessageLayoutContainer` is not under `src/`).  The elements are read
in construction order.  A word against the direction of the message, and a
neutral element right after such a run, goes on the stack `swapped` (last one
first); any other element first moves the stack to the output and then
follows. -/
def reorderLoop (rtl : Bool) :
    List LayoutElement → List LayoutElement → List LayoutElement → List LayoutElement
  | [], swapped, correct => correct ++ swapped
  | e :: rest, swapped, correct =>
    if isOppositeElement rtl e || (isNeutralElement e && !swapped.isEmpty) then
      reorderLoop rtl rest (e :: swapped) correct
    else reorderLoop rtl rest [] (correct ++ swapped ++ [e])

/-- Modelled from the spec: the visual order of the elements after the anchor:
the sequence `reorderLoop` gives, read from the right in a right-to-left
message. -/
def visualOrder (direction : TextDirection) (body : List LayoutElement) : List LayoutElement :=
  if direction = .RTL then (reorderLoop true body [] []).reverse
  else reorderLoop false body [] []

/-- Modelled from the spec: "elements are placed left-to-right accumulating
width"; a trailing space adds the width of a space. -/
def placeElements (spaceWidth : Nat) : Nat → List LayoutElement → List (LayoutElement × Nat)
  | _, [] => []
  | x, e :: rest =>
    (e, x) :: placeElements spaceWidth
      (x + e.width + (if e.trailingSpace then spaceWidth else 0)) rest

/-- Modelled from the spec: the layout of the elements of a message that fits
one line (`beginLayout`, `addElement` for each element, `endLayout`): the
resolved direction and the elements in visual order, each with its x
position. -/
def layoutLine (spaceWidth : Nat) (elements : List LayoutElement) :
    TextDirection × List (LayoutElement × Nat) :=
  (resolveTextDirection elements,
    placeElements spaceWidth 0
      (elements.takeWhile isAnchorElement ++
        visualOrder (resolveTextDirection elements) (elements.dropWhile isAnchorElement)))

/-- The run under construction as a finished run; nothing when it is empty. -/
def closeRun (run : List LayoutElement) : List (List LayoutElement) :=
  match run with
  | [] => []
  | e :: rest => [e :: rest]

/-- The runs of a line after the anchor: a word against the direction of the
message starts a run, which goes on as long as such words and neutral elements
follow; every other element is a run of its own.  `run` is the run under
construction. -/
def directionRunsLoop (rtl : Bool) :
    List LayoutElement → List LayoutElement → List (List LayoutElement)
  | [], run => closeRun run
  | e :: rest, run =>
    if isOppositeElement rtl e || (isNeutralElement e && !run.isEmpty) then
      directionRunsLoop rtl rest (run ++ [e])
    else closeRun run ++ [e] :: directionRunsLoop rtl rest []

/-- The runs of the elements after the anchor. -/
def directionRuns (rtl : Bool) (body : List LayoutElement) : List (List LayoutElement) :=
  directionRunsLoop rtl body []

/-- A run of a line: one element, or a word against the direction of the
message followed by such words and neutral elements. -/
def IsDirectionRun (rtl : Bool) (run : List LayoutElement) : Prop :=
  ∃ e rest, run = e :: rest ∧ (rest ≠ [] → isOppositeElement rtl e = true) ∧
    ∀ x ∈ rest, isOppositeElement rtl x = true ∨ isNeutralElement x = true

/-- The run under construction: empty, or started by a word against the
direction of the message. -/
def IsOpenRun (rtl : Bool) (run : List LayoutElement) : Prop :=
  run = [] ∨ ∃ e rest, run = e :: rest ∧ isOppositeElement rtl e = true ∧
    ∀ x ∈ rest, isOppositeElement rtl x = true ∨ isNeutralElement x = true

/-! ## `tests/src/MessageLayoutContainer.cpp` -/

/-- A character of the Arabic block U+0600 to U+06FF. -/
def isArabicRange (c : Char) : Bool := 0x0600 ≤ c.toNat && c.toNat ≤ 0x06FF

/-- A letter `A` to `Z` or `a` to `z`. -/
def isLatinLetter (c : Char) : Bool :=
  (0x41 ≤ c.toNat && c.toNat ≤ 0x5A) || (0x61 ≤ c.toNat && c.toNat ≤ 0x7A)

/-- A script classification for the words of the test: the first Arabic-range
character or Latin letter of the word decides. -/
def arabicRangeDirection (word : QString) : TextDirection :=
  match word.find? (fun c => isArabicRange c || isLatinLetter c) with
  | none => .Neutral
  | some c => if isArabicRange c then .RTL else .LTR

/-- The loop of the helper `makeElements` of the test, with the layout element
each message element gives: the first word with `@` is the user name, a later
one a mention, a word with `!` an emote, every other word a text element.  A
character is taken to be 7 units wide and an emote 28. -/
def makeElementsLoop : List QString → Bool → List LayoutElement
  | [], _ => []
  | word :: words, seenUsername =>
    if word.head? = some '@' then
      if seenUsername then
        { text := word,
          flags := MessageElementFlag.Text.mask ||| MessageElementFlag.Mention.mask,
          direction := arabicRangeDirection word, width := 7 * word.length } ::
          makeElementsLoop words seenUsername
      else
        { text := word, flags := MessageElementFlag.Username.mask,
          direction := arabicRangeDirection word, width := 7 * word.length } ::
          makeElementsLoop words true
    else if word.head? = some '!' then
      { text := word, flags := MessageElementFlag.Emote.mask, direction := .Neutral,
        width := 28 } :: makeElementsLoop words seenUsername
    else
      { text := word, flags := MessageElementFlag.Text.mask,
        direction := arabicRangeDirection word, width := 7 * word.length } ::
        makeElementsLoop words seenUsername

/-- The helper `makeElements` of the test: one element for each word. -/
def makeElements (text : QString) : List LayoutElement :=
  makeElementsLoop (qSplit ' ' text) false

/-- The text the test `RtlReordering` reads back from the container: the
texts of the elements, joined by blanks. -/
def layoutText (elements : List (LayoutElement × Nat)) : QString :=
  List.intercalate [' '] (elements.map (fun e => e.1.text))

/-- The loop `ASSERT_LT(x, el->getRect().x()); x = el->getRect().x();` of the
test. -/
def positionsIncrease : Int → List Nat → Bool
  | _, [] => true
  | x, position :: rest => decide (x < (position : Int)) && positionsIncrease position rest

/-- The test `RtlReordering` for one row: no x position is smaller than or
equal to the one before, the text read back is the expected one and so is the
direction. -/
def rtlReorderingPasses (row : String × String × TextDirection) : Bool :=
  positionsIncrease (-1) ((layoutLine 4 (makeElements row.1.toList)).2.map (fun e => e.2)) &&
    layoutText (layoutLine 4 (makeElements row.1.toList)).2 == row.2.1.toList &&
    (layoutLine 4 (makeElements row.1.toList)).1 == row.2.2

/-- The rows of `INSTANTIATE_TEST_SUITE_P`: input, expected text, expected
direction. -/
def rtlReorderingRows : List (String × String × TextDirection) :=
  [("@aliens foo bar baz @foo qox !emote1 !emote2",
      "@aliens foo bar baz @foo qox !emote1 !emote2", .LTR),
    ("@aliens ! foo bar baz @foo qox !emote1 !emote2",
      "@aliens ! foo bar baz @foo qox !emote1 !emote2", .LTR),
    ("@aliens .",
      "@aliens .", .Neutral),
    ("@aliens و غير دارت إعادة, بل كما وقام قُدُماً. قام تم الجوي بوابة, خلاف أراض هو بلا. عن وحتّى ميناء غير",
      "@aliens غير ميناء وحتّى عن بلا. هو أراض خلاف بوابة, الجوي تم قام قُدُماً. وقام كما بل إعادة, دارت غير و", .RTL),
    ("@aliens و غير دارت إعادة, بل ض هو my LTR 123 بلا. عن 123 456 وحتّى ميناء غير",
      "@aliens غير ميناء وحتّى 456 123 عن بلا. my LTR 123 هو ض بل إعادة, دارت غير و", .RTL),
    ("@aliens ور دارت إ @user baz bar عاد هو my LTR 123 بلا. عن 123 456 وحتّ غير",
      "@aliens غير وحتّ 456 123 عن بلا. my LTR 123 هو عاد baz bar @user إ دارت ور", .RTL),
    ("@aliens ور !emote1 !emote2 !emote3 دارت إ @user baz bar عاد هو my LTR 123 بلا. عن 123 456 وحتّ غير",
      "@aliens غير وحتّ 456 123 عن بلا. my LTR 123 هو عاد baz bar @user إ دارت !emote3 !emote2 !emote1 ور", .RTL),
    ("@aliens ور !emote1 !emote2 LTR text !emote3 !emote4 غير",
      "@aliens غير LTR text !emote3 !emote4 !emote2 !emote1 ور", .RTL),
    ("@aliens !!! ور !emote1 !emote2 LTR text !emote3 !emote4 غير",
      "@aliens غير LTR text !emote3 !emote4 !emote2 !emote1 ور !!!", .RTL),
    ("@aliens LTR و غير دا ميناء غير",
      "@aliens LTR غير ميناء دا غير و", .LTR),
    ("@aliens LTR و غير د ض هو my LTR 123 بلا. عن 123 456 وحتّى مير",
      "@aliens LTR هو ض د غير و my LTR 123 مير وحتّى 456 123 عن بلا.", .LTR),
    ("@aliens LTR ور دارت إ @user baz bar عاد هو my LTR 123 بلا. عن 123 456 وحتّ غير",
      "@aliens LTR @user إ دارت ور baz bar هو عاد my LTR 123 غير وحتّ 456 123 عن بلا.", .LTR),
    ("@aliens LTR ور !emote1 !emote2 !emote3 دارت إ @user baz bar عاد هو my LTR 123 بلا. عن 123 456 وحتّ غير",
      "@aliens LTR @user إ دارت !emote3 !emote2 !emote1 ور baz bar هو عاد my LTR 123 غير وحتّ 456 123 عن بلا.", .LTR),
    ("@aliens LTR غير وحتّ !emote1 !emote2 LTR text !emote3 !emote4 عاد هو",
      "@aliens LTR !emote2 !emote1 وحتّ غير LTR text !emote3 !emote4 هو عاد", .LTR)]

/-! ## More definitions the statements below use -/

/-- Does `appendOrEmplaceText(text, color)` add to this last element?  It is a
`TextElement`, no `MentionElement` and no `LinkElement`, has a trailing space,
its flags are exactly `Text` and its colour is `color`. -/
def isCoalescingTarget (back : MessageElement) (color : MessageColor) : Bool :=
  back.isTextElement && !back.isMentionElement && !back.isLinkElement && back.trailingSpace &&
    back.flags == MessageElementFlag.Text.mask && back.color == color

/-- The system-type rule of `shouldRenderOpenEmoteTimestamp`: the setting
`openEmoteTimestampAlwaysSystem` is on and the message is a system, moderation,
subscription or timeout message. -/
def isAlwaysTimestampSystemMessage (app : App) (currentMessage : Message) : Bool :=
  app.settings.openEmoteTimestampAlwaysSystem &&
    (currentMessage.flags.has .System || currentMessage.flags.has .ModerationAction ||
      currentMessage.flags.has .Subscription || currentMessage.flags.has .Timeout)

/-- The listed-user rule of `shouldRenderOpenEmoteTimestamp`: the login name of
the message is, ignoring case, one of the names of the comma-separated setting
`openEmoteTimestampAlwaysUsers`. -/
def isAlwaysTimestampUser (app : App) (currentMessage : Message) : Bool :=
  !(trimmed app.settings.openEmoteTimestampAlwaysUsers).isEmpty &&
    !(trimmed currentMessage.loginName).isEmpty &&
    ((qSplit ',' app.settings.openEmoteTimestampAlwaysUsers).filter (fun t => !t.isEmpty)).any
      (fun token => !(trimmed token).isEmpty &&
        qCompareCaseInsensitive app.caseFolded currentMessage.loginName (trimmed token))

/-- The most recent message of a snapshot that has a valid server time. -/
def latestTimedMessage (snapshot : List (Option Message)) : Option Message :=
  ((snapshot.filterMap id).filter (fun m => m.serverReceivedTime.isSome)).getLast?

/-- The number a string of decimal digits writes, however large; `none` for the
empty string and for a string with another character. -/
def decimalValue (numeral : QString) : Option Nat :=
  if numeral.isEmpty then none else parseDigits numeral 0

/-- The token of the recursive call of `tryAppendCheermote`: the digits of the
face value at the end of `string` are cut off and the face value less
`bitsLeft` is written in their place. -/
def rewrittenCheerToken (string captured : QString) (bitsLeft : Int) : QString :=
  qChop string (qNumberInt (qToInt captured)).length ++
    qNumberInt (qToInt captured - bitsLeft)

/-! ## Sample collaborators for the cache, the registry and the cheermote split -/

/-- A Twitch channel with the cheer tokens `Cheer1000`, `Cheer700`, `Cheer400`
and `Cheer100`. -/
def tableCheerChannel : TwitchChannel :=
  { sampleTwitchChannel "forsen" "1" with
    cheerEmote := fun string =>
      if string = "Cheer1000".toList ∨ string = "Cheer700".toList ∨
          string = "Cheer400".toList ∨ string = "Cheer100".toList then some sampleCheerEmote
      else none }

/-- A Twitch channel whose only cheer emote starts at 100 bits: `cheerEmote`
finds nothing for a smaller amount. -/
def tierCheerChannel : TwitchChannel :=
  { sampleTwitchChannel "forsen" "1" with
    cheerEmote := fun string =>
      if string.take 5 = "Cheer".toList ∧ 100 ≤ qToInt (string.drop 5) then
        some sampleCheerEmote
      else none }

/-- The text state of a message with the given `bits` tag in a channel. -/
def bitsState (twitchChannel : TwitchChannel) (bits : Int) : TextState :=
  { twitchChannel := some twitchChannel, hasBits := true, bitsLeft := bits }

/-- A builder whose message holds the one text element `hello`. -/
def helloBuilder : MessageBuilder :=
  ({} : MessageBuilder).emplace (mkText "hello".toList MessageElementFlag.Text.mask .Text)

/-- The sample application in gaps-only mode (a gap of five minutes). -/
def gapsOnlyApp : App :=
  { sampleApp with settings := { sampleSettings with openEmoteTimestampGapsOnly := true } }

/-- The sample application in gaps-only mode with the listed users `Bob` and
`ſam`, the latter written with the long s U+017F. -/
def listedUsersApp : App :=
  { sampleApp with
    settings := { sampleSettings with
      openEmoteTimestampGapsOnly := true
      openEmoteTimestampAlwaysUsers := "Bob, \u017fam".toList } }

/-- A channel whose snapshot holds an untimed message, a message received at
the given time (in ms) and a null entry. -/
def timedChannel (time : Int) : Channel :=
  { sampleChannel with
    messageSnapshot := [some {}, some { serverReceivedTime := some time }, none] }

/-- A stand-in for `QString::arg`: the first `%` and the digit after it are
replaced. -/
def sampleArg : QString → QString → QString
  | [], _ => []
  | [c], _ => [c]
  | c :: d :: rest, a => if c = '%' then a ++ rest else c :: sampleArg (d :: rest) a

/-- Two joined channels, `#Forsen` and `xqc`, and a channel that is no Twitch
channel; cross-channel emotes are on, `xqc` is blocked. -/
def sampleCrossChannelEnvironment (now : Int) : CrossChannelEnvironment :=
  { openEmoteEnableCrossChannelEmotes := true
    openEmoteCrossChannelEmotesAllowlistMode := false
    openEmoteCrossChannelEmotesAllowChannels := []
    openEmoteCrossChannelEmotesBlockChannels := " #XQC ,".toList
    currentMSecsSinceEpoch := now
    channels :=
      [some { name := "#Forsen".toList,
              bttvEmotes := some [("forsenE".toList, sampleEmote "forsenE")],
              ffzEmotes := none, seventvEmotes := some [] },
        none,
        some { name := "xqc".toList,
               bttvEmotes := some [("xqcL".toList, sampleEmote "xqcL")],
               ffzEmotes := none, seventvEmotes := none }]
    arg := sampleArg }

/-- The cache `getCrossChannelEmoteCache` builds in the sample environment at
the time 1000. -/
def sampleCrossChannelCache : CrossChannelEmoteCache :=
  { bttv := [("forsenE".toList, sampleEmote "forsenE")], ffz := [], seventv := [],
    signature := "1|0|| #XQC ,".toList, builtAtMs := 1000 }

/-- An adapter with the given id. -/
def sampleAdapter (id : String) (kind : Kind) : IAdapter :=
  { id := id.toList, displayName := id.toList, kind := kind }

/-- The envelope `parseEnvelope` reads from the sample payload. -/
def sampleEnvelope : EnvelopeParts := (parseEnvelope tamperPayload emptyEnvelope).2

/-! ## Bytes -/

theorem beBytes_length (n x : Nat) : (beBytes n x).length = n := by
  induction n generalizing x with
  | zero => rfl
  | succ k ih => simp [beBytes, ih]

theorem beBytes_allBytes (n x : Nat) : AllBytes (beBytes n x) := by
  induction n generalizing x with
  | zero => intro b hb; simp [beBytes] at hb
  | succ k ih =>
    intro b hb
    simp only [beBytes, List.mem_append, List.mem_singleton] at hb
    rcases hb with hb | hb
    · exact ih _ b hb
    · omega

theorem sha256_length (m : QByteArray) : (sha256 m).length = 32 := by
  simp [sha256, beBytes_length]

theorem sha256_allBytes (m : QByteArray) : AllBytes (sha256 m) := by
  intro b hb
  simp only [sha256, List.mem_append] at hb
  rcases hb with ((((((hb | hb) | hb) | hb) | hb) | hb) | hb) | hb <;>
    exact beBytes_allBytes _ _ b hb

/-! ## Base64 -/

theorem base64UrlValue_char (n : Nat) (h : n < 64) :
    base64UrlValue (base64UrlChar n) = some n := by
  unfold base64UrlChar base64UrlValue
  split_ifs <;> first | omega | (congr 1; omega)

theorem base64UrlChar_lt (n : Nat) : base64UrlChar n < 128 := by
  unfold base64UrlChar
  split_ifs <;> omega

theorem base64UrlChar_ne_colon (n : Nat) : base64UrlChar n ≠ 58 := by
  unfold base64UrlChar
  split_ifs <;> omega

theorem fromBase64Loop_toBase64 (bs : QByteArray) (h : AllBytes bs) :
    fromBase64Loop (toBase64UrlNoPad bs) 0 0 = bs := by
  induction bs using toBase64UrlNoPad.induct with
  | case1 => rfl
  | case2 a =>
    have ha : a < 256 := h a (by simp)
    simp only [toBase64UrlNoPad, fromBase64Loop]
    rw [base64UrlValue_char _ (by omega), base64UrlValue_char _ (by omega)]
    simp only [Nat.shiftRight_eq_div_pow]
    norm_num
    omega
  | case3 a b =>
    have ha : a < 256 := h a (by simp)
    have hb : b < 256 := h b (by simp)
    simp only [toBase64UrlNoPad, fromBase64Loop]
    rw [base64UrlValue_char _ (by omega), base64UrlValue_char _ (by omega),
      base64UrlValue_char _ (by omega)]
    simp only [Nat.shiftRight_eq_div_pow]
    norm_num
    constructor <;> omega
  | case4 a b c rest ih =>
    have ha : a < 256 := h a (by simp)
    have hb : b < 256 := h b (by simp)
    have hc : c < 256 := h c (by simp)
    have hrest : AllBytes rest := fun x hx => h x (by simp [hx])
    simp only [toBase64UrlNoPad, fromBase64Loop]
    rw [base64UrlValue_char _ (by omega), base64UrlValue_char _ (by omega),
      base64UrlValue_char _ (by omega), base64UrlValue_char _ (by omega)]
    simp only [Nat.shiftRight_eq_div_pow]
    norm_num
    refine ⟨by omega, by omega, by omega, ?_⟩
    rw [Nat.mod_one]
    exact ih hrest

theorem fromBase64Url_toBase64UrlNoPad (bs : QByteArray) (h : AllBytes bs) :
    fromBase64Url (toBase64UrlNoPad bs) = bs :=
  fromBase64Loop_toBase64 bs h

theorem toBase64UrlNoPad_lt (bs : QByteArray) : ∀ b ∈ toBase64UrlNoPad bs, b < 128 := by
  induction bs using toBase64UrlNoPad.induct with
  | case1 => simp [toBase64UrlNoPad]
  | case2 a =>
    intro b hb
    simp only [toBase64UrlNoPad, List.mem_cons, List.mem_singleton, List.not_mem_nil,
      or_false] at hb
    rcases hb with rfl | rfl <;> exact base64UrlChar_lt _
  | case3 a b =>
    intro x hx
    simp only [toBase64UrlNoPad, List.mem_cons, List.mem_singleton, List.not_mem_nil,
      or_false] at hx
    rcases hx with rfl | rfl | rfl <;> exact base64UrlChar_lt _
  | case4 a b c rest ih =>
    intro x hx
    simp only [toBase64UrlNoPad, List.mem_cons] at hx
    rcases hx with rfl | rfl | rfl | rfl | hx
    · exact base64UrlChar_lt _
    · exact base64UrlChar_lt _
    · exact base64UrlChar_lt _
    · exact base64UrlChar_lt _
    · exact ih x hx

theorem toBase64UrlNoPad_ne_colon (bs : QByteArray) : ∀ b ∈ toBase64UrlNoPad bs, b ≠ 58 := by
  induction bs using toBase64UrlNoPad.induct with
  | case1 => simp [toBase64UrlNoPad]
  | case2 a =>
    intro b hb
    simp only [toBase64UrlNoPad, List.mem_cons, List.mem_singleton, List.not_mem_nil,
      or_false] at hb
    rcases hb with rfl | rfl <;> exact base64UrlChar_ne_colon _
  | case3 a b =>
    intro x hx
    simp only [toBase64UrlNoPad, List.mem_cons, List.mem_singleton, List.not_mem_nil,
      or_false] at hx
    rcases hx with rfl | rfl | rfl <;> exact base64UrlChar_ne_colon _
  | case4 a b c rest ih =>
    intro x hx
    simp only [toBase64UrlNoPad, List.mem_cons] at hx
    rcases hx with rfl | rfl | rfl | rfl | hx
    · exact base64UrlChar_ne_colon _
    · exact base64UrlChar_ne_colon _
    · exact base64UrlChar_ne_colon _
    · exact base64UrlChar_ne_colon _
    · exact ih x hx

theorem toBase64UrlNoPad_length_16 (bs : QByteArray) (h : bs.length = 16) :
    (toBase64UrlNoPad bs).length = 22 := by
  match bs, h with
  | [a0, a1, a2, a3, a4, a5, a6, a7, a8, a9, a10, a11, a12, a13, a14, a15], _ =>
    simp [toBase64UrlNoPad]

/-! ## Key stream and xor -/

theorem xorBytes_length (a b : QByteArray) : (xorBytes a b).length = a.length := by
  induction a generalizing b with
  | nil => simp [xorBytes]
  | cons x xs ih => cases b <;> simp [xorBytes, ih]

theorem xorBytes_xorBytes (a b : QByteArray) : xorBytes (xorBytes a b) b = a := by
  induction a generalizing b with
  | nil => simp [xorBytes]
  | cons x xs ih =>
    cases b with
    | nil => simp [xorBytes, ih]
    | cons y ys => simp [xorBytes, ih, Nat.xor_assoc]

theorem xorBytes_allBytes (a b : QByteArray) (ha : AllBytes a) (hb : AllBytes b) :
    AllBytes (xorBytes a b) := by
  induction a generalizing b with
  | nil => intro x hx; simp [xorBytes] at hx
  | cons x xs ih =>
    have hx : x < 256 := ha x (by simp)
    have hxs : AllBytes xs := fun y hy => ha y (by simp [hy])
    cases b with
    | nil =>
      intro y hy
      simp only [xorBytes, List.mem_cons] at hy
      rcases hy with rfl | hy
      · exact hx
      · exact ih [] hxs (fun _ h => by simp at h) y hy
    | cons z zs =>
      have hz : z < 256 := hb z (by simp)
      have hzs : AllBytes zs := fun y hy => hb y (by simp [hy])
      intro y hy
      simp only [xorBytes, List.mem_cons] at hy
      rcases hy with rfl | hy
      · exact Nat.xor_lt_two_pow (n := 8) hx hz
      · exact ih zs hxs hzs y hy

theorem constantTimeDiff_self (a : QByteArray) : constantTimeDiff a a 0 = 0 := by
  induction a with
  | nil => rfl
  | cons x xs ih => simp [constantTimeDiff, ih]

theorem constantTimeEqual_self (a : QByteArray) : constantTimeEqual a a = true := by
  simp [constantTimeEqual, constantTimeDiff_self]

theorem keystreamLoop_length (fuel : Nat) (key nonce : QByteArray) (length counter : Nat)
    (out : QByteArray) (h : length ≤ out.length + 32 * fuel) :
    length ≤ (keystreamLoop fuel key nonce length counter out).length := by
  induction fuel generalizing counter out with
  | zero => simpa [keystreamLoop] using h
  | succ k ih =>
    unfold keystreamLoop
    split_ifs with hlt
    · apply ih
      simp only [List.length_append, sha256_length]
      omega
    · omega

theorem keystream_length (key nonce : QByteArray) (length : Nat) :
    (keystream key nonce length).length = length := by
  have h := keystreamLoop_length length key nonce length 0 [] (by simp; omega)
  simp only [keystream, qResize, List.length_append, List.length_take, List.length_replicate]
  omega

/-- The loop of `keystream` stops because `out` has reached `length`, not
because the fuel has run out: the result is a prefix of what the loop built. -/
theorem keystream_eq_take (key nonce : QByteArray) (length : Nat) :
    keystream key nonce length = (keystreamLoop length key nonce length 0 []).take length := by
  have h := keystreamLoop_length length key nonce length 0 [] (by simp; omega)
  simp only [keystream, qResize]
  rw [Nat.sub_eq_zero_of_le h]
  simp

/-! ## UTF-8 -/

theorem char_toNat_valid (c : Char) :
    c.toNat < 0xD800 ∨ (0xDFFF < c.toNat ∧ c.toNat < 0x110000) := by
  have h := c.valid
  simpa [UInt32.isValidChar, Nat.isValidChar, Char.toNat] using h

theorem utf8EncodeChar_allBytes (c : Char) : AllBytes (utf8EncodeChar c) := by
  have hv := char_toNat_valid c
  intro b hb
  unfold utf8EncodeChar at hb
  split_ifs at hb <;> simp only [List.mem_cons, List.mem_singleton, List.not_mem_nil,
    or_false] at hb <;> omega

theorem toUtf8_allBytes (s : QString) : AllBytes (toUtf8 s) := by
  induction s with
  | nil => intro b hb; simp [toUtf8] at hb
  | cons c cs ih =>
    intro b hb
    simp only [toUtf8, List.mem_append] at hb
    rcases hb with hb | hb
    · exact utf8EncodeChar_allBytes c b hb
    · exact ih b hb

theorem utf8EncodeChar_length_pos (c : Char) : 0 < (utf8EncodeChar c).length := by
  unfold utf8EncodeChar
  split_ifs <;> simp

theorem toUtf8_eq_nil (s : QString) : toUtf8 s = [] ↔ s = [] := by
  cases s with
  | nil => simp [toUtf8]
  | cons c cs =>
    have := utf8EncodeChar_length_pos c
    simp only [toUtf8, List.append_eq_nil, reduceCtorEq, iff_false, not_and]
    intro h
    rw [h] at this
    simp at this

/-- Decoding the encoding of one character gives the character back and
consumes exactly its bytes. -/
theorem utf8DecodeStep_encode (c : Char) (more : QByteArray) :
    ∃ b0 tl, utf8EncodeChar c = b0 :: tl ∧
      utf8DecodeStep b0 (tl ++ more) = (c, tl.length + 1) := by
  have hv := char_toNat_valid c
  unfold utf8EncodeChar
  split_ifs with h1 h2 h3
  · refine ⟨_, _, rfl, ?_⟩
    simp [utf8DecodeStep, h1]
  · refine ⟨_, _, rfl, ?_⟩
    have e : (0xC0 + c.toNat / 64) % 32 * 64 + (0x80 + c.toNat % 64) % 64 = c.toNat := by omega
    have hb0 : ¬ (0xC0 + c.toNat / 64 < 0x80) := by omega
    have hb1 : ¬ (0xC0 + c.toNat / 64 < 0xC2) := by omega
    have hb2 : 0xC0 + c.toNat / 64 < 0xE0 := by omega
    have hc : isUtf8Cont (0x80 + c.toNat % 64) = true := by
      simp only [isUtf8Cont, beq_iff_eq]; omega
    simp only [utf8DecodeStep, hb0, hb1, hb2, if_true, if_false, List.cons_append,
      List.nil_append, hc, e, Char.ofNat_toNat, List.length_singleton]
  · refine ⟨_, _, rfl, ?_⟩
    have e : ((0xE0 + c.toNat / 4096) % 16 * 64 + (0x80 + c.toNat / 64 % 64) % 64) * 64 +
        (0x80 + c.toNat % 64) % 64 = c.toNat := by omega
    have hb0 : ¬ (0xE0 + c.toNat / 4096 < 0x80) := by omega
    have hb1 : ¬ (0xE0 + c.toNat / 4096 < 0xC2) := by omega
    have hb2 : ¬ (0xE0 + c.toNat / 4096 < 0xE0) := by omega
    have hb3 : 0xE0 + c.toNat / 4096 < 0xF0 := by omega
    have hc1 : isUtf8Cont (0x80 + c.toNat / 64 % 64) = true := by
      simp only [isUtf8Cont, beq_iff_eq]; omega
    have hc2 : isUtf8Cont (0x80 + c.toNat % 64) = true := by
      simp only [isUtf8Cont, beq_iff_eq]; omega
    have hlo : decide (0x800 ≤ c.toNat) = true := by simp; omega
    have hsur : (decide (0xD800 ≤ c.toNat) && decide (c.toNat ≤ 0xDFFF)) = false := by
      simp; omega
    simp only [utf8DecodeStep, hb0, hb1, hb2, hb3, if_true, if_false, List.cons_append,
      List.nil_append, hc1, hc2, e, hlo, hsur, Char.ofNat_toNat, List.length_cons,
      List.length_nil, Bool.and_self, Bool.not_false]
  · refine ⟨_, _, rfl, ?_⟩
    have e : (((0xF0 + c.toNat / 262144) % 8 * 64 + (0x80 + c.toNat / 4096 % 64) % 64) * 64 +
        (0x80 + c.toNat / 64 % 64) % 64) * 64 + (0x80 + c.toNat % 64) % 64 = c.toNat := by
      omega
    have hb0 : ¬ (0xF0 + c.toNat / 262144 < 0x80) := by omega
    have hb1 : ¬ (0xF0 + c.toNat / 262144 < 0xC2) := by omega
    have hb2 : ¬ (0xF0 + c.toNat / 262144 < 0xE0) := by omega
    have hb3 : ¬ (0xF0 + c.toNat / 262144 < 0xF0) := by omega
    have hb4 : 0xF0 + c.toNat / 262144 < 0xF5 := by omega
    have hc1 : isUtf8Cont (0x80 + c.toNat / 4096 % 64) = true := by
      simp only [isUtf8Cont, beq_iff_eq]; omega
    have hc2 : isUtf8Cont (0x80 + c.toNat / 64 % 64) = true := by
      simp only [isUtf8Cont, beq_iff_eq]; omega
    have hc3 : isUtf8Cont (0x80 + c.toNat % 64) = true := by
      simp only [isUtf8Cont, beq_iff_eq]; omega
    have hlo : decide (0x10000 ≤ c.toNat) = true := by simp; omega
    have hhi : decide (c.toNat ≤ 0x10FFFF) = true := by simp; omega
    simp only [utf8DecodeStep, hb0, hb1, hb2, hb3, hb4, if_true, if_false, List.cons_append,
      List.nil_append, hc1, hc2, hc3, e, hlo, hhi, Char.ofNat_toNat, List.length_cons,
      List.length_nil, Bool.and_self]

theorem fromUtf8Loop_toUtf8 (s : QString) (fuel : Nat) (h : (toUtf8 s).length ≤ fuel) :
    fromUtf8Loop fuel (toUtf8 s) = s := by
  induction s generalizing fuel with
  | nil => cases fuel <;> simp [toUtf8, fromUtf8Loop]
  | cons c cs ih =>
    obtain ⟨b0, tl, henc, hstep⟩ := utf8DecodeStep_encode c (toUtf8 cs)
    simp only [toUtf8, henc, List.cons_append, List.length_cons, List.length_append] at h ⊢
    cases fuel with
    | zero => omega
    | succ k =>
      simp only [fromUtf8Loop, hstep, Nat.add_sub_cancel, List.drop_left]
      rw [ih k (by omega)]

/-- The encoding of a string starts with the byte order mark only if the string
starts with U+FEFF. -/
theorem toUtf8_take_bom (s : QString) (h : (toUtf8 s).take 3 = utf8Bom) :
    s.head? = some (Char.ofNat 0xFEFF) := by
  cases s with
  | nil => simp [toUtf8, utf8Bom] at h
  | cons c cs =>
    have hv := char_toNat_valid c
    simp only [List.head?_cons, Option.some.injEq]
    rw [← Char.ofNat_toNat c]
    congr 1
    simp only [toUtf8, utf8EncodeChar, utf8Bom] at h
    split_ifs at h with h1 h2 h3
    · simp only [List.cons_append, List.nil_append, List.take_succ_cons, List.cons.injEq] at h
      omega
    · simp only [List.cons_append, List.nil_append, List.take_succ_cons, List.cons.injEq] at h
      omega
    · simp only [List.cons_append, List.nil_append, List.take_succ_cons, List.cons.injEq] at h
      omega
    · simp only [List.cons_append, List.nil_append, List.take_succ_cons, List.cons.injEq] at h
      omega

/-- UTF-8 round trip: a string that does not start with the byte order mark
U+FEFF is read back unchanged. -/
theorem fromUtf8_toUtf8 (s : QString) (h : s.head? ≠ some (Char.ofNat 0xFEFF)) :
    fromUtf8 (toUtf8 s) = s := by
  unfold fromUtf8
  rw [if_neg (fun hb => h (toUtf8_take_bom s hb))]
  exact fromUtf8Loop_toUtf8 s _ (le_refl _)

theorem fromUtf8Loop_ascii (bs : QByteArray) (fuel : Nat) (h : ∀ b ∈ bs, b < 128)
    (hf : bs.length ≤ fuel) : fromUtf8Loop fuel bs = bs.map Char.ofNat := by
  induction bs generalizing fuel with
  | nil => cases fuel <;> simp [fromUtf8Loop]
  | cons b rest ih =>
    have hb : b < 128 := h b (by simp)
    cases fuel with
    | zero => simp at hf
    | succ k =>
      have hstep : utf8DecodeStep b rest = (Char.ofNat b, 1) := by
        simp [utf8DecodeStep, hb]
      simp only [fromUtf8Loop, hstep, Nat.sub_self, List.drop_zero, List.map_cons]
      rw [ih k (fun x hx => h x (by simp [hx])) (by simpa using hf)]

/-- On ASCII bytes `QString::fromUtf8` maps every byte to its character. -/
theorem fromUtf8_ascii (bs : QByteArray) (h : ∀ b ∈ bs, b < 128) :
    fromUtf8 bs = bs.map Char.ofNat := by
  unfold fromUtf8
  have hne : bs.take 3 ≠ utf8Bom := by
    intro hb
    cases bs with
    | nil => simp [utf8Bom] at hb
    | cons b rest =>
      have : b < 128 := h b (by simp)
      simp only [utf8Bom, List.take_succ_cons, List.cons.injEq] at hb
      omega
  rw [if_neg hne]
  exact fromUtf8Loop_ascii bs _ h (le_refl _)

theorem char_ofNat_toNat_of_lt (n : Nat) (h : n < 128) : (Char.ofNat n).toNat = n := by
  have hv : n.isValidChar := Or.inl (by omega)
  simp [Char.ofNat, dif_pos hv, Char.ofNatAux, Char.toNat, UInt32.toNat]

theorem toUtf8_map_ofNat (bs : QByteArray) (h : ∀ b ∈ bs, b < 128) :
    toUtf8 (bs.map Char.ofNat) = bs := by
  induction bs with
  | nil => rfl
  | cons b rest ih =>
    have hb : b < 128 := h b (by simp)
    simp only [List.map_cons, toUtf8, utf8EncodeChar, char_ofNat_toNat_of_lt b hb, hb, if_true,
      List.singleton_append]
    rw [ih (fun x hx => h x (by simp [hx]))]

/-- ASCII bytes survive the passage through a `QString`. -/
theorem toUtf8_fromUtf8_ascii (bs : QByteArray) (h : ∀ b ∈ bs, b < 128) :
    toUtf8 (fromUtf8 bs) = bs := by
  rw [fromUtf8_ascii bs h, toUtf8_map_ofNat bs h]

/-- What `fromBase64UrlNoPad` reads from the text form of an encoded byte array
is the byte array. -/
theorem fromBase64UrlNoPad_encode (bs : QByteArray) (h : AllBytes bs) :
    fromBase64UrlNoPad (fromUtf8 (toBase64UrlNoPad bs)) = bs := by
  unfold fromBase64UrlNoPad
  rw [toUtf8_fromUtf8_ascii _ (toBase64UrlNoPad_lt bs), fromBase64Url_toBase64UrlNoPad bs h]

theorem colon_not_mem_base64Text (bs : QByteArray) :
    ':' ∉ fromUtf8 (toBase64UrlNoPad bs) := by
  rw [fromUtf8_ascii _ (toBase64UrlNoPad_lt bs)]
  intro hmem
  obtain ⟨b, hb, hbc⟩ := List.mem_map.mp hmem
  have hlt := toBase64UrlNoPad_lt bs b hb
  have hne := toBase64UrlNoPad_ne_colon bs b hb
  have : (Char.ofNat b).toNat = 58 := by rw [hbc]; rfl
  rw [char_ofNat_toNat_of_lt b hlt] at this
  exact hne this

/-! ## `QString::split` -/

theorem qSplit_ne_nil (sep : Char) (s : QString) : qSplit sep s ≠ [] := by
  induction s with
  | nil => simp [qSplit]
  | cons c cs ih =>
    unfold qSplit
    split_ifs
    · simp
    · split <;> simp

theorem qSplit_no_sep (sep : Char) (s : QString) (h : sep ∉ s) : qSplit sep s = [s] := by
  induction s with
  | nil => rfl
  | cons c cs ih =>
    have hc : c ≠ sep := fun e => h (by simp [e])
    have hcs : sep ∉ cs := fun e => h (by simp [e])
    simp [qSplit, hc, ih hcs]

theorem qSplit_append (sep : Char) (s rest : QString) (h : sep ∉ s) :
    qSplit sep (s ++ sep :: rest) = s :: qSplit sep rest := by
  induction s with
  | nil => simp [qSplit]
  | cons c cs ih =>
    have hc : c ≠ sep := fun e => h (by simp [e])
    have hcs : sep ∉ cs := fun e => h (by simp [e])
    simp [qSplit, hc, ih hcs]

/-! ## Group names -/

theorem isGroupTailChar_toNat (c : Char) (h : isGroupTailChar c = true) :
    (0x61 ≤ c.toNat ∧ c.toNat ≤ 0x7A) ∨ (0x30 ≤ c.toNat ∧ c.toNat ≤ 0x39) ∨
      c.toNat = 0x5F ∨ c.toNat = 0x2D := by
  simp only [isGroupTailChar, isGroupHeadChar, Bool.or_eq_true, Bool.and_eq_true,
    decide_eq_true_eq, beq_iff_eq] at h
  rcases h with ((h | h) | h) | h
  · exact Or.inl h
  · exact Or.inr (Or.inl h)
  · exact Or.inr (Or.inr (Or.inl (by rw [h]; rfl)))
  · exact Or.inr (Or.inr (Or.inr (by rw [h]; rfl)))

theorem isGroupTailChar_of_head (c : Char) (h : isGroupHeadChar c = true) :
    isGroupTailChar c = true := by
  simp [isGroupTailChar, h]

theorem isGroupBody_all (s : QString) (h : isGroupBody s = true) :
    ∀ c ∈ s, isGroupTailChar c = true := by
  cases s with
  | nil => simp [isGroupBody] at h
  | cons c cs =>
    simp only [isGroupBody, Bool.and_eq_true, List.all_eq_true, decide_eq_true_eq] at h
    intro x hx
    rcases List.mem_cons.mp hx with rfl | hx
    · exact isGroupTailChar_of_head _ h.1.1
    · exact h.1.2 x hx

theorem qIsSpace_of_groupChar (c : Char) (h : isGroupTailChar c = true) : qIsSpace c = false := by
  have := isGroupTailChar_toNat c h
  simp only [qIsSpace, Bool.or_eq_false_iff, Bool.and_eq_false_iff, beq_eq_false_iff_ne, ne_eq,
    decide_eq_false_iff_not, not_le]
  omega

theorem qToLowerChar_of_groupChar (c : Char) (h : isGroupTailChar c = true) :
    qToLowerChar c = c := by
  have := isGroupTailChar_toNat c h
  unfold qToLowerChar
  rw [if_neg (by omega), if_neg (by omega)]

theorem dropWhile_of_all_false (p : Char → Bool) (s : QString) (h : ∀ c ∈ s, p c = false) :
    s.dropWhile p = s := by
  cases s with
  | nil => rfl
  | cons c cs => simp [List.dropWhile, h c (by simp)]

/-- A string without white space is its own trimmed form. -/
theorem trimmed_of_no_space (s : QString) (h : ∀ c ∈ s, qIsSpace c = false) : trimmed s = s := by
  unfold trimmed
  rw [dropWhile_of_all_false _ s h,
    dropWhile_of_all_false _ s.reverse (fun c hc => h c (List.mem_reverse.mp hc)),
    List.reverse_reverse]

theorem head?_dropWhile_isSpace (s : QString) (c : Char)
    (h : (s.dropWhile qIsSpace).head? = some c) : qIsSpace c = false := by
  induction s with
  | nil => simp at h
  | cons x xs ih =>
    by_cases hx : qIsSpace x = true
    · simp only [List.dropWhile_cons, hx, if_true] at h
      exact ih h
    · simp only [List.dropWhile_cons, hx, Bool.false_eq_true, if_false, List.head?_cons,
        Option.some.injEq] at h
      rw [← h]
      simpa using hx

/-- The last character of a trimmed string is not white space. -/
theorem trimmed_getLast? (s : QString) (c : Char) (h : (trimmed s).getLast? = some c) :
    qIsSpace c = false := by
  unfold trimmed at h
  rw [List.getLast?_reverse] at h
  exact head?_dropWhile_isSpace _ c h

theorem qToLowerChar_ne_newline (c : Char) (h : qIsSpace c = false) : qToLowerChar c ≠ '\n' := by
  unfold qToLowerChar
  split_ifs with h1 h2
  · intro e
    have h3 : (Char.ofNat (c.toNat + 32)).toNat = 10 := by rw [e]; rfl
    rw [char_ofNat_toNat_of_lt _ (by omega)] at h3
    omega
  · decide
  · intro e
    rw [e] at h
    exact absurd h (by decide)

theorem toLower_trimmed_getLast? (s : QString) :
    (toLower (trimmed s)).getLast? ≠ some '\n' := by
  unfold toLower
  rw [List.getLast?_map]
  intro h
  cases hl : (trimmed s).getLast? with
  | none => rw [hl] at h; simp at h
  | some c =>
    rw [hl] at h
    simp only [Option.map_some', Option.some.injEq] at h
    exact qToLowerChar_ne_newline c (trimmed_getLast? s c hl) h

/-- What `normalizeGroupName` accepts is a string over `[a-z0-9_-]`. -/
theorem normalizeGroupName_eq (g : QString) (h : normalizeGroupName g ≠ []) :
    normalizeGroupName g = toLower (trimmed g) ∧ groupNameAllowed (toLower (trimmed g)) = true := by
  unfold normalizeGroupName at h ⊢
  by_cases h1 : (toLower (trimmed g)).isEmpty = true
  · simp [h1] at h
  · by_cases h2 : groupNameAllowed (toLower (trimmed g)) = true
    · simp [h1, h2]
    · simp [h1, h2] at h

theorem normalizeGroupName_chars (g : QString) (h : normalizeGroupName g ≠ []) :
    isGroupBody (normalizeGroupName g) = true := by
  obtain ⟨he, h2⟩ := normalizeGroupName_eq g h
  rw [he]
  simp only [groupNameAllowed, Bool.or_eq_true, Bool.and_eq_true, beq_iff_eq] at h2
  rcases h2 with h2 | h2
  · exact h2
  · exact absurd h2.1 (toLower_trimmed_getLast? g)

/-- The function `normalizeGroupName` leaves a name it has produced unchanged. -/
theorem normalizeGroupName_idem (g : QString) (h : normalizeGroupName g ≠ []) :
    normalizeGroupName (normalizeGroupName g) = normalizeGroupName g := by
  have hb := normalizeGroupName_chars g h
  have hall := isGroupBody_all _ hb
  have ht : trimmed (normalizeGroupName g) = normalizeGroupName g :=
    trimmed_of_no_space _ (fun c hc => qIsSpace_of_groupChar c (hall c hc))
  have hl : toLower (normalizeGroupName g) = normalizeGroupName g := by
    unfold toLower
    conv_rhs => rw [← List.map_id (normalizeGroupName g)]
    exact List.map_congr_left (fun c hc => qToLowerChar_of_groupChar c (hall c hc))
  generalize normalizeGroupName g = n at *
  unfold normalizeGroupName
  rw [ht, hl]
  have hne : n.isEmpty = false := by cases n <;> simp_all
  simp [hne, groupNameAllowed, hb]

theorem fromUtf8_toUtf8_groupName (g : QString) (h : normalizeGroupName g ≠ []) :
    fromUtf8 (toUtf8 (normalizeGroupName g)) = normalizeGroupName g := by
  have hall := isGroupBody_all _ (normalizeGroupName_chars g h)
  apply fromUtf8_toUtf8
  intro hh
  cases hn : normalizeGroupName g with
  | nil => exact h hn
  | cons c cs =>
    rw [hn] at hh hall
    simp only [List.head?_cons, Option.some.injEq] at hh
    have := isGroupTailChar_toNat c (hall c (by simp))
    have h2 : c.toNat = 0xFEFF := by rw [hh]; rfl
    omega

/-! ## The envelope -/

theorem makeNonce_length (rng : Nat → Nat) : (makeNonce rng).length = 16 := by
  simp [makeNonce]

theorem makeNonce_allBytes (rng : Nat → Nat) : AllBytes (makeNonce rng) := by
  intro b hb
  simp only [makeNonce, List.mem_map] at hb
  obtain ⟨i, _, rfl⟩ := hb
  omega

theorem take_allBytes (bs : QByteArray) (n : Nat) (h : AllBytes bs) : AllBytes (bs.take n) :=
  fun b hb => h b (List.mem_of_mem_take hb)

theorem keystream_allBytes (key nonce : QByteArray) (length : Nat) :
    AllBytes (keystream key nonce length) := by
  have hloop : ∀ fuel counter out, AllBytes out →
      AllBytes (keystreamLoop fuel key nonce length counter out) := by
    intro fuel
    induction fuel with
    | zero => intro counter out h; simpa [keystreamLoop] using h
    | succ k ih =>
      intro counter out h
      unfold keystreamLoop
      split_ifs
      · apply ih
        intro b hb
        rcases List.mem_append.mp hb with hb | hb
        · exact h b hb
        · exact sha256_allBytes _ b hb
      · exact h
  rw [keystream_eq_take]
  exact take_allBytes _ _ (hloop _ _ _ (fun _ h => by simp at h))

/-- The payload `encodeEnvelope` builds when none of its inputs is rejected. -/
theorem encodeEnvelope_eq (g c p s : QString) (rng : Nat → Nat)
    (hg : normalizeGroupName g ≠ []) (hc : c ≠ []) (hp : p ≠ []) (hs : s ≠ []) :
    encodeEnvelope g c p s rng =
      "oegw1".toList ++ ':' :: (fromUtf8 (toBase64UrlNoPad (toUtf8 (normalizeGroupName g))) ++
        ':' :: (fromUtf8 (toBase64UrlNoPad (toUtf8 c)) ++
        ':' :: (fromUtf8 (toBase64UrlNoPad (makeNonce rng)) ++
        ':' :: (fromUtf8 (toBase64UrlNoPad
            (xorBytes (toUtf8 p) (keystream (deriveKey s) (makeNonce rng) (toUtf8 p).length))) ++
        ':' :: fromUtf8 (toBase64UrlNoPad
            ((computeMac (deriveKey s) (normalizeGroupName g) c (makeNonce rng)
              (xorBytes (toUtf8 p)
                (keystream (deriveKey s) (makeNonce rng) (toUtf8 p).length))).take 16)))))) := by
  have h1 : (normalizeGroupName g).isEmpty = false := by
    cases h : normalizeGroupName g <;> simp_all
  have h2 : c.isEmpty = false := by cases c <;> simp_all
  have h3 : p.isEmpty = false := by cases p <;> simp_all
  have h4 : s.isEmpty = false := by cases s <;> simp_all
  unfold encodeEnvelope
  simp only [h1, h2, h3, h4, Bool.or_self, Bool.false_eq_true, if_false]
  have e : "oegw1:".toList = "oegw1".toList ++ [':'] := by decide
  rw [e]
  simp only [List.append_assoc, List.singleton_append, List.cons_append, List.nil_append]

theorem colon_not_mem_oegw1 : ':' ∉ "oegw1".toList := by decide

/-- Parsing what `encodeEnvelope` built recovers the five parts. -/
theorem parseEnvelope_encodeEnvelope (g c p s : QString) (rng : Nat → Nat) (out : EnvelopeParts)
    (hg : normalizeGroupName g ≠ []) (hc : c ≠ []) (hct : trimmed c = c)
    (hcb : c.head? ≠ some (Char.ofNat 0xFEFF)) (hp : p ≠ []) (hs : s ≠ []) :
    parseEnvelope (encodeEnvelope g c p s rng) out =
      (true, ⟨normalizeGroupName g, c, makeNonce rng,
        xorBytes (toUtf8 p) (keystream (deriveKey s) (makeNonce rng) (toUtf8 p).length),
        (computeMac (deriveKey s) (normalizeGroupName g) c (makeNonce rng)
          (xorBytes (toUtf8 p)
            (keystream (deriveKey s) (makeNonce rng) (toUtf8 p).length))).take 16⟩) := by
  rw [encodeEnvelope_eq g c p s rng hg hc hp hs]
  unfold parseEnvelope
  rw [qSplit_append _ _ _ colon_not_mem_oegw1, qSplit_append _ _ _ (colon_not_mem_base64Text _),
    qSplit_append _ _ _ (colon_not_mem_base64Text _),
    qSplit_append _ _ _ (colon_not_mem_base64Text _),
    qSplit_append _ _ _ (colon_not_mem_base64Text _),
    qSplit_no_sep _ _ (colon_not_mem_base64Text _)]
  have hcipher : AllBytes (xorBytes (toUtf8 p)
      (keystream (deriveKey s) (makeNonce rng) (toUtf8 p).length)) :=
    xorBytes_allBytes _ _ (toUtf8_allBytes p) (keystream_allBytes _ _ _)
  have hmac : AllBytes ((computeMac (deriveKey s) (normalizeGroupName g) c (makeNonce rng)
      (xorBytes (toUtf8 p) (keystream (deriveKey s) (makeNonce rng) (toUtf8 p).length))).take
        16) :=
    take_allBytes _ _ (sha256_allBytes _)
  simp only [fromBase64UrlNoPad_encode _ (toUtf8_allBytes _),
    fromBase64UrlNoPad_encode _ (makeNonce_allBytes rng), fromBase64UrlNoPad_encode _ hcipher,
    fromBase64UrlNoPad_encode _ hmac, fromUtf8_toUtf8_groupName g hg, fromUtf8_toUtf8 c hcb,
    normalizeGroupName_idem g hg, hct, makeNonce_length]
  have h1 : (normalizeGroupName g).isEmpty = false := by
    cases h : normalizeGroupName g <;> simp_all
  have h2 : c.isEmpty = false := by cases c <;> simp_all
  have h3 : (xorBytes (toUtf8 p)
      (keystream (deriveKey s) (makeNonce rng) (toUtf8 p).length)).isEmpty = false := by
    have hl := xorBytes_length (toUtf8 p)
      (keystream (deriveKey s) (makeNonce rng) (toUtf8 p).length)
    have hne : toUtf8 p ≠ [] := fun e => hp ((toUtf8_eq_nil p).mp e)
    cases hx : xorBytes (toUtf8 p) (keystream (deriveKey s) (makeNonce rng) (toUtf8 p).length)
    · rw [hx] at hl
      exact absurd (List.length_eq_zero.mp hl.symm) hne
    · rfl
  have h4 : ((computeMac (deriveKey s) (normalizeGroupName g) c (makeNonce rng)
      (xorBytes (toUtf8 p) (keystream (deriveKey s) (makeNonce rng) (toUtf8 p).length))).take
        16).length = 16 := by
    simp [computeMac, sha256_length]
  simp [h1, h2, h3, h4]

/-- Decoding the parts `encodeEnvelope` produced, with the secret it was given,
returns the plaintext. -/
theorem decodeEnvelope_parts (g c p s : QString) (nonce : QByteArray) (outText : QString)
    (hp : p ≠ []) (hpb : p.head? ≠ some (Char.ofNat 0xFEFF)) (hs : s ≠ []) :
    decodeEnvelope
      ⟨g, c, nonce, xorBytes (toUtf8 p) (keystream (deriveKey s) nonce (toUtf8 p).length),
        (computeMac (deriveKey s) g c nonce
          (xorBytes (toUtf8 p) (keystream (deriveKey s) nonce (toUtf8 p).length))).take 16⟩
      s outText = (true, p) := by
  have h4 : s.isEmpty = false := by cases s <;> simp_all
  have h3 : p.isEmpty = false := by cases p <;> simp_all
  unfold decodeEnvelope
  simp only [h4, Bool.false_eq_true, if_false, constantTimeEqual_self, Bool.not_true,
    xorBytes_length, xorBytes_xorBytes, fromUtf8_toUtf8 p hpb, h3, Bool.not_false]

/-- C1 (amended): envelope round trip.  For every group name `normalizeGroupName`
accepts, every non-empty channel without leading or trailing white space that
does not start with U+FEFF, every non-empty plaintext that does not start with
U+FEFF, every non-empty secret and every nonce `makeNonce` may draw, the payload
of `encodeEnvelope` is not empty, `parseEnvelope` accepts it with the normalized
group and the channel, and `decodeEnvelope` with the same secret succeeds and
returns the plaintext. -/
theorem envelope_round_trip (g c p s : QString) (rng : Nat → Nat) (out : EnvelopeParts)
    (outText : QString)
    (hg : normalizeGroupName g ≠ []) (hc : c ≠ []) (hct : trimmed c = c)
    (hcb : c.head? ≠ some (Char.ofNat 0xFEFF)) (hp : p ≠ [])
    (hpb : p.head? ≠ some (Char.ofNat 0xFEFF)) (hs : s ≠ []) :
    encodeEnvelope g c p s rng ≠ [] ∧
    (parseEnvelope (encodeEnvelope g c p s rng) out).1 = true ∧
    (parseEnvelope (encodeEnvelope g c p s rng) out).2.group = normalizeGroupName g ∧
    (parseEnvelope (encodeEnvelope g c p s rng) out).2.channel = c ∧
    decodeEnvelope (parseEnvelope (encodeEnvelope g c p s rng) out).2 s outText = (true, p) := by
  refine ⟨?_, ?_⟩
  · rw [encodeEnvelope_eq g c p s rng hg hc hp hs]
    exact fun h => by simp at h
  · rw [parseEnvelope_encodeEnvelope g c p s rng out hg hc hct hcb hp hs]
    exact ⟨rfl, rfl, rfl, decodeEnvelope_parts _ c p s _ outText hp hpb hs⟩

theorem envelope_round_trip_witness :
    encodeEnvelope "vip_mods".toList "orbinyan".toList "hello secure group".toList
        "secret".toList (fun _ => 0) ≠ [] ∧
    (parseEnvelope (encodeEnvelope "vip_mods".toList "orbinyan".toList
        "hello secure group".toList "secret".toList (fun _ => 0)) emptyEnvelope).1 = true ∧
    (parseEnvelope (encodeEnvelope "vip_mods".toList "orbinyan".toList
        "hello secure group".toList "secret".toList (fun _ => 0)) emptyEnvelope).2.group =
      normalizeGroupName "vip_mods".toList ∧
    (parseEnvelope (encodeEnvelope "vip_mods".toList "orbinyan".toList
        "hello secure group".toList "secret".toList (fun _ => 0)) emptyEnvelope).2.channel =
      "orbinyan".toList ∧
    decodeEnvelope (parseEnvelope (encodeEnvelope "vip_mods".toList "orbinyan".toList
        "hello secure group".toList "secret".toList (fun _ => 0)) emptyEnvelope).2
        "secret".toList [] = (true, "hello secure group".toList) :=
  envelope_round_trip "vip_mods".toList "orbinyan".toList "hello secure group".toList
    "secret".toList (fun _ => 0) emptyEnvelope [] (by decide) (by decide) (by decide)
    (by decide) (by decide) (by decide) (by decide)

/-- C1 (as stated) fails: for the non-empty channel that is one blank,
`encodeEnvelope` builds a payload and `parseEnvelope` rejects it. -/
theorem envelope_round_trip_blank_channel :
    normalizeGroupName "vip_mods".toList ≠ [] ∧ " ".toList ≠ [] ∧ "hello".toList ≠ [] ∧
    "secret".toList ≠ [] ∧
    encodeEnvelope "vip_mods".toList " ".toList "hello".toList "secret".toList (fun _ => 0) ≠ [] ∧
    (parseEnvelope (encodeEnvelope "vip_mods".toList " ".toList "hello".toList "secret".toList
      (fun _ => 0)) emptyEnvelope).1 = false := by
  decide

/-- C2: the code at the failing input.  The payload built from the inputs of
the test with a nonce of sixteen bytes 1 ends in `A`; after the tampering step
of the test (the last character becomes `B`) `parseEnvelope` still accepts it
and `decodeEnvelope` with the original secret returns true and the plaintext,
where the claim and the test expect false. -/
theorem tampered_payload_accepted :
    tamperPayload ≠ [] ∧ tamperPayload.getLast? = some 'A' ∧
    tamperLastChar tamperPayload ≠ tamperPayload ∧
    (parseEnvelope (tamperLastChar tamperPayload) emptyEnvelope).1 = true ∧
    decodeEnvelope (parseEnvelope (tamperLastChar tamperPayload) emptyEnvelope).2
      "secret".toList [] = (true, "hello".toList) := by
  decide


/-! ## Emote lookup -/

/-- C3 (amended): `parseEmote` returns what the first consulted provider that
knows the name returns; the consulted providers are the channel's FrankerFaceZ,
BetterTTV and 7TV emotes (only with a Twitch channel), the global FrankerFaceZ,
BetterTTV and 7TV emotes and, when `openEmoteEnableCrossChannelEmotes` is on,
the FrankerFaceZ, BetterTTV and 7TV maps of the cross-channel cache, in this
order.  The result is the emote of one provider, it is no emote exactly when no
consulted provider knows the name, and with the setting off the consulted
providers are the six of the specification. -/
theorem parseEmote_first_consulted (app : App) (twitchChannel : Option TwitchChannel)
    (name : QString) :
    parseEmote app twitchChannel name =
      (consultedProviders app twitchChannel).findSome? (fun provider => provider name) ∧
    (parseEmote app twitchChannel name = none ↔
      ∀ provider ∈ consultedProviders app twitchChannel, provider name = none) ∧
    (∀ emote, parseEmote app twitchChannel name = some emote →
      ∃ provider ∈ consultedProviders app twitchChannel, provider name = some emote) ∧
    (app.settings.openEmoteEnableCrossChannelEmotes = false →
      consultedProviders app twitchChannel = listedProviders app twitchChannel) := by
  have key : parseEmote app twitchChannel name =
      (consultedProviders app twitchChannel).findSome? (fun provider => provider name) := by
    unfold parseEmote consultedProviders listedProviders
    cases twitchChannel with
    | none =>
      cases hs : app.settings.openEmoteEnableCrossChannelEmotes <;>
        simp only [List.nil_append, List.cons_append, List.findSome?, hs, if_true,
          Bool.false_eq_true, if_false, List.append_nil] <;>
        (repeat' split) <;> simp_all
    | some tc =>
      cases hs : app.settings.openEmoteEnableCrossChannelEmotes <;>
        simp only [List.nil_append, List.cons_append, List.findSome?, hs, if_true,
          Bool.false_eq_true, if_false, List.append_nil] <;>
        (repeat' split) <;> simp_all
  refine ⟨key, ?_, ?_, ?_⟩
  · rw [key, List.findSome?_eq_none_iff]
  · intro emote h
    rw [key] at h
    obtain ⟨provider, hmem, hp⟩ := List.exists_of_findSome?_eq_some h
    exact ⟨provider, hmem, hp⟩
  · intro h
    simp [consultedProviders, h]

/-- C3 (as stated) fails: with the cross-channel setting on and the name known
only to the cross-channel cache, none of the six listed providers knows the
name and `parseEmote` still returns an emote. -/
theorem parseEmote_beyond_listed :
    parseEmote crossChannelApp none "Kappa".toList = some (sampleEmote "Kappa") ∧
    (listedProviders crossChannelApp none).findSome? (fun provider => provider "Kappa".toList) =
      none := by
  decide

/-! ## Sorting and de-duplicating the emote occurrences -/

theorem insertByStart_perm (o : TwitchEmoteOccurrence) (l : List TwitchEmoteOccurrence) :
    (insertByStart o l).Perm (o :: l) := by
  induction l with
  | nil => exact List.Perm.refl _
  | cons x xs ih =>
    unfold insertByStart
    split_ifs
    · exact List.Perm.refl _
    · exact (List.Perm.cons x ih).trans (List.Perm.swap o x xs)

theorem stableSortByStart_perm (l : List TwitchEmoteOccurrence) :
    (stableSortByStart l).Perm l := by
  induction l with
  | nil => exact List.Perm.refl _
  | cons o rest ih =>
    exact (insertByStart_perm o (stableSortByStart rest)).trans (List.Perm.cons o ih)

theorem insertByStart_pairwise (o : TwitchEmoteOccurrence) (l : List TwitchEmoteOccurrence)
    (h : l.Pairwise (fun a b => a.start ≤ b.start)) :
    (insertByStart o l).Pairwise (fun a b => a.start ≤ b.start) := by
  induction l with
  | nil => simp [insertByStart]
  | cons x xs ih =>
    rw [List.pairwise_cons] at h
    unfold insertByStart
    split_ifs with hle
    · refine List.pairwise_cons.mpr ⟨?_, List.pairwise_cons.mpr h⟩
      intro y hy
      rcases List.mem_cons.mp hy with rfl | hy
      · exact hle
      · exact le_trans hle (h.1 y hy)
    · refine List.pairwise_cons.mpr ⟨?_, ih h.2⟩
      intro y hy
      rcases List.mem_cons.mp ((insertByStart_perm o xs).mem_iff.mp hy) with rfl | hy
      · omega
      · exact h.1 y hy

theorem stableSortByStart_pairwise (l : List TwitchEmoteOccurrence) :
    (stableSortByStart l).Pairwise (fun a b => a.start ≤ b.start) := by
  induction l with
  | nil => simp [stableSortByStart]
  | cons o rest ih => exact insertByStart_pairwise o _ ih

/-- The order-preserving insertion sort is one of the behaviours the standard
allows for `std::ranges::sort`. -/
theorem stableSortByStart_isRangesSort : IsRangesSort stableSortByStart :=
  fun xs => ⟨stableSortByStart_perm xs, stableSortByStart_pairwise xs⟩


theorem insertByStart_filter (o : TwitchEmoteOccurrence) (l : List TwitchEmoteOccurrence)
    (s : Int) :
    (insertByStart o l).filter (fun x => x.start = s) = (o :: l).filter (fun x => x.start = s) := by
  induction l with
  | nil => rfl
  | cons x xs ih =>
    unfold insertByStart
    split_ifs with hle
    · rfl
    · by_cases ho : o.start = s
      · have hx : ¬ x.start = s := by omega
        simp only [List.filter_cons, hx, ho, decide_True, decide_False, if_true,
          Bool.false_eq_true, if_false] at ih ⊢
        exact ih
      · simp only [List.filter_cons, ho, decide_False, Bool.false_eq_true, if_false] at ih ⊢
        rw [ih]

theorem stableSortByStart_isStableSort : IsStableSort stableSortByStart := by
  intro xs s
  induction xs with
  | nil => rfl
  | cons o rest ih =>
    show (insertByStart o (stableSortByStart rest)).filter _ = _
    rw [insertByStart_filter, List.filter_cons, List.filter_cons, ih]

theorem uniqueLoop_chain (kept : TwitchEmoteOccurrence) (l : List TwitchEmoteOccurrence)
    (h : (kept :: l).Pairwise (fun a b => a.start ≤ b.start)) :
    List.Chain (fun a b => a.start < b.start) kept (uniqueLoop kept l) := by
  induction l generalizing kept with
  | nil => exact List.Chain.nil
  | cons o rest ih =>
    rw [List.pairwise_cons] at h
    have hrest := List.pairwise_cons.mp h.2
    unfold uniqueLoop
    split_ifs with he
    · exact ih kept (List.pairwise_cons.mpr ⟨fun y hy => h.1 y (List.mem_cons_of_mem _ hy),
        hrest.2⟩)
    · refine List.Chain.cons ?_ (ih o h.2)
      have := h.1 o (List.mem_cons_self _ _)
      omega

theorem uniqueByStart_chain (l : List TwitchEmoteOccurrence)
    (h : l.Pairwise (fun a b => a.start ≤ b.start)) :
    (uniqueByStart l).Chain' (fun a b => a.start < b.start) := by
  cases l with
  | nil => exact List.chain'_nil
  | cons o rest => exact uniqueLoop_chain o rest h

/-- The loop of `std::ranges::unique` never drops the first occurrence with a
given `start`. -/
theorem uniqueLoop_find? (kept : TwitchEmoteOccurrence) (l : List TwitchEmoteOccurrence)
    (s : Int) :
    (kept :: uniqueLoop kept l).find? (fun o => o.start = s) =
      (kept :: l).find? (fun o => o.start = s) := by
  induction l generalizing kept with
  | nil => rfl
  | cons o rest ih =>
    unfold uniqueLoop
    split_ifs with he
    · rw [ih kept]
      by_cases hk : kept.start = s
      · simp [List.find?_cons, hk]
      · have ho : ¬ o.start = s := by omega
        simp [List.find?_cons, hk, ho]
    · by_cases hk : kept.start = s
      · simp [List.find?_cons, hk]
      · have := ih o
        simp only [List.find?_cons, hk, decide_False] at this ⊢
        exact this

theorem uniqueByStart_find? (l : List TwitchEmoteOccurrence) (s : Int) :
    (uniqueByStart l).find? (fun o => o.start = s) = l.find? (fun o => o.start = s) := by
  cases l with
  | nil => rfl
  | cons o rest => exact uniqueLoop_find? o rest s

theorem filter_length_le_one_of_chain (l : List TwitchEmoteOccurrence) (s : Int)
    (h : l.Chain' (fun a b => a.start < b.start)) :
    (l.filter (fun o => o.start = s)).length ≤ 1 := by
  have hp : l.Pairwise (fun a b => a.start < b.start) := by
    haveI : IsTrans TwitchEmoteOccurrence (fun a b => a.start < b.start) :=
      ⟨fun _ _ _ hab hbc => lt_trans hab hbc⟩
    exact List.chain'_iff_pairwise.mp h
  have hf := hp.filter (fun o => decide (o.start = s))
  have hall : ∀ o ∈ l.filter (fun o => decide (o.start = s)), o.start = s := by
    intro o ho
    simpa using (List.mem_filter.mp ho).2
  generalize l.filter (fun o => decide (o.start = s)) = fl at hf hall
  match fl, hf, hall with
  | [], _, _ => simp
  | [_], _, _ => simp
  | a :: b :: rest, hf', hall' =>
    exfalso
    have ha := hall' a (by simp)
    have hb := hall' b (by simp)
    have hlt := (List.pairwise_cons.mp hf').1 b (List.mem_cons_self _ _)
    omega

theorem head?_filter_eq_find? (p : TwitchEmoteOccurrence → Bool)
    (l : List TwitchEmoteOccurrence) : (l.filter p).head? = l.find? p := by
  induction l with
  | nil => rfl
  | cons x xs ih =>
    by_cases hx : p x = true
    · simp [List.filter_cons, List.find?_cons, hx]
    · simp [List.filter_cons, List.find?_cons, hx, ih]

/-- C4: after the sort by `start` and the removal of duplicates the `start`
offsets of adjacent occurrences are strictly increasing. -/
theorem sortAndUnique_strictly_increasing
    (sort : List TwitchEmoteOccurrence → List TwitchEmoteOccurrence) (h : IsRangesSort sort)
    (twitchEmotes : List TwitchEmoteOccurrence) :
    (sortAndUnique sort twitchEmotes).Chain' (fun a b => a.start < b.start) :=
  uniqueByStart_chain _ (h twitchEmotes).2

theorem sortAndUnique_strictly_increasing_witness :
    IsRangesSort stableSortByStart ∧
    (sortAndUnique stableSortByStart
      [sampleOccurrence 6 "Kappa", sampleOccurrence 0 "Keepo", sampleOccurrence 6 "PogChamp",
        sampleOccurrence 0 "LUL"]).Chain' (fun a b => a.start < b.start) :=
  ⟨stableSortByStart_isRangesSort,
    sortAndUnique_strictly_increasing stableSortByStart stableSortByStart_isRangesSort _⟩

/-- C5 (amended): of the occurrences that share a `start` offset the step keeps
exactly one, the one the sort has put first among them, and drops the others;
it is the first-declared one whenever the sort leaves occurrences with equal
`start` in their declared order. -/
theorem sortAndUnique_keeps_first_sorted
    (sort : List TwitchEmoteOccurrence → List TwitchEmoteOccurrence) (h : IsRangesSort sort)
    (twitchEmotes : List TwitchEmoteOccurrence) (s : Int) :
    (sortAndUnique sort twitchEmotes).find? (fun o => o.start = s) =
      (sort twitchEmotes).find? (fun o => o.start = s) ∧
    ((sortAndUnique sort twitchEmotes).filter (fun o => o.start = s)).length ≤ 1 ∧
    (IsStableSort sort →
      (sortAndUnique sort twitchEmotes).find? (fun o => o.start = s) =
        twitchEmotes.find? (fun o => o.start = s)) := by
  refine ⟨uniqueByStart_find? _ s, ?_, ?_⟩
  · exact filter_length_le_one_of_chain _ s (uniqueByStart_chain _ (h twitchEmotes).2)
  · intro hst
    unfold sortAndUnique
    rw [uniqueByStart_find?, ← head?_filter_eq_find?, ← head?_filter_eq_find?,
      hst twitchEmotes s]

theorem sortAndUnique_keeps_first_sorted_witness :
    IsRangesSort stableSortByStart ∧ IsStableSort stableSortByStart ∧
    (sortAndUnique stableSortByStart
        [sampleOccurrence 6 "Kappa", sampleOccurrence 0 "Keepo", sampleOccurrence 6 "PogChamp",
          sampleOccurrence 0 "LUL"]).find? (fun o => o.start = 6) =
      some (sampleOccurrence 6 "Kappa") := by
  refine ⟨stableSortByStart_isRangesSort, stableSortByStart_isStableSort, ?_⟩
  rw [(sortAndUnique_keeps_first_sorted stableSortByStart stableSortByStart_isRangesSort
    [sampleOccurrence 6 "Kappa", sampleOccurrence 0 "Keepo", sampleOccurrence 6 "PogChamp",
      sampleOccurrence 0 "LUL"] 6).2.2 stableSortByStart_isStableSort]
  decide

/-- C5 (as stated) fails with the sort of GNU libstdc++: of seventeen
occurrences declared for offset 0 the step keeps the ninth-declared one,
`ResidentSleeper`, and drops the first-declared one, `Kappa`. -/
theorem sortAndUnique_keeps_later_declared :
    libstdcxxSortByStart sameStartOccurrences =
      some (["ResidentSleeper", "TriHard", "CoolCat", "SeemsGood", "WutFace", "VoHiYo",
        "HeyGuys", "FailFish", "NotLikeThis", "Kappa", "SwiftRage", "DansGame", "BibleThump",
        "Kreygasm", "LUL", "PogChamp", "Keepo"].map (sampleOccurrence 0)) ∧
    sortAndUnique libstdcxxRangesSort sameStartOccurrences =
      [sampleOccurrence 0 "ResidentSleeper"] ∧
    sameStartOccurrences.head? = some (sampleOccurrence 0 "Kappa") := by
  decide

/-! ## `makeIrcMessage`: the ignore check and the message text -/

theorem emplace_messageText (b : MessageBuilder) (e : MessageElement) :
    (b.emplace e).message.messageText = b.message.messageText := rfl

theorem setFlag_messageText (b : MessageBuilder) (f : MessageFlag) :
    (b.setFlag f).message.messageText = b.message.messageText := rfl

theorem parseHighlights_messageText (app : App) (b : MessageBuilder) (tags : QVariantMap)
    (originalMessage : QString) (args : MessageParseArgs) :
    (b.parseHighlights app tags originalMessage args).2.message.messageText =
      b.message.messageText := by
  unfold MessageBuilder.parseHighlights
  split_ifs
  · rfl
  · split
    · rfl
    · dsimp only
      split_ifs <;> rfl

theorem appendReplyButton_messageText (app : App) (b : MessageBuilder) (tags : QVariantMap)
    (args : MessageParseArgs) (compact : Bool) (thread : Option MessageThread) :
    (b.appendReplyButton app tags args compact thread).message.messageText =
      b.message.messageText := by
  unfold MessageBuilder.appendReplyButton
  split_ifs
  · split
    · dsimp only
      split_ifs <;> rfl
    · rfl
  · rfl

theorem ircTrailer_messageText (app : App) (channel : Channel) (ircMessage : IrcMessage)
    (args : MessageParseArgs) (b : MessageBuilder) (content : QString)
    (thread : Option MessageThread) :
    (ircTrailer app channel ircMessage args b content thread).1.messageText =
      b.message.messageText := by
  unfold ircTrailer
  dsimp only
  split_ifs <;>
    simp only [emplace_messageText, appendReplyButton_messageText, setFlag_messageText,
      parseHighlights_messageText]

theorem ircBody_messageText (app : App) (fuel : Nat) (ircMessage : IrcMessage)
    (content : QString) (messageOffset : Int) (b : MessageBuilder)
    (twitchChannel : Option TwitchChannel) (r : MessageBuilder × QString)
    (h : ircBody app fuel ircMessage content messageOffset b twitchChannel = some r) :
    r.1.message.messageText =
      (app.processIgnorePhrases content
        (app.parseTwitchEmotes ircMessage.tags content messageOffset)).1 := by
  unfold ircBody at h
  dsimp only at h
  split at h
  · exact absurd h (by simp)
  · simp only [Option.some.injEq] at h
    rw [← h]

/-- The message text `buildIrcMessage` stores is the content after the ignore
phrases have been applied. -/
theorem buildIrcMessage_messageText (app : App) (fuel : Nat) (channel : Channel)
    (ircMessage : IrcMessage) (args : MessageParseArgs) (content : QString) (messageOffset : Int)
    (thread : Option MessageThread) (parent : Option Message) (r : Message × HighlightAlert)
    (h : buildIrcMessage app fuel channel ircMessage args content messageOffset thread parent =
      some r) :
    r.1.messageText =
      (app.processIgnorePhrases content
        (app.parseTwitchEmotes ircMessage.tags content messageOffset)).1 := by
  unfold buildIrcMessage at h
  split at h
  · exact absurd h (by simp)
  · split at h
    · exact absurd h (by simp)
    · rename_i b17 processed hbody
      simp only [Option.some.injEq] at h
      rw [← h, ircTrailer_messageText]
      exact ircBody_messageText app fuel ircMessage content messageOffset _ _ _ hbody

/-- Without bits `addTextOrEmote` has a result and leaves the text state. -/
theorem addTextOrEmote_some (app : App) (fuel : Nat) (b : MessageBuilder) (state : TextState)
    (string : QString) (h : state.hasBits = false) :
    ∃ b1, b.addTextOrEmote app fuel state string = some (b1, state) := by
  unfold MessageBuilder.addTextOrEmote
  simp only [h, Bool.false_eq_true, if_false]
  split
  · exact ⟨_, rfl⟩
  · split
    · exact ⟨_, rfl⟩
    · split
      · exact ⟨_, rfl⟩
      · split
        · exact ⟨_, rfl⟩
        · exact ⟨_, rfl⟩

theorem addParsed_some (app : App) (fuel : Nat) (pieces : List (EmotePtr ⊕ QString))
    (b : MessageBuilder) (state : TextState) (h : state.hasBits = false) :
    ∃ b1, MessageBuilder.addParsed app fuel pieces b state = some (b1, state) := by
  induction pieces generalizing b with
  | nil => exact ⟨b, rfl⟩
  | cons piece rest ih =>
    cases piece with
    | inl emote =>
      unfold MessageBuilder.addParsed
      exact ih _
    | inr text =>
      unfold MessageBuilder.addParsed
      obtain ⟨b1, hb1⟩ := addTextOrEmote_some app fuel b state text h
      rw [hb1]
      exact ih b1

/-- Without emote occurrences and without bits `addWordsFrom` has a result. -/
theorem addWordsFrom_some (app : App) (scale fuel : Nat) (words : List QString)
    (b : MessageBuilder) (state : TextState) (cursor : Int) (h : state.hasBits = false) :
    ∃ b1, MessageBuilder.addWordsFrom app scale (fuel + 1) words b state cursor [] =
      some (b1, state) := by
  induction words generalizing b cursor with
  | nil => exact ⟨b, rfl⟩
  | cons word words ih =>
    unfold MessageBuilder.addWordsFrom
    split_ifs with hw
    · exact ih _ _
    · simp only [MessageBuilder.addWordEmotes, hw, Bool.false_eq_true, if_false]
      obtain ⟨b2, hb2⟩ := addParsed_some app (fuel + 1) (app.emojiParse word) b state h
      rw [hb2]
      exact ih _ _

theorem sortAndUnique_nil (sort : List TwitchEmoteOccurrence → List TwitchEmoteOccurrence)
    (h : IsRangesSort sort) : sortAndUnique sort [] = [] := by
  unfold sortAndUnique
  rw [List.Perm.eq_nil (h []).1]
  rfl

/-- Without tags and without emote occurrences the body steps have a result. -/
theorem ircBody_some (app : App) (fuel : Nat) (ircMessage : IrcMessage) (content : QString)
    (messageOffset : Int) (b : MessageBuilder) (twitchChannel : Option TwitchChannel)
    (htags : ircMessage.tags = []) (hsort : IsRangesSort app.rangesSort)
    (hemotes : (app.processIgnorePhrases content
      (app.parseTwitchEmotes ircMessage.tags content messageOffset)).2 = []) :
    ∃ r, ircBody app (fuel + 1) ircMessage content messageOffset b twitchChannel = some r := by
  unfold ircBody
  rw [htags] at hemotes
  simp only [htags, hemotes, sortAndUnique_nil _ hsort]
  have hbits : QVariantMap.find ([] : QVariantMap) "bits" = none := rfl
  simp only [hbits, MessageBuilder.addWords]
  obtain ⟨b1, hb1⟩ := addWordsFrom_some app
    (openEmoteChannelScaleForChannel app twitchChannel) fuel
    (qSplit ' ' (app.processIgnorePhrases content
      (app.parseTwitchEmotes [] content messageOffset)).1) b
    { twitchChannel := twitchChannel } 0 rfl
  rw [hb1]
  exact ⟨_, rfl⟩

/-- Without tags, without a reward id and without a thread the header steps have
a result. -/
theorem ircHeader_some (app : App) (channel : Channel) (ircMessage : IrcMessage)
    (args : MessageParseArgs) (content : QString) (parent : Option Message)
    (b : MessageBuilder) (twitchChannel : Option TwitchChannel)
    (htags : ircMessage.tags = []) (hreward : args.channelPointRewardId = []) :
    ∃ r, ircHeader app channel ircMessage args content none parent b twitchChannel = some r := by
  unfold ircHeader
  have hc : QVariantMap.contains ([] : QVariantMap) "reply-parent-msg-id" = false := rfl
  simp only [hreward, htags, List.isEmpty_nil, Bool.not_true, Bool.false_eq_true, if_false,
    MessageBuilder.parseThread, hc]
  exact ⟨_, rfl⟩

/-- Whenever `makeIrcMessage` returns a message, its `messageText` is the content
after the ignore phrases have been applied. -/
theorem makeIrcMessage_stores_processed (app : App) (fuel : Nat) (channel : Channel)
    (ircMessage : IrcMessage) (args : MessageParseArgs) (content : QString) (messageOffset : Int)
    (thread : Option MessageThread) (parent : Option Message) (message : Message)
    (alert : HighlightAlert)
    (h : makeIrcMessage app fuel channel ircMessage args content messageOffset thread parent =
      some (some message, alert)) :
    message.messageText =
      (app.processIgnorePhrases content
        (app.parseTwitchEmotes ircMessage.tags content messageOffset)).1 := by
  unfold makeIrcMessage at h
  split_ifs at h with hign
  · simp at h
  · obtain ⟨r, hr, hf⟩ := Option.map_eq_some'.mp h
    simp only [Prod.mk.injEq, Option.some.injEq] at hf
    rw [← hf.1]
    exact buildIrcMessage_messageText app fuel channel ircMessage args content messageOffset
      thread parent r hr

/-- C6 (amended): for every body and an empty tag map, when no channel point
reward id and no reply thread are passed, the ignore check does not drop the
message and the ignore phrases leave no emote occurrence, `makeIrcMessage`
returns a message whose `messageText` is the content after
`processIgnorePhrases` has run its replacements on it; it is the input body
verbatim whenever no ignore phrase changes the body. -/
theorem makeIrcMessage_messageText (app : App) (fuel : Nat) (channel : Channel)
    (ircMessage : IrcMessage) (args : MessageParseArgs) (content : QString) (messageOffset : Int)
    (parent : Option Message)
    (htags : ircMessage.tags = [])
    (hreward : args.channelPointRewardId = [])
    (hignored : (args.allowIgnore &&
      isIgnored app content (ircMessage.tags.value "user-id") channel) = false)
    (hsort : IsRangesSort app.rangesSort)
    (hemotes : (app.processIgnorePhrases content
      (app.parseTwitchEmotes ircMessage.tags content messageOffset)).2 = []) :
    ∃ message alert,
      makeIrcMessage app (fuel + 1) channel ircMessage args content messageOffset none parent =
        some (some message, alert) ∧
      message.messageText =
        (app.processIgnorePhrases content
          (app.parseTwitchEmotes ircMessage.tags content messageOffset)).1 ∧
      ((app.processIgnorePhrases content
          (app.parseTwitchEmotes ircMessage.tags content messageOffset)).1 = content →
        message.messageText = content) := by
  obtain ⟨header, hheader⟩ := ircHeader_some app channel ircMessage args content parent
    (ircIdentity app channel ircMessage args).1 (ircIdentity app channel ircMessage args).2
    htags hreward
  obtain ⟨body, hbody⟩ := ircBody_some app fuel ircMessage content messageOffset header.1
    (ircIdentity app channel ircMessage args).2 htags hsort hemotes
  have hbuild : buildIrcMessage app (fuel + 1) channel ircMessage args content messageOffset none
      parent = some (ircTrailer app channel ircMessage args body.1 body.2 header.2) := by
    unfold buildIrcMessage
    rw [hheader]
    dsimp only
    rw [hbody]
  have hmake : makeIrcMessage app (fuel + 1) channel ircMessage args content messageOffset none
      parent = some (some (ircTrailer app channel ircMessage args body.1 body.2 header.2).1,
        (ircTrailer app channel ircMessage args body.1 body.2 header.2).2) := by
    unfold makeIrcMessage
    rw [hignored, hbuild]
    rfl
  have key := makeIrcMessage_stores_processed app (fuel + 1) channel ircMessage args content
    messageOffset none parent _ _ hmake
  exact ⟨_, _, hmake, key, fun hc => key.trans hc⟩

/-- The message built from the sample collaborators. -/
theorem sample_makeIrcMessage :
    makeIrcMessage sampleApp 4 sampleChannel samplePlainMessage {} "hello chat".toList 0 none
      none = some (some samplePlainResult, {}) := by
  decide

theorem makeIrcMessage_messageText_witness :
    ∃ message alert,
      makeIrcMessage sampleApp (3 + 1) sampleChannel samplePlainMessage {} "hello chat".toList 0
        none none = some (some message, alert) ∧
      message.messageText =
        (sampleApp.processIgnorePhrases "hello chat".toList
          (sampleApp.parseTwitchEmotes samplePlainMessage.tags "hello chat".toList 0)).1 ∧
      ((sampleApp.processIgnorePhrases "hello chat".toList
          (sampleApp.parseTwitchEmotes samplePlainMessage.tags "hello chat".toList 0)).1 =
          "hello chat".toList →
        message.messageText = "hello chat".toList) :=
  makeIrcMessage_messageText sampleApp 3 sampleChannel samplePlainMessage {} "hello chat".toList
    0 none rfl rfl rfl stableSortByStart_isRangesSort rfl

/-- C6 (as stated) fails: with an ignore phrase that replaces `chat`, the plain
ASCII body `hello chat` without tags gives the message text `hello ***`. -/
theorem makeIrcMessage_messageText_replaced :
    (makeIrcMessage replacingApp 4 sampleChannel samplePlainMessage {} "hello chat".toList 0 none
      none).map (fun r => r.1.map (fun m => m.messageText)) =
      some (some "hello ***".toList) := by
  decide

/-- The function `parseUsernameColor` changes the two user name colours and
nothing else. -/
theorem parseUsernameColor_frame (app : App) (b : MessageBuilder) (tags : QVariantMap)
    (userID : QString) :
    ∃ c1 c2, b.parseUsernameColor app tags userID =
      { b with usernameColor_ := c1, message := { b.message with usernameColor := c2 } } := by
  unfold MessageBuilder.parseUsernameColor
  dsimp only
  split
  · exact ⟨_, _, rfl⟩
  · split
    · exact ⟨_, _, rfl⟩
    · split_ifs
      · exact ⟨_, _, rfl⟩
      · exact ⟨b.usernameColor_, b.message.usernameColor, rfl⟩

theorem ircIdentity_plain (app : App) (channel : Channel) :
    PlainTextState app (ircIdentity app channel samplePlainMessage {}).1 [] none ∧
    (ircIdentity app channel samplePlainMessage {}).2 = plainTextTwitchChannel app channel := by
  obtain ⟨c1, c2, hb⟩ := parseUsernameColor_frame app {} [] []
  have h1 : (ircIdentity app channel samplePlainMessage {}).1 =
      { message := { loginName := "user".toList, usernameColor := c2,
                     flags := MessageFlag.Collapsed.mask, channelName := channel.name },
        usernameColor_ := c1 } := by
    unfold ircIdentity
    simp only [samplePlainMessage, QVariantMap.value, QVariantMap.find, List.find?_nil,
      Option.map_none', Option.getD_none, hb, MessageBuilder.parseUsername,
      MessageBuilder.parseMessageID, MessageBuilder.parseSharedChatInfo, parseRoomID,
      MessageBuilder.setFlag]
    cases channel.twitch <;> simp [MessageFlags.set]
  have h2 : (ircIdentity app channel samplePlainMessage {}).2 =
      plainTextTwitchChannel app channel := by
    unfold ircIdentity plainTextTwitchChannel
    simp only [samplePlainMessage, QVariantMap.value, QVariantMap.find, List.find?_nil,
      Option.map_none', Option.getD_none, hb, MessageBuilder.parseUsername,
      MessageBuilder.parseMessageID, MessageBuilder.parseSharedChatInfo, parseRoomID,
      MessageBuilder.setFlag]
    cases channel.twitch <;> simp
  refine ⟨?_, h2⟩
  rw [h1]
  constructor <;> first | rfl | (rw [hb])

theorem stylizeUsername_plain (app : App) (message : Message)
    (hnick : app.settings.matchNickname "user".toList = none)
    (h1 : message.loginName = "user".toList) (h2 : message.displayName = [])
    (h3 : message.localizedName = []) (h4 : message.userID = [])
    (h5 : message.openEmotePreferredNickname = []) :
    stylizeUsername app "user".toList message = "user".toList := by
  have hu : "user".toList = ['u', 's', 'e', 'r'] := rfl
  rw [hu] at hnick h1 ⊢
  have ht : trimmed ['u', 's', 'e', 'r'] = ['u', 's', 'e', 'r'] := by decide
  have hte : trimmed ([] : QString) = [] := by decide
  have hc : qCompareCaseInsensitive app.caseFolded ['u', 's', 'e', 'r'] ['u', 's', 'e', 'r'] =
      true := by simp [qCompareCaseInsensitive]
  unfold stylizeUsername
  simp only [h1, h2, h3, h4, h5, hte, List.isEmpty_nil, Bool.not_true, Bool.false_eq_true,
    if_false, addCandidate, ht, List.any_nil, List.nil_append, List.any_cons, hc, Bool.or_false,
    if_true, List.findSome?, hnick, List.isEmpty_cons]
  cases app.settings.usernameDisplayMode <;> simp [hnick, ht, hc]

theorem parseThread_plain (app : App) (b : MessageBuilder) (content : QString)
    (channel : Channel) :
    b.parseThread app content [] channel none none = some (b, none) := by
  simp [MessageBuilder.parseThread, QVariantMap.contains, QVariantMap.find]

theorem parseTagFlags_plain (b : MessageBuilder) : b.parseTagFlags [] = b := by
  simp [MessageBuilder.parseTagFlags, QVariantMap.contains, QVariantMap.find]

theorem PlainTextState.emplace {app : App} {b : MessageBuilder} {els : List MessageElement}
    {t : QDateTime} (hb : PlainTextState app b els t) (e : MessageElement) :
    PlainTextState app (b.emplace e) (els ++ [e]) t := by
  obtain ⟨h1, h2, h3, h4, h5, h6, h7, h8, h9, h10, h11⟩ := hb
  exact ⟨by simp [MessageBuilder.emplace, h1], h2, h3, h4, h5, h6, h7, h8, h9, h10, h11⟩

theorem PlainTextState.setTime {app : App} {b : MessageBuilder} {els : List MessageElement}
    {t : QDateTime} (hb : PlainTextState app b els t) (t1 : QDateTime) :
    PlainTextState app { b with message := { b.message with serverReceivedTime := t1 } } els
      t1 := by
  obtain ⟨h1, h2, h3, h4, h5, h6, h7, h8, h9, h10, h11⟩ := hb
  exact ⟨h1, h2, h3, h4, h5, h6, h7, h8, h9, rfl, h11⟩

theorem PlainTextState.metadata {app : App} {b : MessageBuilder} {els : List MessageElement}
    {t : QDateTime} (hb : PlainTextState app b els t) (htag : app.parseTagString [] = []) :
    PlainTextState app (parseOpenEmoteAvatarModelMetadata app b [] "hello chat".toList) els
      t := by
  have hte : trimmed ([] : QString) = [] := by decide
  have hcmd : parseOpenEmoteAvatarActionCommand "hello chat".toList = ([], []) := by decide
  have hbt : ∀ name n, parseBoundedTag app [] name n = [] := by
    intro name n
    simp [parseBoundedTag, QVariantMap.value, QVariantMap.find, htag, hte]
  obtain ⟨h1, h2, h3, h4, h5, h6, h7, h8, h9, h10, h11⟩ := hb
  unfold parseOpenEmoteAvatarModelMetadata
  split_ifs
  · exact ⟨h1, h2, h3, h4, h5, h6, h7, h8, h9, h10, h11⟩
  · exact ⟨h1, h2, h3, h4, h5, h6, h7, by simp [hbt], h9, h10, h11⟩

theorem PlainTextState.badges {app : App} {channel : Channel} {b : MessageBuilder}
    {els : List MessageElement} {t : QDateTime} (h : PlainTextScenario app channel)
    (hb : PlainTextState app b els t) :
    PlainTextState app
      (((((b.appendTwitchBadges app [] (plainTextTwitchChannel app channel)).appendChatterinoBadges
        app []).appendFfzBadges app (plainTextTwitchChannel app channel) []).appendBttvBadges app
        []).appendSeventvBadges app []) els t := by
  have hnot : b.message.flags.has .SharedMessage = false := by
    rw [hb.flags_eq]; decide
  have s1 : PlainTextState app (b.appendTwitchBadges app [] (plainTextTwitchChannel app channel))
      els t := by
    obtain ⟨h1, h2, h3, h4, h5, h6, h7, h8, h9, h10, h11⟩ := hb
    unfold MessageBuilder.appendTwitchBadges
    cases plainTextTwitchChannel app channel with
    | none => exact ⟨h1, h2, h3, h4, h5, h6, h7, h8, h9, h10, h11⟩
    | some tc =>
      simp only [hnot, Bool.false_eq_true, if_false, appendBadges, h.noTwitchBadges,
        List.foldl_nil]
      exact ⟨h1, h2, h3, h4, h5, h6, h7, h8, h9, h10, h11⟩
  have s2 : ∀ b1 : MessageBuilder, b1.appendChatterinoBadges app [] = b1 := by
    intro b1
    simp [MessageBuilder.appendChatterinoBadges, h.noChatterinoBadge]
  have s3 : ∀ b1 : MessageBuilder,
      b1.appendFfzBadges app (plainTextTwitchChannel app channel) [] = b1 := by
    intro b1
    unfold MessageBuilder.appendFfzBadges
    cases htc : plainTextTwitchChannel app channel with
    | none => simp [h.noFfzBadges]
    | some tc => simp [h.noFfzBadges, h.noFfzChannelBadges tc htc]
  have s4 : ∀ b1 : MessageBuilder, b1.appendBttvBadges app [] = b1 := by
    intro b1
    simp [MessageBuilder.appendBttvBadges, h.noBttvBadge]
  have s5 : ∀ b1 : MessageBuilder, b1.appendSeventvBadges app [] = b1 := by
    intro b1
    simp [MessageBuilder.appendSeventvBadges, h.noSeventvBadge]
  rw [s5, s4, s3, s2]
  exact s1

theorem PlainTextState.appendUsername {app : App} {channel : Channel} {b : MessageBuilder}
    {els : List MessageElement} {t : QDateTime} (h : PlainTextScenario app channel)
    (hb : PlainTextState app b els t) :
    PlainTextState app (b.appendUsername app [] {})
      (els ++ [(mkText "user:".toList MessageElementFlag.Username.mask
        (.Custom (({} : MessageBuilder).parseUsernameColor app [] []).usernameColor_)
        .ChatMediumBold).setLink ⟨.UserInfo, []⟩]) t := by
  have hs := stylizeUsername_plain app b.message h.noNickname hb.loginName_eq hb.displayName_eq
    hb.localizedName_eq hb.userID_eq hb.nickname_eq
  have he : b.appendUsername app [] {} =
      b.emplace ((mkText "user:".toList MessageElementFlag.Username.mask
        (.Custom (({} : MessageBuilder).parseUsernameColor app [] []).usernameColor_)
        .ChatMediumBold).setLink ⟨.UserInfo, []⟩) := by
    unfold MessageBuilder.appendUsername
    simp only [QVariantMap.find, List.find?_nil, Option.map_none', hb.loginName_eq, hs,
      Bool.false_eq_true, if_false, Bool.not_false, if_true, hb.usernameColor_eq,
      hb.displayName_eq]
    rfl
  rw [he]
  exact hb.emplace _

theorem ircHeader_plain (app : App) (channel : Channel) (h : PlainTextScenario app channel)
    (b : MessageBuilder) (hb : PlainTextState app b [] none) :
    ∃ b1, ircHeader app channel samplePlainMessage {} "hello chat".toList none none b
        (plainTextTwitchChannel app channel) = some (b1, none) ∧
      PlainTextState app b1
        ([(mkText ('#' :: channel.name) MessageElementFlag.ChannelName.mask .System).setLink
            ⟨.JumpToChannel, channel.name⟩] ++
          (if "user".toList = channel.name then []
            else [{ kind := .TwitchModerationElement,
                    flags := MessageElementFlag.ModeratorTools.mask }]) ++
          [(mkText "user:".toList MessageElementFlag.Username.mask
            (.Custom (({} : MessageBuilder).parseUsernameColor app [] []).usernameColor_)
            .ChatMediumBold).setLink ⟨.UserInfo, []⟩])
        (app.calculateMessageTime samplePlainMessage) := by
  have hte : trimmed ([] : QString) = [] := by decide
  have hcmd : parseOpenEmoteAvatarActionCommand "hello chat".toList = ([], []) := by decide
  unfold ircHeader
  simp only [samplePlainMessage, List.isEmpty_nil, Bool.not_true, Bool.false_eq_true, if_false,
    parseThread_plain, parseTagFlags_plain]
  refine ⟨_, rfl, ?_⟩
  have hc : compactHeaderLayout app {} = false := by
    simp [compactHeaderLayout, h.fullHeader]
  simp only [hc, Bool.false_eq_true, if_false, hb.loginName_eq]
  have hut : (QVariantMap.value [] "user-type" == "mod".toList) = false := by decide
  simp only [hut, Bool.false_and, Bool.not_false, Bool.and_true]
  by_cases hn : "user".toList = channel.name
  · have hbeq : ("user".toList == channel.name) = true := beq_iff_eq.mpr hn
    rw [hbeq, if_pos hn]
    simp only [Bool.not_true, Bool.false_eq_true, if_false, List.append_nil]
    exact ((((hb.emplace _).setTime _).metadata h.emptyTag).badges h).appendUsername h
  · have hbeq : ("user".toList == channel.name) = false := by
      cases hd : ("user".toList == channel.name)
      · rfl
      · exact absurd (beq_iff_eq.mp hd) hn
    rw [hbeq, if_neg hn]
    simp only [Bool.not_false, if_true]
    exact (((((hb.emplace _).setTime _).metadata h.emptyTag).emplace _).badges
      h).appendUsername h

theorem addTextOrEmote_plain (app : App) (fuel : Nat) (b : MessageBuilder)
    (tc : Option TwitchChannel) (word : QString)
    (hemote : parseEmote app tc word = none) (hlink : app.linkParse word = none)
    (hat : word.head? ≠ some '@') (hall : app.settings.findAllUsernames = false) :
    b.addTextOrEmote app fuel { twitchChannel := tc } word =
      some (b.appendOrEmplaceText word b.textColor_, { twitchChannel := tc }) := by
  unfold MessageBuilder.addTextOrEmote
  simp only [Bool.false_eq_true, if_false, MessageBuilder.tryAppendEmote, hemote, hlink, hat,
    hall, Bool.and_false]

theorem ircBody_plain (app : App) (channel : Channel) (fuel : Nat)
    (h : PlainTextScenario app channel) (b : MessageBuilder) (pre : List MessageElement)
    (t : QDateTime)
    (hb : PlainTextState app b
      (pre ++ [(mkText "user:".toList MessageElementFlag.Username.mask
        (.Custom (({} : MessageBuilder).parseUsernameColor app [] []).usernameColor_)
        .ChatMediumBold).setLink ⟨.UserInfo, []⟩]) t) :
    ∃ b1, ircBody app (fuel + 1) samplePlainMessage "hello chat".toList 0 b
        (plainTextTwitchChannel app channel) = some (b1, "hello chat".toList) ∧
      PlainTextState app b1
        (pre ++ [(mkText "user:".toList MessageElementFlag.Username.mask
            (.Custom (({} : MessageBuilder).parseUsernameColor app [] []).usernameColor_)
            .ChatMediumBold).setLink ⟨.UserInfo, []⟩,
          { kind := .TextElement ["hello".toList, "chat".toList] .Text .ChatMedium,
            flags := MessageElementFlag.Text.mask }]) t ∧
      b1.message.messageText = "hello chat".toList := by
  have hsplit : qSplit ' ' "hello chat".toList = ["hello".toList, "chat".toList] := by decide
  have hw1 := addTextOrEmote_plain app (fuel + 1) b (plainTextTwitchChannel app channel)
    "hello".toList h.noEmote.1 h.noLink.1 (by decide) h.noAllUsernames
  have hstep1 : b.appendOrEmplaceText "hello".toList b.textColor_ =
      b.emplace (mkText "hello".toList MessageElementFlag.Text.mask .Text) := by
    unfold MessageBuilder.appendOrEmplaceText
    rw [hb.elements_eq, hb.textColor_eq]
    simp only [List.getLast?_concat]
    rfl
  have hb1 := hb.emplace (mkText "hello".toList MessageElementFlag.Text.mask .Text)
  have hw2 := addTextOrEmote_plain app (fuel + 1)
    (b.emplace (mkText "hello".toList MessageElementFlag.Text.mask .Text))
    (plainTextTwitchChannel app channel) "chat".toList h.noEmote.2 h.noLink.2 (by decide)
    h.noAllUsernames
  have hstep2 : (b.emplace (mkText "hello".toList MessageElementFlag.Text.mask
      .Text)).appendOrEmplaceText "chat".toList .Text =
      (b.emplace (mkText "hello".toList MessageElementFlag.Text.mask .Text)).replaceBack
        { kind := .TextElement ["hello".toList, "chat".toList] .Text .ChatMedium,
          flags := MessageElementFlag.Text.mask } := by
    unfold MessageBuilder.appendOrEmplaceText
    rw [hb1.elements_eq]
    simp only [List.getLast?_concat]
    rfl
  have hb2 : PlainTextState app
      ((b.emplace (mkText "hello".toList MessageElementFlag.Text.mask .Text)).replaceBack
        { kind := .TextElement ["hello".toList, "chat".toList] .Text .ChatMedium,
          flags := MessageElementFlag.Text.mask })
      (pre ++ [(mkText "user:".toList MessageElementFlag.Username.mask
            (.Custom (({} : MessageBuilder).parseUsernameColor app [] []).usernameColor_)
            .ChatMediumBold).setLink ⟨.UserInfo, []⟩,
          { kind := .TextElement ["hello".toList, "chat".toList] .Text .ChatMedium,
            flags := MessageElementFlag.Text.mask }]) t := by
    obtain ⟨h1, h2, h3, h4, h5, h6, h7, h8, h9, h10, h11⟩ := hb1
    refine ⟨?_, h2, h3, h4, h5, h6, h7, h8, h9, h10, h11⟩
    show (b.emplace _).message.elements.dropLast ++ _ = _
    rw [h1, List.dropLast_concat]
    simp
  have hwords : b.addWords app (fuel + 1) ["hello".toList, "chat".toList] []
      { twitchChannel := plainTextTwitchChannel app channel } =
      some ((b.emplace (mkText "hello".toList MessageElementFlag.Text.mask .Text)).replaceBack
        { kind := .TextElement ["hello".toList, "chat".toList] .Text .ChatMedium,
          flags := MessageElementFlag.Text.mask },
        { twitchChannel := plainTextTwitchChannel app channel }) := by
    have e1 : ("hello".toList).isEmpty = false := by decide
    have e2 : ("chat".toList).isEmpty = false := by decide
    unfold MessageBuilder.addWords
    simp only [MessageBuilder.addWordsFrom, MessageBuilder.addWordEmotes, e1, e2,
      Bool.false_eq_true, if_false, h.noEmoji.1, h.noEmoji.2, MessageBuilder.addParsed, hw1,
      hstep1, hw2]
    rw [hb1.textColor_eq, hstep2]
  unfold ircBody
  simp only [samplePlainMessage, QVariantMap.find, List.find?_nil, Option.map_none',
    h.noTwitchEmotes, h.noIgnorePhrase, hsplit, sortAndUnique, h.sortEmpty, uniqueByStart, hwords]
  refine ⟨_, rfl, ?_, rfl⟩
  obtain ⟨h1, h2, h3, h4, h5, h6, h7, h8, h9, h10, h11⟩ := hb2
  exact ⟨h1, h2, h3, h4, h5, h6, h7, h8, h9, h10, h11⟩

theorem parseHighlights_frame (app : App) (b : MessageBuilder) (tags : QVariantMap)
    (originalMessage : QString) (args : MessageParseArgs) :
    (b.parseHighlights app tags originalMessage args).2.message.elements = b.message.elements ∧
    (b.parseHighlights app tags originalMessage args).2.message.id = b.message.id ∧
    (b.parseHighlights app tags originalMessage args).2.message.serverReceivedTime =
      b.message.serverReceivedTime ∧
    (b.parseHighlights app tags originalMessage args).2.message.messageText =
      b.message.messageText := by
  unfold MessageBuilder.parseHighlights
  split_ifs
  · exact ⟨rfl, rfl, rfl, rfl⟩
  · split
    · exact ⟨rfl, rfl, rfl, rfl⟩
    · dsimp only
      split_ifs <;> exact ⟨rfl, rfl, rfl, rfl⟩

theorem shouldRenderOpenEmoteTimestamp_no_gaps (app : App) (channel : Option Channel)
    (message : Message) (time : QDateTime)
    (h : app.settings.openEmoteTimestampGapsOnly = false) :
    shouldRenderOpenEmoteTimestamp app channel message time = app.settings.showTimestamps := by
  unfold shouldRenderOpenEmoteTimestamp
  cases hs : app.settings.showTimestamps
  · simp
  · simp only [Bool.not_true, Bool.false_eq_true, if_false, h, Bool.not_false, if_true]
    split_ifs <;> rfl

theorem ircTrailer_plain (app : App) (channel : Channel) (h : PlainTextScenario app channel)
    (b : MessageBuilder) (els : List MessageElement)
    (hb : PlainTextState app b els (app.calculateMessageTime samplePlainMessage))
    (htext : b.message.messageText = "hello chat".toList) :
    (ircTrailer app channel samplePlainMessage {} b "hello chat".toList none).1.elements =
      els ++ [{ kind := .CircularImageElement .replyDark 2,
                flags := MessageElementFlag.ReplyButton.mask,
                link := some ⟨.ReplyToMessage, []⟩ }] ++
        (if app.settings.showTimestamps then
          [{ kind := .TimestampElement (some (app.calculateMessageTime samplePlainMessage)),
             flags := MessageElementFlag.Timestamp.mask }]
        else []) ∧
    (ircTrailer app channel samplePlainMessage {} b "hello chat".toList none).1.messageText =
      "hello chat".toList := by
  obtain ⟨f1, f2, f3, f4⟩ := parseHighlights_frame app b [] "hello chat".toList {}
  have hc : compactHeaderLayout app {} = false := by
    simp [compactHeaderLayout, h.fullHeader]
  have hmsg : (QVariantMap.value [] "msg-id" ≠ "announcement".toList) := by decide
  unfold ircTrailer
  simp only [samplePlainMessage, QVariantMap.contains, QVariantMap.find, List.find?_nil,
    Option.map_none', Option.isSome_none, Bool.false_eq_true, if_false, Bool.false_and, hc,
    MessageBuilder.appendReplyButton, Bool.not_false, true_and, hmsg, ne_eq, not_false_eq_true,
    and_self, if_true, shouldRenderOpenEmoteTimestamp_no_gaps _ _ _ _ h.noGapsOnly]
  cases hs : app.settings.showTimestamps
  · simp only [Bool.false_eq_true, if_false, List.append_nil, MessageBuilder.emplace, f1, f2, f4,
      hb.elements_eq, hb.id_eq, htext, and_self]
  · simp only [if_true, MessageBuilder.emplace, f1, f2, f3, f4, hb.elements_eq, hb.id_eq,
      hb.time_eq, htext, samplePlainMessage, List.append_assoc, and_self]

/-- C8 (amended): for the body `hello chat` of the user `user` without tags,
with nothing configured that turns the two words into anything but text,
`makeIrcMessage` builds, in this order, the channel name, the moderation element
(unless the sender is the broadcaster), the user name `user:`, one text element
that holds both words `hello` and `chat`, the reply button and, when timestamps
are shown, the timestamp as the last element; `messageText` is `hello chat`. -/
theorem makeIrcMessage_plain_text (app : App) (channel : Channel) (fuel : Nat)
    (h : PlainTextScenario app channel) :
    (makeIrcMessage app (fuel + 1) channel samplePlainMessage {} "hello chat".toList 0 none
      none).map (fun r => r.1.map (fun m => (m.elements, m.messageText))) =
      some (some (plainTextElements app channel, "hello chat".toList)) := by
  obtain ⟨hid, htc⟩ := ircIdentity_plain app channel
  obtain ⟨b1, hhead, hb1⟩ := ircHeader_plain app channel h _ hid
  obtain ⟨b2, hbody, hb2, htext⟩ := ircBody_plain app channel fuel h b1 _ _ hb1
  obtain ⟨hels, hmt⟩ := ircTrailer_plain app channel h b2 _ hb2 htext
  have hign : isIgnored app "hello chat".toList (samplePlainMessage.tags.value "user-id")
      channel = false := h.notIgnored
  unfold makeIrcMessage buildIrcMessage
  rw [htc, hhead]
  simp only [hign, Bool.and_false, Bool.false_eq_true, if_false, hbody, Option.map_some',
    hels, hmt, plainTextElements, List.append_assoc, List.cons_append, List.nil_append]

theorem sample_plainTextScenario : PlainTextScenario sampleApp sampleChannel where
  notIgnored := by decide
  fullHeader := by decide
  noGapsOnly := by decide
  noNickname := by decide
  noAllUsernames := by decide
  emptyTag := by decide
  noTwitchBadges := by decide
  noChatterinoBadge := by decide
  noFfzBadges := by decide
  noFfzChannelBadges := by
    intro tc htc
    simp [plainTextTwitchChannel, sampleChannel] at htc
  noBttvBadge := by decide
  noSeventvBadge := by decide
  noTwitchEmotes := by decide
  noIgnorePhrase := by decide
  sortEmpty := by decide
  noEmoji := by decide
  noEmote := by decide
  noLink := ⟨rfl, rfl⟩

theorem makeIrcMessage_plain_text_witness :
    PlainTextScenario sampleApp sampleChannel ∧
    (makeIrcMessage sampleApp 4 sampleChannel samplePlainMessage {} "hello chat".toList 0 none
      none).map (fun r => r.1.map (fun m => (m.elements, m.messageText))) =
      some (some (plainTextElements sampleApp sampleChannel, "hello chat".toList)) :=
  ⟨sample_plainTextScenario,
    makeIrcMessage_plain_text sampleApp sampleChannel 3 sample_plainTextScenario⟩

/-- C8 (as stated) fails: the message built for `hello chat` without tags has
six elements, it starts with the channel name and ends with the timestamp, and
the two words share one text element. -/
theorem makeIrcMessage_plain_text_not_specified :
    makeIrcMessage sampleApp 4 sampleChannel samplePlainMessage {} "hello chat".toList 0 none
      none = some (some samplePlainResult, {}) ∧
    isSpecifiedPlainTextSequence samplePlainResult.elements = false ∧
    samplePlainResult.elements.map (fun e => e.flags) =
      [MessageElementFlag.ChannelName.mask, MessageElementFlag.ModeratorTools.mask,
        MessageElementFlag.Username.mask, MessageElementFlag.Text.mask,
        MessageElementFlag.ReplyButton.mask, MessageElementFlag.Timestamp.mask] ∧
    samplePlainResult.elements.map (fun e => e.kind) =
      [.TextElement ["#forsen".toList] .System .ChatMedium, .TwitchModerationElement,
        .TextElement ["user:".toList] (.Custom ⟨true, 0x999999⟩) .ChatMediumBold,
        .TextElement ["hello".toList, "chat".toList] .Text .ChatMedium,
        .CircularImageElement .replyDark 2, .TimestampElement (some (some 1000))] := by
  decide

/-! ## The user name colour -/

/-- C9 (amended): `parseUsernameColor` sets both user name colours to the
per-user override when the user has one; otherwise to the colour of the `color`
tag when the tag is present and not empty; otherwise, when the setting
`colorizeNicknames` is on and the `user-id` tag is present, to
`getRandomColor(user-id)`; otherwise it leaves them as they were. -/
theorem parseUsernameColor_priority (app : App) (b : MessageBuilder) (tags : QVariantMap)
    (userID : QString) :
    (b.parseUsernameColor app tags userID).usernameColor_ =
      usernameColorPriority ((app.getUser userID).bind (fun user => user.color))
        (((tags.find "color").filter (fun color => !color.isEmpty)).map app.colorFromString)
        (if app.settings.colorizeNicknames && tags.contains "user-id" then
          some (app.getRandomColor (tags.value "user-id")) else none)
        b.usernameColor_ ∧
    (b.parseUsernameColor app tags userID).message.usernameColor =
      usernameColorPriority ((app.getUser userID).bind (fun user => user.color))
        (((tags.find "color").filter (fun color => !color.isEmpty)).map app.colorFromString)
        (if app.settings.colorizeNicknames && tags.contains "user-id" then
          some (app.getRandomColor (tags.value "user-id")) else none)
        b.message.usernameColor := by
  unfold MessageBuilder.parseUsernameColor usernameColorPriority
  cases (app.getUser userID).bind (fun user => user.color) with
  | some c => exact ⟨rfl, rfl⟩
  | none =>
    cases (tags.find "color").filter (fun color => !color.isEmpty) with
    | some c => exact ⟨rfl, rfl⟩
    | none =>
      dsimp only
      split_ifs <;> exact ⟨rfl, rfl⟩

/-- C9 (as stated) fails: without the setting `colorizeNicknames` a user
without override and without `color` tag keeps the initial colour, which is not
`getRandomColor(user-id)`. -/
theorem parseUsernameColor_not_colorized :
    (plainNicknameApp.getUser "42".toList).bind (fun user => user.color) = none ∧
    userIdTags.find "color" = none ∧
    (({} : MessageBuilder).parseUsernameColor plainNicknameApp userIdTags
      "42".toList).message.usernameColor = QColor.invalid ∧
    (({} : MessageBuilder).parseUsernameColor plainNicknameApp userIdTags
      "42".toList).message.usernameColor ≠ plainNicknameApp.getRandomColor "42".toList := by
  decide

/-! ## Shared chat -/

theorem setFlag_has (flags : MessageFlags) (f : MessageFlag) : (flags.set f).has f = true := by
  simp [MessageFlags.set, MessageFlags.has, MessageFlag.mask, Nat.testBit_or,
    Nat.testBit_two_pow_self]

theorem setFlag_has_of_ne (flags : MessageFlags) (f g : MessageFlag)
    (h : f.toCtorIdx ≠ g.toCtorIdx) : (flags.set f).has g = flags.has g := by
  simp [MessageFlags.set, MessageFlags.has, MessageFlag.mask, Nat.testBit_or,
    Nat.testBit_two_pow_of_ne h]

/-- C10 (amended): for a Twitch channel whose room id differs from the
`source-room-id` tag, `parseSharedChatInfo` sets the flag `SharedMessage`; when
the channel of the source room is open and not empty it also sets
`DoNotTriggerNotification` and returns the source channel (the display channel
when the source is not a Twitch channel); when the source channel is not open
it sets no other flag and returns the display channel.  When the tag is absent
or equal to the room id, or there is no Twitch channel, it changes nothing and
returns the display channel. -/
theorem parseSharedChatInfo_relay (app : App) (b : MessageBuilder) (tags : QVariantMap) :
    (∀ c sourceRoom sourceChan, tags.find "source-room-id" = some sourceRoom →
      c.roomId ≠ sourceRoom → app.getChannelOrEmptyByID sourceRoom = some sourceChan →
      sourceChan.isEmpty = false →
      (b.parseSharedChatInfo app tags (some c)).1.message.flags.has .SharedMessage = true ∧
      (b.parseSharedChatInfo app tags (some c)).1.message.flags.has .DoNotTriggerNotification =
        true ∧
      (b.parseSharedChatInfo app tags (some c)).1 =
        (b.setFlag .SharedMessage).setFlag .DoNotTriggerNotification ∧
      (b.parseSharedChatInfo app tags (some c)).2 = some (sourceChan.twitch.getD c)) ∧
    (∀ c sourceRoom, tags.find "source-room-id" = some sourceRoom → c.roomId ≠ sourceRoom →
      (app.getChannelOrEmptyByID sourceRoom = none ∨
        ∃ sourceChan, app.getChannelOrEmptyByID sourceRoom = some sourceChan ∧
          sourceChan.isEmpty = true) →
      (b.parseSharedChatInfo app tags (some c)).1.message.flags.has .SharedMessage = true ∧
      (b.parseSharedChatInfo app tags (some c)).1.message.flags.has .DoNotTriggerNotification =
        b.message.flags.has .DoNotTriggerNotification ∧
      (b.parseSharedChatInfo app tags (some c)).1 = b.setFlag .SharedMessage ∧
      (b.parseSharedChatInfo app tags (some c)).2 = some c) ∧
    (∀ twitchChannel, (twitchChannel = none ∨ tags.find "source-room-id" = none ∨
        ∃ c, twitchChannel = some c ∧ tags.find "source-room-id" = some c.roomId) →
      b.parseSharedChatInfo app tags twitchChannel = (b, twitchChannel)) := by
  refine ⟨?_, ?_, ?_⟩
  · intro c sourceRoom sourceChan htag hne hopen hnonempty
    have hr : b.parseSharedChatInfo app tags (some c) =
        ((b.setFlag .SharedMessage).setFlag .DoNotTriggerNotification,
          some (sourceChan.twitch.getD c)) := by
      unfold MessageBuilder.parseSharedChatInfo
      simp only [htag, hne, ne_eq, not_false_eq_true, if_true, hopen, hnonempty, Bool.not_false]
      cases sourceChan.twitch <;> rfl
    rw [hr]
    refine ⟨?_, setFlag_has _ _, rfl, rfl⟩
    show (((b.message.flags.set .SharedMessage).set .DoNotTriggerNotification).has
      .SharedMessage) = true
    rw [setFlag_has_of_ne _ _ _ (by decide)]
    exact setFlag_has _ _
  · intro c sourceRoom htag hne hclosed
    have hr : b.parseSharedChatInfo app tags (some c) = (b.setFlag .SharedMessage, some c) := by
      unfold MessageBuilder.parseSharedChatInfo
      rcases hclosed with hnone | ⟨sourceChan, hsome, hempty⟩
      · simp only [htag, hne, ne_eq, not_false_eq_true, if_true, hnone]
      · simp only [htag, hne, ne_eq, not_false_eq_true, if_true, hsome, hempty, Bool.not_true,
          Bool.false_eq_true, if_false]
    rw [hr]
    refine ⟨setFlag_has _ _, ?_, rfl, rfl⟩
    exact setFlag_has_of_ne _ _ _ (by decide)
  · intro twitchChannel hcase
    unfold MessageBuilder.parseSharedChatInfo
    rcases hcase with rfl | hnone | ⟨c, rfl, hsame⟩
    · rfl
    · cases twitchChannel <;> simp [hnone]
    · simp [hsame]

theorem parseSharedChatInfo_relay_witness :
    (({} : MessageBuilder).parseSharedChatInfo relayApp relayTags
      (some (sampleTwitchChannel "forsen" "1"))).1.message.flags.has .SharedMessage = true ∧
    (({} : MessageBuilder).parseSharedChatInfo relayApp relayTags
      (some (sampleTwitchChannel "forsen" "1"))).1.message.flags.has .DoNotTriggerNotification =
        true ∧
    (({} : MessageBuilder).parseSharedChatInfo relayApp relayTags
      (some (sampleTwitchChannel "forsen" "1"))).2.map (fun c => c.name) = some "xqc".toList ∧
    (({} : MessageBuilder).parseSharedChatInfo relayApp []
      (some (sampleTwitchChannel "forsen" "1"))).1.message.flags = 0 := by
  have h := parseSharedChatInfo_relay relayApp {} relayTags
  have hopen := h.1 (sampleTwitchChannel "forsen" "1") "2".toList sampleSourceChannel
    (by decide) (by decide) rfl rfl
  have hnone := (parseSharedChatInfo_relay relayApp {} []).2.2
    (some (sampleTwitchChannel "forsen" "1")) (Or.inr (Or.inl (by decide)))
  refine ⟨hopen.1, hopen.2.1, ?_, ?_⟩
  · rw [hopen.2.2.2]
    rfl
  · rw [hnone]

/-- C10 (as stated) fails: when the channel of the source room is not open
(`getChannelOrEmptyByID` returns the empty channel), a relayed message gets the
flag `SharedMessage` but not `DoNotTriggerNotification`, and the display
channel is returned. -/
theorem parseSharedChatInfo_source_not_open :
    relayTags.find "source-room-id" = some "2".toList ∧
    (sampleApp.getChannelOrEmptyByID "2".toList).map (fun c => c.isEmpty) = some true ∧
    (sampleTwitchChannel "forsen" "1").roomId ≠ "2".toList ∧
    (({} : MessageBuilder).parseSharedChatInfo sampleApp relayTags
      (some (sampleTwitchChannel "forsen" "1"))).1.message.flags.has .SharedMessage = true ∧
    (({} : MessageBuilder).parseSharedChatInfo sampleApp relayTags
      (some (sampleTwitchChannel "forsen" "1"))).1.message.flags.has .DoNotTriggerNotification =
        false ∧
    (({} : MessageBuilder).parseSharedChatInfo sampleApp relayTags
      (some (sampleTwitchChannel "forsen" "1"))).2.map (fun c => c.name) =
        some "forsen".toList := by
  decide

/-! ## Cheermotes and zero-width emotes -/

theorem cheerElements_elements (app : App) (b : MessageBuilder) (state : TextState)
    (cheerEmote : CheerEmote) (amount : QString) :
    (cheerElements app b state cheerEmote amount).message.elements =
      b.message.elements ++ cheerElementList app b state cheerEmote amount := by
  unfold cheerElements cheerElementList
  by_cases h1 : cheerEmote.staticEmote.isSome = true <;>
    by_cases h2 : cheerEmote.animatedEmote.isSome = true <;>
    by_cases h3 : cheerEmote.color = QColor.invalid <;>
    simp [h1, h2, h3, MessageBuilder.emplace]

theorem cheerElementList_length (app : App) (b : MessageBuilder) (state : TextState)
    (cheerEmote : CheerEmote) (amount : QString) :
    (cheerElementList app b state cheerEmote amount).length ≤ 3 := by
  unfold cheerElementList
  by_cases h1 : cheerEmote.staticEmote.isSome = true <;>
    by_cases h2 : cheerEmote.animatedEmote.isSome = true <;>
    by_cases h3 : cheerEmote.color = QColor.invalid <;>
    simp [h1, h2, h3]

/-- One call in stacking mode with bits left: a token without matching cheer
emote fails and changes nothing. -/
theorem tryAppendCheermote_stack_none (app : App) (fuel : Nat) (b : MessageBuilder)
    (state : TextState) (tc : TwitchChannel) (string : QString)
    (htc : state.twitchChannel = some tc) (hbits : state.bitsLeft ≠ 0)
    (hm : matchingCheerEmote tc string = none) :
    MessageBuilder.tryAppendCheermote app (fuel + 1) b state string =
      some (.Failure, b, state) := by
  unfold MessageBuilder.tryAppendCheermote
  simp only [hbits, if_false, htc]
  unfold matchingCheerEmote at hm
  cases hc : tc.cheerEmote string with
  | none => rfl
  | some ce =>
    simp only [hc, Option.some_bind, Option.map_eq_none'] at hm
    simp only [hm]

/-- One call in stacking mode with bits left: a matching token succeeds; it
adds its elements only when nothing was stacked before. -/
theorem tryAppendCheermote_stack_some (app : App) (fuel : Nat) (b : MessageBuilder)
    (state : TextState) (tc : TwitchChannel) (string : QString) (cheerEmote : CheerEmote)
    (hstack : app.settings.stackBits = true)
    (htc : state.twitchChannel = some tc) (hbits : state.bitsLeft ≠ 0)
    (hm : matchingCheerEmote tc string = some cheerEmote) :
    MessageBuilder.tryAppendCheermote app (fuel + 1) b state string =
      some (.Success,
        if state.bitsStacked then b
        else cheerElements app b state cheerEmote (qNumberInt state.bitsLeft),
        { state with bitsStacked := true }) := by
  unfold MessageBuilder.tryAppendCheermote
  simp only [hbits, if_false, htc]
  unfold matchingCheerEmote at hm
  cases hc : tc.cheerEmote string with
  | none => simp [hc] at hm
  | some ce =>
    simp only [hc, Option.some_bind, Option.map_eq_some'] at hm
    obtain ⟨captured, hcap, hce⟩ := hm
    subst hce
    simp only [hcap, hstack, if_true]
    cases hs : state.bitsStacked with
    | true =>
      simp only [if_true, Bool.false_eq_true, if_false]
      congr
      cases state
      simp_all
    | false => simp

/-- In stacking mode, once the bits are stacked, every matching token succeeds,
every other token fails, and nothing changes. -/
theorem tryAppendCheermoteEach_stacked (app : App) (fuel : Nat) (tc : TwitchChannel)
    (tokens : List QString) (b : MessageBuilder) (state : TextState)
    (hstack : app.settings.stackBits = true)
    (htc : state.twitchChannel = some tc) (hbits : state.bitsLeft ≠ 0)
    (hstacked : state.bitsStacked = true) :
    tryAppendCheermoteEach app (fuel + 1) tokens b state =
      some (tokens.map (fun token =>
        if (matchingCheerEmote tc token).isSome then Outcome.Success else Outcome.Failure),
        b, state) := by
  induction tokens with
  | nil => rfl
  | cons token tokens ih =>
    unfold tryAppendCheermoteEach
    cases hm : matchingCheerEmote tc token with
    | none =>
      rw [tryAppendCheermote_stack_none app fuel b state tc token htc hbits hm]
      simp only [ih, List.map_cons, hm, Option.isSome_none, Bool.false_eq_true, if_false]
    | some cheerEmote =>
      rw [tryAppendCheermote_stack_some app fuel b state tc token cheerEmote hstack htc hbits hm]
      have hst : ({ state with bitsStacked := true } : TextState) = state := by
        cases state
        simp_all
      simp only [hstacked, if_true, hst, ih, List.map_cons, hm, Option.isSome_some]

/-- C11: cheer stacking.  With `stackBits` on, for the tokens of one message
passed to `tryAppendCheermote` one after the other, starting with nothing
stacked and `bitsLeft` not 0: every token with a matching cheer emote returns
`Success`, every other token `Failure`; only the first matching token adds
elements, namely (each only if the cheer emote has it) one static emote, one
animated emote and one `BitsAmount` text that shows the `bitsLeft` of the
message; `bitsLeft` stays as it is. -/
theorem tryAppendCheermote_stacking (app : App) (fuel : Nat) (tc : TwitchChannel)
    (tokens : List QString) (b : MessageBuilder) (state : TextState)
    (hstack : app.settings.stackBits = true)
    (htc : state.twitchChannel = some tc) (hbits : state.bitsLeft ≠ 0)
    (hfresh : state.bitsStacked = false) :
    ∃ final : MessageBuilder,
      tryAppendCheermoteEach app (fuel + 1) tokens b state =
        some (tokens.map (fun token =>
          if (matchingCheerEmote tc token).isSome then Outcome.Success else Outcome.Failure),
          final,
          { state with bitsStacked := (tokens.findSome? (matchingCheerEmote tc)).isSome }) ∧
      final.message.elements = b.message.elements ++
        (match tokens.findSome? (matchingCheerEmote tc) with
        | none => []
        | some cheerEmote =>
          (if cheerEmote.staticEmote.isSome then
            [mkEmote cheerEmote.staticEmote MessageElementFlag.BitsStatic.mask b.textColor_
              (openEmoteChannelScaleForChannel app (some tc))] else []) ++
          (if cheerEmote.animatedEmote.isSome then
            [mkEmote cheerEmote.animatedEmote MessageElementFlag.BitsAnimated.mask b.textColor_
              (openEmoteChannelScaleForChannel app (some tc))] else []) ++
          (if cheerEmote.color ≠ QColor.invalid then
            [mkText (qNumberInt state.bitsLeft) MessageElementFlag.BitsAmount.mask
              (.Custom cheerEmote.color)] else [])) := by
  induction tokens with
  | nil =>
    refine ⟨b, ?_, by simp⟩
    have hst : ({ state with bitsStacked := false } : TextState) = state := by
      cases state
      simp_all
    simp only [tryAppendCheermoteEach, List.map_nil, List.findSome?_nil, Option.isSome_none, hst]
  | cons token tokens ih =>
    obtain ⟨final, hrun, hels⟩ := ih
    cases hm : matchingCheerEmote tc token with
    | none =>
      refine ⟨final, ?_, ?_⟩
      · unfold tryAppendCheermoteEach
        rw [tryAppendCheermote_stack_none app fuel b state tc token htc hbits hm]
        simp only [hrun, List.map_cons, hm, Option.isSome_none, Bool.false_eq_true, if_false,
          List.findSome?_cons]
      · simp only [List.findSome?_cons, hm]
        exact hels
    | some cheerEmote =>
      refine ⟨cheerElements app b state cheerEmote (qNumberInt state.bitsLeft), ?_, ?_⟩
      · unfold tryAppendCheermoteEach
        rw [tryAppendCheermote_stack_some app fuel b state tc token cheerEmote hstack htc hbits hm]
        simp only [hfresh, Bool.false_eq_true, if_false]
        rw [tryAppendCheermoteEach_stacked app fuel tc tokens _ { state with bitsStacked := true }
          hstack htc hbits rfl]
        simp only [List.map_cons, hm, Option.isSome_some, if_true, List.findSome?_cons]
      · simp only [List.findSome?_cons, hm]
        rw [cheerElements_elements, cheerElementList, htc]

theorem tryAppendCheermote_stacking_witness :
    ∃ final : MessageBuilder,
      (tryAppendCheermoteEach stackingApp 1 ["Cheer100".toList, "Cheer500".toList, "hi".toList]
        {} cheerState).map (fun r => (r.1, r.2.1)) =
        some ([Outcome.Success, Outcome.Success, Outcome.Failure], final) ∧
      final.message.elements =
        [mkEmote (some (sampleEmote "Cheer")) MessageElementFlag.BitsStatic.mask,
          mkEmote (some (sampleEmote "CheerAnimated")) MessageElementFlag.BitsAnimated.mask,
          mkText "600".toList MessageElementFlag.BitsAmount.mask (.Custom ⟨true, 0x9C3EE8⟩)] := by
  obtain ⟨final, hrun, hels⟩ := tryAppendCheermote_stacking stackingApp 0 cheerChannel
    ["Cheer100".toList, "Cheer500".toList, "hi".toList] {} cheerState rfl rfl (by decide) rfl
  refine ⟨final, ?_, ?_⟩
  · rw [hrun]
    rfl
  · rw [hels]
    decide

/-- C13: zero bits remaining.  With `state.bitsLeft` 0, `tryAppendCheermote`
returns `Failure` and leaves the builder and the state as they are, and
`addTextOrEmote` has a result and handles the token exactly as it handles it
for a message without bits (emote, link, mention or text). -/
theorem tryAppendCheermote_no_bits_left (app : App) (fuel : Nat) (b : MessageBuilder)
    (state : TextState) (string : QString) (h : state.bitsLeft = 0) :
    MessageBuilder.tryAppendCheermote app (fuel + 1) b state string =
      some (.Failure, b, state) ∧
    (∃ b1, b.addTextOrEmote app (fuel + 1) state string = some (b1, state) ∧
      b.addTextOrEmote app (fuel + 1) { state with hasBits := false } string =
        some (b1, { state with hasBits := false })) := by
  have hcheer : MessageBuilder.tryAppendCheermote app (fuel + 1) b state string =
      some (.Failure, b, state) := by
    unfold MessageBuilder.tryAppendCheermote
    simp [h]
  refine ⟨hcheer, ?_⟩
  obtain ⟨b1, hb1⟩ := addTextOrEmote_some app (fuel + 1) b { state with hasBits := false } string
    rfl
  refine ⟨b1, ?_, hb1⟩
  unfold MessageBuilder.addTextOrEmote at hb1 ⊢
  rw [hcheer]
  simp only [Bool.false_eq_true, if_false] at hb1
  cases hbits : state.hasBits with
  | false =>
    have hst : ({ state with hasBits := false } : TextState) = state := by
      cases state
      simp_all
    rw [hst] at hb1
    simpa using hb1
  | true =>
    simp only [if_true]
    have hm : ∀ (a c : QString),
        b.addMention { state with hasBits := false } string a c = b.addMention state string a c :=
      fun _ _ => rfl
    simp only [hm] at hb1
    rcases h1 : MessageBuilder.tryAppendEmote app b state.twitchChannel string with ⟨o, b2⟩
    rw [h1] at hb1
    cases o
    · simp only [Option.some.injEq, Prod.mk.injEq] at hb1 ⊢
      exact ⟨hb1.1, trivial⟩
    · dsimp only at hb1 ⊢
      cases h2 : app.linkParse string with
      | some link =>
        rw [h2] at hb1
        simp only [Option.some.injEq, Prod.mk.injEq] at hb1 ⊢
        exact ⟨hb1.1, trivial⟩
      | none =>
        rw [h2] at hb1
        dsimp only at hb1 ⊢
        cases h3 : (if string.head? = some '@' then mentionRegex string else none) with
        | some username =>
          rw [h3] at hb1
          simp only [Option.some.injEq, Prod.mk.injEq] at hb1 ⊢
          exact ⟨hb1.1, trivial⟩
        | none =>
          rw [h3] at hb1
          dsimp only at hb1 ⊢
          split at hb1 <;>
            simp only [Option.some.injEq, Prod.mk.injEq] at hb1 ⊢ <;>
            exact ⟨hb1.1, trivial⟩

theorem tryAppendCheermote_no_bits_left_witness :
    MessageBuilder.tryAppendCheermote stackingApp (0 + 1) {} { cheerState with bitsLeft := 0 }
      "Cheer100".toList = some (.Failure, {}, { cheerState with bitsLeft := 0 }) ∧
    (∃ b1, ({} : MessageBuilder).addTextOrEmote stackingApp (0 + 1)
        { cheerState with bitsLeft := 0 } "Cheer100".toList =
          some (b1, { cheerState with bitsLeft := 0 }) ∧
      ({} : MessageBuilder).addTextOrEmote stackingApp (0 + 1)
        { { cheerState with bitsLeft := 0 } with hasBits := false } "Cheer100".toList =
          some (b1, { { cheerState with bitsLeft := 0 } with hasBits := false })) :=
  tryAppendCheermote_no_bits_left stackingApp 0 {} { cheerState with bitsLeft := 0 }
    "Cheer100".toList rfl

/-- C12: zero-width layering.  When `parseEmote` resolves the name,
`tryAppendEmote` returns `Success`.  If the emote is zero-width, zero-width
emotes are enabled and the last element is an `EmoteElement`, that element is
replaced by one `LayeredEmoteElement` with the layers previous emote, new
emote; if the last element is a `LayeredEmoteElement`, the new emote becomes one
more layer of it; the number of elements stays the same in both cases.  In every
other case exactly one `EmoteElement` is appended. -/
theorem tryAppendEmote_layering (app : App) (b : MessageBuilder)
    (twitchChannel : Option TwitchChannel) (name : QString) (emote : Emote)
    (h : parseEmote app twitchChannel name = some emote) :
    (b.tryAppendEmote app twitchChannel name).1 = .Success ∧
    (∀ back baseEmote textColor scale,
      emote.zeroWidth = true → app.settings.enableZeroWidthEmotes = true →
      b.message.elements.getLast? = some back →
      back.kind = .EmoteElement baseEmote textColor scale →
      (b.tryAppendEmote app twitchChannel name).2.message.elements =
        b.message.elements.dropLast ++
          [{ kind := .LayeredEmoteElement
              [(baseEmote, back.flags), (some emote, MessageElementFlag.Emote.mask)]
              b.textColor_ (openEmoteChannelScaleForChannel app twitchChannel),
             flags := back.flags ||| MessageElementFlag.Emote.mask }] ∧
      (b.tryAppendEmote app twitchChannel name).2.message.elements.length =
        b.message.elements.length) ∧
    (∀ back layers textColor scale,
      emote.zeroWidth = true → app.settings.enableZeroWidthEmotes = true →
      b.message.elements.getLast? = some back →
      back.kind = .LayeredEmoteElement layers textColor scale →
      (b.tryAppendEmote app twitchChannel name).2.message.elements =
        b.message.elements.dropLast ++
          [{ back with
             kind := .LayeredEmoteElement
               (layers ++ [(some emote, MessageElementFlag.Emote.mask)]) textColor scale,
             flags := back.flags ||| MessageElementFlag.Emote.mask }] ∧
      (b.tryAppendEmote app twitchChannel name).2.message.elements.length =
        b.message.elements.length) ∧
    (¬ (emote.zeroWidth = true ∧ app.settings.enableZeroWidthEmotes = true ∧
        ∃ back, b.message.elements.getLast? = some back ∧
          ((∃ baseEmote textColor scale, back.kind = .EmoteElement baseEmote textColor scale) ∨
            ∃ layers textColor scale,
              back.kind = .LayeredEmoteElement layers textColor scale)) →
      (b.tryAppendEmote app twitchChannel name).2.message.elements =
        b.message.elements ++
          [mkEmote (some emote) MessageElementFlag.Emote.mask b.textColor_
            (openEmoteChannelScaleForChannel app twitchChannel)]) := by
  have hlen : ∀ (l : List MessageElement) (back e : MessageElement), l.getLast? = some back →
      (l.dropLast ++ [e]).length = l.length := by
    intro l back e hl
    have hne : l ≠ [] := by
      intro hn
      rw [hn] at hl
      simp at hl
    rw [List.length_append, List.length_dropLast, List.length_singleton]
    have := List.length_pos.mpr hne
    omega
  have hne : ∀ back, b.message.elements.getLast? = some back → b.isEmpty = false := by
    intro back hl
    unfold MessageBuilder.isEmpty
    cases hels : b.message.elements with
    | nil => rw [hels] at hl; simp at hl
    | cons x xs => rfl
  unfold MessageBuilder.tryAppendEmote
  simp only [h]
  refine ⟨?_, ?_, ?_, ?_⟩
  · split_ifs
    · split
      · rfl
      · split <;> rfl
    · rfl
  · intro back baseEmote textColor scale hz he hl hk
    simp only [hz, he, hne back hl, hl, hk, Bool.and_self, Bool.not_false, if_true,
      MessageBuilder.replaceBack]
    exact ⟨trivial, hlen _ back _ hl⟩
  · intro back layers textColor scale hz he hl hk
    simp only [hz, he, hne back hl, hl, hk, Bool.and_self, Bool.not_false, if_true,
      MessageBuilder.replaceBack]
    exact ⟨trivial, hlen _ back _ hl⟩
  · intro hnot
    split_ifs with hc
    · simp only [Bool.and_eq_true, Bool.not_eq_true', ] at hc
      split
      · rfl
      · rename_i back hl
        split
        · rename_i baseEmote textColor scale hk
          exact absurd ⟨hc.1.1, hc.1.2, back, hl, Or.inl ⟨_, _, _, hk⟩⟩ hnot
        · rename_i layers textColor scale hk
          exact absurd ⟨hc.1.1, hc.1.2, back, hl, Or.inr ⟨_, _, _, hk⟩⟩ hnot
        · rfl
    · rfl

theorem tryAppendEmote_layering_witness :
    ((({} : MessageBuilder).emplace
        (mkEmote (some (sampleEmote "Kappa")) MessageElementFlag.Emote.mask)).tryAppendEmote
      zeroWidthApp none "RainTime".toList).2.message.elements =
      [{ kind := .LayeredEmoteElement
          [(some (sampleEmote "Kappa"), MessageElementFlag.Emote.mask),
            (some (sampleZeroWidthEmote "RainTime"), MessageElementFlag.Emote.mask)] .Text 1000,
         flags := MessageElementFlag.Emote.mask }] ∧
    (({} : MessageBuilder).tryAppendEmote zeroWidthApp none "RainTime".toList).2.message.elements =
      [mkEmote (some (sampleZeroWidthEmote "RainTime")) MessageElementFlag.Emote.mask] := by
  have h1 := (tryAppendEmote_layering zeroWidthApp
    (({} : MessageBuilder).emplace
      (mkEmote (some (sampleEmote "Kappa")) MessageElementFlag.Emote.mask))
    none "RainTime".toList (sampleZeroWidthEmote "RainTime") (by decide)).2.1
    (mkEmote (some (sampleEmote "Kappa")) MessageElementFlag.Emote.mask)
    (some (sampleEmote "Kappa")) .Text 1000 rfl rfl rfl rfl
  have h2 := (tryAppendEmote_layering zeroWidthApp {} none "RainTime".toList
    (sampleZeroWidthEmote "RainTime") (by decide)).2.2.2
    (fun hc => by
      obtain ⟨_, _, back, hl, _⟩ := hc
      exact absurd hl (by simp [List.getLast?]))
  refine ⟨?_, ?_⟩
  · rw [h1.1]
    decide
  · rw [h2]
    decide

/-! ## Group names -/

theorem isGroupHeadChar_iff (c : Char) :
    isGroupHeadChar c = true ↔ ('a' ≤ c ∧ c ≤ 'z') ∨ ('0' ≤ c ∧ c ≤ '9') := by
  have h1 : ∀ a b : Char, a ≤ b ↔ a.toNat ≤ b.toNat := fun a b => by
    rw [Char.le_def]
    exact Iff.rfl
  simp only [isGroupHeadChar, Bool.or_eq_true, Bool.and_eq_true, decide_eq_true_eq, h1]
  have ha : 'a'.toNat = 0x61 := rfl
  have hz : 'z'.toNat = 0x7A := rfl
  have h0 : '0'.toNat = 0x30 := rfl
  have h9 : '9'.toNat = 0x39 := rfl
  rw [ha, hz, h0, h9]

theorem isGroupTailChar_iff (c : Char) :
    isGroupTailChar c = true ↔
      ('a' ≤ c ∧ c ≤ 'z') ∨ ('0' ≤ c ∧ c ≤ '9') ∨ c = '_' ∨ c = '-' := by
  simp only [isGroupTailChar, Bool.or_eq_true, beq_iff_eq, isGroupHeadChar_iff]
  tauto

theorem isGroupBody_iff (s : QString) :
    isGroupBody s = true ↔
      1 ≤ s.length ∧ s.length ≤ 64 ∧
      (∀ c ∈ s, ('a' ≤ c ∧ c ≤ 'z') ∨ ('0' ≤ c ∧ c ≤ '9') ∨ c = '_' ∨ c = '-') ∧
      ∃ c, s.head? = some c ∧ (('a' ≤ c ∧ c ≤ 'z') ∨ ('0' ≤ c ∧ c ≤ '9')) := by
  cases s with
  | nil => simp [isGroupBody]
  | cons c cs =>
    simp only [isGroupBody, Bool.and_eq_true, List.all_eq_true, decide_eq_true_eq,
      List.length_cons, List.mem_cons, List.head?_cons, Option.some.injEq, exists_eq_left',
      isGroupHeadChar_iff, isGroupTailChar_iff, forall_eq_or_imp]
    constructor
    · rintro ⟨⟨hh, ht⟩, hl⟩
      refine ⟨by omega, by omega, ⟨?_, ht⟩, hh⟩
      rcases hh with hh | hh
      · exact Or.inl hh
      · exact Or.inr (Or.inl hh)
    · rintro ⟨_, hl, ⟨_, ht⟩, hh⟩
      exact ⟨⟨hh, ht⟩, by omega⟩

/-- C18: `normalizeGroupName(x)` is the trimmed, lower-cased form of `x` when
that form has 1 to 64 characters, all from `[a-z0-9_-]`, and starts with a
letter or digit; for every other input it is the empty string.  The three
inputs of the test give `vip-mods`, the empty string and the empty string. -/
theorem normalizeGroupName_accepts (x : QString) :
    ((1 ≤ (toLower (trimmed x)).length ∧ (toLower (trimmed x)).length ≤ 64 ∧
        (∀ c ∈ toLower (trimmed x),
          ('a' ≤ c ∧ c ≤ 'z') ∨ ('0' ≤ c ∧ c ≤ '9') ∨ c = '_' ∨ c = '-') ∧
        ∃ c, (toLower (trimmed x)).head? = some c ∧
          (('a' ≤ c ∧ c ≤ 'z') ∨ ('0' ≤ c ∧ c ≤ '9'))) →
      normalizeGroupName x = toLower (trimmed x)) ∧
    (¬ (1 ≤ (toLower (trimmed x)).length ∧ (toLower (trimmed x)).length ≤ 64 ∧
        (∀ c ∈ toLower (trimmed x),
          ('a' ≤ c ∧ c ≤ 'z') ∨ ('0' ≤ c ∧ c ≤ '9') ∨ c = '_' ∨ c = '-') ∧
        ∃ c, (toLower (trimmed x)).head? = some c ∧
          (('a' ≤ c ∧ c ≤ 'z') ∨ ('0' ≤ c ∧ c ≤ '9'))) →
      normalizeGroupName x = []) ∧
    normalizeGroupName " VIP-ModS ".toList = "vip-mods".toList ∧
    normalizeGroupName "bad space".toList = [] ∧
    normalizeGroupName "".toList = [] := by
  have hallowed : groupNameAllowed (toLower (trimmed x)) = isGroupBody (toLower (trimmed x)) := by
    unfold groupNameAllowed
    cases hb : isGroupBody (toLower (trimmed x)) with
    | true => rfl
    | false =>
      simp only [Bool.false_or, Bool.and_eq_false_iff, beq_eq_false_iff_ne]
      exact Or.inl (toLower_trimmed_getLast? x)
  refine ⟨?_, ?_, by decide, by decide, by decide⟩
  · intro h
    have hb := (isGroupBody_iff _).mpr h
    have hne : (toLower (trimmed x)).isEmpty = false := by
      cases hs : toLower (trimmed x) with
      | nil => rw [hs] at h; simp at h
      | cons c cs => rfl
    unfold normalizeGroupName
    simp [hne, hallowed, hb]
  · intro h
    have hb : isGroupBody (toLower (trimmed x)) = false := by
      cases hb : isGroupBody (toLower (trimmed x)) with
      | true => exact absurd ((isGroupBody_iff _).mp hb) h
      | false => rfl
    unfold normalizeGroupName
    simp [hallowed, hb]

/-! ## The crash upload policy and the current user name -/

theorem crashUploadUrl_ne_nil (env : CrashEnvironment) : crashUploadUrl env ≠ [] := by
  unfold crashUploadUrl
  split_ifs with h
  · decide
  · intro hn
    rw [hn] at h
    exact h rfl

/-- C20: the crash upload policy.  `shouldUploadCrashReportsAtRuntime(p)` is
`hasCrashUploadUrlOverride()` in dev-forced mode and `p` otherwise;
`crashUploadUrlForRuntime()` is empty exactly when dev-forced mode is on and no
URL override is set, and otherwise it is `crashUploadUrl()`, which is the value
of `OPENEMOTE_CRASH_UPLOAD_URL` when that is not empty and
`https://openemote.com/crash` otherwise. -/
theorem crash_upload_runtime_policy (env : CrashEnvironment) (p : Bool) :
    (isCrashUploadForcedInDevMode env = true →
      shouldUploadCrashReportsAtRuntime env p = hasCrashUploadUrlOverride env) ∧
    (isCrashUploadForcedInDevMode env = false → shouldUploadCrashReportsAtRuntime env p = p) ∧
    (crashUploadUrlForRuntime env = [] ↔
      isCrashUploadForcedInDevMode env = true ∧ hasCrashUploadUrlOverride env = false) ∧
    (¬ (isCrashUploadForcedInDevMode env = true ∧ hasCrashUploadUrlOverride env = false) →
      crashUploadUrlForRuntime env = crashUploadUrl env) ∧
    (∀ value, env.crashUploadUrl = some value → value ≠ [] → crashUploadUrl env = value) ∧
    (env.crashUploadUrl = none ∨ env.crashUploadUrl = some [] →
      crashUploadUrl env = "https://openemote.com/crash".toList) := by
  refine ⟨?_, ?_, ?_, ?_, ?_, ?_⟩
  · intro h
    simp [shouldUploadCrashReportsAtRuntime, h]
  · intro h
    simp [shouldUploadCrashReportsAtRuntime, h]
  · unfold crashUploadUrlForRuntime
    constructor
    · intro h
      split_ifs at h with hc
      · simpa using hc
      · exact absurd h (crashUploadUrl_ne_nil env)
    · intro h
      simp [h.1, h.2]
  · intro h
    unfold crashUploadUrlForRuntime
    split_ifs with hc
    · exact absurd (by simpa using hc) h
    · rfl
  · intro value hv hne
    unfold crashUploadUrl qEnvironmentVariable
    rw [hv]
    cases value with
    | nil => exact absurd rfl hne
    | cons c cs => rfl
  · intro h
    unfold crashUploadUrl qEnvironmentVariable
    rcases h with h | h <;> rw [h] <;> rfl

theorem crash_upload_runtime_policy_witness :
    shouldUploadCrashReportsAtRuntime sampleCrashEnvironment true = false ∧
    crashUploadUrlForRuntime sampleCrashEnvironment = [] ∧
    crashUploadUrl sampleCrashEnvironment = "https://openemote.com/crash".toList :=
  ⟨((crash_upload_runtime_policy sampleCrashEnvironment true).1 rfl).trans rfl,
    (crash_upload_runtime_policy sampleCrashEnvironment true).2.2.1.mpr ⟨rfl, rfl⟩,
    (crash_upload_runtime_policy sampleCrashEnvironment true).2.2.2.2.2 (Or.inl rfl)⟩

/-- C17: `pickImportedCurrentUsername(legacy, imported, existing)` returns
`legacy` itself when it is not empty and occurs in `imported` ignoring case,
whatever `existing` is; otherwise nothing when `existing` is not empty;
otherwise the first element of `imported`, or nothing when `imported` is
empty. -/
theorem pickImportedCurrentUsername_cases (equalsIgnoringCase : QString → QString → Bool)
    (legacy : QString) (imported : List QString) (existing : QString) :
    (legacy ≠ [] → (∃ name ∈ imported, equalsIgnoringCase name legacy = true) →
      pickImportedCurrentUsername equalsIgnoringCase legacy imported existing = some legacy) ∧
    (¬ (legacy ≠ [] ∧ ∃ name ∈ imported, equalsIgnoringCase name legacy = true) →
      existing ≠ [] →
      pickImportedCurrentUsername equalsIgnoringCase legacy imported existing = none) ∧
    (¬ (legacy ≠ [] ∧ ∃ name ∈ imported, equalsIgnoringCase name legacy = true) →
      existing = [] →
      pickImportedCurrentUsername equalsIgnoringCase legacy imported existing =
        imported.head?) := by
  have hcond : (!legacy.isEmpty &&
      imported.any (fun name => equalsIgnoringCase name legacy)) = true ↔
      (legacy ≠ [] ∧ ∃ name ∈ imported, equalsIgnoringCase name legacy = true) := by
    simp only [Bool.and_eq_true, Bool.not_eq_true', List.isEmpty_eq_false, List.any_eq_true]
  refine ⟨?_, ?_, ?_⟩
  · intro h1 h2
    unfold pickImportedCurrentUsername
    rw [if_pos (hcond.mpr ⟨h1, h2⟩)]
  · intro h1 h2
    unfold pickImportedCurrentUsername
    rw [if_neg (fun h => h1 (hcond.mp h))]
    cases existing with
    | nil => exact absurd rfl h2
    | cons c cs => rfl
  · intro h1 h2
    unfold pickImportedCurrentUsername
    rw [if_neg (fun h => h1 (hcond.mp h)), h2]
    cases imported <;> rfl

theorem pickImportedCurrentUsername_cases_witness :
    pickImportedCurrentUsername sampleEqualsIgnoringCase "Alice".toList
      ["bob".toList, "alice".toList] "carol".toList = some "Alice".toList ∧
    pickImportedCurrentUsername sampleEqualsIgnoringCase "dave".toList
      ["bob".toList, "alice".toList] "carol".toList = none ∧
    pickImportedCurrentUsername sampleEqualsIgnoringCase "dave".toList
      ["bob".toList, "alice".toList] [] = some "bob".toList ∧
    pickImportedCurrentUsername sampleEqualsIgnoringCase [] [] [] = none := by
  have h1 := (pickImportedCurrentUsername_cases sampleEqualsIgnoringCase "Alice".toList
    ["bob".toList, "alice".toList] "carol".toList).1 (by decide)
    ⟨"alice".toList, by decide, by decide⟩
  have h2 := (pickImportedCurrentUsername_cases sampleEqualsIgnoringCase "dave".toList
    ["bob".toList, "alice".toList] "carol".toList).2.1 (by decide) (by decide)
  have h3 := (pickImportedCurrentUsername_cases sampleEqualsIgnoringCase "dave".toList
    ["bob".toList, "alice".toList] []).2.2 (by decide) rfl
  have h4 := (pickImportedCurrentUsername_cases sampleEqualsIgnoringCase [] [] []).2.2
    (by decide) rfl
  exact ⟨h1, h2, h3, h4⟩

/-! ## Legacy accounts -/

theorem completeLegacyAccounts_mem (members : List (QString × QJsonValue))
    (a : LegacyTwitchAccount) (h : a ∈ completeLegacyAccounts members) :
    a.username ≠ [] ∧ a.userID ≠ [] ∧ a.clientID ≠ [] ∧ a.oauthToken ≠ [] ∧
    ∃ key account, (key, QJsonValue.object account) ∈ members ∧ key ≠ "current".toList ∧
      a = parseLegacyAccount account := by
  induction members with
  | nil => simp [completeLegacyAccounts] at h
  | cons member members ih =>
    obtain ⟨key, value⟩ := member
    unfold completeLegacyAccounts at h
    split_ifs at h with h1 h2
    · obtain ⟨hu, hi, hc, ho, k, acc, hm, hk, ha⟩ := ih h
      exact ⟨hu, hi, hc, ho, k, acc, List.mem_cons_of_mem _ hm, hk, ha⟩
    · obtain ⟨hu, hi, hc, ho, k, acc, hm, hk, ha⟩ := ih h
      exact ⟨hu, hi, hc, ho, k, acc, List.mem_cons_of_mem _ hm, hk, ha⟩
    · rcases List.mem_cons.mp h with h | h
      · simp only [Bool.or_eq_true, decide_eq_true_eq, Bool.not_eq_true', not_or,
          Bool.not_eq_false, List.isEmpty_eq_true] at h1 h2
        subst h
        refine ⟨h2.1.1.1, h2.1.1.2, h2.1.2, h2.2, key, value.toObject, ?_, h1.1, rfl⟩
        cases value <;> simp [QJsonValue.isObject] at h1
        simp [QJsonValue.toObject]
      · obtain ⟨hu, hi, hc, ho, k, acc, hm, hk, ha⟩ := ih h
        exact ⟨hu, hi, hc, ho, k, acc, List.mem_cons_of_mem _ hm, hk, ha⟩

/-- What the loop of `loadLegacyTwitchAccounts` adds to the accounts it starts
with. -/
theorem legacyAccountsLoop_spec (members : List (QString × QJsonValue)) (seen : List QString)
    (accounts : List LegacyTwitchAccount) :
    ∃ added, legacyAccountsLoop members seen accounts = accounts ++ added ∧
      added.Sublist (completeLegacyAccounts members) ∧
      (∀ a ∈ added, a.userID ∉ seen) ∧
      (added.map (fun a => a.userID)).Nodup ∧
      (∀ c ∈ completeLegacyAccounts members,
        c.userID ∈ seen ∨ c.userID ∈ added.map (fun a => a.userID)) ∧
      (∀ a ∈ added,
        (completeLegacyAccounts members).find? (fun c => c.userID = a.userID) = some a) := by
  induction members generalizing seen accounts with
  | nil => exact ⟨[], by simp [legacyAccountsLoop, completeLegacyAccounts]⟩
  | cons member members ih =>
    obtain ⟨key, value⟩ := member
    unfold legacyAccountsLoop completeLegacyAccounts
    split_ifs with h1 h2 h3
    · exact ih seen accounts
    · exact ih seen accounts
    · obtain ⟨added, he, hs, hn, hd, hc, hf⟩ := ih seen accounts
      have hseen : (parseLegacyAccount value.toObject).userID ∈ seen := by
        simpa using h3
      refine ⟨added, he, hs.cons _, hn, hd, ?_, ?_⟩
      · intro c hcm
        rcases List.mem_cons.mp hcm with rfl | hcm
        · exact Or.inl hseen
        · exact hc c hcm
      · intro a ha
        rw [List.find?_cons]
        have hne : (parseLegacyAccount value.toObject).userID ≠ a.userID := by
          intro e
          exact hn a ha (e ▸ hseen)
        simp only [hne, decide_False]
        exact hf a ha
    · have hnot : (parseLegacyAccount value.toObject).userID ∉ seen := by
        simpa using h3
      obtain ⟨added, he, hs, hn, hd, hc, hf⟩ :=
        ih ((parseLegacyAccount value.toObject).userID :: seen)
          (accounts ++ [parseLegacyAccount value.toObject])
      refine ⟨parseLegacyAccount value.toObject :: added, ?_, hs.cons₂ _, ?_, ?_, ?_, ?_⟩
      · rw [he, List.append_assoc, List.singleton_append]
      · intro a ha
        rcases List.mem_cons.mp ha with rfl | ha
        · exact hnot
        · exact fun hm => hn a ha (List.mem_cons_of_mem _ hm)
      · rw [List.map_cons, List.nodup_cons]
        refine ⟨?_, hd⟩
        intro hm
        obtain ⟨a, ha, hae⟩ := List.mem_map.mp hm
        exact hn a ha (hae ▸ List.mem_cons_self _ _)
      · intro c hcm
        rcases List.mem_cons.mp hcm with rfl | hcm
        · exact Or.inr (by simp)
        · rcases hc c hcm with h | h
          · rcases List.mem_cons.mp h with h | h
            · exact Or.inr (by simp [h])
            · exact Or.inl h
          · exact Or.inr (by
              rw [List.map_cons]
              exact List.mem_cons_of_mem _ h)
      · intro a ha
        rcases List.mem_cons.mp ha with rfl | ha
        · simp [List.find?_cons]
        · rw [List.find?_cons]
          have hne : (parseLegacyAccount value.toObject).userID ≠ a.userID := by
            intro e
            exact hn a ha (e ▸ List.mem_cons_self _ _)
          simp only [hne, decide_False]
          exact hf a ha

theorem castToInt_of_lt (n : Nat) (h : n < 2147483648) : castToInt n = n := by
  unfold castToInt
  omega

/-- C16: `loadLegacyTwitchAccounts` returns only complete accounts (user name,
user id, client id and token not empty after trimming), each read from an
object member of `accounts` other than `current`, in key order and with
pairwise distinct user ids: of the complete accounts with one user id the first
in key order is the one returned.  `currentUsername` is the trimmed member
`current`.  The payload is empty when `settings.json` cannot be opened, is
larger than 4 MiB, is not valid JSON or has no object as its member
`accounts`.  `countLegacyTwitchAccounts` is the number of returned accounts. -/
theorem loadLegacyTwitchAccounts_complete (fromJson : QByteArray → Option QJsonValue)
    (file : Option LegacySettingsFile) :
    (∀ a ∈ (loadLegacyTwitchAccounts fromJson file).accounts,
      a.username ≠ [] ∧ a.userID ≠ [] ∧ a.clientID ≠ [] ∧ a.oauthToken ≠ [] ∧
      (∃ (key : QString) (account : QJsonObject),
        (key, QJsonValue.object account) ∈
          ((loadLegacySettingsObject fromJson file).value "accounts").toObject ∧
        key ≠ "current".toList ∧
        a.username = trimmed (account.value "username").toString ∧
        a.userID = trimmed (account.value "userID").toString ∧
        a.clientID = trimmed (account.value "clientID").toString ∧
        a.oauthToken = trimmed (account.value "oauthToken").toString) ∧
      (completeLegacyAccounts
        ((loadLegacySettingsObject fromJson file).value "accounts").toObject).find?
          (fun c => c.userID = a.userID) = some a) ∧
    ((loadLegacyTwitchAccounts fromJson file).accounts.map (fun a => a.userID)).Nodup ∧
    (loadLegacyTwitchAccounts fromJson file).accounts.Sublist
      (completeLegacyAccounts
        ((loadLegacySettingsObject fromJson file).value "accounts").toObject) ∧
    (∀ c ∈ completeLegacyAccounts
        ((loadLegacySettingsObject fromJson file).value "accounts").toObject,
      c.userID ∈ (loadLegacyTwitchAccounts fromJson file).accounts.map (fun a => a.userID)) ∧
    (loadLegacyTwitchAccounts fromJson file).currentUsername =
      trimmed (((loadLegacySettingsObject fromJson file).value "accounts").toObject.value
        "current").toString ∧
    ((file = none ∨ (∃ settings, file = some settings ∧
          (settings.size > 4 * 1024 * 1024 ∨ fromJson settings.content = none)) ∨
        ((loadLegacySettingsObject fromJson file).value "accounts").isObject = false) →
      (loadLegacyTwitchAccounts fromJson file) = { currentUsername := [], accounts := [] }) ∧
    countLegacyTwitchAccounts fromJson file =
      castToInt (loadLegacyTwitchAccounts fromJson file).accounts.length ∧
    ((loadLegacyTwitchAccounts fromJson file).accounts.length < 2147483648 →
      countLegacyTwitchAccounts fromJson file =
        (loadLegacyTwitchAccounts fromJson file).accounts.length) := by
  have hnot : ((loadLegacySettingsObject fromJson file).value "accounts").isObject = false →
      loadLegacyTwitchAccounts fromJson file = { currentUsername := [], accounts := [] } := by
    intro h
    unfold loadLegacyTwitchAccounts
    simp [h]
  have hempty : ∀ key, QJsonObject.value [] key = QJsonValue.undefined := fun _ => rfl
  have hpayload : (loadLegacyTwitchAccounts fromJson file).accounts =
        legacyAccountsLoop
          ((loadLegacySettingsObject fromJson file).value "accounts").toObject [] [] ∧
      (loadLegacyTwitchAccounts fromJson file).currentUsername =
        trimmed (((loadLegacySettingsObject fromJson file).value "accounts").toObject.value
          "current").toString := by
    unfold loadLegacyTwitchAccounts
    cases hv : (loadLegacySettingsObject fromJson file).value "accounts" <;>
      simp [QJsonValue.isObject, QJsonValue.toObject, legacyAccountsLoop, hempty,
        QJsonValue.toString, trimmed]
  obtain ⟨added, he, hs, -, hd, hc, hf⟩ := legacyAccountsLoop_spec
    ((loadLegacySettingsObject fromJson file).value "accounts").toObject [] []
  rw [List.nil_append] at he
  rw [← hpayload.1] at he
  refine ⟨?_, ?_, ?_, ?_, hpayload.2, ?_, rfl, ?_⟩
  · intro a ha
    rw [he] at ha
    obtain ⟨hu, hi, hcl, ho, key, account, hm, hk, hacc⟩ :=
      completeLegacyAccounts_mem _ a (hs.subset ha)
    refine ⟨hu, hi, hcl, ho, ⟨key, account, hm, hk, ?_⟩, hf a ha⟩
    subst hacc
    exact ⟨rfl, rfl, rfl, rfl⟩
  · rw [he]
    exact hd
  · rw [he]
    exact hs
  · intro c hcm
    rw [he]
    rcases hc c hcm with h | h
    · simp at h
    · exact h
  · rintro (h | ⟨settings, hfile, h | h⟩ | h)
    · apply hnot
      rw [h]
      rfl
    · apply hnot
      rw [hfile]
      unfold loadLegacySettingsObject
      have : settings.size > MAX_LEGACY_SETTINGS_JSON_BYTES := h
      simp [this, hempty, QJsonValue.isObject]
    · apply hnot
      rw [hfile]
      unfold loadLegacySettingsObject
      simp only [h]
      split_ifs <;> rfl
    · exact hnot h
  · intro h
    exact castToInt_of_lt _ h

theorem loadLegacyTwitchAccounts_complete_witness :
    loadLegacyTwitchAccounts sampleFromJson (some (sampleSettingsFile "\x7b\x7d")) =
      { currentUsername := "orbinyan".toList
        accounts :=
          [{ username := "orbinyan".toList, userID := "123".toList, clientID := "a".toList,
             oauthToken := "oauth:a".toList },
            { username := "mod_user".toList, userID := "124".toList, clientID := "c".toList,
              oauthToken := "oauth:c".toList }] } ∧
    countLegacyTwitchAccounts sampleFromJson (some (sampleSettingsFile "\x7b\x7d")) = 2 ∧
    loadLegacyTwitchAccounts sampleFromJson (some (sampleSettingsFile "broken-json")) =
      { currentUsername := [], accounts := [] } ∧
    loadLegacyTwitchAccounts sampleFromJson none = { currentUsername := [], accounts := [] } :=
  ⟨rfl,
    ((loadLegacyTwitchAccounts_complete sampleFromJson
      (some (sampleSettingsFile "\x7b\x7d"))).2.2.2.2.2.2.2 (by decide)).trans rfl,
    (loadLegacyTwitchAccounts_complete sampleFromJson
      (some (sampleSettingsFile "broken-json"))).2.2.2.2.2.1
      (Or.inr (Or.inl ⟨_, rfl, Or.inr rfl⟩)),
    (loadLegacyTwitchAccounts_complete sampleFromJson none).2.2.2.2.2.1 (Or.inl rfl)⟩

/-! ## The import of legacy settings files -/

theorem targetLookup_removeFile_of_ne (env : ImportEnvironment) (target : TargetFiles)
    (name other : QString) (h : other ≠ name) :
    targetLookup (removeFile env target name) other = targetLookup target other := by
  unfold removeFile
  split_ifs
  · unfold targetLookup
    congr 1
    induction target with
    | nil => rfl
    | cons entry rest ih =>
      by_cases he : entry.1 = name
      · have hne : ¬ entry.1 = other := fun e => h (e ▸ he)
        rw [List.filter_cons_of_neg (by simpa using he),
          List.find?_cons_of_neg _ (by simpa using hne)]
        exact ih
      · rw [List.filter_cons_of_pos (by simpa using he)]
        by_cases ho : entry.1 = other
        · rw [List.find?_cons_of_pos _ (by simpa using ho),
            List.find?_cons_of_pos _ (by simpa using ho)]
        · rw [List.find?_cons_of_neg _ (by simpa using ho),
            List.find?_cons_of_neg _ (by simpa using ho)]
          exact ih
  · rfl

theorem targetLookup_removeFile_self (env : ImportEnvironment) (target : TargetFiles)
    (name : QString) :
    targetLookup (removeFile env target name) name =
      if env.removeAllowed name then none else targetLookup target name := by
  unfold removeFile
  split_ifs
  · unfold targetLookup
    rw [Option.map_eq_none', List.find?_eq_none]
    intro entry hentry
    simp only [List.mem_filter, decide_eq_true_eq] at hentry
    simpa using hentry.2
  · rfl

theorem targetLookup_append_of_ne (target : TargetFiles) (name other : QString)
    (content : QByteArray) (h : other ≠ name) :
    targetLookup (target ++ [(name, content)]) other = targetLookup target other := by
  unfold targetLookup
  congr 1
  rw [List.find?_append]
  cases hf : target.find? (fun entry => entry.1 = other) with
  | some e => rfl
  | none =>
    have hne : name ≠ other := fun e => h e.symm
    simp [List.find?_cons, hne]

theorem targetLookup_copyFile_of_ne (env : ImportEnvironment) (target written : TargetFiles)
    (name other : QString) (content : QByteArray)
    (hc : copyFile env target name content = some written) (h : other ≠ name) :
    targetLookup written other = targetLookup target other := by
  unfold copyFile at hc
  split_ifs at hc
  simp only [Option.some.injEq] at hc
  rw [← hc]
  exact targetLookup_append_of_ne target name other content h

theorem importFile_lookup_of_ne (env : ImportEnvironment) (file : SourceFile)
    (target : TargetFiles) (other : QString) (h : other ≠ file.fileName) :
    targetLookup (importFile env file target).2 other = targetLookup target other := by
  have hcleared : targetLookup (if qEqualsCaseInsensitive file.fileName
      "window-layout.json".toList then removeFile env target file.fileName else target) other =
      targetLookup target other := by
    split_ifs
    · exact targetLookup_removeFile_of_ne env target _ _ h
    · rfl
  unfold importFile
  dsimp only
  generalize (if qEqualsCaseInsensitive file.fileName "window-layout.json".toList then
    removeFile env target file.fileName else target) = cleared at hcleared ⊢
  split
  · rfl
  · split_ifs
    · rfl
    · rfl
    · split
      · rename_i written hcopy
        dsimp only
        rw [targetLookup_copyFile_of_ne env _ written _ other _ hcopy h]
        exact hcleared
      · exact hcleared

theorem importFile_changed (env : ImportEnvironment) (file : SourceFile) (target : TargetFiles)
    (h : targetLookup (importFile env file target).2 file.fileName ≠
      targetLookup target file.fileName) :
    (∃ bytes, file.content = some bytes ∧ env.jsonAccepted bytes = true) ∧
    (targetLookup target file.fileName = none ∨
      qEqualsCaseInsensitive file.fileName "window-layout.json".toList = true) := by
  unfold importFile at h
  dsimp only at h
  generalize (if qEqualsCaseInsensitive file.fileName "window-layout.json".toList then
    removeFile env target file.fileName else target) = cleared at h
  split at h
  · exact absurd rfl h
  · rename_i bytes hcontent
    split_ifs at h with h5 h6
    · exact absurd rfl h
    · exact absurd rfl h
    · refine ⟨⟨bytes, hcontent, by simpa using h5⟩, ?_⟩
      simp only [Bool.and_eq_true, Bool.not_eq_true', not_and, Bool.not_eq_false] at h6
      cases ht : targetLookup target file.fileName with
      | none => exact Or.inl rfl
      | some c => exact Or.inr (h6 (by simp [ht]))

theorem passesImportFilters_of_not_skipped (file : SourceFile)
    (h1 : ¬ (!qEndsWithCaseInsensitive file.fileName ".json".toList) = true)
    (h2 : ¬ (!file.isFile || file.isSymLink) = true)
    (h3 : ¬ (decide (file.size < 0) ||
      decide (file.size > MAX_IMPORTED_JSON_FILE_BYTES)) = true) :
    passesImportFilters file = true := by
  unfold passesImportFilters
  simp only [Bool.not_eq_true', Bool.not_eq_false, Bool.or_eq_true, decide_eq_true_eq,
    not_or, not_lt, Bool.not_eq_true, gt_iff_lt] at h1 h2 h3
  rw [h1, h2.1, h2.2]
  simp only [Bool.and_self, Bool.not_false, Bool.true_and, Bool.and_eq_true, decide_eq_true_eq]
  exact h3

/-- The loop changes the file of a name in the target directory only for a
source file of that name that passes every test. -/
theorem importLoop_frame (env : ImportEnvironment) (files : List SourceFile)
    (copied considered : Int) (target : TargetFiles) (name : QString)
    (h : targetLookup (importLoop env files copied considered target).2 name ≠
      targetLookup target name) :
    ∃ file ∈ files, file.fileName = name ∧ passesImportFilters file = true ∧
      (∃ bytes, file.content = some bytes ∧ env.jsonAccepted bytes = true) ∧
      (targetLookup target name = none ∨
        qEqualsCaseInsensitive name "window-layout.json".toList = true) := by
  induction files generalizing copied considered target with
  | nil => exact absurd rfl h
  | cons file files ih =>
    have hrest : ∀ copied1 considered1,
        targetLookup (importLoop env files copied1 considered1 target).2 name ≠
          targetLookup target name →
        ∃ file1 ∈ file :: files, file1.fileName = name ∧ passesImportFilters file1 = true ∧
          (∃ bytes, file1.content = some bytes ∧ env.jsonAccepted bytes = true) ∧
          (targetLookup target name = none ∨
            qEqualsCaseInsensitive name "window-layout.json".toList = true) := by
      intro copied1 considered1 h1
      obtain ⟨file1, hm, hr⟩ := ih copied1 considered1 target h1
      exact ⟨file1, List.mem_cons_of_mem _ hm, hr⟩
    have hstepped : ∀ copied1 considered1, passesImportFilters file = true →
        targetLookup (importLoop env files copied1 considered1
          (importFile env file target).2).2 name ≠ targetLookup target name →
        ∃ file1 ∈ file :: files, file1.fileName = name ∧ passesImportFilters file1 = true ∧
          (∃ bytes, file1.content = some bytes ∧ env.jsonAccepted bytes = true) ∧
          (targetLookup target name = none ∨
            qEqualsCaseInsensitive name "window-layout.json".toList = true) := by
      intro copied1 considered1 hpass h
      by_cases hname : name = file.fileName
      · subst hname
        by_cases hstep : targetLookup (importFile env file target).2 file.fileName =
            targetLookup target file.fileName
        · rw [← hstep] at h
          obtain ⟨file1, hm, hn, hp, hb, hor⟩ := ih _ _ _ h
          rw [hstep] at hor
          exact ⟨file1, List.mem_cons_of_mem _ hm, hn, hp, hb, hor⟩
        · obtain ⟨hb, hor⟩ := importFile_changed env file target hstep
          exact ⟨file, List.mem_cons_self _ _, rfl, hpass, hb, hor⟩
      · have hw := importFile_lookup_of_ne env file target name hname
        rw [← hw] at h
        obtain ⟨file1, hm, hn, hp, hb, hor⟩ := ih _ _ _ h
        rw [hw] at hor
        exact ⟨file1, List.mem_cons_of_mem _ hm, hn, hp, hb, hor⟩
    unfold importLoop at h
    split_ifs at h with h1 h2 h3 h4
    · exact hrest _ _ h
    · exact hrest _ _ h
    · exact hrest _ _ h
    · exact absurd rfl h
    · exact hstepped _ _ (passesImportFilters_of_not_skipped file h1 h2 h3) h
    · exact hstepped _ _ (passesImportFilters_of_not_skipped file h1 h2 h3) h

theorem importFile_copied (env : ImportEnvironment) (file : SourceFile) (target : TargetFiles) :
    (importFile env file target).1 = isCopiedByImport env target file := by
  unfold importFile isCopiedByImport
  dsimp only
  cases file.content with
  | none => rfl
  | some bytes =>
    dsimp only
    cases ha : env.jsonAccepted bytes with
    | false => simp
    | true =>
      cases ho : qEqualsCaseInsensitive file.fileName "window-layout.json".toList with
      | true =>
        simp only [Bool.not_true, Bool.false_eq_true, if_false, Bool.and_false, if_true,
          Bool.true_and]
        unfold copyFile
        rw [targetLookup_removeFile_self]
        cases hr : env.removeAllowed file.fileName <;>
          cases hl : targetLookup target file.fileName <;>
          cases hc : env.copyAllowed file.fileName <;> simp
      | false =>
        simp only [Bool.not_true, Bool.false_eq_true, if_false, Bool.not_false, Bool.and_true,
          Bool.true_and]
        unfold copyFile
        cases hl : targetLookup target file.fileName <;>
          cases hc : env.copyAllowed file.fileName <;> simp

theorem importLoop_skip (env : ImportEnvironment) (file : SourceFile) (files : List SourceFile)
    (copied considered : Int) (target : TargetFiles) (h : passesImportFilters file = false) :
    importLoop env (file :: files) copied considered target =
      importLoop env files copied considered target := by
  rw [importLoop]
  split_ifs with h1 h2 h3 h4
  · rfl
  · rfl
  · rfl
  · rw [passesImportFilters_of_not_skipped file h1 h2 h3] at h
    exact absurd h (by decide)
  · rw [passesImportFilters_of_not_skipped file h1 h2 h3] at h
    exact absurd h (by decide)
  · rw [passesImportFilters_of_not_skipped file h1 h2 h3] at h
    exact absurd h (by decide)

theorem not_skipped_of_passesImportFilters (file : SourceFile)
    (h : passesImportFilters file = true) :
    (!qEndsWithCaseInsensitive file.fileName ".json".toList) = false ∧
    (!file.isFile || file.isSymLink) = false ∧
    (decide (file.size < 0) || decide (file.size > MAX_IMPORTED_JSON_FILE_BYTES)) = false := by
  unfold passesImportFilters at h
  simp only [Bool.and_eq_true, decide_eq_true_eq, Bool.not_eq_true'] at h
  obtain ⟨⟨⟨⟨h1, h2⟩, h3⟩, h4⟩, h5⟩ := h
  refine ⟨by rw [h1]; rfl, by rw [h2, h3]; rfl, ?_⟩
  simp only [Bool.or_eq_false_iff, decide_eq_false_iff_not, not_lt, gt_iff_lt]
  exact ⟨h4, h5⟩

theorem importLoop_cap (env : ImportEnvironment) (file : SourceFile) (files : List SourceFile)
    (copied considered : Int) (target : TargetFiles) (h : passesImportFilters file = true)
    (hcap : considered ≥ MAX_IMPORTED_SETTINGS_FILES) :
    importLoop env (file :: files) copied considered target = (copied, target) := by
  obtain ⟨h1, h2, h3⟩ := not_skipped_of_passesImportFilters file h
  rw [importLoop, h1, h2, h3]
  simp only [Bool.false_eq_true, if_false, hcap, if_true]

theorem importLoop_step (env : ImportEnvironment) (file : SourceFile) (files : List SourceFile)
    (copied considered : Int) (target : TargetFiles) (h : passesImportFilters file = true)
    (hcap : ¬ considered ≥ MAX_IMPORTED_SETTINGS_FILES) :
    importLoop env (file :: files) copied considered target =
      importLoop env files
        (if (importFile env file target).1 then copied + 1 else copied) (considered + 1)
        (importFile env file target).2 := by
  obtain ⟨h1, h2, h3⟩ := not_skipped_of_passesImportFilters file h
  rw [importLoop, h1, h2, h3]
  simp only [Bool.false_eq_true, if_false, hcap]

/-- The number the loop returns lies between `copied` and `copied` plus what
is left of the cap. -/
theorem importLoop_bounds (env : ImportEnvironment) (files : List SourceFile)
    (copied considered : Int) (target : TargetFiles)
    (hk : considered ≤ MAX_IMPORTED_SETTINGS_FILES) :
    copied ≤ (importLoop env files copied considered target).1 ∧
    (importLoop env files copied considered target).1 ≤
      copied + (MAX_IMPORTED_SETTINGS_FILES - considered) := by
  induction files generalizing copied considered target with
  | nil =>
    simp only [importLoop]
    omega
  | cons file files ih =>
    cases hp : passesImportFilters file with
    | false =>
      rw [importLoop_skip env file files copied considered target hp]
      exact ih copied considered target hk
    | true =>
      by_cases hcap : considered ≥ MAX_IMPORTED_SETTINGS_FILES
      · rw [importLoop_cap env file files copied considered target hp hcap]
        dsimp only
        omega
      · rw [importLoop_step env file files copied considered target hp hcap]
        have hk1 : considered + 1 ≤ MAX_IMPORTED_SETTINGS_FILES := by omega
        have := ih (if (importFile env file target).1 then copied + 1 else copied)
          (considered + 1) (importFile env file target).2 hk1
        split_ifs at this ⊢ <;> omega

/-- Source files that fail one of the three tests do not matter to the loop. -/
theorem importLoop_filter (env : ImportEnvironment) (keep : SourceFile → Bool)
    (hkeep : ∀ file, passesImportFilters file = true → keep file = true)
    (files : List SourceFile) (copied considered : Int) (target : TargetFiles) :
    importLoop env (files.filter keep) copied considered target =
      importLoop env files copied considered target := by
  induction files generalizing copied considered target with
  | nil => rfl
  | cons file files ih =>
    cases hp : passesImportFilters file with
    | false =>
      rw [importLoop_skip env file files copied considered target hp]
      cases hq : keep file with
      | false =>
        rw [List.filter_cons_of_neg (by simp [hq])]
        exact ih copied considered target
      | true =>
        rw [List.filter_cons_of_pos hq, importLoop_skip env file _ copied considered target hp]
        exact ih copied considered target
    | true =>
      rw [List.filter_cons_of_pos (hkeep file hp)]
      by_cases hcap : considered ≥ MAX_IMPORTED_SETTINGS_FILES
      · rw [importLoop_cap env file files copied considered target hp hcap,
          importLoop_cap env file _ copied considered target hp hcap]
      · rw [importLoop_step env file files copied considered target hp hcap,
          importLoop_step env file _ copied considered target hp hcap]
        exact ih _ _ _

theorem isCopiedByImport_congr (env : ImportEnvironment) (target target1 : TargetFiles)
    (file : SourceFile)
    (h : targetLookup target1 file.fileName = targetLookup target file.fileName) :
    isCopiedByImport env target1 file = isCopiedByImport env target file := by
  unfold isCopiedByImport
  rw [h]

/-- The number the loop returns, when no two source files have the same name:
of the files that pass the three tests, as many as the cap leaves room for are
considered, and those of them are counted that are copied. -/
theorem importLoop_count (env : ImportEnvironment) (files : List SourceFile)
    (copied considered : Int) (target : TargetFiles)
    (hk : considered ≤ MAX_IMPORTED_SETTINGS_FILES)
    (hnodup : (files.map (fun file => file.fileName)).Nodup) :
    (importLoop env files copied considered target).1 =
      copied + (((files.filter passesImportFilters).take
        (MAX_IMPORTED_SETTINGS_FILES - considered).toNat).countP
          (isCopiedByImport env target) : Nat) := by
  induction files generalizing copied considered target with
  | nil => simp [importLoop]
  | cons file files ih =>
    rw [List.map_cons, List.nodup_cons] at hnodup
    cases hp : passesImportFilters file with
    | false =>
      rw [importLoop_skip env file files copied considered target hp,
        List.filter_cons_of_neg (by simp [hp])]
      exact ih copied considered target hk hnodup.2
    | true =>
      rw [List.filter_cons_of_pos hp]
      by_cases hcap : considered ≥ MAX_IMPORTED_SETTINGS_FILES
      · rw [importLoop_cap env file files copied considered target hp hcap]
        have h0 : (MAX_IMPORTED_SETTINGS_FILES - considered).toNat = 0 := by omega
        rw [h0]
        simp
      · rw [importLoop_step env file files copied considered target hp hcap]
        have hk1 : considered + 1 ≤ MAX_IMPORTED_SETTINGS_FILES := by omega
        rw [ih _ (considered + 1) (importFile env file target).2 hk1 hnodup.2]
        have hn : (MAX_IMPORTED_SETTINGS_FILES - considered).toNat =
            (MAX_IMPORTED_SETTINGS_FILES - (considered + 1)).toNat + 1 := by omega
        rw [hn, List.take_succ_cons, List.countP_cons, importFile_copied]
        have hcongr : List.countP (isCopiedByImport env (importFile env file target).2)
            (List.take (MAX_IMPORTED_SETTINGS_FILES - (considered + 1)).toNat
              (List.filter passesImportFilters files)) =
            List.countP (isCopiedByImport env target)
              (List.take (MAX_IMPORTED_SETTINGS_FILES - (considered + 1)).toNat
                (List.filter passesImportFilters files)) := by
          apply List.countP_congr
          intro other hother
          have hmem : other ∈ files :=
            (List.mem_filter.mp (List.mem_of_mem_take hother)).1
          have hne : other.fileName ≠ file.fileName := by
            intro e
            exact hnodup.1 (e ▸ List.mem_map_of_mem _ hmem)
          rw [isCopiedByImport_congr env target _ other
            (importFile_lookup_of_ne env file target other.fileName hne)]
        rw [hcongr]
        cases isCopiedByImport env target file with
        | false => simp
        | true =>
          simp
          omega

theorem sample_importLegacySettingsFiles :
    importLegacySettingsFiles sampleImportEnvironment =
      (2, some
        [("settings.json".toList, toUtf8 "\x7b\"settings\":\"target\"\x7d".toList),
          ("commands.json".toList, toUtf8 "\x7b\"commands\":\"source\"\x7d".toList),
          ("window-layout.json".toList, toUtf8 "\x7b\"layout\":\"source\"\x7d".toList)]) := by
  decide

theorem sampleFileName_injective (i j : Nat) (extension other : String) (hi : i < 676)
    (hj : j < 676) (h : sampleFileName i extension = sampleFileName j other) :
    i = j ∧ extension.toList = other.toList := by
  unfold sampleFileName at h
  simp only [List.cons.injEq] at h
  obtain ⟨h1, h2, h3⟩ := h
  have e1 := congrArg Char.toNat h1
  have e2 := congrArg Char.toNat h2
  rw [char_ofNat_toNat_of_lt _ (by omega), char_ofNat_toNat_of_lt _ (by omega)] at e1 e2
  exact ⟨by omega, h3⟩

theorem sampleFileName_json (i : Nat) (hi : i < 676) :
    qEndsWithCaseInsensitive (sampleFileName i ".json") ".json".toList = true := by
  have h1 : (Char.ofNat (97 + i / 26)).toNat = 97 + i / 26 :=
    char_ofNat_toNat_of_lt _ (by omega)
  have h2 : (Char.ofNat (97 + i % 26)).toNat = 97 + i % 26 :=
    char_ofNat_toNat_of_lt _ (by omega)
  unfold qEndsWithCaseInsensitive sampleFileName
  rfl

theorem sampleFileName_txt (i : Nat) :
    qEndsWithCaseInsensitive (sampleFileName i ".txt") ".json".toList = false := by
  have h : (qEndsWithCaseInsensitive (sampleFileName i ".txt") ".json".toList) =
      (qFoldCase (Char.ofNat (97 + i % 26)) :: ['.', 't', 'x', 't'] ==
        ['.', 'j', 's', 'o', 'n']) := rfl
  rw [h]
  show (qFoldCase (Char.ofNat (97 + i % 26)) == '.' &&
    (['.', 't', 'x', 't'] == ['j', 's', 'o', 'n'])) = false
  have h2 : (['.', 't', 'x', 't'] == ['j', 's', 'o', 'n']) = false := by decide
  rw [h2, Bool.and_false]

theorem importLegacySettingsFiles_eq (env : ImportEnvironment) (files : List SourceFile)
    (hpath : env.sourcePath ≠ env.targetPath) (hfiles : env.sourceFiles = some files)
    (htarget : env.target.isSome = true ∨ env.mkpath = true) :
    importLegacySettingsFiles env =
      ((importLoop env files 0 0 (env.target.getD [])).1,
        some (importLoop env files 0 0 (env.target.getD [])).2) := by
  unfold importLegacySettingsFiles
  rw [if_neg hpath, hfiles]
  cases ht : env.target with
  | some target => rfl
  | none =>
    rw [ht] at htarget
    rcases htarget with h | h
    · exact absurd h (by decide)
    · simp [h]

theorem importLoop_congr (env other : ImportEnvironment)
    (h1 : other.jsonAccepted = env.jsonAccepted) (h2 : other.removeAllowed = env.removeAllowed)
    (h3 : other.copyAllowed = env.copyAllowed) (files : List SourceFile)
    (copied considered : Int) (target : TargetFiles) :
    importLoop other files copied considered target =
      importLoop env files copied considered target := by
  have hfile : ∀ file target, importFile other file target = importFile env file target := by
    intro file target
    simp only [importFile, removeFile, copyFile, h1, h2, h3]
  induction files generalizing copied considered target with
  | nil => rfl
  | cons file files ih =>
    rw [importLoop, importLoop]
    simp only [hfile, ih]

theorem importLegacySettingsFiles_cases (env : ImportEnvironment) :
    importLegacySettingsFiles env = (0, env.target) ∨
    ∃ files, env.sourceFiles = some files ∧
      importLegacySettingsFiles env =
        ((importLoop env files 0 0 (env.target.getD [])).1,
          some (importLoop env files 0 0 (env.target.getD [])).2) := by
  by_cases hpath : env.sourcePath = env.targetPath
  · left
    unfold importLegacySettingsFiles
    rw [if_pos hpath]
  · cases hfiles : env.sourceFiles with
    | none =>
      left
      unfold importLegacySettingsFiles
      rw [if_neg hpath, hfiles]
    | some files =>
      by_cases ht : env.target.isSome = true ∨ env.mkpath = true
      · right
        exact ⟨files, rfl, importLegacySettingsFiles_eq env files hpath hfiles ht⟩
      · left
        simp only [not_or, Bool.not_eq_true, Option.not_isSome, Option.isNone_iff_eq_none] at ht
        unfold importLegacySettingsFiles
        rw [if_neg hpath, hfiles, ht.1]
        simp [ht.2]

/-- C14 (amended): `importLegacySettingsFiles` changes the file of a name in the
target directory only if the source file of that name has a name that ends in
`.json` ignoring case, is a regular file and no symbolic link, has at most
8 MiB and is read by `QJsonDocument::fromJson` as an object or array; and it
changes a file the target directory already has only if the name is
`window-layout.json` ignoring case.  In particular a source file that is not
read as JSON leaves the target file of its name as it is. -/
theorem importLegacySettingsFiles_frame (env : ImportEnvironment) :
    (∀ name, targetLookup ((importLegacySettingsFiles env).2.getD []) name ≠
        targetLookup (env.target.getD []) name →
      ∃ file ∈ env.sourceFiles.getD [], file.fileName = name ∧
        qEndsWithCaseInsensitive name ".json".toList = true ∧
        file.isFile = true ∧ file.isSymLink = false ∧
        0 ≤ file.size ∧ file.size ≤ 8 * 1024 * 1024 ∧
        (∃ bytes, file.content = some bytes ∧ env.jsonAccepted bytes = true) ∧
        (targetLookup (env.target.getD []) name = none ∨
          qEqualsCaseInsensitive name "window-layout.json".toList = true)) ∧
    (∀ file ∈ env.sourceFiles.getD [],
      ((env.sourceFiles.getD []).map (fun other => other.fileName)).Nodup →
      (∀ bytes, file.content = some bytes → env.jsonAccepted bytes = false) →
      targetLookup ((importLegacySettingsFiles env).2.getD []) file.fileName =
        targetLookup (env.target.getD []) file.fileName) := by
  have key : ∀ name, targetLookup ((importLegacySettingsFiles env).2.getD []) name ≠
        targetLookup (env.target.getD []) name →
      ∃ file ∈ env.sourceFiles.getD [], file.fileName = name ∧
        qEndsWithCaseInsensitive name ".json".toList = true ∧
        file.isFile = true ∧ file.isSymLink = false ∧
        0 ≤ file.size ∧ file.size ≤ 8 * 1024 * 1024 ∧
        (∃ bytes, file.content = some bytes ∧ env.jsonAccepted bytes = true) ∧
        (targetLookup (env.target.getD []) name = none ∨
          qEqualsCaseInsensitive name "window-layout.json".toList = true) := by
    intro name h
    rcases importLegacySettingsFiles_cases env with h0 | ⟨files, hfiles, hrun⟩
    · rw [h0] at h
      exact absurd rfl h
    · rw [hrun] at h
      obtain ⟨file, hm, hn, hp, hb, hor⟩ := importLoop_frame env files 0 0 _ name h
      refine ⟨file, by rw [hfiles]; exact hm, hn, ?_, ?_, ?_, ?_, ?_, hb, hor⟩
      all_goals
        unfold passesImportFilters at hp
        simp only [Bool.and_eq_true, decide_eq_true_eq, Bool.not_eq_true'] at hp
      · rw [← hn]
        exact hp.1.1.1.1
      · exact hp.1.1.1.2
      · exact hp.1.1.2
      · exact hp.1.2
      · exact hp.2
  refine ⟨key, ?_⟩
  intro file hfile hnodup hbad
  by_contra hchanged
  obtain ⟨other, hother, hname, -, -, -, -, -, ⟨bytes, hbytes, haccepted⟩, -⟩ :=
    key file.fileName hchanged
  have heq : other = file :=
    List.inj_on_of_nodup_map hnodup hother hfile hname
  rw [heq] at hbytes
  rw [hbad bytes hbytes] at haccepted
  exact absurd haccepted (by decide)

theorem importLegacySettingsFiles_frame_witness :
    targetLookup ((importLegacySettingsFiles sampleImportEnvironment).2.getD [])
        "window-layout.json".toList = some (toUtf8 "\x7b\"layout\":\"source\"\x7d".toList) ∧
    targetLookup ((importLegacySettingsFiles sampleImportEnvironment).2.getD [])
        "settings.json".toList = some (toUtf8 "\x7b\"settings\":\"target\"\x7d".toList) ∧
    targetLookup ((importLegacySettingsFiles invalidLayoutEnvironment).2.getD [])
        "window-layout.json".toList = some (toUtf8 "target-layout".toList) := by
  refine ⟨by decide, by decide, ?_⟩
  have h := (importLegacySettingsFiles_frame invalidLayoutEnvironment).2
    (sampleSourceFile "window-layout.json".toList "this-is-not-json") (by decide) (by decide)
    (by decide)
  exact h.trans (by decide)

/-- C14 (as stated) fails: the target file `WINDOW-LAYOUT.JSON` exists, its
name is not `window-layout.json` and does not end in `.json`, and the import
replaces its content by that of the source file of the same name. -/
theorem importLegacySettingsFiles_upper_case :
    targetLookup (upperCaseEnvironment.target.getD []) "WINDOW-LAYOUT.JSON".toList =
      some (toUtf8 "\x7b\"layout\":\"target\"\x7d".toList) ∧
    "WINDOW-LAYOUT.JSON".toList ≠ "window-layout.json".toList ∧
    "WINDOW-LAYOUT.JSON".toList.drop 13 ≠ ".json".toList ∧
    importLegacySettingsFiles upperCaseEnvironment =
      (1, some [("WINDOW-LAYOUT.JSON".toList, toUtf8 "\x7b\"layout\":\"source\"\x7d".toList)]) := by
  decide


theorem keptEntries_nil (env : ImportEnvironment) (target : TargetFiles) :
    keptEntries env target [] = target := by
  unfold keptEntries
  simp

theorem copiedEntries_nil (env : ImportEnvironment) (target : TargetFiles) :
    copiedEntries env target [] = [] := rfl

theorem copiedEntries_cons (env : ImportEnvironment) (target : TargetFiles) (file : SourceFile)
    (files : List SourceFile) :
    copiedEntries env target (file :: files) =
      copiedEntries env target [file] ++ copiedEntries env target files := by
  unfold copiedEntries
  cases h : isCopiedByImport env target file with
  | false => simp [h]
  | true =>
    simp only [List.filter_cons, h, if_true, List.filter_nil, List.filterMap_cons,
      List.filterMap_nil]
    cases file.content <;> simp

theorem keptEntries_cons (env : ImportEnvironment) (target : TargetFiles) (file : SourceFile)
    (files : List SourceFile) :
    keptEntries env target (file :: files) =
      keptEntries env (keptEntries env target [file]) files := by
  unfold keptEntries
  rw [List.filter_filter]
  apply List.filter_congr
  intro entry _
  simp only [List.all_cons, List.all_nil, Bool.and_true]
  exact Bool.and_comm _ _

theorem keptEntries_append (env : ImportEnvironment) (target other : TargetFiles)
    (files : List SourceFile) :
    keptEntries env (target ++ other) files =
      keptEntries env target files ++ keptEntries env other files := by
  unfold keptEntries
  rw [List.filter_append]

theorem copiedEntries_name (env : ImportEnvironment) (target : TargetFiles)
    (files : List SourceFile) (entry : QString × QByteArray)
    (h : entry ∈ copiedEntries env target files) :
    ∃ file ∈ files, isCopiedByImport env target file = true ∧ file.fileName = entry.1 ∧
      file.content = some entry.2 := by
  unfold copiedEntries at h
  rw [List.mem_filterMap] at h
  obtain ⟨file, hfile, hentry⟩ := h
  rw [List.mem_filter] at hfile
  cases hc : file.content with
  | none => rw [hc] at hentry; exact absurd hentry (by simp)
  | some bytes =>
    rw [hc] at hentry
    simp only [Option.map_some', Option.some.injEq] at hentry
    exact ⟨file, hfile.1, hfile.2, by rw [← hentry], by rw [← hentry]; exact hc⟩

theorem keptEntries_of_names (env : ImportEnvironment) (other : TargetFiles)
    (files : List SourceFile)
    (h : ∀ entry ∈ other, ∀ file ∈ files, file.fileName ≠ entry.1) :
    keptEntries env other files = other := by
  unfold keptEntries
  rw [List.filter_eq_self]
  intro entry hentry
  rw [List.all_eq_true]
  intro file hfile
  simp [h entry hentry file hfile]

theorem copiedEntries_congr (env : ImportEnvironment) (target target1 : TargetFiles)
    (files : List SourceFile)
    (h : ∀ file ∈ files,
      targetLookup target1 file.fileName = targetLookup target file.fileName) :
    copiedEntries env target1 files = copiedEntries env target files := by
  unfold copiedEntries
  congr 1
  apply List.filter_congr
  intro file hfile
  exact isCopiedByImport_congr env target target1 file (h file hfile)

/-- One turn of the loop: the file of the name is deleted or not, and the copy
is added or not. -/
theorem importFile_target (env : ImportEnvironment) (file : SourceFile) (target : TargetFiles) :
    (importFile env file target).2 =
      keptEntries env target [file] ++ copiedEntries env target [file] := by
  have hkeep : isRemovedByImport env file = false → keptEntries env target [file] = target := by
    intro h
    unfold keptEntries
    rw [List.filter_eq_self]
    intro entry _
    simp [h]
  have hdrop : isRemovedByImport env file = true →
      keptEntries env target [file] = target.filter (fun entry => entry.1 ≠ file.fileName) := by
    intro h
    unfold keptEntries
    apply List.filter_congr
    intro entry _
    simp only [List.all_cons, h, Bool.true_and, List.all_nil, Bool.and_true]
    by_cases he : file.fileName = entry.1
    · simp [he]
    · have he2 : ¬ entry.1 = file.fileName := fun e => he e.symm
      simp [he, he2]
  unfold importFile
  dsimp only
  cases hcontent : file.content with
  | none =>
    have hr : isRemovedByImport env file = false := by unfold isRemovedByImport; rw [hcontent]
    have hf : isCopiedByImport env target file = false := by
      unfold isCopiedByImport; rw [hcontent]
    have hc : copiedEntries env target [file] = [] := by
      unfold copiedEntries; simp [hf]
    rw [hkeep hr, hc, List.append_nil]
  | some bytes =>
    dsimp only
    cases ha : env.jsonAccepted bytes with
    | false =>
      have hr : isRemovedByImport env file = false := by
        unfold isRemovedByImport; rw [hcontent]; simp [ha]
      have hf : isCopiedByImport env target file = false := by
        unfold isCopiedByImport; rw [hcontent]; simp [ha]
      have hc : copiedEntries env target [file] = [] := by
        unfold copiedEntries; simp [hf]
      rw [hkeep hr, hc, List.append_nil]
      simp
    | true =>
      have hcopied : copiedEntries env target [file] =
          if isCopiedByImport env target file then [(file.fileName, bytes)] else [] := by
        unfold copiedEntries
        cases h : isCopiedByImport env target file <;> simp [h, hcontent]
      have hcop : isCopiedByImport env target file =
          (if qEqualsCaseInsensitive file.fileName "window-layout.json".toList then
            ((targetLookup target file.fileName).isNone || env.removeAllowed file.fileName) &&
              env.copyAllowed file.fileName
          else (targetLookup target file.fileName).isNone && env.copyAllowed file.fileName) := by
        unfold isCopiedByImport; rw [hcontent]; simp [ha]
      have hrem : isRemovedByImport env file =
          (qEqualsCaseInsensitive file.fileName "window-layout.json".toList &&
            env.removeAllowed file.fileName) := by
        unfold isRemovedByImport; rw [hcontent]; simp [ha]
      rw [hcopied, hcop]
      cases ho : qEqualsCaseInsensitive file.fileName "window-layout.json".toList with
      | true =>
        rw [ho] at hrem
        simp only [Bool.true_and] at hrem
        simp only [Bool.not_true, Bool.false_eq_true, if_false, Bool.and_false, if_true]
        unfold copyFile
        rw [targetLookup_removeFile_self]
        cases hr : env.removeAllowed file.fileName with
        | true =>
          rw [hr] at hrem
          rw [hdrop hrem]
          have hcl : removeFile env target file.fileName =
              target.filter (fun entry => entry.1 ≠ file.fileName) := by
            unfold removeFile; rw [hr]; rfl
          rw [hcl]
          cases hc : env.copyAllowed file.fileName <;> simp
        | false =>
          rw [hr] at hrem
          rw [hkeep hrem]
          have hcl : removeFile env target file.fileName = target := by
            unfold removeFile; rw [hr]; rfl
          rw [hcl]
          cases hl : targetLookup target file.fileName <;>
            cases hc : env.copyAllowed file.fileName <;> simp
      | false =>
        rw [ho] at hrem
        simp only [Bool.false_and] at hrem
        rw [hkeep hrem]
        simp only [Bool.not_false, Bool.and_true, Bool.false_eq_true, if_false]
        unfold copyFile
        cases hl : targetLookup target file.fileName <;>
          cases hc : env.copyAllowed file.fileName <;> simp

/-- The target directory after the loop, when no two source files have the same
name: the old files the loop did not delete, followed by the copied files. -/
theorem importLoop_target (env : ImportEnvironment) (files : List SourceFile)
    (copied considered : Int) (target : TargetFiles)
    (hk : considered ≤ MAX_IMPORTED_SETTINGS_FILES)
    (hnodup : (files.map (fun file => file.fileName)).Nodup) :
    (importLoop env files copied considered target).2 =
      keptEntries env target ((files.filter passesImportFilters).take
        (MAX_IMPORTED_SETTINGS_FILES - considered).toNat) ++
      copiedEntries env target ((files.filter passesImportFilters).take
        (MAX_IMPORTED_SETTINGS_FILES - considered).toNat) := by
  induction files generalizing copied considered target with
  | nil => simp [importLoop, keptEntries_nil, copiedEntries_nil]
  | cons file files ih =>
    rw [List.map_cons, List.nodup_cons] at hnodup
    cases hp : passesImportFilters file with
    | false =>
      rw [importLoop_skip env file files copied considered target hp,
        List.filter_cons_of_neg (by simp [hp])]
      exact ih copied considered target hk hnodup.2
    | true =>
      rw [List.filter_cons_of_pos hp]
      by_cases hcap : considered ≥ MAX_IMPORTED_SETTINGS_FILES
      · rw [importLoop_cap env file files copied considered target hp hcap]
        have h0 : (MAX_IMPORTED_SETTINGS_FILES - considered).toNat = 0 := by omega
        rw [h0]
        simp [keptEntries_nil, copiedEntries_nil]
      · rw [importLoop_step env file files copied considered target hp hcap]
        have hk1 : considered + 1 ≤ MAX_IMPORTED_SETTINGS_FILES := by omega
        rw [ih _ (considered + 1) (importFile env file target).2 hk1 hnodup.2]
        have hn : (MAX_IMPORTED_SETTINGS_FILES - considered).toNat =
            (MAX_IMPORTED_SETTINGS_FILES - (considered + 1)).toNat + 1 := by omega
        rw [hn, List.take_succ_cons]
        generalize hrest : List.take (MAX_IMPORTED_SETTINGS_FILES - (considered + 1)).toNat
          (List.filter passesImportFilters files) = rest
        have hne : ∀ other ∈ rest, other.fileName ≠ file.fileName := by
          intro other hother e
          rw [← hrest] at hother
          have hmem : other ∈ files := (List.mem_filter.mp (List.mem_of_mem_take hother)).1
          exact hnodup.1 (e ▸ List.mem_map_of_mem _ hmem)
        rw [copiedEntries_congr env target _ rest (fun other hother =>
            importFile_lookup_of_ne env file target other.fileName (hne other hother)),
          importFile_target, keptEntries_append, keptEntries_cons env target file rest,
          copiedEntries_cons env target file rest, List.append_assoc]
        congr 1
        congr 1
        apply keptEntries_of_names
        intro entry hentry other hother
        obtain ⟨f, hf, -, hname, -⟩ := copiedEntries_name env target [file] entry hentry
        rw [List.mem_singleton] at hf
        rw [← hname, hf]
        exact hne other hother

theorem copiedEntries_length (env : ImportEnvironment) (target : TargetFiles)
    (files : List SourceFile) :
    (copiedEntries env target files).length = files.countP (isCopiedByImport env target) := by
  induction files with
  | nil => rfl
  | cons file files ih =>
    rw [copiedEntries_cons, List.length_append, ih, List.countP_cons]
    unfold copiedEntries
    cases h : isCopiedByImport env target file with
    | false => simp [h]
    | true =>
      unfold isCopiedByImport at h
      cases hc : file.content with
      | none => rw [hc] at h; exact absurd h (by simp)
      | some bytes =>
        have h2 : isCopiedByImport env target file = true := by
          unfold isCopiedByImport; exact h
        simp [h2, hc]
        omega

theorem isCopiedByImport_content (env : ImportEnvironment) (target : TargetFiles)
    (file : SourceFile) (h : isCopiedByImport env target file = true) :
    ∃ bytes, file.content = some bytes ∧ env.jsonAccepted bytes = true ∧
      env.copyAllowed file.fileName = true ∧
      (targetLookup target file.fileName = none ∨ isRemovedByImport env file = true) := by
  unfold isCopiedByImport at h
  unfold isRemovedByImport
  cases hc : file.content with
  | none => rw [hc] at h; exact absurd h (by simp)
  | some bytes =>
    rw [hc] at h
    simp only [Bool.and_eq_true] at h
    refine ⟨bytes, rfl, h.1, ?_⟩
    have h2 := h.2
    cases ho : qEqualsCaseInsensitive file.fileName "window-layout.json".toList with
    | true =>
      rw [ho] at h2
      simp only [if_true, Bool.and_eq_true, Bool.or_eq_true, Option.isNone_iff_eq_none] at h2
      refine ⟨h2.2, ?_⟩
      rcases h2.1 with hl | hr
      · exact Or.inl hl
      · exact Or.inr (by simp [h.1, hr])
    | false =>
      rw [ho] at h2
      simp only [Bool.false_eq_true, if_false, Bool.and_eq_true,
        Option.isNone_iff_eq_none] at h2
      exact ⟨h2.2, Or.inl h2.1⟩

theorem find_copiedEntries (env : ImportEnvironment) (target : TargetFiles)
    (files : List SourceFile) (hnodup : (files.map (fun file => file.fileName)).Nodup)
    (file : SourceFile) (hfile : file ∈ files)
    (hcopied : isCopiedByImport env target file = true) (bytes : QByteArray)
    (hcontent : file.content = some bytes) :
    (copiedEntries env target files).find? (fun entry => entry.1 = file.fileName) =
      some (file.fileName, bytes) := by
  induction files with
  | nil => exact absurd hfile (List.not_mem_nil _)
  | cons x xs ih =>
    rw [List.map_cons, List.nodup_cons] at hnodup
    rw [copiedEntries_cons, List.find?_append]
    by_cases hx : file = x
    · subst hx
      have hone : copiedEntries env target [file] = [(file.fileName, bytes)] := by
        unfold copiedEntries
        simp [hcopied, hcontent]
      rw [hone]
      simp
    · have hmem : file ∈ xs := by
        rcases List.mem_cons.mp hfile with h | h
        · exact absurd h hx
        · exact h
      have hne : x.fileName ≠ file.fileName := by
        intro e
        exact hnodup.1 (e ▸ List.mem_map_of_mem _ hmem)
      have hnone : (copiedEntries env target [x]).find? (fun entry => entry.1 = file.fileName) =
          none := by
        rw [List.find?_eq_none]
        intro entry hentry
        obtain ⟨f, hf, -, hname, -⟩ := copiedEntries_name env target [x] entry hentry
        rw [List.mem_singleton] at hf
        rw [hf] at hname
        simpa [← hname] using hne
      rw [hnone, ih hnodup.2 hmem]
      rfl

/-- A copied file is in the target directory afterwards, with the bytes of the
source file. -/
theorem targetLookup_copied (env : ImportEnvironment) (target : TargetFiles)
    (files : List SourceFile) (hnodup : (files.map (fun file => file.fileName)).Nodup)
    (file : SourceFile) (hfile : file ∈ files)
    (hcopied : isCopiedByImport env target file = true) :
    ∃ bytes, file.content = some bytes ∧
      targetLookup (keptEntries env target files ++ copiedEntries env target files)
        file.fileName = some bytes := by
  obtain ⟨bytes, hcontent, -, -, hor⟩ := isCopiedByImport_content env target file hcopied
  refine ⟨bytes, hcontent, ?_⟩
  have hkept : (keptEntries env target files).find? (fun entry => entry.1 = file.fileName) =
      none := by
    rw [List.find?_eq_none]
    intro entry hentry
    unfold keptEntries at hentry
    rw [List.mem_filter, List.all_eq_true] at hentry
    intro he
    have he2 : entry.1 = file.fileName := by simpa using he
    rcases hor with hl | hr
    · unfold targetLookup at hl
      rw [Option.map_eq_none', List.find?_eq_none] at hl
      exact hl entry hentry.1 he
    · have := hentry.2 file hfile
      rw [hr, he2] at this
      simp at this
  unfold targetLookup
  rw [List.find?_append, hkept, find_copiedEntries env target files hnodup file hfile hcopied
    bytes hcontent]
  rfl

/-- C15: `importLegacySettingsFiles` returns the number of files it copied,
which lies between 0 and 256; it returns 0 when the source directory is missing
or source and target are the same directory; source files whose names do not
end in `.json` do not matter to the result.  When no two source files have the
same name: the number is the number of copied files among the first 256 that
pass the tests on name, kind and size; the target directory afterwards holds
the old files the run did not delete, followed by the copied files, each under
its name with the bytes of the source file, and the number returned is the
number of these files; so every counted file is in the target directory
afterwards with the bytes of its source; and when every `.json` file is
importable, `n` such files give the smaller of `n` and 256, whatever other
files there are. -/
theorem importLegacySettingsFiles_count (env : ImportEnvironment) :
    0 ≤ (importLegacySettingsFiles env).1 ∧ (importLegacySettingsFiles env).1 ≤ 256 ∧
    (env.sourceFiles = none → (importLegacySettingsFiles env).1 = 0) ∧
    (env.sourcePath = env.targetPath → (importLegacySettingsFiles env).1 = 0) ∧
    importLegacySettingsFiles
        { env with
          sourceFiles := env.sourceFiles.map (fun files => files.filter (fun file =>
            qEndsWithCaseInsensitive file.fileName ".json".toList)) } =
      importLegacySettingsFiles env ∧
    (∀ files, env.sourceFiles = some files → env.sourcePath ≠ env.targetPath →
      (env.target.isSome = true ∨ env.mkpath = true) →
      (files.map (fun file => file.fileName)).Nodup →
      (importLegacySettingsFiles env).1 =
        (((files.filter passesImportFilters).take 256).countP
          (isCopiedByImport env (env.target.getD [])) : Nat) ∧
      (importLegacySettingsFiles env).2 =
        some (keptEntries env (env.target.getD [])
            ((files.filter passesImportFilters).take 256) ++
          copiedEntries env (env.target.getD [])
            ((files.filter passesImportFilters).take 256)) ∧
      (importLegacySettingsFiles env).1 =
        ((copiedEntries env (env.target.getD [])
          ((files.filter passesImportFilters).take 256)).length : Nat) ∧
      (∀ file ∈ (files.filter passesImportFilters).take 256,
        isCopiedByImport env (env.target.getD []) file = true →
        ∃ final bytes, (importLegacySettingsFiles env).2 = some final ∧
          file.content = some bytes ∧ targetLookup final file.fileName = some bytes) ∧
      ((∀ file ∈ files, qEndsWithCaseInsensitive file.fileName ".json".toList = true →
          passesImportFilters file = true ∧
            isCopiedByImport env (env.target.getD []) file = true) →
        (importLegacySettingsFiles env).1 =
          (min (files.countP (fun file =>
            qEndsWithCaseInsensitive file.fileName ".json".toList)) 256 : Nat))) := by
  have hbound : 0 ≤ (importLegacySettingsFiles env).1 ∧
      (importLegacySettingsFiles env).1 ≤ 256 := by
    rcases importLegacySettingsFiles_cases env with h0 | ⟨files, -, hrun⟩
    · rw [h0]
      exact ⟨le_refl _, by norm_num⟩
    · rw [hrun]
      have := importLoop_bounds env files 0 0 (env.target.getD []) (by decide)
      have hmax : MAX_IMPORTED_SETTINGS_FILES = 256 := rfl
      rw [hmax] at this
      dsimp only
      omega
  refine ⟨hbound.1, hbound.2, ?_, ?_, ?_, ?_⟩
  · intro h
    unfold importLegacySettingsFiles
    rw [h]
    split_ifs <;> rfl
  · intro h
    unfold importLegacySettingsFiles
    rw [if_pos h]
  · have hjson : ∀ file, passesImportFilters file = true →
        qEndsWithCaseInsensitive file.fileName ".json".toList = true := by
      intro file hp
      unfold passesImportFilters at hp
      simp only [Bool.and_eq_true, decide_eq_true_eq, Bool.not_eq_true'] at hp
      exact hp.1.1.1.1
    obtain ⟨other, hother⟩ : ∃ other : ImportEnvironment, other =
        { env with
          sourceFiles := env.sourceFiles.map (fun files => files.filter (fun file =>
            qEndsWithCaseInsensitive file.fileName ".json".toList)) } := ⟨_, rfl⟩
    rw [← hother]
    have hsp : other.sourcePath = env.sourcePath := by rw [hother]
    have htp : other.targetPath = env.targetPath := by rw [hother]
    have htg : other.target = env.target := by rw [hother]
    have hmk : other.mkpath = env.mkpath := by rw [hother]
    have hsf : other.sourceFiles = env.sourceFiles.map (fun files => files.filter (fun file =>
        qEndsWithCaseInsensitive file.fileName ".json".toList)) := by rw [hother]
    have hloop : ∀ files target,
        importLoop other
          (files.filter (fun file => qEndsWithCaseInsensitive file.fileName ".json".toList))
          0 0 target = importLoop env files 0 0 target := by
      intro files target
      rw [importLoop_congr env other (by rw [hother]) (by rw [hother]) (by rw [hother])]
      exact importLoop_filter env _ hjson files 0 0 target
    by_cases hp : env.sourcePath = env.targetPath
    · unfold importLegacySettingsFiles
      rw [if_pos hp, if_pos (by rw [hsp, htp]; exact hp), htg]
    · cases hfiles : env.sourceFiles with
      | none =>
        unfold importLegacySettingsFiles
        rw [if_neg hp, if_neg (by rw [hsp, htp]; exact hp), hsf, hfiles, htg]
        rfl
      | some files =>
        rw [hfiles, Option.map_some'] at hsf
        by_cases ht : env.target.isSome = true ∨ env.mkpath = true
        · rw [importLegacySettingsFiles_eq env files hp hfiles ht,
            importLegacySettingsFiles_eq other _ (by rw [hsp, htp]; exact hp) hsf
              (by rw [htg, hmk]; exact ht), hloop, htg]
        · simp only [not_or, Bool.not_eq_true, Option.not_isSome,
            Option.isNone_iff_eq_none] at ht
          unfold importLegacySettingsFiles
          rw [if_neg hp, if_neg (by rw [hsp, htp]; exact hp), hsf, hfiles, htg, hmk, ht.1, ht.2]
          rfl
  · intro files hfiles hpath htarget hnodup
    have hrun := importLegacySettingsFiles_eq env files hpath hfiles htarget
    have hcount := importLoop_count env files 0 0 (env.target.getD []) (by decide) hnodup
    have hmax : (MAX_IMPORTED_SETTINGS_FILES - 0).toNat = 256 := rfl
    rw [hmax, zero_add] at hcount
    have htarget2 := importLoop_target env files 0 0 (env.target.getD []) (by decide) hnodup
    rw [hmax] at htarget2
    have hconsidered : (((files.filter passesImportFilters).take 256).map
        (fun file => file.fileName)).Nodup :=
      (hnodup.sublist (((List.take_sublist _ _).trans (List.filter_sublist _)).map _))
    refine ⟨by rw [hrun]; exact hcount, by rw [hrun]; exact congrArg some htarget2, ?_, ?_, ?_⟩
    · rw [hrun, copiedEntries_length]
      exact hcount
    · intro file hfile hcopied
      obtain ⟨bytes, hcontent, hlookup⟩ := targetLookup_copied env (env.target.getD []) _
        hconsidered file hfile hcopied
      exact ⟨_, bytes, by rw [hrun]; exact congrArg some htarget2, hcontent, hlookup⟩
    intro hall
    rw [hrun]
    dsimp only
    rw [hcount]
    have hfilter : files.filter passesImportFilters =
        files.filter (fun file => qEndsWithCaseInsensitive file.fileName ".json".toList) := by
      apply List.filter_congr
      intro file hfile
      cases hj : qEndsWithCaseInsensitive file.fileName ".json".toList with
      | true => exact (hall file hfile hj).1
      | false =>
        unfold passesImportFilters
        rw [hj]
        rfl
    have hall2 : ∀ file ∈ (files.filter passesImportFilters).take 256,
        isCopiedByImport env (env.target.getD []) file = true := by
      intro file hfile
      have hmem := List.mem_filter.mp (List.mem_of_mem_take hfile)
      rw [hfilter] at hfile
      have hmem2 := List.mem_filter.mp (List.mem_of_mem_take hfile)
      exact (hall file hmem.1 hmem2.2).2
    rw [List.countP_eq_length.mpr hall2, List.length_take, hfilter, List.countP_eq_length_filter,
      Nat.min_comm]

theorem manyFiles_nodup (count others : Nat) (hc : count ≤ 676) (ho : others ≤ 676) :
    ((((List.range others).map (fun i => sampleSourceFile (sampleFileName i ".txt") "\x7b\x7d") ++
        (List.range count).map (fun i => sampleSourceFile (sampleFileName i ".json") "\x7b\x7d"))).map
      (fun file => file.fileName)).Nodup := by
  rw [List.map_append, List.map_map, List.map_map, List.nodup_append]
  refine ⟨?_, ?_, ?_⟩
  · apply List.Nodup.map_on _ (List.nodup_range others)
    intro i hi j hj h
    exact (sampleFileName_injective i j _ _ (by have := List.mem_range.mp hi; omega)
      (by have := List.mem_range.mp hj; omega) h).1
  · apply List.Nodup.map_on _ (List.nodup_range count)
    intro i hi j hj h
    exact (sampleFileName_injective i j _ _ (by have := List.mem_range.mp hi; omega)
      (by have := List.mem_range.mp hj; omega) h).1
  · intro name h1 h2
    obtain ⟨i, hi, rfl⟩ := List.mem_map.mp h1
    obtain ⟨j, hj, hname⟩ := List.mem_map.mp h2
    have := (sampleFileName_injective j i _ _ (by have := List.mem_range.mp hj; omega)
      (by have := List.mem_range.mp hi; omega) hname).2
    exact absurd this (by decide)

theorem manyFiles_importable (count others : Nat) (hc : count ≤ 676) :
    ∀ file ∈ (List.range others).map (fun i => sampleSourceFile (sampleFileName i ".txt") "\x7b\x7d") ++
        (List.range count).map (fun i => sampleSourceFile (sampleFileName i ".json") "\x7b\x7d"),
      qEndsWithCaseInsensitive file.fileName ".json".toList = true →
      passesImportFilters file = true ∧
        isCopiedByImport (manyFilesEnvironment count others) [] file = true := by
  intro file hfile hjson
  rcases List.mem_append.mp hfile with h | h
  · obtain ⟨i, -, rfl⟩ := List.mem_map.mp h
    rw [show (sampleSourceFile (sampleFileName i ".txt") "\x7b\x7d").fileName =
      sampleFileName i ".txt" from rfl, sampleFileName_txt] at hjson
    exact absurd hjson (by decide)
  · obtain ⟨i, hi, rfl⟩ := List.mem_map.mp h
    have hlt : i < 676 := by have := List.mem_range.mp hi; omega
    constructor
    · unfold passesImportFilters
      rw [show (sampleSourceFile (sampleFileName i ".json") "\x7b\x7d").fileName =
        sampleFileName i ".json" from rfl, sampleFileName_json i hlt]
      rfl
    · have hne : qEqualsCaseInsensitive (sampleFileName i ".json")
          "window-layout.json".toList = false := by
        unfold qEqualsCaseInsensitive
        rw [beq_eq_false_iff_ne]
        intro e
        have := congrArg List.length e
        simp [sampleFileName] at this
      unfold isCopiedByImport
      rw [show (sampleSourceFile (sampleFileName i ".json") "\x7b\x7d").fileName =
        sampleFileName i ".json" from rfl, hne]
      rfl

theorem manyFiles_countP (count others : Nat) (hc : count ≤ 676) :
    ((List.range others).map (fun i => sampleSourceFile (sampleFileName i ".txt") "\x7b\x7d") ++
        (List.range count).map (fun i =>
          sampleSourceFile (sampleFileName i ".json") "\x7b\x7d")).countP
      (fun file => qEndsWithCaseInsensitive file.fileName ".json".toList) = count := by
  rw [List.countP_append]
  have h1 : ((List.range others).map (fun i =>
      sampleSourceFile (sampleFileName i ".txt") "\x7b\x7d")).countP
      (fun file => qEndsWithCaseInsensitive file.fileName ".json".toList) = 0 := by
    rw [List.countP_eq_zero]
    intro file hfile
    obtain ⟨i, -, rfl⟩ := List.mem_map.mp hfile
    rw [show (sampleSourceFile (sampleFileName i ".txt") "\x7b\x7d").fileName =
      sampleFileName i ".txt" from rfl, sampleFileName_txt]
    decide
  have h2 : ((List.range count).map (fun i =>
      sampleSourceFile (sampleFileName i ".json") "\x7b\x7d")).countP
      (fun file => qEndsWithCaseInsensitive file.fileName ".json".toList) = count := by
    rw [List.countP_eq_length.mpr, List.length_map, List.length_range]
    intro file hfile
    obtain ⟨i, hi, rfl⟩ := List.mem_map.mp hfile
    exact sampleFileName_json i (by have := List.mem_range.mp hi; omega)
  rw [h1, h2, zero_add]

theorem length_of_kept_copied (result : Int × Option TargetFiles) (kept copied : TargetFiles)
    (n : Nat) (hkept : kept = []) (htarget : result.2 = some (kept ++ copied))
    (hcount : result.1 = (copied.length : Nat)) (hn : result.1 = (n : Nat)) :
    result.2.map List.length = some n := by
  rw [htarget, hkept, List.nil_append, Option.map_some']
  rw [hcount] at hn
  exact congrArg some (by exact_mod_cast hn)

theorem importLegacySettingsFiles_count_witness :
    (importLegacySettingsFiles (manyFilesEnvironment 300 0)).1 = 256 ∧
    (importLegacySettingsFiles (manyFilesEnvironment 300 0)).2.map List.length = some 256 ∧
    (importLegacySettingsFiles (manyFilesEnvironment 10 400)).1 = 10 ∧
    (importLegacySettingsFiles (manyFilesEnvironment 10 400)).2.map List.length = some 10 ∧
    importLegacySettingsFiles sampleImportEnvironment =
      (2, some
        [("settings.json".toList, toUtf8 "\x7b\"settings\":\"target\"\x7d".toList),
          ("commands.json".toList, toUtf8 "\x7b\"commands\":\"source\"\x7d".toList),
          ("window-layout.json".toList, toUtf8 "\x7b\"layout\":\"source\"\x7d".toList)]) := by
  have a1 := (importLegacySettingsFiles_count (manyFilesEnvironment 300 0)).2.2.2.2.2 _ rfl
    (by decide) (Or.inl rfl) (manyFiles_nodup 300 0 (by decide) (by decide))
  have a2 := (importLegacySettingsFiles_count (manyFilesEnvironment 10 400)).2.2.2.2.2 _ rfl
    (by decide) (Or.inl rfl) (manyFiles_nodup 10 400 (by decide) (by decide))
  have a3 := (importLegacySettingsFiles_count sampleImportEnvironment).2.2.2.2.2 _ rfl
    (by decide) (Or.inl rfl) (by decide)
  have h1 := a1.2.2.2.2 (manyFiles_importable 300 0 (by decide))
  have h2 := a2.2.2.2.2 (manyFiles_importable 10 400 (by decide))
  rw [manyFiles_countP 300 0 (by decide)] at h1
  rw [manyFiles_countP 10 400 (by decide)] at h2
  refine ⟨h1, length_of_kept_copied _ _ _ 256 rfl a1.2.1 a1.2.2.1 h1, h2,
    length_of_kept_copied _ _ _ 10 rfl a2.2.1 a2.2.2.1 h2, ?_⟩
  exact Prod.ext (a3.2.2.1.trans (by decide)) (a3.2.1.trans (by decide))

/-! ## The pack export -/

theorem requireString_eq (obj : QJsonObject) (key : String) :
    requireString obj key =
      if (obj.value key).isString then .ok (obj.value key).toString
      else .error ("Missing string field: ".toList ++ key.toList) := by
  unfold requireString
  cases (obj.value key).isString <;> rfl

theorem appendOrEmplaceText_eq (b : MessageBuilder) (text : QString) (color : MessageColor) :
    b.appendOrEmplaceText text color =
      match b.message.elements.getLast? with
      | none => b.emplace (mkText text MessageElementFlag.Text.mask color)
      | some back =>
        if isCoalescingTarget back color then b.replaceBack (back.appendText text)
        else b.emplace (mkText text MessageElementFlag.Text.mask color) := by
  unfold MessageBuilder.appendOrEmplaceText isCoalescingTarget
  cases b.message.elements.getLast? with
  | none => rfl
  | some back =>
    simp only
    cases back.isTextElement <;> cases back.isMentionElement <;> cases back.isLinkElement <;>
      cases back.trailingSpace <;>
      by_cases hf : back.flags = MessageElementFlag.Text.mask <;>
      by_cases hc : back.color = color <;> simp [hf, hc]

/-- C24: text coalescing.  `appendOrEmplaceText(text, color)` adds `text` to the
last element, and the number of elements stays the same, exactly when that
element is a `TextElement` that is no `MentionElement` and no `LinkElement`,
has a trailing space, has the flags `Text` and has the colour `color`; in every
other case, an empty message included, it appends exactly one new
`TextElement` with the flag `Text` and that colour. -/
theorem appendOrEmplaceText_coalesces (b : MessageBuilder) (text : QString)
    (color : MessageColor) :
    (∀ back, b.message.elements.getLast? = some back →
      back.isTextElement = true → back.isMentionElement = false →
      back.isLinkElement = false → back.trailingSpace = true →
      back.flags = MessageElementFlag.Text.mask → back.color = color →
      b.appendOrEmplaceText text color = b.replaceBack (back.appendText text) ∧
      (b.appendOrEmplaceText text color).message.elements =
        b.message.elements.dropLast ++ [back.appendText text] ∧
      (b.appendOrEmplaceText text color).message.elements.length =
        b.message.elements.length) ∧
    (¬ (∃ back, b.message.elements.getLast? = some back ∧
        back.isTextElement = true ∧ back.isMentionElement = false ∧
        back.isLinkElement = false ∧ back.trailingSpace = true ∧
        back.flags = MessageElementFlag.Text.mask ∧ back.color = color) →
      b.appendOrEmplaceText text color =
        b.emplace (mkText text MessageElementFlag.Text.mask color) ∧
      (b.appendOrEmplaceText text color).message.elements =
        b.message.elements ++
          [{ kind := .TextElement (qSplit ' ' text) color .ChatMedium,
             flags := MessageElementFlag.Text.mask }] ∧
      (b.appendOrEmplaceText text color).message.elements.length =
        b.message.elements.length + 1) := by
  rw [appendOrEmplaceText_eq]
  constructor
  · intro back hlast ht hm hl hs hf hc
    have htarget : isCoalescingTarget back color = true := by
      simp [isCoalescingTarget, ht, hm, hl, hs, hf, hc]
    have hne : b.message.elements ≠ [] := by
      intro hnil
      rw [hnil] at hlast
      simp at hlast
    have hjoin : (match b.message.elements.getLast? with
        | none => b.emplace (mkText text MessageElementFlag.Text.mask color)
        | some back =>
          if isCoalescingTarget back color then b.replaceBack (back.appendText text)
          else b.emplace (mkText text MessageElementFlag.Text.mask color)) =
        b.replaceBack (back.appendText text) := by
      simp only [hlast, htarget, if_true]
    rw [hjoin]
    refine ⟨rfl, rfl, ?_⟩
    simp only [MessageBuilder.replaceBack, List.length_append, List.length_dropLast,
      List.length_singleton]
    have := List.length_pos.mpr hne
    omega
  · intro hnot
    have hplain : (match b.message.elements.getLast? with
        | none => b.emplace (mkText text MessageElementFlag.Text.mask color)
        | some back =>
          if isCoalescingTarget back color then b.replaceBack (back.appendText text)
          else b.emplace (mkText text MessageElementFlag.Text.mask color)) =
        b.emplace (mkText text MessageElementFlag.Text.mask color) := by
      cases hlast : b.message.elements.getLast? with
      | none => rfl
      | some back =>
        have htarget : isCoalescingTarget back color = false := by
          cases h : isCoalescingTarget back color with
          | false => rfl
          | true =>
            exfalso
            apply hnot
            simp only [isCoalescingTarget, Bool.and_eq_true, Bool.not_eq_true', beq_iff_eq] at h
            exact ⟨back, hlast, h.1.1.1.1.1, h.1.1.1.1.2, h.1.1.1.2, h.1.1.2, h.1.2, h.2⟩
        simp only [htarget]
        rfl
    rw [hplain]
    refine ⟨rfl, rfl, ?_⟩
    simp [MessageBuilder.emplace]

theorem timestampGapReached_eq (thresholdSeconds : Int) (currentTimestamp : QDateTime)
    (messages : List (Option Message)) :
    timestampGapReached thresholdSeconds currentTimestamp messages =
      match ((messages.filterMap id).filter (fun m => m.serverReceivedTime.isSome)).head? with
      | none => true
      | some previous =>
        decide (secsTo previous.serverReceivedTime currentTimestamp ≥ thresholdSeconds) := by
  induction messages with
  | nil => rfl
  | cons m rest ih =>
    cases m with
    | none => simpa [timestampGapReached] using ih
    | some previous =>
      cases ht : previous.serverReceivedTime with
      | none => simpa [timestampGapReached, ht] using ih
      | some t => simp [timestampGapReached, ht]

theorem latestTimedMessage_eq (snapshot : List (Option Message)) :
    latestTimedMessage snapshot =
      ((snapshot.reverse.filterMap id).filter (fun m => m.serverReceivedTime.isSome)).head? := by
  unfold latestTimedMessage
  rw [List.filterMap_reverse, List.filter_reverse, List.head?_reverse]

theorem secsTo_ge_iff (previous current : QDateTime) (seconds : Int) (h : 1 ≤ seconds) :
    secsTo previous current ≥ seconds ↔
      ∃ p c, previous = some p ∧ current = some c ∧ seconds * 1000 ≤ c - p := by
  cases previous with
  | none => simp [secsTo]; omega
  | some p =>
    cases current with
    | none => simp [secsTo]; omega
    | some c =>
      simp only [secsTo, Option.some.injEq, exists_and_left, exists_eq_left', ge_iff_le]
      constructor
      · intro hs
        by_contra hlt
        have hlt2 : c - p < seconds * 1000 := not_le.mp hlt
        by_cases hneg : c - p < 0
        · have hdiv : (c - p).tdiv 1000 = -((-(c - p)) / 1000) := by
            rw [← Int.tdiv_eq_ediv (by omega) (by norm_num), Int.neg_tdiv, neg_neg]
          omega
        · have hnn : 0 ≤ c - p := not_lt.mp hneg
          rw [Int.tdiv_eq_ediv hnn (by norm_num)] at hs
          omega
      · intro hs
        have hnn : 0 ≤ c - p := by omega
        rw [Int.tdiv_eq_ediv hnn (by norm_num)]
        omega

/-- C30: the timestamp gap rule.  `shouldRenderOpenEmoteTimestamp` returns false
whenever `showTimestamps` is off.  With `showTimestamps` on, no always-show rule
applying (system-type message, listed user) and gaps-only mode on, it returns
true exactly when the channel is null, or the snapshot holds no message with a
valid server time, or the most recent such message is at least
`clamp(gapMinutes, 1, 400) * 60` seconds older than the current message. -/
theorem shouldRenderOpenEmoteTimestamp_gap_rule (app : App) (channel : Option Channel)
    (currentMessage : Message) (currentTimestamp : QDateTime) :
    (app.settings.showTimestamps = false →
      shouldRenderOpenEmoteTimestamp app channel currentMessage currentTimestamp = false) ∧
    (app.settings.showTimestamps = true →
      isAlwaysTimestampSystemMessage app currentMessage = false →
      isAlwaysTimestampUser app currentMessage = false →
      app.settings.openEmoteTimestampGapsOnly = true →
      (shouldRenderOpenEmoteTimestamp app channel currentMessage currentTimestamp = true ↔
        channel = none ∨
        (∃ ch, channel = some ch ∧ latestTimedMessage ch.messageSnapshot = none) ∨
        (∃ ch previous, channel = some ch ∧
          latestTimedMessage ch.messageSnapshot = some previous ∧
          secsTo previous.serverReceivedTime currentTimestamp ≥
            max 1 (min app.settings.openEmoteTimestampGapMinutes 400) * 60))) ∧
    (∀ previous : Message,
      secsTo previous.serverReceivedTime currentTimestamp ≥
          max 1 (min app.settings.openEmoteTimestampGapMinutes 400) * 60 ↔
        ∃ p c, previous.serverReceivedTime = some p ∧ currentTimestamp = some c ∧
          max 1 (min app.settings.openEmoteTimestampGapMinutes 400) * 60 * 1000 ≤ c - p) := by
  refine ⟨?_, ?_, ?_⟩
  · intro h
    simp [shouldRenderOpenEmoteTimestamp, h]
  · intro hshow hsystem huser hgaps
    have hsystem2 : (app.settings.openEmoteTimestampAlwaysSystem &&
        (currentMessage.flags.has .System || currentMessage.flags.has .ModerationAction ||
          currentMessage.flags.has .Subscription || currentMessage.flags.has .Timeout)) =
        false := hsystem
    have huser2 : (!(trimmed app.settings.openEmoteTimestampAlwaysUsers).isEmpty &&
        !(trimmed currentMessage.loginName).isEmpty &&
        ((qSplit ',' app.settings.openEmoteTimestampAlwaysUsers).filter
          (fun t => !t.isEmpty)).any
          (fun token => !(trimmed token).isEmpty &&
            qCompareCaseInsensitive app.caseFolded currentMessage.loginName
              (trimmed token))) = false := huser
    unfold shouldRenderOpenEmoteTimestamp
    rw [hsystem2, huser2]
    simp only [hshow, hgaps, Bool.not_true, Bool.false_eq_true, if_false]
    cases channel with
    | none => simp
    | some ch =>
      have key : timestampGapReached
          (max 1 (min app.settings.openEmoteTimestampGapMinutes 400) * 60) currentTimestamp
          ch.messageSnapshot.reverse =
          match latestTimedMessage ch.messageSnapshot with
          | none => true
          | some previous =>
            decide (secsTo previous.serverReceivedTime currentTimestamp ≥
              max 1 (min app.settings.openEmoteTimestampGapMinutes 400) * 60) := by
        rw [timestampGapReached_eq, latestTimedMessage_eq]
      simp only [key]
      cases hlatest : latestTimedMessage ch.messageSnapshot with
      | none =>
        simp only [true_iff]
        exact Or.inr (Or.inl ⟨ch, rfl, hlatest⟩)
      | some previous =>
        simp only [decide_eq_true_eq]
        constructor
        · intro h
          exact Or.inr (Or.inr ⟨ch, previous, rfl, hlatest, h⟩)
        · rintro (h | ⟨x, hx, h⟩ | ⟨x, other, hx, hother, h⟩)
          · cases h
          · cases hx
            rw [hlatest] at h
            cases h
          · cases hx
            rw [hlatest] at hother
            cases hother
            exact h
  · intro previous
    exact secsTo_ge_iff _ _ _ (by omega)

/-! ## Envelope authentication -/

theorem or_eq_zero_iff (x y : Nat) : x ||| y = 0 ↔ x = 0 ∧ y = 0 := by
  constructor
  · intro h
    constructor <;>
    · apply Nat.eq_of_testBit_eq
      intro i
      have := congrArg (fun n => n.testBit i) h
      simp only [Nat.testBit_or, Nat.zero_testBit, Bool.or_eq_false_iff] at this
      simp [this.1, this.2]
  · rintro ⟨rfl, rfl⟩
    rfl

theorem constantTimeDiff_eq_zero (a b : QByteArray) (diff : Nat) (hlen : a.length = b.length)
    (ha : AllBytes a) (hb : AllBytes b) (hd : diff < 256) :
    constantTimeDiff a b diff = 0 ↔ diff = 0 ∧ a = b := by
  induction a generalizing b diff with
  | nil =>
    cases b with
    | nil => simp [constantTimeDiff]
    | cons y ys => simp at hlen
  | cons x xs ih =>
    cases b with
    | nil => simp at hlen
    | cons y ys =>
      have hx : x < 2 ^ 8 := ha x (List.mem_cons_self _ _)
      have hy : y < 2 ^ 8 := hb y (List.mem_cons_self _ _)
      have hxy : x ^^^ y < 2 ^ 8 := Nat.xor_lt_two_pow hx hy
      have hor : (diff ||| (x ^^^ y)) < 2 ^ 8 := Nat.or_lt_two_pow (by simpa using hd) hxy
      have hmod : (diff ||| (x ^^^ y)) % 256 = diff ||| (x ^^^ y) := Nat.mod_eq_of_lt hor
      unfold constantTimeDiff
      rw [hmod, ih ys (diff ||| (x ^^^ y)) (by simpa using hlen)
        (fun c hc => ha c (List.mem_cons_of_mem _ hc))
        (fun c hc => hb c (List.mem_cons_of_mem _ hc)) hor, or_eq_zero_iff, Nat.xor_eq_zero]
      constructor
      · rintro ⟨⟨h1, h2⟩, h3⟩
        exact ⟨h1, by rw [h2, h3]⟩
      · rintro ⟨h1, h2⟩
        cases h2
        exact ⟨⟨h1, rfl⟩, rfl⟩

theorem constantTimeEqual_iff (a b : QByteArray) (ha : AllBytes a) (hb : AllBytes b) :
    constantTimeEqual a b = true ↔ a = b := by
  unfold constantTimeEqual
  split_ifs with hlen
  · simp only [Bool.false_eq_true, false_iff]
    intro h
    exact hlen (by rw [h])
  · rw [beq_iff_eq, constantTimeDiff_eq_zero a b 0 (not_not.mp hlen) ha hb (by norm_num)]
    simp

/-- C27: envelope authentication.  `decodeEnvelope(envelope, secret)` returns
true only if `secret` is not empty and `envelope.mac` is the first 16 bytes of
`computeMac(deriveKey(secret), group, channel, nonce, cipher)`;
`constantTimeEqual(a, b)` is true exactly when `a` and `b` are the same bytes;
and when the secret is empty or the MAC differs, the call returns false and
leaves the output plaintext as it was. -/
theorem decodeEnvelope_authenticates (envelope : EnvelopeParts) (secret outPlaintext : QString)
    (a b : QByteArray) (hmac : AllBytes envelope.mac) (ha : AllBytes a) (hb : AllBytes b) :
    ((decodeEnvelope envelope secret outPlaintext).1 = true →
      secret ≠ [] ∧
      envelope.mac = (computeMac (deriveKey secret) envelope.group envelope.channel
        envelope.nonce envelope.cipher).take 16) ∧
    (constantTimeEqual a b = true ↔ a = b) ∧
    ((secret = [] ∨
        envelope.mac ≠ (computeMac (deriveKey secret) envelope.group envelope.channel
          envelope.nonce envelope.cipher).take 16) →
      decodeEnvelope envelope secret outPlaintext = (false, outPlaintext)) := by
  have hexpected : AllBytes ((computeMac (deriveKey secret) envelope.group envelope.channel
      envelope.nonce envelope.cipher).take 16) :=
    take_allBytes _ _ (sha256_allBytes _)
  have hcheck := constantTimeEqual_iff _ _ hexpected hmac
  refine ⟨?_, constantTimeEqual_iff a b ha hb, ?_⟩
  · intro h
    unfold decodeEnvelope at h
    cases secret with
    | nil => simp at h
    | cons c cs =>
      refine ⟨by simp, ?_⟩
      by_contra hne
      have hfalse : constantTimeEqual ((computeMac (deriveKey (c :: cs)) envelope.group
          envelope.channel envelope.nonce envelope.cipher).take 16) envelope.mac = false := by
        cases hq : constantTimeEqual ((computeMac (deriveKey (c :: cs)) envelope.group
            envelope.channel envelope.nonce envelope.cipher).take 16) envelope.mac with
        | false => rfl
        | true => exact absurd (hcheck.mp hq).symm hne
      simp [hfalse] at h
  · intro h
    unfold decodeEnvelope
    rcases h with h | h
    · simp [h]
    · have hfalse : constantTimeEqual ((computeMac (deriveKey secret) envelope.group
          envelope.channel envelope.nonce envelope.cipher).take 16) envelope.mac = false := by
        cases hq : constantTimeEqual ((computeMac (deriveKey secret) envelope.group
            envelope.channel envelope.nonce envelope.cipher).take 16) envelope.mac with
        | false => rfl
        | true => exact absurd (hcheck.mp hq).symm h
      simp [hfalse]

/-! ## The platform registry and the arguments of a restart -/

theorem qCompareFolded_iff (caseFolded : Char → Char) (a b : QString) :
    qCompareFolded caseFolded a b = true ↔ a.map caseFolded = b.map caseFolded := by
  simp [qCompareFolded]

theorem findById_isSome_iff (caseFolded : Char → Char) (registry : PlatformRegistry)
    (id : QString) :
    (registry.findById caseFolded id).isSome = true ↔
      ∃ existing ∈ registry.adapters_, qCompareFolded caseFolded existing.id id = true := by
  unfold PlatformRegistry.findById
  rw [List.find?_isSome]

theorem registerAdapter_pairwise (caseFolded : Char → Char) (registry : PlatformRegistry)
    (adapter : Option IAdapter)
    (h : registry.adapters_.Pairwise
      (fun a b => qCompareFolded caseFolded a.id b.id = false)) :
    (registry.registerAdapter caseFolded adapter).2.adapters_.Pairwise
      (fun a b => qCompareFolded caseFolded a.id b.id = false) := by
  unfold PlatformRegistry.registerAdapter
  cases adapter with
  | none => exact h
  | some a =>
    simp only
    split_ifs with hfound
    · exact h
    · simp only
      rw [List.pairwise_append]
      refine ⟨h, List.pairwise_singleton _ _, ?_⟩
      intro existing hmem other hother
      rw [List.mem_singleton] at hother
      subst hother
      cases hq : qCompareFolded caseFolded existing.id other.id with
      | false => rfl
      | true =>
        exact absurd ((findById_isSome_iff _ _ _).mpr ⟨existing, hmem, hq⟩) hfound

theorem registerAdapters_pairwise (caseFolded : Char → Char) (calls : List (Option IAdapter))
    (registry : PlatformRegistry)
    (h : registry.adapters_.Pairwise
      (fun a b => qCompareFolded caseFolded a.id b.id = false)) :
    (registerAdapters caseFolded calls registry).adapters_.Pairwise
      (fun a b => qCompareFolded caseFolded a.id b.id = false) := by
  induction calls generalizing registry with
  | nil => exact h
  | cons adapter rest ih =>
    exact ih _ (registerAdapter_pairwise caseFolded registry adapter h)

/-- C29: registry uniqueness.  Starting from an empty `PlatformRegistry`, after
any sequence of `registerAdapter` calls no two registered adapters have ids
that are equal ignoring case.  `registerAdapter` returns false and leaves the
adapter list as it is for a null adapter and for an id that is already present
ignoring case; otherwise it appends the adapter at the end and returns true,
and afterwards `findById` with that id in any letter case returns it. -/
theorem registerAdapter_unique (caseFolded : Char → Char) (calls : List (Option IAdapter))
    (registry : PlatformRegistry) (adapter : IAdapter) :
    (registerAdapters caseFolded calls {}).adapters_.Pairwise
      (fun a b => qCompareFolded caseFolded a.id b.id = false) ∧
    registry.registerAdapter caseFolded none = (false, registry) ∧
    ((∃ existing ∈ registry.adapters_,
        qCompareFolded caseFolded existing.id adapter.id = true) →
      registry.registerAdapter caseFolded (some adapter) = (false, registry)) ∧
    (¬ (∃ existing ∈ registry.adapters_,
        qCompareFolded caseFolded existing.id adapter.id = true) →
      registry.registerAdapter caseFolded (some adapter) =
        (true, { adapters_ := registry.adapters_ ++ [adapter] }) ∧
      ∀ id, qCompareFolded caseFolded adapter.id id = true →
        (registry.registerAdapter caseFolded (some adapter)).2.findById caseFolded id =
          some adapter) := by
  refine ⟨registerAdapters_pairwise caseFolded calls {} List.Pairwise.nil, rfl, ?_, ?_⟩
  · intro h
    unfold PlatformRegistry.registerAdapter
    simp only [(findById_isSome_iff _ _ _).mpr h, if_true]
  · intro h
    have hnone : (registry.findById caseFolded adapter.id).isSome = false := by
      cases hq : (registry.findById caseFolded adapter.id).isSome with
      | false => rfl
      | true => exact absurd ((findById_isSome_iff _ _ _).mp hq) h
    have hreg : registry.registerAdapter caseFolded (some adapter) =
        (true, { adapters_ := registry.adapters_ ++ [adapter] }) := by
      unfold PlatformRegistry.registerAdapter
      simp only [hnone, Bool.false_eq_true, if_false]
    refine ⟨hreg, ?_⟩
    intro id hid
    rw [hreg]
    unfold PlatformRegistry.findById
    simp only
    rw [List.find?_append]
    have hfirst : registry.adapters_.find?
        (fun a => qCompareFolded caseFolded a.id id) = none := by
      rw [List.find?_eq_none]
      intro existing hmem hq
      apply h
      refine ⟨existing, hmem, ?_⟩
      rw [qCompareFolded_iff] at hq hid ⊢
      rw [hq, hid]
    rw [hfirst]
    simp [hid]

/-- C28 fails on the code: the argument lists `a`, `+b` and `a+`, `b` are
different and `encodeArguments` gives the same string `a+++b` for both; an
empty argument at the front leaves no trace, so the empty list, the list of
one empty argument, and the lists with and without an empty first argument are
encoded alike. -/
theorem encodeArguments_collision :
    ["a".toList, "+b".toList] ≠ ["a+".toList, "b".toList] ∧
    encodeArguments ["a".toList, "+b".toList] = toUtf8 "a+++b".toList ∧
    encodeArguments ["a+".toList, "b".toList] = toUtf8 "a+++b".toList ∧
    encodeArguments [] = encodeArguments ["".toList] ∧
    encodeArguments ["".toList, "--safe-mode".toList] = encodeArguments ["--safe-mode".toList] := by
  decide

/-! ## The cross-channel emote cache -/

theorem mergeChannel_signature (allow block : List QString) (allowlistOnly : Bool)
    (cache : CrossChannelEmoteCache) (channel : Option CrossChannelSource) :
    (mergeChannel allow block allowlistOnly cache channel).signature = cache.signature ∧
    (mergeChannel allow block allowlistOnly cache channel).builtAtMs = cache.builtAtMs := by
  unfold mergeChannel
  cases channel with
  | none => exact ⟨rfl, rfl⟩
  | some tc =>
    simp only
    split_ifs
    · exact ⟨rfl, rfl⟩
    · cases tc.bttvEmotes <;> cases tc.ffzEmotes <;> cases tc.seventvEmotes <;> exact ⟨rfl, rfl⟩

theorem foldl_mergeChannel_signature (allow block : List QString) (allowlistOnly : Bool)
    (channels : List (Option CrossChannelSource)) (cache : CrossChannelEmoteCache) :
    (channels.foldl (mergeChannel allow block allowlistOnly) cache).signature =
      cache.signature ∧
    (channels.foldl (mergeChannel allow block allowlistOnly) cache).builtAtMs =
      cache.builtAtMs := by
  induction channels generalizing cache with
  | nil => exact ⟨rfl, rfl⟩
  | cons channel rest ih =>
    rw [List.foldl_cons]
    have h := mergeChannel_signature allow block allowlistOnly cache channel
    exact ⟨(ih _).1.trans h.1, (ih _).2.trans h.2⟩

/-- C25: cross-channel cache invalidation.  `getCrossChannelEmoteCache` returns
the cache as it was exactly when the stored signature equals the current one
and fewer than 5000 ms have passed since the cache was built.  In every other
case the result holds the current signature and time, and its three maps are
rebuilt from empty maps: they do not depend on what the cache held before, and
they are empty when the feature is disabled. -/
theorem getCrossChannelEmoteCache_invalidation (env : CrossChannelEnvironment)
    (cache : CrossChannelEmoteCache) :
    (getCrossChannelEmoteCache env cache = cache ↔
      cache.signature = crossChannelEmoteCacheSignature env ∧
        env.currentMSecsSinceEpoch - cache.builtAtMs < 5000) ∧
    (¬ (cache.signature = crossChannelEmoteCacheSignature env ∧
        env.currentMSecsSinceEpoch - cache.builtAtMs < 5000) →
      (getCrossChannelEmoteCache env cache).signature = crossChannelEmoteCacheSignature env ∧
      (getCrossChannelEmoteCache env cache).builtAtMs = env.currentMSecsSinceEpoch ∧
      getCrossChannelEmoteCache env cache =
        env.channels.foldl
          (fun rebuilt channel =>
            if env.openEmoteEnableCrossChannelEmotes then
              mergeChannel (parseCrossChannelSet env.openEmoteCrossChannelEmotesAllowChannels)
                (parseCrossChannelSet env.openEmoteCrossChannelEmotesBlockChannels)
                env.openEmoteCrossChannelEmotesAllowlistMode rebuilt channel
            else rebuilt)
          { bttv := [], ffz := [], seventv := [],
            signature := crossChannelEmoteCacheSignature env,
            builtAtMs := env.currentMSecsSinceEpoch } ∧
      (env.openEmoteEnableCrossChannelEmotes = false →
        (getCrossChannelEmoteCache env cache).bttv = [] ∧
        (getCrossChannelEmoteCache env cache).ffz = [] ∧
        (getCrossChannelEmoteCache env cache).seventv = [])) := by
  have hstale : ¬ (cache.signature = crossChannelEmoteCacheSignature env ∧
      env.currentMSecsSinceEpoch - cache.builtAtMs < 5000) →
      (getCrossChannelEmoteCache env cache).signature = crossChannelEmoteCacheSignature env ∧
      (getCrossChannelEmoteCache env cache).builtAtMs = env.currentMSecsSinceEpoch := by
    intro h
    unfold getCrossChannelEmoteCache
    simp only [TTL_MS, h, if_false]
    split_ifs
    · exact ⟨rfl, rfl⟩
    · exact foldl_mergeChannel_signature _ _ _ _ _
  refine ⟨⟨?_, ?_⟩, ?_⟩
  · intro hsame
    by_contra h
    have hs := hstale h
    rw [hsame] at hs
    apply h
    refine ⟨hs.1, ?_⟩
    rw [hs.2]
    omega
  · intro h
    unfold getCrossChannelEmoteCache
    simp only [TTL_MS, h, and_self, if_true]
  · intro h
    refine ⟨(hstale h).1, (hstale h).2, ?_, ?_⟩
    · unfold getCrossChannelEmoteCache
      simp only [TTL_MS, h, if_false]
      cases henabled : env.openEmoteEnableCrossChannelEmotes with
      | true => simp
      | false =>
        simp only [Bool.not_false, if_true, Bool.false_eq_true, if_false]
        induction env.channels with
        | nil => rfl
        | cons channel rest ih => rw [List.foldl_cons]; exact ih
    · intro hoff
      unfold getCrossChannelEmoteCache
      simp only [TTL_MS, h, if_false, hoff, Bool.not_false, if_true, and_self]

/-! ## The cheermote split -/

theorem tryAppendCheermote_render (app : App) (fuel : Nat) (b : MessageBuilder)
    (state : TextState) (tc : TwitchChannel) (string captured : QString)
    (cheerEmote : CheerEmote) (hstack : app.settings.stackBits = false)
    (htc : state.twitchChannel = some tc) (hbits : state.bitsLeft ≠ 0)
    (hemote : tc.cheerEmote string = some cheerEmote)
    (hmatch : cheerEmote.regexMatch string = some captured)
    (hle : qToInt captured ≤ state.bitsLeft) :
    MessageBuilder.tryAppendCheermote app (fuel + 1) b state string =
      some (.Success,
        cheerElements app b { state with bitsLeft := state.bitsLeft - qToInt captured }
          cheerEmote captured,
        { state with bitsLeft := state.bitsLeft - qToInt captured }) := by
  unfold MessageBuilder.tryAppendCheermote
  simp only [hbits, if_false, htc, hemote, hmatch, hstack, Bool.false_eq_true, ge_iff_le, hle,
    if_true]

theorem tryAppendCheermote_recurse (app : App) (fuel : Nat) (b : MessageBuilder)
    (state : TextState) (tc : TwitchChannel) (string captured : QString)
    (cheerEmote : CheerEmote) (hstack : app.settings.stackBits = false)
    (htc : state.twitchChannel = some tc) (hbits : state.bitsLeft ≠ 0)
    (hemote : tc.cheerEmote string = some cheerEmote)
    (hmatch : cheerEmote.regexMatch string = some captured)
    (hlt : state.bitsLeft < qToInt captured) :
    MessageBuilder.tryAppendCheermote app (fuel + 1) b state string =
      MessageBuilder.tryAppendCheermote app fuel b state
        (rewrittenCheerToken string captured state.bitsLeft) := by
  conv_lhs => unfold MessageBuilder.tryAppendCheermote
  simp only [hbits, if_false, htc, hemote, hmatch, hstack, Bool.false_eq_true, ge_iff_le,
    not_le.mpr hlt, rewrittenCheerToken]

theorem parseDigits_digits (s : QString) (acc v : Nat) (h : parseDigits s acc = some v) :
    ∀ c ∈ s, 48 ≤ c.toNat ∧ c.toNat ≤ 57 := by
  induction s generalizing acc with
  | nil => intro c hc; exact absurd hc (List.not_mem_nil _)
  | cons d ds ih =>
    unfold parseDigits at h
    split_ifs at h with hd
    intro c hc
    rcases List.mem_cons.mp hc with e | e
    · rw [e]; exact hd
    · exact ih _ h c e

theorem qIsSpace_digit (c : Char) (h : 48 ≤ c.toNat ∧ c.toNat ≤ 57) : qIsSpace c = false := by
  unfold qIsSpace
  simp only [Bool.or_eq_false_iff, beq_eq_false_iff_ne, Bool.and_eq_false_iff,
    decide_eq_false_iff_not, ne_eq]
  omega

/-- The function `toInt` reads a string of decimal digits as the number it
writes, when that fits an `int`. -/
theorem qToInt_of_decimalValue (s : QString) (v : Nat) (h : decimalValue s = some v)
    (hfits : v ≤ 2147483647) : qToInt s = v := by
  unfold decimalValue at h
  split_ifs at h with hempty
  have hdigits := parseDigits_digits s 0 v h
  have htrim : trimmed s = s :=
    trimmed_of_no_space s (fun c hc => qIsSpace_digit c (hdigits c hc))
  unfold qToInt
  rw [htrim]
  cases s with
  | nil => exact absurd rfl hempty
  | cons c cs =>
    have hc := hdigits c (List.mem_cons_self _ _)
    have hminus : c ≠ '-' := by
      intro e
      rw [e] at hc
      exact absurd hc (by decide)
    have hplus : c ≠ '+' := by
      intro e
      rw [e] at hc
      exact absurd hc (by decide)
    split
    · rename_i heq
      cases heq
    · rename_i ds heq
      exact absurd (List.cons.inj heq).1 hminus
    · rename_i ds heq
      exact absurd (List.cons.inj heq).1 hplus
    · rw [h]
      show (if -2147483648 ≤ (v : Int) ∧ (v : Int) ≤ 2147483647 then (v : Int) else 0) = v
      rw [if_pos ⟨by omega, by omega⟩]

theorem tryAppendCheermote_decimal_aux (app : App) (b : MessageBuilder) (state : TextState)
    (tc : TwitchChannel) (v : Nat) (hstack : app.settings.stackBits = false)
    (htc : state.twitchChannel = some tc) (hbits : 0 < state.bitsLeft)
    (hfits : v ≤ 2147483647)
    (hrewritten : ∀ token emote numeral (w : Nat), tc.cheerEmote token = some emote →
      emote.regexMatch token = some numeral → decimalValue numeral = some w → w ≤ v →
      state.bitsLeft < w →
      ∃ emote1 numeral1,
        tc.cheerEmote (rewrittenCheerToken token numeral state.bitsLeft) = some emote1 ∧
        emote1.regexMatch (rewrittenCheerToken token numeral state.bitsLeft) = some numeral1 ∧
        decimalValue numeral1 = some (w - state.bitsLeft.toNat))
    (n : Nat) :
    ∀ (string captured : QString) (cheerEmote : CheerEmote),
      tc.cheerEmote string = some cheerEmote → cheerEmote.regexMatch string = some captured →
      decimalValue captured = some n → n ≤ v →
      ∃ (k r : Nat) (rendered : CheerEmote) (amount : QString),
        decimalValue amount = some r ∧ (r : Int) = n - k * state.bitsLeft ∧
        (r : Int) ≤ state.bitsLeft ∧
        (∀ j : Nat, j < k → state.bitsLeft < n - j * state.bitsLeft) ∧
        ∀ fuel, k < fuel →
          MessageBuilder.tryAppendCheermote app fuel b state string =
            some (.Success,
              cheerElements app b { state with bitsLeft := state.bitsLeft - r } rendered amount,
              { state with bitsLeft := state.bitsLeft - r }) := by
  induction n using Nat.strong_induction_on with
  | _ n ih =>
    intro string captured cheerEmote hemote hmatch hvalue hn
    have hint : qToInt captured = n := qToInt_of_decimalValue captured n hvalue (by omega)
    by_cases hle : (n : Int) ≤ state.bitsLeft
    · refine ⟨0, n, cheerEmote, captured, hvalue, by simp, hle, ?_, ?_⟩
      · intro j hj
        exact absurd hj (Nat.not_lt_zero j)
      · intro fuel hfuel
        obtain ⟨f, rfl⟩ : ∃ f, fuel = f + 1 := ⟨fuel - 1, by omega⟩
        have hrun := tryAppendCheermote_render app f b state tc string captured cheerEmote
          hstack htc (ne_of_gt hbits) hemote hmatch (by rw [hint]; exact hle)
        rw [hint] at hrun
        exact hrun
    · have hlt : state.bitsLeft < (n : Int) := not_le.mp hle
      obtain ⟨emote1, numeral1, hemote1, hmatch1, hvalue1⟩ :=
        hrewritten string cheerEmote captured n hemote hmatch hvalue hn hlt
      have hcast : ((n - state.bitsLeft.toNat : Nat) : Int) = n - state.bitsLeft := by omega
      obtain ⟨k, r, rendered, amount, hamount, hr, hupper, hbefore, hrun⟩ :=
        ih (n - state.bitsLeft.toNat) (by omega) _ numeral1 emote1 hemote1 hmatch1 hvalue1
          (by omega)
      rw [hcast] at hr hbefore
      refine ⟨k + 1, r, rendered, amount, hamount, ?_, hupper, ?_, ?_⟩
      · rw [hr]
        push_cast
        ring
      · intro j hj
        cases j with
        | zero => simpa using hlt
        | succ i =>
          have h := hbefore i (by omega)
          have : (n : Int) - ((i + 1 : Nat) : Int) * state.bitsLeft =
              n - state.bitsLeft - i * state.bitsLeft := by
            push_cast
            ring
          rw [this]
          exact h
      · intro fuel hfuel
        obtain ⟨f, rfl⟩ : ∃ f, fuel = f + 1 := ⟨fuel - 1, by omega⟩
        rw [tryAppendCheermote_recurse app f b state tc string captured cheerEmote hstack htc
          (ne_of_gt hbits) hemote hmatch (by rw [hint]; exact hlt)]
        exact hrun f (by omega)

/-- C26 (amended): bits accounting.  In non-stacking mode with
`bitsLeft = b > 0` and a matching cheer token whose numeral is a string of
decimal digits of value `v` that fits an `int`, every rewritten token matching
again with the digits of the rewritten amount as its numeral,
`tryAppendCheermote` succeeds once it may recurse `k` times; the amount it
renders is a string of decimal digits of value `r = v - k * b` for the least
natural number `k` with `v - k * b ≤ b`, and afterwards `bitsLeft = b - r`; so
`0 ≤ r ≤ b`, and `bitsLeft` is neither negative nor larger than before. -/
theorem tryAppendCheermote_bits_accounting (app : App) (b : MessageBuilder) (state : TextState)
    (tc : TwitchChannel) (string captured : QString) (cheerEmote : CheerEmote) (v : Nat)
    (hstack : app.settings.stackBits = false) (htc : state.twitchChannel = some tc)
    (hbits : 0 < state.bitsLeft) (hemote : tc.cheerEmote string = some cheerEmote)
    (hmatch : cheerEmote.regexMatch string = some captured)
    (hvalue : decimalValue captured = some v) (hfits : v ≤ 2147483647)
    (hrewritten : ∀ token emote numeral (w : Nat), tc.cheerEmote token = some emote →
      emote.regexMatch token = some numeral → decimalValue numeral = some w → w ≤ v →
      state.bitsLeft < w →
      ∃ emote1 numeral1,
        tc.cheerEmote (rewrittenCheerToken token numeral state.bitsLeft) = some emote1 ∧
        emote1.regexMatch (rewrittenCheerToken token numeral state.bitsLeft) = some numeral1 ∧
        decimalValue numeral1 = some (w - state.bitsLeft.toNat)) :
    ∃ (k r : Nat) (rendered : CheerEmote) (amount : QString),
      decimalValue amount = some r ∧ (r : Int) = v - k * state.bitsLeft ∧
      (r : Int) ≤ state.bitsLeft ∧
      (∀ j : Nat, j < k → state.bitsLeft < v - j * state.bitsLeft) ∧
      0 ≤ state.bitsLeft - r ∧ state.bitsLeft - r ≤ state.bitsLeft ∧
      ∀ fuel, k < fuel →
        MessageBuilder.tryAppendCheermote app fuel b state string =
          some (.Success,
            cheerElements app b { state with bitsLeft := state.bitsLeft - r } rendered amount,
            { state with bitsLeft := state.bitsLeft - r }) := by
  obtain ⟨k, r, rendered, amount, hamount, hr, hupper, hbefore, hrun⟩ :=
    tryAppendCheermote_decimal_aux app b state tc v hstack htc hbits hfits hrewritten v string
      captured cheerEmote hemote hmatch hvalue (le_refl v)
  exact ⟨k, r, rendered, amount, hamount, hr, hupper, hbefore, by omega, by omega, hrun⟩

theorem tryAppendCheermote_split_aux (app : App) (b : MessageBuilder) (state : TextState)
    (tc : TwitchChannel) (hstack : app.settings.stackBits = false)
    (htc : state.twitchChannel = some tc) (hbits : 0 < state.bitsLeft)
    (hread : ∀ token emote numeral emote1 numeral1, tc.cheerEmote token = some emote →
      emote.regexMatch token = some numeral → state.bitsLeft < qToInt numeral →
      tc.cheerEmote (rewrittenCheerToken token numeral state.bitsLeft) = some emote1 →
      emote1.regexMatch (rewrittenCheerToken token numeral state.bitsLeft) = some numeral1 →
      qToInt numeral1 = qToInt numeral - state.bitsLeft)
    (n : Nat) :
    ∀ (string captured : QString) (cheerEmote : CheerEmote),
      tc.cheerEmote string = some cheerEmote → cheerEmote.regexMatch string = some captured →
      0 ≤ qToInt captured → (qToInt captured).toNat = n →
      ∃ k : Nat, k ≤ n ∧ ∀ fuel, k < fuel →
        (MessageBuilder.tryAppendCheermote app fuel b state string =
            some (.Failure, b, state) ∨
          ∃ (rendered : CheerEmote) (amount : QString),
            0 ≤ qToInt amount ∧ qToInt amount ≤ state.bitsLeft ∧
            qToInt amount ≤ qToInt captured ∧
            MessageBuilder.tryAppendCheermote app fuel b state string =
              some (.Success,
                cheerElements app b { state with bitsLeft := state.bitsLeft - qToInt amount }
                  rendered amount,
                { state with bitsLeft := state.bitsLeft - qToInt amount })) := by
  induction n using Nat.strong_induction_on with
  | _ n ih =>
    intro string captured cheerEmote hemote hmatch hvalue hn
    by_cases hle : qToInt captured ≤ state.bitsLeft
    · refine ⟨0, Nat.zero_le _, ?_⟩
      intro fuel hfuel
      obtain ⟨f, rfl⟩ : ∃ f, fuel = f + 1 := ⟨fuel - 1, by omega⟩
      exact Or.inr ⟨cheerEmote, captured, hvalue, hle, le_refl _,
        tryAppendCheermote_render app f b state tc string captured cheerEmote hstack htc
          (ne_of_gt hbits) hemote hmatch hle⟩
    · have hlt : state.bitsLeft < qToInt captured := not_le.mp hle
      cases hnext : matchingCheerEmote tc (rewrittenCheerToken string captured state.bitsLeft) with
      | none =>
        refine ⟨1, by omega, ?_⟩
        intro fuel hfuel
        obtain ⟨f, rfl⟩ : ∃ f, fuel = f + 1 + 1 := ⟨fuel - 2, by omega⟩
        rw [tryAppendCheermote_recurse app (f + 1) b state tc string captured cheerEmote hstack
          htc (ne_of_gt hbits) hemote hmatch hlt]
        exact Or.inl (tryAppendCheermote_stack_none app f b state tc _ htc (ne_of_gt hbits)
          hnext)
      | some emote1 =>
        unfold matchingCheerEmote at hnext
        cases hemote1 : tc.cheerEmote (rewrittenCheerToken string captured state.bitsLeft) with
        | none => simp [hemote1] at hnext
        | some found =>
          cases hmatch1 : found.regexMatch
              (rewrittenCheerToken string captured state.bitsLeft) with
          | none => simp [hemote1, hmatch1] at hnext
          | some numeral1 =>
            have hvalue1 := hread string cheerEmote captured found numeral1 hemote hmatch hlt
              hemote1 hmatch1
            have hsmaller : (qToInt numeral1).toNat < n := by
              rw [hvalue1, ← hn]
              omega
            obtain ⟨k, hk, hrun⟩ := ih _ hsmaller _ numeral1 found hemote1 hmatch1
              (by rw [hvalue1]; omega) rfl
            refine ⟨k + 1, by omega, ?_⟩
            intro fuel hfuel
            obtain ⟨f, rfl⟩ : ∃ f, fuel = f + 1 := ⟨fuel - 1, by omega⟩
            rw [tryAppendCheermote_recurse app f b state tc string captured cheerEmote hstack
              htc (ne_of_gt hbits) hemote hmatch hlt]
            rcases hrun f (by omega) with h | ⟨rendered, amount, h0, h1, h2, h3⟩
            · exact Or.inl h
            · exact Or.inr ⟨rendered, amount, h0, h1, by omega, h3⟩

/-- C23 (amended): the cheermote split ends.  In non-stacking mode with
`bitsLeft > 0`, for a matching token of face value `v ≥ 0`, the cheer emote
expression reading from a rewritten token the amount written into it: the
recursive call is made on the rewritten token, whose face value `v - bitsLeft`
is positive and strictly smaller than `v`; and with room for at most `v` nested
calls `tryAppendCheermote` has a result, which is `Success` with an amount
between 0 and `bitsLeft` rendered, or `Failure` with nothing appended when a
rewritten token matches no cheer emote. -/
theorem tryAppendCheermote_split_terminates (app : App) (b : MessageBuilder)
    (state : TextState) (tc : TwitchChannel) (string captured : QString)
    (cheerEmote : CheerEmote) (hstack : app.settings.stackBits = false)
    (htc : state.twitchChannel = some tc) (hbits : 0 < state.bitsLeft)
    (hemote : tc.cheerEmote string = some cheerEmote)
    (hmatch : cheerEmote.regexMatch string = some captured) (hvalue : 0 ≤ qToInt captured)
    (hread : ∀ token emote numeral emote1 numeral1, tc.cheerEmote token = some emote →
      emote.regexMatch token = some numeral → state.bitsLeft < qToInt numeral →
      tc.cheerEmote (rewrittenCheerToken token numeral state.bitsLeft) = some emote1 →
      emote1.regexMatch (rewrittenCheerToken token numeral state.bitsLeft) = some numeral1 →
      qToInt numeral1 = qToInt numeral - state.bitsLeft) :
    (state.bitsLeft < qToInt captured →
      (∀ fuel, MessageBuilder.tryAppendCheermote app (fuel + 1) b state string =
        MessageBuilder.tryAppendCheermote app fuel b state
          (rewrittenCheerToken string captured state.bitsLeft)) ∧
      ∀ emote1 numeral1,
        tc.cheerEmote (rewrittenCheerToken string captured state.bitsLeft) = some emote1 →
        emote1.regexMatch (rewrittenCheerToken string captured state.bitsLeft) =
          some numeral1 →
        0 < qToInt numeral1 ∧ qToInt numeral1 < qToInt captured) ∧
    ∃ k : Nat, k ≤ (qToInt captured).toNat ∧ ∀ fuel, k < fuel →
      (MessageBuilder.tryAppendCheermote app fuel b state string =
          some (.Failure, b, state) ∨
        ∃ (rendered : CheerEmote) (amount : QString),
          0 ≤ qToInt amount ∧ qToInt amount ≤ state.bitsLeft ∧
          qToInt amount ≤ qToInt captured ∧
          MessageBuilder.tryAppendCheermote app fuel b state string =
            some (.Success,
              cheerElements app b { state with bitsLeft := state.bitsLeft - qToInt amount }
                rendered amount,
              { state with bitsLeft := state.bitsLeft - qToInt amount })) := by
  refine ⟨?_, tryAppendCheermote_split_aux app b state tc hstack htc hbits hread _ string
    captured cheerEmote hemote hmatch hvalue rfl⟩
  intro hlt
  refine ⟨fun fuel => tryAppendCheermote_recurse app fuel b state tc string captured cheerEmote
    hstack htc (ne_of_gt hbits) hemote hmatch hlt, ?_⟩
  intro emote1 numeral1 hemote1 hmatch1
  have h := hread string cheerEmote captured emote1 numeral1 hemote hmatch hlt hemote1 hmatch1
  omega

theorem tableCheerChannel_tokens (token : QString) (emote : CheerEmote)
    (h : tableCheerChannel.cheerEmote token = some emote) :
    token = "Cheer1000".toList ∨ token = "Cheer700".toList ∨ token = "Cheer400".toList ∨
      token = "Cheer100".toList := by
  by_contra hnot
  have : tableCheerChannel.cheerEmote token = none := by
    show (if token = "Cheer1000".toList ∨ token = "Cheer700".toList ∨
        token = "Cheer400".toList ∨ token = "Cheer100".toList then some sampleCheerEmote
      else none) = none
    rw [if_neg hnot]
  rw [this] at h
  cases h

theorem tableCheerChannel_emote (token : QString) (emote : CheerEmote)
    (h : tableCheerChannel.cheerEmote token = some emote) : emote = sampleCheerEmote := by
  have hshow : (if token = "Cheer1000".toList ∨ token = "Cheer700".toList ∨
      token = "Cheer400".toList ∨ token = "Cheer100".toList then some sampleCheerEmote
    else none) = some emote := h
  split_ifs at hshow
  exact (Option.some.inj hshow).symm

theorem tableCheerChannel_rewritten (token : QString) (emote : CheerEmote) (numeral : QString)
    (h1 : tableCheerChannel.cheerEmote token = some emote)
    (h2 : emote.regexMatch token = some numeral) (h3 : 300 < qToInt numeral) :
    tableCheerChannel.cheerEmote (rewrittenCheerToken token numeral 300) =
      some sampleCheerEmote ∧
    ∃ numeral1, sampleCheerEmote.regexMatch (rewrittenCheerToken token numeral 300) =
        some numeral1 ∧ qToInt numeral1 = qToInt numeral - 300 := by
  have hemote := tableCheerChannel_emote token emote h1
  subst hemote
  rcases tableCheerChannel_tokens token _ h1 with h | h | h | h <;> subst h
  · have hn : numeral = "1000".toList := (Option.some.inj h2).symm
    subst hn
    exact ⟨rfl, "700".toList, rfl, by decide⟩
  · have hn : numeral = "700".toList := (Option.some.inj h2).symm
    subst hn
    exact ⟨rfl, "400".toList, rfl, by decide⟩
  · have hn : numeral = "400".toList := (Option.some.inj h2).symm
    subst hn
    exact ⟨rfl, "100".toList, rfl, by decide⟩
  · have hn : numeral = "100".toList := (Option.some.inj h2).symm
    subst hn
    exact absurd h3 (by decide)

theorem tableCheerChannel_decimal (token : QString) (emote : CheerEmote) (numeral : QString)
    (w : Nat) (h1 : tableCheerChannel.cheerEmote token = some emote)
    (h2 : emote.regexMatch token = some numeral) (h3 : decimalValue numeral = some w)
    (h4 : (300 : Int) < w) :
    tableCheerChannel.cheerEmote (rewrittenCheerToken token numeral 300) =
      some sampleCheerEmote ∧
    ∃ numeral1, sampleCheerEmote.regexMatch (rewrittenCheerToken token numeral 300) =
        some numeral1 ∧ decimalValue numeral1 = some (w - (300 : Int).toNat) := by
  have hemote := tableCheerChannel_emote token emote h1
  subst hemote
  rcases tableCheerChannel_tokens token _ h1 with h | h | h | h <;> subst h
  · have hn : numeral = "1000".toList := (Option.some.inj h2).symm
    subst hn
    have hw : w = 1000 := (Option.some.inj h3).symm
    subst hw
    exact ⟨rfl, "700".toList, rfl, by decide⟩
  · have hn : numeral = "700".toList := (Option.some.inj h2).symm
    subst hn
    have hw : w = 700 := (Option.some.inj h3).symm
    subst hw
    exact ⟨rfl, "400".toList, rfl, by decide⟩
  · have hn : numeral = "400".toList := (Option.some.inj h2).symm
    subst hn
    have hw : w = 400 := (Option.some.inj h3).symm
    subst hw
    exact ⟨rfl, "100".toList, rfl, by decide⟩
  · have hn : numeral = "100".toList := (Option.some.inj h2).symm
    subst hn
    have hw : w = 100 := (Option.some.inj h3).symm
    subst hw
    exact absurd h4 (by decide)
/-! ## Sample runs -/

theorem appendOrEmplaceText_coalesces_witness :
    (helloBuilder.appendOrEmplaceText "chat".toList .Text).message.elements =
      [{ kind := .TextElement ["hello".toList, "chat".toList] .Text .ChatMedium,
         flags := MessageElementFlag.Text.mask }] ∧
    (helloBuilder.appendOrEmplaceText "chat".toList .Link).message.elements =
      [mkText "hello".toList MessageElementFlag.Text.mask .Text,
        mkText "chat".toList MessageElementFlag.Text.mask .Link] ∧
    (({} : MessageBuilder).appendOrEmplaceText "chat".toList .Text).message.elements =
      [mkText "chat".toList MessageElementFlag.Text.mask .Text] :=
  ⟨((appendOrEmplaceText_coalesces helloBuilder "chat".toList .Text).1
      (mkText "hello".toList MessageElementFlag.Text.mask .Text) rfl rfl rfl rfl rfl rfl
      rfl).2.1.trans (by decide),
    ((appendOrEmplaceText_coalesces helloBuilder "chat".toList .Link).2
      (fun h => by
        obtain ⟨back, hlast, _, _, _, _, _, hcolor⟩ := h
        cases hlast
        exact absurd hcolor (by decide))).2.1.trans (by decide),
    ((appendOrEmplaceText_coalesces {} "chat".toList .Text).2
      (fun h => by
        obtain ⟨back, hlast, _⟩ := h
        cases hlast)).2.1.trans (by decide)⟩

theorem shouldRenderOpenEmoteTimestamp_gap_rule_witness :
    shouldRenderOpenEmoteTimestamp gapsOnlyApp (some (timedChannel 0)) {} (some 300000) = true ∧
    shouldRenderOpenEmoteTimestamp gapsOnlyApp (some (timedChannel 0)) {} (some 299999) =
      false ∧
    shouldRenderOpenEmoteTimestamp gapsOnlyApp (some sampleChannel) {} (some 1) = true ∧
    shouldRenderOpenEmoteTimestamp gapsOnlyApp none {} (some 1) = true ∧
    isAlwaysTimestampUser listedUsersApp { loginName := "sam".toList } = true ∧
    shouldRenderOpenEmoteTimestamp listedUsersApp (some (timedChannel 0))
      { loginName := "sam".toList } (some 1) = true ∧
    shouldRenderOpenEmoteTimestamp listedUsersApp (some (timedChannel 0))
      { loginName := "BOB".toList } (some 1) = true ∧
    isAlwaysTimestampUser listedUsersApp { loginName := "tom".toList } = false ∧
    shouldRenderOpenEmoteTimestamp listedUsersApp (some (timedChannel 0))
      { loginName := "tom".toList } (some 1) = false :=
  ⟨((shouldRenderOpenEmoteTimestamp_gap_rule gapsOnlyApp (some (timedChannel 0)) {}
      (some 300000)).2.1 rfl rfl rfl rfl).mpr
      (Or.inr (Or.inr ⟨timedChannel 0, { serverReceivedTime := some 0 }, rfl, rfl,
        by decide⟩)),
    by
      cases h : shouldRenderOpenEmoteTimestamp gapsOnlyApp (some (timedChannel 0)) {}
        (some 299999) with
      | false => rfl
      | true =>
        rcases ((shouldRenderOpenEmoteTimestamp_gap_rule gapsOnlyApp (some (timedChannel 0)) {}
          (some 299999)).2.1 rfl rfl rfl rfl).mp h with h1 | ⟨ch, hch, h1⟩ |
            ⟨ch, previous, hch, hlatest, h1⟩
        · cases h1
        · cases hch
          cases h1
        · cases hch
          cases hlatest
          exact absurd h1 (by decide),
    ((shouldRenderOpenEmoteTimestamp_gap_rule gapsOnlyApp (some sampleChannel) {}
      (some 1)).2.1 rfl rfl rfl rfl).mpr (Or.inr (Or.inl ⟨sampleChannel, rfl, rfl⟩)),
    ((shouldRenderOpenEmoteTimestamp_gap_rule gapsOnlyApp none {}
      (some 1)).2.1 rfl rfl rfl rfl).mpr (Or.inl rfl),
    by decide, by decide, by decide, by decide, by decide⟩

theorem getCrossChannelEmoteCache_invalidation_witness :
    getCrossChannelEmoteCache (sampleCrossChannelEnvironment 1000)
      { bttv := [], ffz := [], seventv := [], signature := [], builtAtMs := 0 } =
      sampleCrossChannelCache ∧
    getCrossChannelEmoteCache
      { sampleCrossChannelEnvironment 5999 with channels := [] } sampleCrossChannelCache =
      sampleCrossChannelCache ∧
    (getCrossChannelEmoteCache
      { sampleCrossChannelEnvironment 6000 with channels := [] } sampleCrossChannelCache).bttv =
      [] ∧
    (getCrossChannelEmoteCache
      { sampleCrossChannelEnvironment 1001 with openEmoteEnableCrossChannelEmotes := false }
      sampleCrossChannelCache) =
      { bttv := [], ffz := [], seventv := [], signature := "0|0|| #XQC ,".toList,
        builtAtMs := 1001 } :=
  ⟨((getCrossChannelEmoteCache_invalidation (sampleCrossChannelEnvironment 1000)
      { bttv := [], ffz := [], seventv := [], signature := [], builtAtMs := 0 }).2
      (by decide)).2.2.1.trans rfl,
    (getCrossChannelEmoteCache_invalidation
      { sampleCrossChannelEnvironment 5999 with channels := [] } sampleCrossChannelCache).1.mpr
      (by decide),
    (congrArg CrossChannelEmoteCache.bttv
      ((getCrossChannelEmoteCache_invalidation
        { sampleCrossChannelEnvironment 6000 with channels := [] } sampleCrossChannelCache).2
        (by decide)).2.2.1).trans rfl,
    ((getCrossChannelEmoteCache_invalidation
      { sampleCrossChannelEnvironment 1001 with openEmoteEnableCrossChannelEmotes := false }
      sampleCrossChannelCache).2 (by decide)).2.2.1.trans rfl⟩

theorem decodeEnvelope_authenticates_witness :
    decodeEnvelope sampleEnvelope "secret".toList [] = (true, "hello".toList) ∧
    sampleEnvelope.mac = (computeMac (deriveKey "secret".toList) sampleEnvelope.group
      sampleEnvelope.channel sampleEnvelope.nonce sampleEnvelope.cipher).take 16 ∧
    decodeEnvelope sampleEnvelope "other".toList "old".toList = (false, "old".toList) ∧
    decodeEnvelope sampleEnvelope [] "old".toList = (false, "old".toList) ∧
    constantTimeEqual [1, 2, 3] [1, 2, 3] = true ∧
    constantTimeEqual [1, 2, 3] [1, 2, 4] = false :=
  ⟨by decide,
    ((decodeEnvelope_authenticates sampleEnvelope "secret".toList [] [1, 2, 3] [1, 2, 3]
      (by unfold AllBytes; decide) (by unfold AllBytes; decide)
      (by unfold AllBytes; decide)).1 (by decide)).2,
    (decodeEnvelope_authenticates sampleEnvelope "other".toList "old".toList [1, 2, 3] [1, 2, 4]
      (by unfold AllBytes; decide) (by unfold AllBytes; decide)
      (by unfold AllBytes; decide)).2.2 (Or.inr (by decide)),
    (decodeEnvelope_authenticates sampleEnvelope [] "old".toList [1, 2, 3] [1, 2, 4]
      (by unfold AllBytes; decide) (by unfold AllBytes; decide)
      (by unfold AllBytes; decide)).2.2 (Or.inl rfl),
    (decodeEnvelope_authenticates sampleEnvelope "secret".toList [] [1, 2, 3] [1, 2, 3]
      (by unfold AllBytes; decide) (by unfold AllBytes; decide)
      (by unfold AllBytes; decide)).2.1.mpr rfl,
    by decide⟩

theorem registerAdapter_unique_witness :
    registerAdapters qFoldCase
      [some (sampleAdapter "twitch" .Twitch), none, some (sampleAdapter "TWITCH" .Kick),
        some (sampleAdapter "kick" .Kick)] {} =
      { adapters_ := [sampleAdapter "twitch" .Twitch, sampleAdapter "kick" .Kick] } ∧
    PlatformRegistry.registerAdapter qFoldCase { adapters_ := [sampleAdapter "twitch" .Twitch] }
      (some (sampleAdapter "TWITCH" .Kick)) =
      (false, { adapters_ := [sampleAdapter "twitch" .Twitch] }) ∧
    PlatformRegistry.registerAdapter qFoldCase { adapters_ := [sampleAdapter "twitch" .Twitch] }
      (some (sampleAdapter "kick" .Kick)) =
      (true, { adapters_ := [sampleAdapter "twitch" .Twitch, sampleAdapter "kick" .Kick] }) ∧
    (PlatformRegistry.registerAdapter qFoldCase
      { adapters_ := [sampleAdapter "twitch" .Twitch] }
      (some (sampleAdapter "kick" .Kick))).2.findById qFoldCase "KiCK".toList =
      some (sampleAdapter "kick" .Kick) :=
  ⟨by decide,
    (registerAdapter_unique qFoldCase [] { adapters_ := [sampleAdapter "twitch" .Twitch] }
      (sampleAdapter "TWITCH" .Kick)).2.2.1 (by decide),
    ((registerAdapter_unique qFoldCase [] { adapters_ := [sampleAdapter "twitch" .Twitch] }
      (sampleAdapter "kick" .Kick)).2.2.2 (by decide)).1,
    ((registerAdapter_unique qFoldCase [] { adapters_ := [sampleAdapter "twitch" .Twitch] }
      (sampleAdapter "kick" .Kick)).2.2.2 (by decide)).2 "KiCK".toList (by decide)⟩

/-- C23 (as stated) fails.  With the tag `bits=-1` the call for `Cheer5`
recurses on `Cheer6`, a token with a larger face value, and has no result
within 200 nested calls; and in a channel whose cheer emote starts at 100 bits,
with `bits=30`, the call for `Cheer100` recurses on `Cheer70`, which matches no
cheer emote, and returns `Failure` without rendering anything. -/
theorem tryAppendCheermote_split_fails :
    sampleApp.settings.stackBits = false ∧
    rewrittenCheerToken "Cheer5".toList "5".toList (-1) = "Cheer6".toList ∧
    (∀ fuel, MessageBuilder.tryAppendCheermote sampleApp (fuel + 1) {}
        (bitsState cheerChannel (-1)) "Cheer5".toList =
      MessageBuilder.tryAppendCheermote sampleApp fuel {} (bitsState cheerChannel (-1))
        "Cheer6".toList) ∧
    (MessageBuilder.tryAppendCheermote sampleApp 200 {} (bitsState cheerChannel (-1))
      "Cheer5".toList).isNone = true ∧
    rewrittenCheerToken "Cheer100".toList "100".toList 30 = "Cheer70".toList ∧
    (∀ fuel, MessageBuilder.tryAppendCheermote sampleApp (fuel + 2) {}
        (bitsState tierCheerChannel 30) "Cheer100".toList =
      some (.Failure, {}, bitsState tierCheerChannel 30)) := by
  refine ⟨rfl, by decide, ?_, by decide, by decide, ?_⟩
  · intro fuel
    exact tryAppendCheermote_recurse sampleApp fuel {} (bitsState cheerChannel (-1)) cheerChannel
      "Cheer5".toList "5".toList sampleCheerEmote rfl rfl (by decide) rfl rfl (by decide)
  · intro fuel
    rw [tryAppendCheermote_recurse sampleApp (fuel + 1) {} (bitsState tierCheerChannel 30)
      tierCheerChannel "Cheer100".toList "100".toList sampleCheerEmote rfl rfl (by decide) rfl rfl
      (by decide)]
    exact tryAppendCheermote_stack_none sampleApp fuel {} (bitsState tierCheerChannel 30)
      tierCheerChannel _ rfl (by decide) rfl

theorem tryAppendCheermote_split_terminates_witness :
    ∃ k : Nat, k ≤ 1000 ∧
      ∀ fuel, k < fuel →
        (MessageBuilder.tryAppendCheermote sampleApp fuel {} (bitsState tableCheerChannel 300)
            "Cheer1000".toList = some (.Failure, {}, bitsState tableCheerChannel 300) ∨
          ∃ (rendered : CheerEmote) (amount : QString),
            0 ≤ qToInt amount ∧ qToInt amount ≤ 300 ∧ qToInt amount ≤ 1000 ∧
            MessageBuilder.tryAppendCheermote sampleApp fuel {}
                (bitsState tableCheerChannel 300) "Cheer1000".toList =
              some (.Success,
                cheerElements sampleApp {}
                  { bitsState tableCheerChannel 300 with bitsLeft := 300 - qToInt amount }
                  rendered amount,
                { bitsState tableCheerChannel 300 with bitsLeft := 300 - qToInt amount })) :=
  (tryAppendCheermote_split_terminates sampleApp {} (bitsState tableCheerChannel 300)
    tableCheerChannel "Cheer1000".toList "1000".toList sampleCheerEmote rfl rfl (by decide) rfl
    rfl (by decide)
    (fun token emote numeral emote1 numeral1 h1 h2 h3 h4 h5 => by
      obtain ⟨hfound, numeral2, hread, hvalue⟩ :=
        tableCheerChannel_rewritten token emote numeral h1 h2 h3
      have hemote : emote1 = sampleCheerEmote :=
        Option.some.inj (h4.symm.trans hfound)
      subst hemote
      have hnumeral : numeral1 = numeral2 := Option.some.inj (h5.symm.trans hread)
      subst hnumeral
      exact hvalue)).2

/-- C26 (as stated) fails.  With the tag `bits=5`, the token
`Cheer99999999999` matches; its numeral does not fit an `int`, so `toInt` reads
it as 0; the call succeeds at once, renders the amount `99999999999`, which is
larger than `bitsLeft`, and leaves `bitsLeft` at 5. -/
theorem tryAppendCheermote_amount_above_bits :
    sampleApp.settings.stackBits = false ∧
    sampleCheerEmote.regexMatch "Cheer99999999999".toList = some "99999999999".toList ∧
    decimalValue "99999999999".toList = some 99999999999 ∧
    qToInt "99999999999".toList = 0 ∧
    ∀ fuel, (MessageBuilder.tryAppendCheermote sampleApp (fuel + 1) {} (bitsState cheerChannel 5)
        "Cheer99999999999".toList).map
          (fun r => (r.1, r.2.1.message.elements, r.2.2.bitsLeft)) =
      some (.Success,
        [mkEmote (some (sampleEmote "Cheer")) MessageElementFlag.BitsStatic.mask,
          mkEmote (some (sampleEmote "CheerAnimated")) MessageElementFlag.BitsAnimated.mask,
          mkText "99999999999".toList MessageElementFlag.BitsAmount.mask
            (.Custom ⟨true, 0x9C3EE8⟩)],
        5) := by
  refine ⟨rfl, by decide, by decide, by decide, ?_⟩
  intro fuel
  rw [tryAppendCheermote_render sampleApp fuel {} (bitsState cheerChannel 5) cheerChannel
    "Cheer99999999999".toList "99999999999".toList sampleCheerEmote rfl rfl (by decide) rfl
    (by decide) (by decide)]
  decide

theorem tryAppendCheermote_bits_accounting_witness :
    (∃ (k r : Nat) (rendered : CheerEmote) (amount : QString),
      decimalValue amount = some r ∧ (r : Int) = (1000 : Nat) - k * 300 ∧
      (r : Int) ≤ 300 ∧
      (∀ j : Nat, j < k → (300 : Int) < (1000 : Nat) - j * 300) ∧
      0 ≤ 300 - (r : Int) ∧ 300 - (r : Int) ≤ 300 ∧
      ∀ fuel, k < fuel →
        MessageBuilder.tryAppendCheermote sampleApp fuel {} (bitsState tableCheerChannel 300)
            "Cheer1000".toList =
          some (.Success,
            cheerElements sampleApp {}
              { bitsState tableCheerChannel 300 with bitsLeft := 300 - r }
              rendered amount,
            { bitsState tableCheerChannel 300 with bitsLeft := 300 - r })) ∧
    (MessageBuilder.tryAppendCheermote sampleApp 4 {} (bitsState tableCheerChannel 300)
        "Cheer1000".toList).map (fun r => (r.1, r.2.1.message.elements, r.2.2.bitsLeft)) =
      some (.Success,
        [mkEmote (some (sampleEmote "Cheer")) MessageElementFlag.BitsStatic.mask,
          mkEmote (some (sampleEmote "CheerAnimated")) MessageElementFlag.BitsAnimated.mask,
          mkText "100".toList MessageElementFlag.BitsAmount.mask (.Custom ⟨true, 0x9C3EE8⟩)],
        200) :=
  ⟨tryAppendCheermote_bits_accounting sampleApp {} (bitsState tableCheerChannel 300)
    tableCheerChannel "Cheer1000".toList "1000".toList sampleCheerEmote 1000 rfl rfl (by decide)
    rfl rfl (by decide) (by decide)
    (fun token emote numeral w h1 h2 h3 _ h4 => by
      obtain ⟨hfound, numeral2, hread, hvalue⟩ :=
        tableCheerChannel_decimal token emote numeral w h1 h2 h3 h4
      exact ⟨sampleCheerEmote, numeral2, hfound, hread, hvalue⟩),
    by decide⟩

/-! ## The layout of a line -/

theorem rtlReordering_table : rtlReorderingRows.all rtlReorderingPasses = true := by
  decide

theorem flatten_map_reverse_reverse (runs : List (List LayoutElement)) :
    ((runs.map List.reverse).flatten).reverse = runs.reverse.flatten := by
  induction runs with
  | nil => rfl
  | cons run rest ih =>
    simp only [List.map_cons, List.flatten_cons, List.reverse_append, List.reverse_reverse,
      List.reverse_cons, List.flatten_append, ih, List.flatten_nil, List.append_nil]

theorem closeRun_flatten (run : List LayoutElement) : (closeRun run).flatten = run := by
  cases run <;> simp [closeRun]

theorem closeRun_reverse (swapped : List LayoutElement) :
    ((closeRun swapped.reverse).map List.reverse).flatten = swapped := by
  cases h : swapped.reverse with
  | nil =>
    have : swapped = [] := by simpa using h
    simp [closeRun, this]
  | cons e rest =>
    have : swapped = (e :: rest).reverse := by rw [← h, List.reverse_reverse]
    simp [closeRun, this]

theorem reorderLoop_eq (rtl : Bool) (elements swapped correct : List LayoutElement) :
    reorderLoop rtl elements swapped correct =
      correct ++ ((directionRunsLoop rtl elements swapped.reverse).map List.reverse).flatten := by
  induction elements generalizing swapped correct with
  | nil =>
    unfold reorderLoop directionRunsLoop
    rw [closeRun_reverse]
  | cons e rest ih =>
    unfold reorderLoop directionRunsLoop
    have hempty : swapped.reverse.isEmpty = swapped.isEmpty := by
      cases swapped <;> simp
    rw [hempty]
    by_cases h : (isOppositeElement rtl e || (isNeutralElement e && !swapped.isEmpty)) = true
    · rw [if_pos h, if_pos h, ih]
      simp
    · rw [if_neg h, if_neg h, ih]
      simp only [List.reverse_nil, List.map_append, List.map_cons, List.flatten_append,
        List.flatten_cons, closeRun_reverse, List.reverse_cons, List.nil_append,
        List.append_assoc, List.singleton_append]

theorem visualOrder_rtl (body : List LayoutElement) :
    visualOrder .RTL body = (directionRuns true body).reverse.flatten := by
  unfold visualOrder directionRuns
  rw [if_pos rfl, reorderLoop_eq, List.nil_append, List.reverse_nil,
    flatten_map_reverse_reverse]

theorem directionRunsLoop_flatten (rtl : Bool) (elements run : List LayoutElement) :
    (directionRunsLoop rtl elements run).flatten = run ++ elements := by
  induction elements generalizing run with
  | nil =>
    unfold directionRunsLoop
    rw [closeRun_flatten, List.append_nil]
  | cons e rest ih =>
    unfold directionRunsLoop
    by_cases h : (isOppositeElement rtl e || (isNeutralElement e && !run.isEmpty)) = true
    · rw [if_pos h, ih]
      simp
    · rw [if_neg h, List.flatten_append, closeRun_flatten, List.flatten_cons, ih]
      simp

theorem isOpenRun_append (rtl : Bool) (run : List LayoutElement) (e : LayoutElement)
    (hrun : IsOpenRun rtl run)
    (h : (isOppositeElement rtl e || (isNeutralElement e && !run.isEmpty)) = true) :
    IsOpenRun rtl (run ++ [e]) := by
  rcases hrun with hnil | ⟨first, rest, hrun, hfirst, hrest⟩
  · subst hnil
    simp only [List.isEmpty_nil, Bool.not_true, Bool.and_false, Bool.or_false] at h
    exact Or.inr ⟨e, [], rfl, h, fun x hx => by simp at hx⟩
  · subst hrun
    refine Or.inr ⟨first, rest ++ [e], rfl, hfirst, ?_⟩
    intro x hx
    rcases List.mem_append.mp hx with hx | hx
    · exact hrest x hx
    · rw [List.mem_singleton] at hx
      subst hx
      simp only [List.isEmpty_cons, Bool.not_false, Bool.and_true, Bool.or_eq_true] at h
      exact h

theorem isDirectionRun_of_open (rtl : Bool) (run : List LayoutElement)
    (hrun : IsOpenRun rtl run) (hne : run ≠ []) : IsDirectionRun rtl run := by
  rcases hrun with hnil | ⟨first, rest, hrun, hfirst, hrest⟩
  · exact absurd hnil hne
  · exact ⟨first, rest, hrun, fun _ => hfirst, hrest⟩

theorem closeRun_runs (rtl : Bool) (run : List LayoutElement) (hrun : IsOpenRun rtl run) :
    ∀ block ∈ closeRun run, IsDirectionRun rtl block := by
  intro block hblock
  cases run with
  | nil => simp [closeRun] at hblock
  | cons r more =>
    simp only [closeRun, List.mem_singleton] at hblock
    subst hblock
    exact isDirectionRun_of_open rtl _ hrun (by simp)

theorem directionRunsLoop_runs (rtl : Bool) (elements run : List LayoutElement)
    (hrun : IsOpenRun rtl run) :
    ∀ block ∈ directionRunsLoop rtl elements run, IsDirectionRun rtl block := by
  induction elements generalizing run with
  | nil =>
    unfold directionRunsLoop
    exact closeRun_runs rtl run hrun
  | cons e rest ih =>
    unfold directionRunsLoop
    by_cases h : (isOppositeElement rtl e || (isNeutralElement e && !run.isEmpty)) = true
    · rw [if_pos h]
      exact ih _ (isOpenRun_append rtl run e hrun h)
    · rw [if_neg h]
      intro block hblock
      rw [List.mem_append] at hblock
      rcases hblock with hblock | hblock
      · exact closeRun_runs rtl run hrun block hblock
      · rcases List.mem_cons.mp hblock with hblock | hblock
        · subst hblock
          exact ⟨e, [], rfl, fun hne => absurd rfl hne, fun x hx => by simp at hx⟩
        · exact ih [] (Or.inl rfl) block hblock

theorem placeElements_map_fst (spaceWidth x : Nat) (elements : List LayoutElement) :
    (placeElements spaceWidth x elements).map (fun p => p.1) = elements := by
  induction elements generalizing x with
  | nil => rfl
  | cons e rest ih => simp [placeElements, ih]

theorem placeElements_le (spaceWidth x : Nat) (elements : List LayoutElement) :
    ∀ p ∈ placeElements spaceWidth x elements, x ≤ p.2 := by
  induction elements generalizing x with
  | nil => intro p hp; simp [placeElements] at hp
  | cons e rest ih =>
    intro p hp
    simp only [placeElements, List.mem_cons] at hp
    rcases hp with hp | hp
    · rw [hp]
    · have := ih _ p hp
      omega

theorem placeElements_increasing (spaceWidth x : Nat) (elements : List LayoutElement)
    (hwidth : ∀ e ∈ elements, 0 < e.width) :
    ((placeElements spaceWidth x elements).map (fun p => p.2)).Pairwise (fun a b => a < b) := by
  induction elements generalizing x with
  | nil => simp [placeElements]
  | cons e rest ih =>
    simp only [placeElements, List.map_cons, List.pairwise_cons]
    refine ⟨?_, ih _ (fun f hf => hwidth f (List.mem_cons_of_mem _ hf))⟩
    intro b hb
    rw [List.mem_map] at hb
    obtain ⟨p, hp, rfl⟩ := hb
    have h1 := placeElements_le spaceWidth _ rest p hp
    have h2 := hwidth e (List.mem_cons_self _ _)
    omega

theorem closeRun_chain (R : List LayoutElement → List LayoutElement → Prop)
    (run : List LayoutElement) : (closeRun run).Chain' R := by
  cases run <;> simp [closeRun]

theorem directionRunsLoop_maximal (rtl : Bool) (elements run : List LayoutElement)
    (hrun : IsOpenRun rtl run) :
    (directionRunsLoop rtl elements run).Chain'
      (fun block next => ∀ e, block.head? = some e → isOppositeElement rtl e = true →
        ∀ f, next.head? = some f →
          isOppositeElement rtl f = false ∧ isNeutralElement f = false) := by
  induction elements generalizing run with
  | nil =>
    unfold directionRunsLoop
    exact closeRun_chain _ run
  | cons e rest ih =>
    unfold directionRunsLoop
    by_cases h : (isOppositeElement rtl e || (isNeutralElement e && !run.isEmpty)) = true
    · rw [if_pos h]
      exact ih _ (isOpenRun_append rtl run e hrun h)
    · rw [if_neg h]
      have hopp : isOppositeElement rtl e = false := by
        cases ho : isOppositeElement rtl e with
        | false => rfl
        | true => exact absurd (by simp [ho]) h
      rw [List.chain'_append]
      refine ⟨closeRun_chain _ run, ?_, ?_⟩
      · rw [List.chain'_cons']
        refine ⟨?_, ih [] (Or.inl rfl)⟩
        intro next _ first hfirst hfirstOpp
        simp only [List.head?_cons, Option.some.injEq] at hfirst
        subst hfirst
        rw [hopp] at hfirstOpp
        cases hfirstOpp
      · intro block hblock next hnext first _ _ f hf
        simp only [List.head?_cons, Option.mem_def, Option.some.injEq] at hnext
        subst hnext
        simp only [List.head?_cons, Option.some.injEq] at hf
        subst hf
        cases run with
        | nil => simp [closeRun] at hblock
        | cons r more =>
          refine ⟨hopp, ?_⟩
          cases hn : isNeutralElement e with
          | false => rfl
          | true => exact absurd (by simp [hn]) h

/-- C21 (amended): the layout of a right-to-left line.  When the first text
element that is not direction-neutral is a right-to-left word (an Arabic-range
word), the resolved direction is `RTL`; the leading anchor elements stay where
they are, so a leading user name is the first, left-most element; the elements
after the anchor are split into runs, a left-to-right word together with the
left-to-right words and neutral elements that follow it being one run and
every other element a run of its own, and the runs are placed in reversed
order, each run in its own order; and, every element having a positive width,
the x positions grow strictly from element to element. -/
theorem layoutLine_rtl (spaceWidth : Nat) (elements : List LayoutElement)
    (first : LayoutElement)
    (hfirst : elements.find?
      (fun e => hasElementFlag e.flags .Text && e.direction != .Neutral) = some first)
    (hrtl : first.direction = .RTL) (hwidth : ∀ e ∈ elements, 0 < e.width) :
    (layoutLine spaceWidth elements).1 = .RTL ∧
    (layoutLine spaceWidth elements).2.map (fun p => p.1) =
      elements.takeWhile isAnchorElement ++
        (directionRuns true (elements.dropWhile isAnchorElement)).reverse.flatten ∧
    (directionRuns true (elements.dropWhile isAnchorElement)).flatten =
      elements.dropWhile isAnchorElement ∧
    (∀ run ∈ directionRuns true (elements.dropWhile isAnchorElement),
      ∃ e rest, run = e :: rest ∧ (rest ≠ [] → isOppositeElement true e = true) ∧
        ∀ x ∈ rest, isOppositeElement true x = true ∨ isNeutralElement x = true) ∧
    (directionRuns true (elements.dropWhile isAnchorElement)).Chain'
      (fun run next => ∀ e, run.head? = some e → isOppositeElement true e = true →
        ∀ f, next.head? = some f →
          isOppositeElement true f = false ∧ isNeutralElement f = false) ∧
    ((layoutLine spaceWidth elements).2.map (fun p => p.2)).Pairwise (fun a b => a < b) ∧
    (∀ anchor rest, elements = anchor :: rest → isAnchorElement anchor = true →
      (layoutLine spaceWidth elements).2.head? = some (anchor, 0)) := by
  have hdir : resolveTextDirection elements = .RTL := by
    unfold resolveTextDirection
    rw [hfirst]
    exact hrtl
  have hperm : ∀ e ∈ elements.takeWhile isAnchorElement ++
      visualOrder .RTL (elements.dropWhile isAnchorElement), 0 < e.width := by
    intro e he
    apply hwidth
    rw [List.mem_append] at he
    rcases he with he | he
    · exact List.takeWhile_subset _ he
    · rw [visualOrder_rtl] at he
      have hmem : e ∈ (directionRuns true (elements.dropWhile isAnchorElement)).flatten := by
        rw [List.mem_flatten] at he ⊢
        obtain ⟨run, hrun, herun⟩ := he
        exact ⟨run, List.mem_reverse.mp hrun, herun⟩
      unfold directionRuns at hmem
      rw [directionRunsLoop_flatten, List.nil_append] at hmem
      exact List.dropWhile_subset _ hmem
  refine ⟨hdir, ?_, ?_, ?_, ?_, ?_, ?_⟩
  · unfold layoutLine
    rw [placeElements_map_fst, hdir, visualOrder_rtl]
  · unfold directionRuns
    rw [directionRunsLoop_flatten, List.nil_append]
  · exact directionRunsLoop_runs true _ [] (Or.inl rfl)
  · exact directionRunsLoop_maximal true _ [] (Or.inl rfl)
  · unfold layoutLine
    rw [hdir]
    exact placeElements_increasing spaceWidth 0 _ hperm
  · intro anchor rest hel hanchor
    unfold layoutLine
    subst hel
    rw [List.takeWhile_cons, if_pos hanchor]
    rfl

theorem layoutLine_rtl_witness :
    (layoutLine 4 (makeElements
      "@aliens ور !emote1 !emote2 LTR text !emote3 !emote4 غير".toList)).1 = .RTL ∧
    layoutText (layoutLine 4 (makeElements
      "@aliens ور !emote1 !emote2 LTR text !emote3 !emote4 غير".toList)).2 =
      "@aliens غير LTR text !emote3 !emote4 !emote2 !emote1 ور".toList ∧
    (directionRuns true ((makeElements
      "@aliens ور !emote1 !emote2 LTR text !emote3 !emote4 غير".toList).dropWhile
        isAnchorElement)).map (fun run => run.map (fun e => e.text)) =
      [["ور".toList], ["!emote1".toList], ["!emote2".toList],
        ["LTR".toList, "text".toList, "!emote3".toList, "!emote4".toList], ["غير".toList]] ∧
    ((layoutLine 4 (makeElements
      "@aliens ور !emote1 !emote2 LTR text !emote3 !emote4 غير".toList)).2.map
        (fun p => p.2)).Pairwise (fun a b => a < b) ∧
    (layoutLine 4 (makeElements
      "@aliens ور !emote1 !emote2 LTR text !emote3 !emote4 غير".toList)).2.head? =
      some ({ text := "@aliens".toList, flags := MessageElementFlag.Username.mask,
              direction := .LTR, width := 49 }, 0) :=
  ⟨(layoutLine_rtl 4 (makeElements
      "@aliens ور !emote1 !emote2 LTR text !emote3 !emote4 غير".toList)
      { text := "ور".toList, flags := MessageElementFlag.Text.mask, direction := .RTL,
        width := 14 } (by decide) rfl (by decide)).1,
    by decide, by decide,
    (layoutLine_rtl 4 (makeElements
      "@aliens ور !emote1 !emote2 LTR text !emote3 !emote4 غير".toList)
      { text := "ور".toList, flags := MessageElementFlag.Text.mask, direction := .RTL,
        width := 14 } (by decide) rfl (by decide)).2.2.2.2.2.1,
    (layoutLine_rtl 4 (makeElements
      "@aliens ور !emote1 !emote2 LTR text !emote3 !emote4 غير".toList)
      { text := "ور".toList, flags := MessageElementFlag.Text.mask, direction := .RTL,
        width := 14 } (by decide) rfl (by decide)).2.2.2.2.2.2 _ _ rfl (by decide)⟩

/-- C21 (as stated) fails on a row of the test table: the body
`LTR و غير دا ميناء غير` has six words, five of them Arabic-range words, and
the direction of the message is `LTR`, not `RTL`; the elements after the
anchor are not in reversed order either: the Latin word stays in front. -/
theorem layoutLine_mostly_arabic :
    ("@aliens LTR و غير دا ميناء غير", "@aliens LTR غير ميناء دا غير و", TextDirection.LTR) ∈
      rtlReorderingRows ∧
    (qSplit ' ' "LTR و غير دا ميناء غير".toList).length = 6 ∧
    ((qSplit ' ' "LTR و غير دا ميناء غير".toList).filter
      (fun word => word.all isArabicRange)).length = 5 ∧
    (layoutLine 4 (makeElements "@aliens LTR و غير دا ميناء غير".toList)).1 = .LTR ∧
    layoutText (layoutLine 4 (makeElements "@aliens LTR و غير دا ميناء غير".toList)).2 =
      "@aliens LTR غير ميناء دا غير و".toList := by
  decide


end OpenEmote
